import Mathlib

/-!
Arithmetic expression translator: lexer, recursive-descent parser, evaluator.

A shallow embedding of `include/translator.h`.

* `double` is an abstract type `F`; every floating-point operation the source
  applies (`+ - * /`, `pow`, unary minus, `== 0`, the `<cmath>` functions,
  `std::max`, `std::min`, `std::stod`, and the literals `0.0`, `1.0`, `-1.0`)
  is a field of `FloatOps F`.  Theorems stated for an arbitrary `O : FloatOps F`
  hold for IEEE binary64 in particular.  `exactOps` is the instance over `ℚ`
  used to run the pipeline on concrete inputs.
* C++ exceptions are values of `Err`; a read of `v[i]` with `i ≥ v.size()`
  (undefined behaviour in the source) is the distinguished `Err.outOfBounds`.
* `std::vector<Token>` is `List Token`, the cursor `pos` is a `Nat`.
* `std::map<std::string, double>` is its lookup function `String → Option F`.
-/

namespace Translator

/-- The `Token::Type` enumeration. -/
inductive TokenType where
  | NUMBER
  | OPERATOR
  | VARIABLE
  | FUNCTION
  | PAREN_OPEN
  | PAREN_CLOSE
  | COMMA
  | EQUAL
  | END
  deriving DecidableEq, Repr

/-- The `Token` struct: kind, matched text, numeric value. -/
structure Token (F : Type) where
  type : TokenType
  value : String
  numValue : F
  deriving DecidableEq, Repr

/-- The `Node` struct: one token and the ordered list of owned children. -/
inductive Node (F : Type) where
  | mk (token : Token F) (children : List (Node F)) : Node F

/-- The token stored in a node. -/
def Node.token {F : Type} : Node F → Token F
  | .mk t _ => t

/-- The children of a node. -/
def Node.children {F : Type} : Node F → List (Node F)
  | .mk _ cs => cs

/-- Everything the source can throw or run into.
`runtimeError` is `std::runtime_error` with its `what()` text, `stodError` is
the `std::invalid_argument` / `std::out_of_range` thrown by `std::stod`,
`outOfBounds` marks an unchecked read past the end of a vector, and
`outOfFuel` is the model running out of recursion budget (shown below never to
happen for `parse`). -/
inductive Err where
  | runtimeError (what : String)
  | stodError
  | outOfBounds
  | outOfFuel
  deriving DecidableEq, Repr

/-- The floating-point operations used by the source, as parameters. -/
structure FloatOps (F : Type) where
  /-- `std::stod`; `none` where it throws. -/
  stod : String → Option F
  /-- The literal `0.0`. -/
  zero : F
  /-- The literal `1.0`. -/
  one : F
  /-- The literal `-1.0`. -/
  negOne : F
  add : F → F → F
  sub : F → F → F
  mul : F → F → F
  div : F → F → F
  neg : F → F
  pow : F → F → F
  /-- The comparison `x == 0`. -/
  isZero : F → Bool
  sin : F → F
  cos : F → F
  tan : F → F
  asin : F → F
  acos : F → F
  atan : F → F
  atan2 : F → F → F
  exp : F → F
  log : F → F
  log10 : F → F
  max : F → F → F
  min : F → F → F
  /-- Whether the left operand of a binary operator or the first argument of a
  two-argument call is evaluated first at the site named by the operator or
  function; C++ leaves this order unspecified. -/
  leftFirst : String → Bool

/-! ## Lexer -/

/-- `isspace` in the "C" locale. -/
def isspace (c : Char) : Bool :=
  c.toNat == 32 || (9 ≤ c.toNat && c.toNat ≤ 13)

/-- `isdigit`. -/
def isdigit (c : Char) : Bool :=
  48 ≤ c.toNat && c.toNat ≤ 57

/-- `isalpha` in the "C" locale. -/
def isalpha (c : Char) : Bool :=
  (65 ≤ c.toNat && c.toNat ≤ 90) || (97 ≤ c.toNat && c.toNat ≤ 122)

/-- `isalnum` in the "C" locale. -/
def isalnum (c : Char) : Bool :=
  isalpha c || isdigit c

/-- The inner `while` of the numeral branch: extends `numStr` while the next
character is a digit, or a `.` when no `.` has been taken yet.  Returns the
numeral text and the unread rest of the input. -/
def scanNumber : List Char → Bool → List Char → List Char × List Char
  | [], _, numStr => (numStr, [])
  | c :: rest, hasDot, numStr =>
    if isdigit c || (c == '.' && !hasDot) then
      scanNumber rest (hasDot || c == '.') (numStr ++ [c])
    else (numStr, c :: rest)

/-- The inner `while` of the identifier branch: extends `varFuncStr` while the
next character is alphanumeric or `_`. -/
def scanIdent : List Char → List Char → List Char × List Char
  | [], s => (s, [])
  | c :: rest, s =>
    if isalnum c || c == '_' then scanIdent rest (s ++ [c])
    else (s, c :: rest)

/-- The reserved function names tested in `tokenize`. -/
def isFunctionName (s : String) : Bool :=
  s == "sin" || s == "cos" || s == "tan" || s == "atan" ||
  s == "asin" || s == "acos" || s == "atan2" || s == "exp" ||
  s == "log" || s == "log10" || s == "max" || s == "min"

/-- Whether the last token pushed so far is a NUMBER
(`!tokens.empty() && tokens.back().type == Token::NUMBER`). -/
def backIsNumber {F : Type} (tokens : List (Token F)) : Bool :=
  match tokens.getLast? with
  | some t => t.type == TokenType.NUMBER
  | none => false

/-- The `for` loop of `tokenize` over the unread input `rest`, with the tokens
pushed so far.  Each iteration consumes at least one character, so a budget of
one unit per character suffices (`tokenize` starts it at the input length). -/
def tokenizeLoop {F : Type} (O : FloatOps F) :
    Nat → List Char → List (Token F) → Except Err (List (Token F))
  | _, [], tokens => .ok (tokens ++ [⟨TokenType.END, "", O.zero⟩])
  | 0, _ :: _, _ => .error Err.outOfFuel
  | fuel + 1, c :: rest, tokens =>
    if isspace c then tokenizeLoop O fuel rest tokens
    else if isdigit c || (c == '.' && backIsNumber tokens) then
      match scanNumber rest (c == '.') [c] with
      | (numStr, rest') =>
        match O.stod (String.mk numStr) with
        | none => .error Err.stodError
        | some numVal =>
          tokenizeLoop O fuel rest' (tokens ++ [⟨TokenType.NUMBER, String.mk numStr, numVal⟩])
    else if isalpha c || c == '_' then
      match scanIdent rest [c] with
      | (varFuncStr, rest') =>
        if isFunctionName (String.mk varFuncStr) then
          tokenizeLoop O fuel rest' (tokens ++ [⟨TokenType.FUNCTION, String.mk varFuncStr, O.zero⟩])
        else
          tokenizeLoop O fuel rest' (tokens ++ [⟨TokenType.VARIABLE, String.mk varFuncStr, O.zero⟩])
    else if c == '+' || c == '-' || c == '*' || c == '/' || c == '^' then
      tokenizeLoop O fuel rest (tokens ++ [⟨TokenType.OPERATOR, String.singleton c, O.zero⟩])
    else if c == '(' then
      tokenizeLoop O fuel rest (tokens ++ [⟨TokenType.PAREN_OPEN, "(", O.zero⟩])
    else if c == ')' then
      tokenizeLoop O fuel rest (tokens ++ [⟨TokenType.PAREN_CLOSE, ")", O.zero⟩])
    else if c == ',' then
      tokenizeLoop O fuel rest (tokens ++ [⟨TokenType.COMMA, ",", O.zero⟩])
    else if c == '=' then
      tokenizeLoop O fuel rest (tokens ++ [⟨TokenType.EQUAL, "=", O.zero⟩])
    else
      .error (Err.runtimeError ("Invalid character: " ++ String.singleton c))

/-- `tokenize`: lexical analysis of one input line.  The input is read one
character at a time as the source reads one `char` at a time; a character
outside the 7-bit range is none of space, digit, letter or symbol and takes
the invalid-character branch. -/
def tokenize {F : Type} (O : FloatOps F) (input : String) : Except Err (List (Token F)) :=
  tokenizeLoop O input.data.length input.data []

/-! ## Parser -/

/-- The test `tokens[pos].type == OPERATOR && tokens[pos].value == s`. -/
def Token.isOp {F : Type} (t : Token F) (s : String) : Bool :=
  t.type == TokenType.OPERATOR && t.value == s

/-- The leading `while` of `parseFactor`: skips a run of `-` operator tokens,
toggling `unaryMinus` once per token.  `rest` is the token vector from the
cursor on; running off its end is a read past the vector. -/
def skipMinus {F : Type} : List (Token F) → Bool → Nat → Except Err (Bool × Nat)
  | [], _, _ => .error Err.outOfBounds
  | t :: rest, unaryMinus, pos =>
    if t.isOp "-" then skipMinus rest (!unaryMinus) (pos + 1)
    else .ok (unaryMinus, pos)

/-- The tail of `parseFactor`: wraps `node` in a synthetic one-child `-` node
when `unaryMinus` is set. -/
def wrapMinus {F : Type} (O : FloatOps F) (unaryMinus : Bool) (node : Node F) : Node F :=
  if unaryMinus then Node.mk ⟨TokenType.OPERATOR, "-", O.zero⟩ [node] else node

mutual

/-- `parseExpression`: `term (('+'|'-') term)*`. -/
def parseExpression {F : Type} (O : FloatOps F) :
    Nat → List (Token F) → Nat → Except Err (Node F × Nat)
  | 0, _, _ => .error Err.outOfFuel
  | fuel + 1, tokens, pos =>
    match parseTerm O fuel tokens pos with
    | .error e => .error e
    | .ok (left, pos) => parseExpressionLoop O fuel tokens left pos
termination_by structural fuel => fuel

/-- The `while` loop of `parseExpression`, from its test on. -/
def parseExpressionLoop {F : Type} (O : FloatOps F) :
    Nat → List (Token F) → Node F → Nat → Except Err (Node F × Nat)
  | 0, _, _, _ => .error Err.outOfFuel
  | fuel + 1, tokens, left, pos =>
    match tokens[pos]? with
    | none => .error Err.outOfBounds
    | some op =>
      if op.type == TokenType.OPERATOR && (op.value == "+" || op.value == "-") then
        match parseTerm O fuel tokens (pos + 1) with
        | .error e => .error e
        | .ok (right, pos) => parseExpressionLoop O fuel tokens (Node.mk op [left, right]) pos
      else .ok (left, pos)
termination_by structural fuel => fuel

/-- `parseTerm`: `power (('*'|'/') power)*`. -/
def parseTerm {F : Type} (O : FloatOps F) :
    Nat → List (Token F) → Nat → Except Err (Node F × Nat)
  | 0, _, _ => .error Err.outOfFuel
  | fuel + 1, tokens, pos =>
    match parsePower O fuel tokens pos with
    | .error e => .error e
    | .ok (left, pos) => parseTermLoop O fuel tokens left pos
termination_by structural fuel => fuel

/-- The `while` loop of `parseTerm`, from its test on. -/
def parseTermLoop {F : Type} (O : FloatOps F) :
    Nat → List (Token F) → Node F → Nat → Except Err (Node F × Nat)
  | 0, _, _, _ => .error Err.outOfFuel
  | fuel + 1, tokens, left, pos =>
    match tokens[pos]? with
    | none => .error Err.outOfBounds
    | some op =>
      if op.type == TokenType.OPERATOR && (op.value == "*" || op.value == "/") then
        match parsePower O fuel tokens (pos + 1) with
        | .error e => .error e
        | .ok (right, pos) => parseTermLoop O fuel tokens (Node.mk op [left, right]) pos
      else .ok (left, pos)
termination_by structural fuel => fuel

/-- `parsePower`: `factor ('^' factor)*`. -/
def parsePower {F : Type} (O : FloatOps F) :
    Nat → List (Token F) → Nat → Except Err (Node F × Nat)
  | 0, _, _ => .error Err.outOfFuel
  | fuel + 1, tokens, pos =>
    match parseFactor O fuel tokens pos with
    | .error e => .error e
    | .ok (left, pos) => parsePowerLoop O fuel tokens left pos
termination_by structural fuel => fuel

/-- The `while` loop of `parsePower`, from its test on. -/
def parsePowerLoop {F : Type} (O : FloatOps F) :
    Nat → List (Token F) → Node F → Nat → Except Err (Node F × Nat)
  | 0, _, _, _ => .error Err.outOfFuel
  | fuel + 1, tokens, left, pos =>
    match tokens[pos]? with
    | none => .error Err.outOfBounds
    | some op =>
      if op.type == TokenType.OPERATOR && op.value == "^" then
        match parseFactor O fuel tokens (pos + 1) with
        | .error e => .error e
        | .ok (right, pos) => parsePowerLoop O fuel tokens (Node.mk op [left, right]) pos
      else .ok (left, pos)
termination_by structural fuel => fuel

/-- `parseFactor`: `'-'* (NUMBER | VARIABLE | FUNCTION '(' args ')' | '(' expression ')')`. -/
def parseFactor {F : Type} (O : FloatOps F) :
    Nat → List (Token F) → Nat → Except Err (Node F × Nat)
  | 0, _, _ => .error Err.outOfFuel
  | fuel + 1, tokens, pos =>
    match skipMinus (tokens.drop pos) false pos with
    | .error e => .error e
    | .ok (unaryMinus, pos) =>
      match tokens[pos]? with
      | none => .error Err.outOfBounds
      | some t =>
        if t.type == TokenType.NUMBER then .ok (wrapMinus O unaryMinus (Node.mk t []), pos + 1)
        else if t.type == TokenType.VARIABLE then
          .ok (wrapMinus O unaryMinus (Node.mk t []), pos + 1)
        else if t.type == TokenType.FUNCTION then
          match tokens[pos + 1]? with
          | none => .error Err.outOfBounds
          | some t1 =>
            if t1.type != TokenType.PAREN_OPEN then
              .error (Err.runtimeError
                ("Error: expected opening parenthesis after function " ++ t.value))
            else
              match tokens[pos + 2]? with
              | none => .error Err.outOfBounds
              | some t2 =>
                if t2.type != TokenType.PAREN_CLOSE then
                  match parseExpression O fuel tokens (pos + 2) with
                  | .error e => .error e
                  | .ok (arg, pos) =>
                    match parseArgsLoop O fuel tokens [arg] pos with
                    | .error e => .error e
                    | .ok (funcArgs, pos) =>
                      match tokens[pos]? with
                      | none => .error Err.outOfBounds
                      | some t3 =>
                        if t3.type != TokenType.PAREN_CLOSE then
                          .error (Err.runtimeError
                            ("Error: expected closing parenthesis after function " ++ t.value))
                        else .ok (wrapMinus O unaryMinus (Node.mk t funcArgs), pos + 1)
                else .ok (wrapMinus O unaryMinus (Node.mk t []), pos + 3)
        else if t.type == TokenType.PAREN_OPEN then
          match parseExpression O fuel tokens (pos + 1) with
          | .error e => .error e
          | .ok (node, pos) =>
            match tokens[pos]? with
            | none => .error Err.outOfBounds
            | some t1 =>
              if t1.type != TokenType.PAREN_CLOSE then
                .error (Err.runtimeError "Error: expected closing parenthesis")
              else .ok (wrapMinus O unaryMinus node, pos + 1)
        else .error (Err.runtimeError "Error: expected factor")
termination_by structural fuel => fuel

/-- The `while (tokens[pos].type == Token::COMMA)` loop of `parseFactor`,
collecting the further arguments of a call. -/
def parseArgsLoop {F : Type} (O : FloatOps F) :
    Nat → List (Token F) → List (Node F) → Nat → Except Err (List (Node F) × Nat)
  | 0, _, _, _ => .error Err.outOfFuel
  | fuel + 1, tokens, funcArgs, pos =>
    match tokens[pos]? with
    | none => .error Err.outOfBounds
    | some t =>
      if t.type == TokenType.COMMA then
        match parseExpression O fuel tokens (pos + 1) with
        | .error e => .error e
        | .ok (arg, pos) => parseArgsLoop O fuel tokens (funcArgs ++ [arg]) pos
      else .ok (funcArgs, pos)
termination_by structural fuel => fuel

end

/-- `parse`: the top-level construct is an assignment when the vector has at
least three tokens, the second is EQUAL and the first is VARIABLE; otherwise
a bare expression.  Either way the cursor must end on an END token.  The
recursion budget handed to `parseExpression` is `4 * tokens.size() + 4`,
which `parse_fuel_enough` shows is never used up. -/
def parse {F : Type} (O : FloatOps F) (tokens : List (Token F)) : Except Err (Node F) :=
  match tokens with
  | t0 :: t1 :: _ :: _ =>
    if t1.type == TokenType.EQUAL && t0.type == TokenType.VARIABLE then
      if t0.value == "pi" || t0.value == "e" then
        .error (Err.runtimeError "Error: cannot reassign constant value")
      else
        match parseExpression O (4 * tokens.length + 4) tokens 2 with
        | .error e => .error e
        | .ok (expressionNode, pos) =>
          match tokens[pos]? with
          | none => .error Err.outOfBounds
          | some t =>
            if t.type != TokenType.END then
              .error (Err.runtimeError "Error: extraneous characters at end of expression.")
            else .ok (Node.mk t1 [Node.mk t0 [], expressionNode])
    else parseBare O tokens
  | _ => parseBare O tokens
where
  /-- The `else` branch of `parse`: a bare expression from position 0. -/
  parseBare {F : Type} (O : FloatOps F) (tokens : List (Token F)) : Except Err (Node F) :=
    match parseExpression O (4 * tokens.length + 4) tokens 0 with
    | .error e => .error e
    | .ok (root, pos) =>
      match tokens[pos]? with
      | none => .error Err.outOfBounds
      | some t =>
        if t.type != TokenType.END then
          .error (Err.runtimeError "Error: extraneous characters at end of expression.")
        else .ok root

/-! ## Evaluator -/

/-- The variable environment `std::map<std::string, double>`, as its lookup
function: `env name = none` when `name` is not a key. -/
def Env (F : Type) : Type := String → Option F

/-- The empty map. -/
def Env.empty {F : Type} : Env F := fun _ => none

/-- The store `variables[name] = v`: inserts or overwrites one key. -/
def Env.set {F : Type} (env : Env F) (name : String) (v : F) : Env F :=
  fun s => if s = name then some v else env s

/-- Two operand evaluations followed by `f`, in the order chosen by
`leftFirst`; the first failure is the one thrown and the second operand is
then not evaluated. -/
def evalBinary {F : Type} (leftFirst : Bool) (f : F → F → F)
    (e0 e1 : Env F → Except Err F × Env F) (env : Env F) : Except Err F × Env F :=
  if leftFirst then
    match e0 env with
    | (.error e, env1) => (.error e, env1)
    | (.ok a, env1) =>
      match e1 env1 with
      | (.error e, env2) => (.error e, env2)
      | (.ok b, env2) => (.ok (f a b), env2)
  else
    match e1 env with
    | (.error e, env1) => (.error e, env1)
    | (.ok b, env1) =>
      match e0 env1 with
      | (.error e, env2) => (.error e, env2)
      | (.ok a, env2) => (.ok (f a b), env2)

/-- One operand evaluation followed by `f`. -/
def evalUnary {F : Type} (f : F → F) (r : Except Err F × Env F) : Except Err F × Env F :=
  match r with
  | (.error e, env1) => (.error e, env1)
  | (.ok a, env1) => (.ok (f a), env1)

/-- A one-argument function branch of `evaluate`: the arity test
`children.size() != 1`, which throws `what`, then the call on the evaluated
argument. -/
def evalCall1 {F : Type} (what : String) (f : F → F)
    (cs : List (Env F → Except Err F × Env F)) (env : Env F) : Except Err F × Env F :=
  match cs with
  | [c0] => evalUnary f (c0 env)
  | _ => (.error (Err.runtimeError what), env)

/-- A two-argument function branch of `evaluate`: the arity test
`children.size() != 2`, which throws `what`, then the call on the two
evaluated arguments. -/
def evalCall2 {F : Type} (what : String) (leftFirst : Bool) (f : F → F → F)
    (cs : List (Env F → Except Err F × Env F)) (env : Env F) : Except Err F × Env F :=
  match cs with
  | [c0, c1] => evalBinary leftFirst f c0 c1 env
  | _ => (.error (Err.runtimeError what), env)

/-- The `/` branch of `evaluate`: the divisor (second child) is evaluated
first and compared with zero; only then is the first child evaluated. -/
def evalDivide {F : Type} (O : FloatOps F) (e0 e1 : Env F → Except Err F × Env F)
    (env : Env F) : Except Err F × Env F :=
  match e1 env with
  | (.error e, env1) => (.error e, env1)
  | (.ok divisor, env1) =>
    if O.isZero divisor then (.error (Err.runtimeError "Error: division by zero"), env1)
    else evalUnary (fun n => O.div n divisor) (e0 env1)

/-- The body of `evaluate` for a node with token `t`: the dispatch on the
token kind and text.  `cs` holds, per child in order, the recursive call
`evaluate(node->children[i], variables)` waiting for the environment, and
`childTokens` the children's tokens.  In the assignment case the right-hand
side is evaluated before the store (the C++17 sequencing of `E1 = E2`), and
the value returned is the one read back from the map.  The earlier standards
leave that order unspecified: `evalAssign` states the assignment under either
order, and what depends on the order is stated with it as an assumption. -/
def evalNode {F : Type} (O : FloatOps F) (t : Token F) (childTokens : List (Token F))
    (cs : List (Env F → Except Err F × Env F)) (env : Env F) : Except Err F × Env F :=
  match t.type with
  | TokenType.NUMBER => (.ok t.numValue, env)
  | TokenType.VARIABLE =>
    if t.value == "pi" then (.ok (O.acos O.negOne), env)
    else if t.value == "e" then (.ok (O.exp O.one), env)
    else
      match env t.value with
      | some v => (.ok v, env)
      | none =>
        (.error (Err.runtimeError ("Error: variable '" ++ t.value ++ "' is not defined")), env)
  | TokenType.OPERATOR =>
    if t.value == "+" then
      match cs with
      | c0 :: c1 :: _ =>
        evalBinary (O.leftFirst "+") O.add c0 c1 env
      | _ => (.error Err.outOfBounds, env)
    else if t.value == "-" then
      match cs with
      | [c0] => evalUnary O.neg (c0 env)
      | c0 :: c1 :: _ =>
        evalBinary (O.leftFirst "-") O.sub c0 c1 env
      | [] => (.error Err.outOfBounds, env)
    else if t.value == "*" then
      match cs with
      | c0 :: c1 :: _ =>
        evalBinary (O.leftFirst "*") O.mul c0 c1 env
      | _ => (.error Err.outOfBounds, env)
    else if t.value == "/" then
      match cs with
      | c0 :: c1 :: _ => evalDivide O c0 c1 env
      | _ => (.error Err.outOfBounds, env)
    else if t.value == "^" then
      match cs with
      | c0 :: c1 :: _ =>
        evalBinary (O.leftFirst "^") O.pow c0 c1 env
      | _ => (.error Err.outOfBounds, env)
    else (.error (Err.runtimeError "Error: unknown AST node"), env)
  | TokenType.FUNCTION =>
    if t.value == "sin" then
      evalCall1 "Error: function sin expects 1 argument" O.sin cs env
    else if t.value == "cos" then
      evalCall1 "Error: function cos expects 1 argument" O.cos cs env
    else if t.value == "tan" then
      evalCall1 "Error: function tan expects 1 argument" O.tan cs env
    else if t.value == "asin" then
      evalCall1 "Error: function asin expects 1 argument" O.asin cs env
    else if t.value == "acos" then
      evalCall1 "Error: function acos expects 1 argument" O.acos cs env
    else if t.value == "atan" then
      evalCall1 "Error: function atan expects 1 argument" O.atan cs env
    else if t.value == "atan2" then
      evalCall2 "Error: function atan2 expects 2 arguments" (O.leftFirst "atan2") O.atan2 cs env
    else if t.value == "exp" then
      evalCall1 "Error: function exp expects 1 argument" O.exp cs env
    else if t.value == "log" then
      evalCall1 "Error: function log expects 1 argument" O.log cs env
    else if t.value == "log10" then
      evalCall1 "Error: function log10 expects 1 argument" O.log10 cs env
    else if t.value == "max" then
      evalCall2 "Error: function max expects 2 arguments" (O.leftFirst "max") O.max cs env
    else if t.value == "min" then
      evalCall2 "Error: function min expects 2 arguments" (O.leftFirst "min") O.min cs env
    else (.error (Err.runtimeError "Error: unknown AST node"), env)
  | TokenType.EQUAL =>
    match childTokens, cs with
    | [t0, _], [_, c1] =>
      if t0.type == TokenType.VARIABLE then
        match c1 env with
        | (.error e, env1) => (.error e, env1)
        | (.ok v, env1) => (.ok v, env1.set t0.value v)
      else (.error (Err.runtimeError "Error: invalid assignment"), env)
    | _, _ => (.error (Err.runtimeError "Error: invalid assignment"), env)
  | _ => (.error (Err.runtimeError "Error: unknown AST node"), env)

mutual

/-- `evaluate` on a non-null node: returns the thrown error or the value,
together with the environment as the call leaves it.  (The parser stores no
null child, so the `if (!node) return 0.0;` guard of the source is not
modelled.) -/
def evaluate {F : Type} (O : FloatOps F) : Node F → Env F → Except Err F × Env F
  | .mk t cs, env => evalNode O t (cs.map Node.token) (evaluateChildren O cs) env

/-- The recursive calls of `evaluate` on the children of a node, in order. -/
def evaluateChildren {F : Type} (O : FloatOps F) :
    List (Node F) → List (Env F → Except Err F × Env F)
  | [] => []
  | c :: cs => evaluate O c :: evaluateChildren O cs

end

/-- The test helper `evaluateExpression`: tokenize, parse, evaluate. -/
def evaluateExpression {F : Type} (O : FloatOps F) (expression : String) (vars : Env F) :
    Except Err F × Env F :=
  match tokenize O expression with
  | .error e => (.error e, vars)
  | .ok tokens =>
    match parse O tokens with
    | .error e => (.error e, vars)
    | .ok ast => evaluate O ast vars

/-! ## An exact instance -/

/-- The digits of a numeral read as a natural number, `none` on a non-digit. -/
def digitsValue : List Char → Nat → Option Nat
  | [], acc => some acc
  | c :: rest, acc => if isdigit c then digitsValue rest (10 * acc + (c.toNat - 48)) else none

/-- Exact decimal reading of a numeral text made of digits and at most one
`.`, with at least one digit; `none` otherwise (in particular on `"."`, where
`std::stod` throws). -/
def stodExact (s : String) : Option ℚ :=
  let intPart := s.data.takeWhile (fun c => c != '.')
  let rest := s.data.dropWhile (fun c => c != '.')
  let fracPart := rest.drop 1
  if intPart.length + fracPart.length = 0 then none
  else
    match digitsValue (intPart ++ fracPart) 0 with
    | none => none
    | some n => some ((n : ℚ) / (10 : ℚ) ^ fracPart.length)

/-- Exact rational arithmetic: `+ - * /`, negation, comparison with zero,
`max`, `min` and decimal literals are exact, and `pow` is the exact power at
integer exponents (a zero base only with a non-negative exponent).  The
`<cmath>` functions, `pow` elsewhere and the operand evaluation order are
taken from `lib`.  On values that binary64 represents exactly (such as small
integers) this agrees with the source; `evaluate` never divides by zero. -/
def exactOps (lib : FloatOps ℚ) : FloatOps ℚ :=
  { lib with
    stod := stodExact
    zero := 0
    one := 1
    negOne := -1
    add := fun a b => a + b
    sub := fun a b => a - b
    mul := fun a b => a * b
    div := fun a b => a / b
    neg := fun a => -a
    pow := fun a b => if b.den = 1 ∧ (a ≠ 0 ∨ 0 ≤ b.num) then a ^ b.num else lib.pow a b
    isZero := fun a => a == 0
    max := fun a b => if a < b then b else a
    min := fun a b => if b < a then b else a }

/-- The top-level construct of `parse` with the cursor it stops on: `parse`
without its final `tokens[pos].type != Token::END` test.  `parse_eq_parseTop`
relates the two. -/
def parseTop {F : Type} (O : FloatOps F) (tokens : List (Token F)) : Except Err (Node F × Nat) :=
  match tokens with
  | t0 :: t1 :: _ :: _ =>
    if t1.type == TokenType.EQUAL && t0.type == TokenType.VARIABLE then
      if t0.value == "pi" || t0.value == "e" then
        .error (Err.runtimeError "Error: cannot reassign constant value")
      else
        match parseExpression O (4 * tokens.length + 4) tokens 2 with
        | .error e => .error e
        | .ok (expressionNode, pos) => .ok (Node.mk t1 [Node.mk t0 [], expressionNode], pos)
    else parseExpression O (4 * tokens.length + 4) tokens 0
  | _ => parseExpression O (4 * tokens.length + 4) tokens 0

/-- A closed instance of `exactOps` for running concrete inputs: the
operations outside exact rational arithmetic (the `<cmath>` functions and
`pow` at non-integer exponents) are fixed to return 0 and operands are
evaluated left to right.  It is used only on inputs where none of these
functions decides the outcome. -/
def ratOps : FloatOps ℚ :=
  exactOps
    { stod := fun _ => none
      zero := 0
      one := 1
      negOne := -1
      add := fun _ _ => 0
      sub := fun _ _ => 0
      mul := fun _ _ => 0
      div := fun _ _ => 0
      neg := fun _ => 0
      pow := fun _ _ => 0
      isZero := fun _ => false
      sin := fun _ => 0
      cos := fun _ => 0
      tan := fun _ => 0
      asin := fun _ => 0
      acos := fun _ => 0
      atan := fun _ => 0
      atan2 := fun _ _ => 0
      exp := fun _ => 0
      log := fun _ => 0
      log10 := fun _ => 0
      max := fun _ _ => 0
      min := fun _ _ => 0
      leftFirst := fun _ => true }

/-! ## Token sequences and trees used to state the parser claims -/

/-- An operand token: a Number or a Variable token. -/
def Token.isOperand {F : Type} (t : Token F) : Bool :=
  t.type == TokenType.NUMBER || t.type == TokenType.VARIABLE

/-- The token sequence `p0 o1 p1 ... on pn e`, given as the first operand, the
list of (operator, operand) pairs and the final token. -/
def chainTokens {F : Type} (p0 : Token F) (rest : List (Token F × Token F)) (e : Token F) :
    List (Token F) :=
  p0 :: (rest.flatMap (fun x => [x.1, x.2]) ++ [e])

/-- The left fold `on(...o2(o1(acc, p1), p2)..., pn)` over (operator, operand)
pairs, each operand a leaf. -/
def leftFold {F : Type} (acc : Node F) (rest : List (Token F × Token F)) : Node F :=
  rest.foldl (fun acc x => Node.mk x.1 [acc, Node.mk x.2 []]) acc

/-- The composition `parse(tokenize(input))` used throughout the tests. -/
def parseText {F : Type} (O : FloatOps F) (input : String) : Except Err (Node F) :=
  match tokenize O input with
  | .error e => .error e
  | .ok tokens => parse O tokens

mutual

/-- Whether no node of the tree carries an Equal token, that is, whether the
tree contains no assignment node. -/
def Node.noAssign {F : Type} : Node F → Bool
  | .mk t cs => t.type != TokenType.EQUAL && noAssignList cs

/-- `Node.noAssign` for every tree of a list. -/
def noAssignList {F : Type} : List (Node F) → Bool
  | [] => true
  | c :: cs => c.noAssign && noAssignList cs

end

/-- The one-argument functions of the evaluator's dispatch, by name. -/
def unaryTable {F : Type} (O : FloatOps F) : List (String × (F → F)) :=
  [("sin", O.sin), ("cos", O.cos), ("tan", O.tan), ("asin", O.asin), ("acos", O.acos),
    ("atan", O.atan), ("exp", O.exp), ("log", O.log), ("log10", O.log10)]

/-- The two-argument functions of the evaluator's dispatch, by name. -/
def binaryTable {F : Type} (O : FloatOps F) : List (String × (F → F → F)) :=
  [("atan2", O.atan2), ("max", O.max), ("min", O.min)]

/-- A valid numeric literal in the words of the specification: decimal digits
and at most one decimal point, with at least one digit. -/
def isNumericLiteral (s : List Char) : Bool :=
  s.all (fun c => isdigit c || c == '.') && decide (s.count '.' ≤ 1) && s.any isdigit

/-- An identifier in the words of the specification: a letter or underscore
followed by any number of letters, digits and underscores. -/
def isIdentifier (s : List Char) : Bool :=
  match s with
  | [] => false
  | c :: rest => (isalpha c || c == '_') && rest.all (fun d => isalnum d || d == '_')

/-- The twelve reserved function names. -/
def functionNames : List String :=
  ["sin", "cos", "tan", "asin", "acos", "atan", "atan2", "exp", "log", "log10", "max", "min"]

/-- The nine single-character symbols of the lexer. -/
def isSymbol (c : Char) : Bool :=
  c == '+' || c == '-' || c == '*' || c == '/' || c == '^' || c == '(' || c == ')' ||
    c == ',' || c == '='

/-- The characters of which the lexer accepts every combination: whitespace,
digits, letters, the underscore and the nine symbols. -/
def isAllowedChar (c : Char) : Bool :=
  isspace c || isdigit c || isalpha c || c == '_' || isSymbol c

/-- The numerals `tokenize` hands to `std::stod` on the unread input `rest`,
in the order it scans them: the text read by each pass through the numeral
branch of the loop, for as long as no character is rejected.  `backNumber`
tells whether the last token pushed is a NUMBER, which is what lets a decimal
point start a numeral.  The budget is the one of `tokenizeLoop`. -/
def scannedNumerals : Nat → List Char → Bool → List (List Char)
  | _, [], _ => []
  | 0, _ :: _, _ => []
  | fuel + 1, c :: rest, backNumber =>
    if isspace c then scannedNumerals fuel rest backNumber
    else if isdigit c || (c == '.' && backNumber) then
      match scanNumber rest (c == '.') [c] with
      | (numStr, rest') => numStr :: scannedNumerals fuel rest' true
    else if isalpha c || c == '_' then
      match scanIdent rest [c] with
      | (_, rest') => scannedNumerals fuel rest' false
    else if c == '+' || c == '-' || c == '*' || c == '/' || c == '^' then
      scannedNumerals fuel rest false
    else if c == '(' then scannedNumerals fuel rest false
    else if c == ')' then scannedNumerals fuel rest false
    else if c == ',' then scannedNumerals fuel rest false
    else if c == '=' then scannedNumerals fuel rest false
    else []

/-- `std::stod` with its range check: it throws `std::out_of_range` when the
value read does not fit a `double`.  A decimal value of `2^1024 - 2^970` or
more rounds beyond the largest `double` (overflow), and a value other than
zero below the smallest normal `double`, `2^-1022`, is reported as underflow.
Between the two bounds the exact value stands for the `double` read.  Right
at the two bounds the cut depends on the rounding and on the library; the
theorems use values far from them. -/
def stodRange (s : String) : Option ℚ :=
  match stodExact s with
  | none => none
  | some v =>
    if v < 2 ^ 1024 - 2 ^ 970 then
      if 0 < v ∧ v < 1 / 2 ^ 1022 then none else some v
    else none

/-- The instance `exactOps` with the range-checked `std::stod`. -/
def rangeOps (lib : FloatOps ℚ) : FloatOps ℚ :=
  { exactOps lib with stod := stodRange }

/-- Whether the token at index `i` is one the parser can step over: it is
neither an Equal nor an END token, and a Function token has a ParenOpen token
right after it. -/
def consumable {F : Type} (tokens : List (Token F)) (i : Nat) : Bool :=
  match tokens[i]? with
  | none => false
  | some t =>
    t.type != TokenType.EQUAL && t.type != TokenType.END &&
      (t.type != TokenType.FUNCTION ||
        match tokens[i + 1]? with
        | none => false
        | some t1 => t1.type == TokenType.PAREN_OPEN)

/-- Every index from `a` up to, not including, `b` holds a consumable token. -/
def consumedRange {F : Type} (tokens : List (Token F)) (a b : Nat) : Prop :=
  ∀ i, a ≤ i → i < b → consumable tokens i = true

/-! ## Output formatting -/

/-- `static_cast<int>(value)` on a value within the range of `int`: the
conversion truncates toward zero. -/
def castInt (value : ℚ) : Int :=
  Int.tdiv value.num value.den

/-- `std::to_string(int)`: the decimal text, with a leading `-` when
negative. -/
def intToString (n : Int) : String :=
  if n < 0 then "-" ++ Nat.repr n.natAbs else Nat.repr n.natAbs

/-- The nearest natural number to a non-negative rational, ties going to the
even neighbour: the rounding the stream applies to the digits it drops. -/
def roundHalfEven (q : ℚ) : Nat :=
  let n := q.num.natAbs
  let d := q.den
  let k := n / d
  let r := n % d
  if 2 * r < d then k
  else if d < 2 * r then k + 1
  else if k % 2 = 0 then k else k + 1

/-- `ss << std::fixed << std::setprecision(10) << value`: the sign, the
integer part, a decimal point and exactly ten digits, the value being rounded
to the nearest multiple of `1e-10`. -/
def fixed10 (value : ℚ) : String :=
  let n := roundHalfEven (|value| * 10 ^ 10)
  let frac := Nat.repr (n % 10 ^ 10)
  (if value < 0 then "-" else "") ++ Nat.repr (n / 10 ^ 10) ++ "." ++
    String.mk (List.replicate (10 - frac.length) '0') ++ frac

/-- `formatOutput` in exact arithmetic: the integer text when the value
differs from its truncation by less than `1e-10`, the fixed ten-digit text
otherwise.  The subtraction of the truncation is exact in binary floating
point as well, and the literal `1e-10` is taken as the rational `1 / 10 ^ 10`. -/
def formatOutput (value : ℚ) : String :=
  if |value - (castInt value : ℚ)| < 1 / 10 ^ 10 then intToString (castInt value)
  else fixed10 value

/-! ## Trees the evaluator's dispatch covers -/

/-- Whether a node carrying token `t` over `k` children is one of the shapes
`parseFactor` and the three loops build: a Number or Variable node, an
Operator node carrying `-` over one child, an Operator node carrying one of
`+ - * / ^` over two children, or a Function node whose name passes `fn`. -/
def Token.fits {F : Type} (fn : String → Bool) (t : Token F) (k : Nat) : Bool :=
  match t.type with
  | TokenType.NUMBER => true
  | TokenType.VARIABLE => true
  | TokenType.OPERATOR =>
    (t.value == "-" && k == 1) ||
      ((t.value == "+" || t.value == "-" || t.value == "*" || t.value == "/" ||
        t.value == "^") && k == 2)
  | TokenType.FUNCTION => fn t.value
  | _ => false

mutual

/-- Whether every node of the tree has one of the shapes of `Token.fits`. -/
def Node.wellFormed {F : Type} (fn : String → Bool) : Node F → Bool
  | .mk t cs => t.fits fn cs.length && wellFormedList fn cs

/-- `Node.wellFormed` for every tree of a list. -/
def wellFormedList {F : Type} (fn : String → Bool) : List (Node F) → Bool
  | [] => true
  | c :: cs => c.wellFormed fn && wellFormedList fn cs

end

/-- The texts of the twelve arity errors thrown by `evaluate`. -/
def arityErrors : List String :=
  ["Error: function sin expects 1 argument", "Error: function cos expects 1 argument",
    "Error: function tan expects 1 argument", "Error: function asin expects 1 argument",
    "Error: function acos expects 1 argument", "Error: function atan expects 1 argument",
    "Error: function atan2 expects 2 arguments", "Error: function exp expects 1 argument",
    "Error: function log expects 1 argument", "Error: function log10 expects 1 argument",
    "Error: function max expects 2 arguments", "Error: function min expects 2 arguments"]

/-- The failures of `evaluate` a user can cause: an undefined variable, a
division by zero, or a call with the wrong number of arguments. -/
def Err.isEvalFailure (e : Err) : Prop :=
  (∃ name, e = Err.runtimeError ("Error: variable '" ++ name ++ "' is not defined")) ∨
    e = Err.runtimeError "Error: division by zero" ∨
    ∃ what ∈ arityErrors, e = Err.runtimeError what

/-- Whether a result of `evaluate`, when it is a failure, is one a user can
cause. -/
def failsAsUser {F : Type} (r : Except Err F × Env F) : Prop :=
  ∀ e, r.1 = .error e → e.isEvalFailure

/-! ## Reading one token vector inside another -/

/-- Whether `tokens2`, read `k` places further on, shows the parser between
`a` and `b` what `tokens1` shows it: the same token at every index from `a`
up to `b`, and at `b` itself either the same token or one that is neither an
operator nor a comma, on which every loop of the parser stops. -/
def agreeOn {F : Type} (tokens1 tokens2 : List (Token F)) (k a b : Nat) : Prop :=
  (∀ i, a ≤ i → i < b → tokens2[i + k]? = tokens1[i]?) ∧
    (tokens2[b + k]? = tokens1[b]? ∨
      ∃ t, tokens2[b + k]? = some t ∧ t.type ≠ TokenType.OPERATOR ∧
        t.type ≠ TokenType.COMMA)

/-! ## The operator nodes of a tree -/

mutual

/-- All nodes of a tree: the root and, in order, the nodes of each child. -/
def Node.nodes {F : Type} : Node F → List (Node F)
  | .mk t cs => Node.mk t cs :: nodesList cs

/-- All nodes of the trees of a list. -/
def nodesList {F : Type} : List (Node F) → List (Node F)
  | [] => []
  | c :: cs => c.nodes ++ nodesList cs

end

/-- What `evaluate` relies on at an Operator node: a node carrying `+`, `*`,
`/` or `^` has exactly two children, a node carrying `-` has one or two, and
no other symbol is carried.  Nodes of the other kinds are not constrained. -/
def Node.operatorOk {F : Type} (n : Node F) : Prop :=
  n.token.type = TokenType.OPERATOR →
    ((n.token.value = "+" ∨ n.token.value = "*" ∨ n.token.value = "/" ∨
        n.token.value = "^") ∧ n.children.length = 2) ∨
      (n.token.value = "-" ∧ (n.children.length = 1 ∨ n.children.length = 2))

/-- Whether a result of `evaluate` is not the failure that stands for a read
of `children[0]` or `children[1]` past the end of the child vector. -/
def readsInRange {F : Type} (r : Except Err F × Env F) : Prop :=
  r.1 ≠ .error Err.outOfBounds

/-! ## The order of evaluation of an assignment -/

/-- The statement `variables[name] = evaluate(rhs, variables)` of the
assignment branch of `evaluate`, under either order of evaluation of its two
sides.  With `rhsFirst` the right-hand side is evaluated first and the map is
touched only after it has returned: the order C++17 fixes, and the one
`evalNode` embeds.  Without it the slot `variables[name]` is created first,
`operator[]` inserting `name` with the value `0.0` when the map has no such
key, and the right-hand side is evaluated against the map so extended: the
other order a compiler may choose under the earlier standards, which leave
the order unspecified. -/
def evalAssign {F : Type} (O : FloatOps F) (rhsFirst : Bool) (name : String)
    (rhs : Env F → Except Err F × Env F) (env : Env F) : Except Err F × Env F :=
  if rhsFirst then
    match rhs env with
    | (.error e, env1) => (.error e, env1)
    | (.ok v, env1) => (.ok v, env1.set name v)
  else
    match rhs (match env name with
      | some _ => env
      | none => env.set name O.zero) with
    | (.error e, env1) => (.error e, env1)
    | (.ok v, env1) => (.ok v, env1.set name v)

/-- `evaluate` with the order of evaluation of an assignment at the root left
open: the root is the only place where `parse` puts an assignment node.  With
`rhsFirst = true` this is `evaluate`. -/
def evaluateOrdered {F : Type} (O : FloatOps F) (rhsFirst : Bool) :
    Node F → Env F → Except Err F × Env F
  | .mk t [.mk t0 cs0, rhs], env =>
    if t.type == TokenType.EQUAL && t0.type == TokenType.VARIABLE then
      evalAssign O rhsFirst t0.value (evaluate O rhs) env
    else evaluate O (.mk t [.mk t0 cs0, rhs]) env
  | n, env => evaluate O n env

/-- The helper `evaluateExpression` with that order left open. -/
def evaluateExpressionOrdered {F : Type} (O : FloatOps F) (rhsFirst : Bool)
    (expression : String) (vars : Env F) : Except Err F × Env F :=
  match tokenize O expression with
  | .error e => (.error e, vars)
  | .ok tokens =>
    match parse O tokens with
    | .error e => (.error e, vars)
    | .ok ast => evaluateOrdered O rhsFirst ast vars

/-! # Theorems -/

/-! ## Cursor progress -/

theorem lt_length_of_getElem? {α : Type} {l : List α} {i : Nat} {a : α}
    (h : l[i]? = some a) : i < l.length := by
  by_contra hlt
  have hnone : l[i]? = none := List.getElem?_eq_none (Nat.le_of_not_lt hlt)
  rw [hnone] at h
  cases h

theorem skipMinus_bounds {F : Type} (rest : List (Token F)) :
    ∀ (b : Bool) (pos : Nat) (b' : Bool) (pos' : Nat),
      skipMinus rest b pos = .ok (b', pos') → pos ≤ pos' ∧ pos' < pos + rest.length := by
  induction rest with
  | nil => intro b pos b' pos' h; simp [skipMinus] at h
  | cons t rest ih =>
    intro b pos b' pos' h
    simp only [skipMinus] at h
    split at h
    · have := ih _ _ _ _ h
      simp only [List.length_cons]
      omega
    · simp only [Except.ok.injEq, Prod.mk.injEq] at h
      simp only [List.length_cons]
      omega

theorem skipMinus_drop_bounds {F : Type} (tokens : List (Token F)) (b : Bool) (pos : Nat)
    (b' : Bool) (pos' : Nat) (h : skipMinus (tokens.drop pos) b pos = .ok (b', pos')) :
    pos ≤ pos' ∧ pos' < tokens.length := by
  have := skipMinus_bounds _ _ _ _ _ h
  simp only [List.length_drop] at this
  omega

/-- Every successful parse function moves the cursor forward and leaves it
inside the vector (the loops may leave it where it was). -/
theorem parse_progress {F : Type} (O : FloatOps F) (fuel : Nat) :
    (∀ tokens pos n pos', parseExpression O fuel tokens pos = .ok (n, pos') →
      pos < pos' ∧ pos' < tokens.length) ∧
    (∀ tokens left pos n pos', parseExpressionLoop O fuel tokens left pos = .ok (n, pos') →
      pos ≤ pos' ∧ pos' < tokens.length) ∧
    (∀ tokens pos n pos', parseTerm O fuel tokens pos = .ok (n, pos') →
      pos < pos' ∧ pos' < tokens.length) ∧
    (∀ tokens left pos n pos', parseTermLoop O fuel tokens left pos = .ok (n, pos') →
      pos ≤ pos' ∧ pos' < tokens.length) ∧
    (∀ tokens pos n pos', parsePower O fuel tokens pos = .ok (n, pos') →
      pos < pos' ∧ pos' < tokens.length) ∧
    (∀ tokens left pos n pos', parsePowerLoop O fuel tokens left pos = .ok (n, pos') →
      pos ≤ pos' ∧ pos' < tokens.length) ∧
    (∀ tokens pos n pos', parseFactor O fuel tokens pos = .ok (n, pos') →
      pos < pos' ∧ pos' ≤ tokens.length) ∧
    (∀ tokens args pos as pos', parseArgsLoop O fuel tokens args pos = .ok (as, pos') →
      pos ≤ pos' ∧ pos' < tokens.length) := by
  induction fuel with
  | zero =>
    refine ⟨?_, ?_, ?_, ?_, ?_, ?_, ?_, ?_⟩ <;> intros <;>
      simp_all [parseExpression, parseExpressionLoop, parseTerm, parseTermLoop, parsePower,
        parsePowerLoop, parseFactor, parseArgsLoop]
  | succ fuel ih =>
    obtain ⟨ihE, ihEL, ihT, ihTL, ihP, ihPL, ihF, ihA⟩ := ih
    refine ⟨?_, ?_, ?_, ?_, ?_, ?_, ?_, ?_⟩
    · intro tokens pos n pos' h
      simp only [parseExpression] at h
      split at h
      · cases h
      · rename_i left p1 h1
        have := ihT _ _ _ _ h1
        have := ihEL _ _ _ _ _ h
        omega
    · intro tokens left pos n pos' h
      simp only [parseExpressionLoop] at h
      split at h
      · cases h
      · rename_i op hop
        have := lt_length_of_getElem? hop
        split at h
        · split at h
          · cases h
          · rename_i right p1 h1
            have := ihT _ _ _ _ h1
            have := ihEL _ _ _ _ _ h
            omega
        · simp only [Except.ok.injEq, Prod.mk.injEq] at h
          omega
    · intro tokens pos n pos' h
      simp only [parseTerm] at h
      split at h
      · cases h
      · rename_i left p1 h1
        have := ihP _ _ _ _ h1
        have := ihTL _ _ _ _ _ h
        omega
    · intro tokens left pos n pos' h
      simp only [parseTermLoop] at h
      split at h
      · cases h
      · rename_i op hop
        have := lt_length_of_getElem? hop
        split at h
        · split at h
          · cases h
          · rename_i right p1 h1
            have := ihP _ _ _ _ h1
            have := ihTL _ _ _ _ _ h
            omega
        · simp only [Except.ok.injEq, Prod.mk.injEq] at h
          omega
    · intro tokens pos n pos' h
      simp only [parsePower] at h
      split at h
      · cases h
      · rename_i left p1 h1
        have := ihF _ _ _ _ h1
        have := ihPL _ _ _ _ _ h
        omega
    · intro tokens left pos n pos' h
      simp only [parsePowerLoop] at h
      split at h
      · cases h
      · rename_i op hop
        have := lt_length_of_getElem? hop
        split at h
        · split at h
          · cases h
          · rename_i right p1 h1
            have := ihF _ _ _ _ h1
            have := ihPL _ _ _ _ _ h
            omega
        · simp only [Except.ok.injEq, Prod.mk.injEq] at h
          omega
    · intro tokens pos n pos' h
      simp only [parseFactor] at h
      split at h
      · cases h
      · rename_i um p0 hsm
        have hb := skipMinus_drop_bounds _ _ _ _ _ hsm
        split at h
        · cases h
        · rename_i t ht
          split at h
          · simp only [Except.ok.injEq, Prod.mk.injEq] at h
            omega
          · split at h
            · simp only [Except.ok.injEq, Prod.mk.injEq] at h
              omega
            · split at h
              · split at h
                · cases h
                · rename_i t1 ht1
                  split at h
                  · cases h
                  · split at h
                    · cases h
                    · rename_i t2 ht2
                      have := lt_length_of_getElem? ht2
                      split at h
                      · split at h
                        · cases h
                        · rename_i arg p1 h1
                          have := ihE _ _ _ _ h1
                          split at h
                          · cases h
                          · rename_i fa p2 h2
                            have := ihA _ _ _ _ _ h2
                            split at h
                            · cases h
                            · split at h
                              · cases h
                              · simp only [Except.ok.injEq, Prod.mk.injEq] at h
                                omega
                      · simp only [Except.ok.injEq, Prod.mk.injEq] at h
                        omega
              · split at h
                · split at h
                  · cases h
                  · rename_i node p1 h1
                    have := ihE _ _ _ _ h1
                    split at h
                    · cases h
                    · split at h
                      · cases h
                      · simp only [Except.ok.injEq, Prod.mk.injEq] at h
                        omega
                · cases h
    · intro tokens args pos as pos' h
      simp only [parseArgsLoop] at h
      split at h
      · cases h
      · rename_i t ht
        have := lt_length_of_getElem? ht
        split at h
        · split at h
          · cases h
          · rename_i arg p1 h1
            have := ihE _ _ _ _ h1
            have := ihA _ _ _ _ _ h
            omega
        · simp only [Except.ok.injEq, Prod.mk.injEq] at h
          omega

/-! ## The recursion budget is immaterial -/

/-- One more unit of budget does not change a result other than `outOfFuel`. -/
theorem parse_fuel_succ {F : Type} (O : FloatOps F) (fuel : Nat) :
    (∀ tokens pos, parseExpression O fuel tokens pos ≠ .error Err.outOfFuel →
      parseExpression O (fuel + 1) tokens pos = parseExpression O fuel tokens pos) ∧
    (∀ tokens left pos, parseExpressionLoop O fuel tokens left pos ≠ .error Err.outOfFuel →
      parseExpressionLoop O (fuel + 1) tokens left pos
        = parseExpressionLoop O fuel tokens left pos) ∧
    (∀ tokens pos, parseTerm O fuel tokens pos ≠ .error Err.outOfFuel →
      parseTerm O (fuel + 1) tokens pos = parseTerm O fuel tokens pos) ∧
    (∀ tokens left pos, parseTermLoop O fuel tokens left pos ≠ .error Err.outOfFuel →
      parseTermLoop O (fuel + 1) tokens left pos = parseTermLoop O fuel tokens left pos) ∧
    (∀ tokens pos, parsePower O fuel tokens pos ≠ .error Err.outOfFuel →
      parsePower O (fuel + 1) tokens pos = parsePower O fuel tokens pos) ∧
    (∀ tokens left pos, parsePowerLoop O fuel tokens left pos ≠ .error Err.outOfFuel →
      parsePowerLoop O (fuel + 1) tokens left pos = parsePowerLoop O fuel tokens left pos) ∧
    (∀ tokens pos, parseFactor O fuel tokens pos ≠ .error Err.outOfFuel →
      parseFactor O (fuel + 1) tokens pos = parseFactor O fuel tokens pos) ∧
    (∀ tokens args pos, parseArgsLoop O fuel tokens args pos ≠ .error Err.outOfFuel →
      parseArgsLoop O (fuel + 1) tokens args pos = parseArgsLoop O fuel tokens args pos) := by
  induction fuel with
  | zero =>
    refine ⟨?_, ?_, ?_, ?_, ?_, ?_, ?_, ?_⟩ <;> intros <;>
      simp_all [parseExpression, parseExpressionLoop, parseTerm, parseTermLoop, parsePower,
        parsePowerLoop, parseFactor, parseArgsLoop]
  | succ fuel ih =>
    obtain ⟨ihE, ihEL, ihT, ihTL, ihP, ihPL, ihF, ihA⟩ := ih
    refine ⟨?_, ?_, ?_, ?_, ?_, ?_, ?_, ?_⟩
    · intro tokens pos h
      rw [parseExpression] at h
      rw [parseExpression, parseExpression]
      cases hT : parseTerm O fuel tokens pos with
      | error e =>
        rw [hT] at h
        rw [ihT tokens pos (by rw [hT]; simpa using h), hT]
      | ok r =>
        obtain ⟨left, p1⟩ := r
        rw [hT] at h
        rw [ihT tokens pos (by rw [hT]; simp), hT]
        exact ihEL _ _ _ h
    · intro tokens left pos h
      rw [parseExpressionLoop] at h
      rw [parseExpressionLoop, parseExpressionLoop]
      cases hg : tokens[pos]? with
      | none => rfl
      | some op =>
        rw [hg] at h
        simp only at h ⊢
        split
        · rename_i hc
          rw [if_pos hc] at h
          cases hT : parseTerm O fuel tokens (pos + 1) with
          | error e =>
            rw [hT] at h
            rw [ihT _ _ (by rw [hT]; simpa using h), hT]
          | ok r =>
            obtain ⟨right, p1⟩ := r
            rw [hT] at h
            rw [ihT _ _ (by rw [hT]; simp), hT]
            exact ihEL _ _ _ h
        · rfl
    · intro tokens pos h
      rw [parseTerm] at h
      rw [parseTerm, parseTerm]
      cases hT : parsePower O fuel tokens pos with
      | error e =>
        rw [hT] at h
        rw [ihP tokens pos (by rw [hT]; simpa using h), hT]
      | ok r =>
        obtain ⟨left, p1⟩ := r
        rw [hT] at h
        rw [ihP tokens pos (by rw [hT]; simp), hT]
        exact ihTL _ _ _ h
    · intro tokens left pos h
      rw [parseTermLoop] at h
      rw [parseTermLoop, parseTermLoop]
      cases hg : tokens[pos]? with
      | none => rfl
      | some op =>
        rw [hg] at h
        simp only at h ⊢
        split
        · rename_i hc
          rw [if_pos hc] at h
          cases hT : parsePower O fuel tokens (pos + 1) with
          | error e =>
            rw [hT] at h
            rw [ihP _ _ (by rw [hT]; simpa using h), hT]
          | ok r =>
            obtain ⟨right, p1⟩ := r
            rw [hT] at h
            rw [ihP _ _ (by rw [hT]; simp), hT]
            exact ihTL _ _ _ h
        · rfl
    · intro tokens pos h
      rw [parsePower] at h
      rw [parsePower, parsePower]
      cases hT : parseFactor O fuel tokens pos with
      | error e =>
        rw [hT] at h
        rw [ihF tokens pos (by rw [hT]; simpa using h), hT]
      | ok r =>
        obtain ⟨left, p1⟩ := r
        rw [hT] at h
        rw [ihF tokens pos (by rw [hT]; simp), hT]
        exact ihPL _ _ _ h
    · intro tokens left pos h
      rw [parsePowerLoop] at h
      rw [parsePowerLoop, parsePowerLoop]
      cases hg : tokens[pos]? with
      | none => rfl
      | some op =>
        rw [hg] at h
        simp only at h ⊢
        split
        · rename_i hc
          rw [if_pos hc] at h
          cases hT : parseFactor O fuel tokens (pos + 1) with
          | error e =>
            rw [hT] at h
            rw [ihF _ _ (by rw [hT]; simpa using h), hT]
          | ok r =>
            obtain ⟨right, p1⟩ := r
            rw [hT] at h
            rw [ihF _ _ (by rw [hT]; simp), hT]
            exact ihPL _ _ _ h
        · rfl
    · intro tokens pos h
      rw [parseFactor] at h
      rw [parseFactor, parseFactor]
      cases hs : skipMinus (List.drop pos tokens) false pos with
      | error e => rfl
      | ok r =>
        obtain ⟨um, p0⟩ := r
        rw [hs] at h
        simp only at h ⊢
        cases hg : tokens[p0]? with
        | none => rfl
        | some t =>
          rw [hg] at h
          simp only at h ⊢
          split
          · rfl
          · split
            · rfl
            · split
              · rename_i h1 h2 h3
                rw [if_neg h1, if_neg h2, if_pos h3] at h
                cases hg1 : tokens[p0 + 1]? with
                | none => rfl
                | some t1 =>
                  rw [hg1] at h
                  simp only at h ⊢
                  split
                  · rfl
                  · rename_i h4
                    rw [if_neg h4] at h
                    cases hg2 : tokens[p0 + 2]? with
                    | none => rfl
                    | some t2 =>
                      rw [hg2] at h
                      simp only at h ⊢
                      split
                      · rename_i h5
                        rw [if_pos h5] at h
                        cases hE : parseExpression O fuel tokens (p0 + 2) with
                        | error e =>
                          rw [hE] at h
                          rw [ihE _ _ (by rw [hE]; simpa using h), hE]
                        | ok r =>
                          obtain ⟨arg, p1⟩ := r
                          rw [hE] at h
                          rw [ihE _ _ (by rw [hE]; simp), hE]
                          simp only at h ⊢
                          cases hA : parseArgsLoop O fuel tokens [arg] p1 with
                          | error e =>
                            rw [hA] at h
                            rw [ihA _ _ _ (by rw [hA]; simpa using h), hA]
                          | ok r =>
                            obtain ⟨fa, p2⟩ := r
                            rw [ihA _ _ _ (by rw [hA]; simp), hA]
                      · rfl
              · split
                · rename_i h1 h2 h3 h4
                  rw [if_neg h1, if_neg h2, if_neg h3, if_pos h4] at h
                  cases hE : parseExpression O fuel tokens (p0 + 1) with
                  | error e =>
                    rw [hE] at h
                    rw [ihE _ _ (by rw [hE]; simpa using h), hE]
                  | ok r =>
                    obtain ⟨node, p1⟩ := r
                    rw [ihE _ _ (by rw [hE]; simp), hE]
                · rfl
    · intro tokens args pos h
      rw [parseArgsLoop] at h
      rw [parseArgsLoop, parseArgsLoop]
      cases hg : tokens[pos]? with
      | none => rfl
      | some t =>
        rw [hg] at h
        simp only at h ⊢
        split
        · rename_i hc
          rw [if_pos hc] at h
          cases hE : parseExpression O fuel tokens (pos + 1) with
          | error e =>
            rw [hE] at h
            rw [ihE _ _ (by rw [hE]; simpa using h), hE]
          | ok r =>
            obtain ⟨arg, p1⟩ := r
            rw [hE] at h
            rw [ihE _ _ (by rw [hE]; simp), hE]
            exact ihA _ _ _ h
        · rfl

theorem skipMinus_ne_outOfFuel {F : Type} (rest : List (Token F)) :
    ∀ (b : Bool) (pos : Nat), skipMinus rest b pos ≠ .error Err.outOfFuel := by
  induction rest with
  | nil => intro b pos h; simp [skipMinus] at h
  | cons t rest ih =>
    intro b pos h
    simp only [skipMinus] at h
    split at h
    · exact ih _ _ h
    · cases h

/-- A budget of four units per remaining token (plus the depth of the call
chain) is never used up. -/
theorem parse_fuel_enough {F : Type} (O : FloatOps F) (fuel : Nat) :
    (∀ tokens pos, 4 * (tokens.length - pos) + 4 ≤ fuel →
      parseExpression O fuel tokens pos ≠ .error Err.outOfFuel) ∧
    (∀ tokens left pos, 4 * (tokens.length - pos) + 3 ≤ fuel →
      parseExpressionLoop O fuel tokens left pos ≠ .error Err.outOfFuel) ∧
    (∀ tokens pos, 4 * (tokens.length - pos) + 3 ≤ fuel →
      parseTerm O fuel tokens pos ≠ .error Err.outOfFuel) ∧
    (∀ tokens left pos, 4 * (tokens.length - pos) + 2 ≤ fuel →
      parseTermLoop O fuel tokens left pos ≠ .error Err.outOfFuel) ∧
    (∀ tokens pos, 4 * (tokens.length - pos) + 2 ≤ fuel →
      parsePower O fuel tokens pos ≠ .error Err.outOfFuel) ∧
    (∀ tokens left pos, 4 * (tokens.length - pos) + 1 ≤ fuel →
      parsePowerLoop O fuel tokens left pos ≠ .error Err.outOfFuel) ∧
    (∀ tokens pos, 4 * (tokens.length - pos) + 1 ≤ fuel →
      parseFactor O fuel tokens pos ≠ .error Err.outOfFuel) ∧
    (∀ tokens args pos, 4 * (tokens.length - pos) + 1 ≤ fuel →
      parseArgsLoop O fuel tokens args pos ≠ .error Err.outOfFuel) := by
  induction fuel with
  | zero =>
    refine ⟨?_, ?_, ?_, ?_, ?_, ?_, ?_, ?_⟩ <;> intros <;> omega
  | succ fuel ih =>
    obtain ⟨ihE, ihEL, ihT, ihTL, ihP, ihPL, ihF, ihA⟩ := ih
    obtain ⟨prE, prEL, prT, prTL, prP, prPL, prF, prA⟩ := parse_progress O fuel
    refine ⟨?_, ?_, ?_, ?_, ?_, ?_, ?_, ?_⟩
    · intro tokens pos hb h
      rw [parseExpression] at h
      cases hT : parseTerm O fuel tokens pos with
      | error e =>
        rw [hT] at h
        simp only [Except.error.injEq] at h
        subst h
        exact ihT tokens pos (by omega) hT
      | ok r =>
        obtain ⟨left, p1⟩ := r
        rw [hT] at h
        have := prT _ _ _ _ hT
        exact ihEL _ _ _ (by omega) h
    · intro tokens left pos hb h
      rw [parseExpressionLoop] at h
      cases hg : tokens[pos]? with
      | none => rw [hg] at h; cases h
      | some op =>
        have hlt := lt_length_of_getElem? hg
        rw [hg] at h
        simp only at h
        split at h
        · cases hT : parseTerm O fuel tokens (pos + 1) with
          | error e =>
            rw [hT] at h
            simp only [Except.error.injEq] at h
            subst h
            exact ihT tokens (pos + 1) (by omega) hT
          | ok r =>
            obtain ⟨right, p1⟩ := r
            rw [hT] at h
            have := prT _ _ _ _ hT
            exact ihEL _ _ _ (by omega) h
        · cases h
    · intro tokens pos hb h
      rw [parseTerm] at h
      cases hT : parsePower O fuel tokens pos with
      | error e =>
        rw [hT] at h
        simp only [Except.error.injEq] at h
        subst h
        exact ihP tokens pos (by omega) hT
      | ok r =>
        obtain ⟨left, p1⟩ := r
        rw [hT] at h
        have := prP _ _ _ _ hT
        exact ihTL _ _ _ (by omega) h
    · intro tokens left pos hb h
      rw [parseTermLoop] at h
      cases hg : tokens[pos]? with
      | none => rw [hg] at h; cases h
      | some op =>
        have hlt := lt_length_of_getElem? hg
        rw [hg] at h
        simp only at h
        split at h
        · cases hT : parsePower O fuel tokens (pos + 1) with
          | error e =>
            rw [hT] at h
            simp only [Except.error.injEq] at h
            subst h
            exact ihP tokens (pos + 1) (by omega) hT
          | ok r =>
            obtain ⟨right, p1⟩ := r
            rw [hT] at h
            have := prP _ _ _ _ hT
            exact ihTL _ _ _ (by omega) h
        · cases h
    · intro tokens pos hb h
      rw [parsePower] at h
      cases hT : parseFactor O fuel tokens pos with
      | error e =>
        rw [hT] at h
        simp only [Except.error.injEq] at h
        subst h
        exact ihF tokens pos (by omega) hT
      | ok r =>
        obtain ⟨left, p1⟩ := r
        rw [hT] at h
        have := prF _ _ _ _ hT
        exact ihPL _ _ _ (by omega) h
    · intro tokens left pos hb h
      rw [parsePowerLoop] at h
      cases hg : tokens[pos]? with
      | none => rw [hg] at h; cases h
      | some op =>
        have hlt := lt_length_of_getElem? hg
        rw [hg] at h
        simp only at h
        split at h
        · cases hT : parseFactor O fuel tokens (pos + 1) with
          | error e =>
            rw [hT] at h
            simp only [Except.error.injEq] at h
            subst h
            exact ihF tokens (pos + 1) (by omega) hT
          | ok r =>
            obtain ⟨right, p1⟩ := r
            rw [hT] at h
            have := prF _ _ _ _ hT
            exact ihPL _ _ _ (by omega) h
        · cases h
    · intro tokens pos hb h
      rw [parseFactor] at h
      cases hs : skipMinus (List.drop pos tokens) false pos with
      | error e =>
        rw [hs] at h
        simp only [Except.error.injEq] at h
        subst h
        exact skipMinus_ne_outOfFuel _ _ _ hs
      | ok r =>
        obtain ⟨um, p0⟩ := r
        have hp0 := skipMinus_drop_bounds _ _ _ _ _ hs
        rw [hs] at h
        simp only at h
        split at h
        · cases h
        · split at h
          · cases h
          · split at h
            · cases h
            · split at h
              · split at h
                · cases h
                · split at h
                  · cases h
                  · split at h
                    · cases h
                    · rename_i t2 hg2
                      have := lt_length_of_getElem? hg2
                      split at h
                      · split at h
                        · rename_i e hE
                          simp only [Except.error.injEq] at h
                          subst h
                          exact ihE _ _ (by omega) hE
                        · rename_i arg p1 hE
                          have := prE _ _ _ _ hE
                          split at h
                          · rename_i e hA
                            simp only [Except.error.injEq] at h
                            subst h
                            exact ihA _ _ _ (by omega) hA
                          · split at h
                            · cases h
                            · split at h <;> cases h
                      · cases h
              · split at h
                · split at h
                  · rename_i e hE
                    simp only [Except.error.injEq] at h
                    subst h
                    exact ihE _ _ (by omega) hE
                  · split at h
                    · cases h
                    · split at h <;> cases h
                · cases h
    · intro tokens args pos hb h
      rw [parseArgsLoop] at h
      cases hg : tokens[pos]? with
      | none => rw [hg] at h; cases h
      | some t =>
        have hlt := lt_length_of_getElem? hg
        rw [hg] at h
        simp only at h
        split at h
        · cases hT : parseExpression O fuel tokens (pos + 1) with
          | error e =>
            rw [hT] at h
            simp only [Except.error.injEq] at h
            subst h
            exact ihE tokens (pos + 1) (by omega) hT
          | ok r =>
            obtain ⟨right, p1⟩ := r
            rw [hT] at h
            have := prE _ _ _ _ hT
            exact ihA _ _ _ (by omega) h
        · cases h


theorem parseExpression_fuel_add {F : Type} (O : FloatOps F) (tokens : List (Token F))
    (pos fuel : Nat) (h : parseExpression O fuel tokens pos ≠ .error Err.outOfFuel) (k : Nat) :
    parseExpression O (fuel + k) tokens pos = parseExpression O fuel tokens pos := by
  induction k with
  | zero => rfl
  | succ k ih =>
    have hk : parseExpression O (fuel + k) tokens pos ≠ .error Err.outOfFuel := by
      rw [ih]; exact h
    have := (parse_fuel_succ O (fuel + k)).1 tokens pos hk
    rw [← ih, ← this]
    rfl

/-- Whatever `parseExpression` returns with some budget other than running out
of it, it returns with every budget of at least `4 * remaining + 4`. -/
theorem parseExpression_fuel_indep {F : Type} (O : FloatOps F) (tokens : List (Token F))
    (pos fuel fuel' : Nat) (r : Except Err (Node F × Nat))
    (h : parseExpression O fuel tokens pos = r) (hr : r ≠ .error Err.outOfFuel)
    (hb : 4 * (tokens.length - pos) + 4 ≤ fuel') :
    parseExpression O fuel' tokens pos = r := by
  have h1 := parseExpression_fuel_add O tokens pos fuel (by rw [h]; exact hr) fuel'
  have h2 := parseExpression_fuel_add O tokens pos fuel'
    ((parse_fuel_enough O fuel').1 tokens pos hb) fuel
  rw [← h2, Nat.add_comm, h1, h]

/-- `parse` never runs out of its recursion budget. -/
theorem parse_ne_outOfFuel {F : Type} (O : FloatOps F) (tokens : List (Token F)) :
    parse O tokens ≠ .error Err.outOfFuel := by
  have hE0 := (parse_fuel_enough O (4 * tokens.length + 4)).1 tokens 0 (by omega)
  have hE2 := (parse_fuel_enough O (4 * tokens.length + 4)).1 tokens 2 (by omega)
  have hbare : parse.parseBare O tokens ≠ .error Err.outOfFuel := by
    intro h
    simp only [parse.parseBare] at h
    split at h
    · rename_i e he
      simp only [Except.error.injEq] at h
      subst h
      exact hE0 he
    · split at h
      · cases h
      · split at h <;> cases h
  intro h
  unfold parse at h
  split at h
  · split at h
    · split at h
      · cases h
      · split at h
        · rename_i e he
          simp only [Except.error.injEq] at h
          subst h
          exact hE2 he
        · split at h
          · cases h
          · split at h <;> cases h
    · exact hbare h
  · exact hbare h

/-- `parse` is `parseTop` followed by the test that the cursor is on END. -/
theorem parse_eq_parseTop {F : Type} (O : FloatOps F) (tokens : List (Token F)) :
    parse O tokens =
      match parseTop O tokens with
      | .error e => .error e
      | .ok (tree, pos) =>
        match tokens[pos]? with
        | none => .error Err.outOfBounds
        | some t =>
          if t.type != TokenType.END then
            .error (Err.runtimeError "Error: extraneous characters at end of expression.")
          else .ok tree := by
  unfold parse parseTop parse.parseBare
  split
  · split
    · split
      · rfl
      · split <;> simp_all
    · rfl
  · rfl


/-! ## The END sentinel of `tokenize` -/

theorem tokenizeLoop_end {F : Type} (O : FloatOps F) (fuel : Nat) :
    ∀ (rest : List Char) (acc tokens : List (Token F)),
      (∀ t ∈ acc, t.type ≠ TokenType.END) →
      tokenizeLoop O fuel rest acc = .ok tokens →
      ∃ body, tokens = body ++ [⟨TokenType.END, "", O.zero⟩] ∧
        ∀ t ∈ body, t.type ≠ TokenType.END := by
  induction fuel with
  | zero =>
    intro rest acc tokens hacc h
    cases rest with
    | nil =>
      simp only [tokenizeLoop, Except.ok.injEq] at h
      exact ⟨acc, h.symm, hacc⟩
    | cons c rest => simp [tokenizeLoop] at h
  | succ fuel ih =>
    intro rest acc tokens hacc h
    cases rest with
    | nil =>
      simp only [tokenizeLoop, Except.ok.injEq] at h
      exact ⟨acc, h.symm, hacc⟩
    | cons c rest =>
      have hpush : ∀ (t : Token F), t.type ≠ TokenType.END →
          ∀ u ∈ acc ++ [t], u.type ≠ TokenType.END := by
        intro t ht u hu
        rcases List.mem_append.1 hu with hu | hu
        · exact hacc u hu
        · rw [List.mem_singleton.1 hu]; exact ht
      simp only [tokenizeLoop] at h
      split at h
      · exact ih _ _ _ hacc h
      · split at h
        · split at h
          · cases h
          · exact ih _ _ _ (hpush _ (by simp)) h
        · split at h
          · split at h
            · exact ih _ _ _ (hpush _ (by simp)) h
            · exact ih _ _ _ (hpush _ (by simp)) h
          · split at h
            · exact ih _ _ _ (hpush _ (by simp)) h
            · split at h
              · exact ih _ _ _ (hpush _ (by simp)) h
              · split at h
                · exact ih _ _ _ (hpush _ (by simp)) h
                · split at h
                  · exact ih _ _ _ (hpush _ (by simp)) h
                  · split at h
                    · exact ih _ _ _ (hpush _ (by simp)) h
                    · cases h

/-- A token vector returned by `tokenize` is a run of non-END tokens followed
by one END token. -/
theorem tokenize_end {F : Type} (O : FloatOps F) (input : String) (tokens : List (Token F))
    (h : tokenize O input = .ok tokens) :
    ∃ body, tokens = body ++ [⟨TokenType.END, "", O.zero⟩] ∧
      ∀ t ∈ body, t.type ≠ TokenType.END :=
  tokenizeLoop_end O _ _ [] tokens (by simp) h

/-- In a vector with the END sentinel, the only position holding an END token
is the last one. -/
theorem end_position {F : Type} (body : List (Token F)) (e t : Token F) (pos : Nat)
    (hbody : ∀ u ∈ body, u.type ≠ TokenType.END)
    (hget : (body ++ [e])[pos]? = some t) (ht : t.type = TokenType.END) :
    pos + 1 = (body ++ [e]).length := by
  by_cases hlt : pos < body.length
  · rw [List.getElem?_append_left hlt] at hget
    have hmem : t ∈ body := List.getElem?_mem hget
    exact absurd ht (hbody t hmem)
  · have := lt_length_of_getElem? hget
    simp only [List.length_append, List.length_singleton] at this ⊢
    omega


theorem parseTop_cursor_lt {F : Type} (O : FloatOps F) (tokens : List (Token F))
    (tree : Node F) (pos : Nat) (h : parseTop O tokens = .ok (tree, pos)) :
    pos < tokens.length := by
  have prE := (parse_progress O (4 * tokens.length + 4)).1
  unfold parseTop at h
  split at h
  · split at h
    · split at h
      · cases h
      · split at h
        · cases h
        · rename_i en p he
          simp only [Except.ok.injEq, Prod.mk.injEq] at h
          have := prE _ _ _ _ he
          omega
    · exact (prE _ _ _ _ h).2
  · exact (prE _ _ _ _ h).2

/-- C1 (no silent partial parse): on the tokens of any input text, if `parse`
returns a tree then the top-level construct stopped on a token of kind END
and that token is the last of the vector; and whenever the top-level
construct stops anywhere else, `parse` throws the extraneous-characters
error. -/
theorem C1_no_silent_partial_parse {F : Type} (O : FloatOps F) (input : String)
    (tokens : List (Token F)) (htok : tokenize O input = .ok tokens) :
    (∀ tree, parse O tokens = .ok tree →
      ∃ pos t, parseTop O tokens = .ok (tree, pos) ∧ tokens[pos]? = some t ∧
        t.type = TokenType.END ∧ pos + 1 = tokens.length) ∧
    (∀ tree pos, parseTop O tokens = .ok (tree, pos) → pos + 1 ≠ tokens.length →
      parse O tokens =
        .error (Err.runtimeError "Error: extraneous characters at end of expression.")) := by
  obtain ⟨body, hbody, hne⟩ := tokenize_end O input tokens htok
  constructor
  · intro tree h
    rw [parse_eq_parseTop] at h
    split at h
    · cases h
    · rename_i tree' pos htop
      split at h
      · cases h
      · rename_i t ht
        split at h
        · cases h
        · rename_i hend
          simp only [Except.ok.injEq] at h
          subst h
          have hty : t.type = TokenType.END := by simpa using hend
          refine ⟨pos, t, htop, ht, hty, ?_⟩
          subst hbody
          exact end_position body _ t pos hne ht hty
  · intro tree pos htop hpos
    have hlt := parseTop_cursor_lt O tokens tree pos htop
    rw [parse_eq_parseTop, htop]
    subst hbody
    have hlt' : pos < body.length := by
      simp only [List.length_append, List.length_singleton] at hlt hpos
      omega
    have hget : (body ++ [⟨TokenType.END, "", O.zero⟩])[pos]? = some body[pos] := by
      rw [List.getElem?_append_left hlt']
      exact List.getElem?_eq_getElem hlt'
    have hty : body[pos].type ≠ TokenType.END := hne _ (List.getElem_mem hlt')
    simp only [hget]
    rw [if_pos (by simpa using hty)]

theorem tokenize_1_plus_2_abc :
    tokenize ratOps "1 + 2 abc" = .ok
      [⟨TokenType.NUMBER, "1", 1⟩, ⟨TokenType.OPERATOR, "+", 0⟩, ⟨TokenType.NUMBER, "2", 2⟩,
        ⟨TokenType.VARIABLE, "abc", 0⟩, ⟨TokenType.END, "", 0⟩] := by
  simp [tokenize, tokenizeLoop, isspace, isdigit, isalpha, isalnum, scanNumber, scanIdent,
    ratOps, exactOps, stodExact, digitsValue, backIsNumber, isFunctionName, String.singleton]
  decide

theorem parseTop_1_plus_2_abc :
    parseTop ratOps
      [⟨TokenType.NUMBER, "1", 1⟩, ⟨TokenType.OPERATOR, "+", 0⟩, ⟨TokenType.NUMBER, "2", 2⟩,
        ⟨TokenType.VARIABLE, "abc", 0⟩, ⟨TokenType.END, "", 0⟩]
      = .ok (Node.mk ⟨TokenType.OPERATOR, "+", 0⟩
          [Node.mk ⟨TokenType.NUMBER, "1", 1⟩ [], Node.mk ⟨TokenType.NUMBER, "2", 2⟩ []], 3) := by
  rfl

/-- C1 witness: `"1 + 2 abc"` tokenizes, its top-level construct stops on the
token `abc` at position 3 of 5, and `parse` rejects it. -/
theorem C1_witness :
    tokenize ratOps "1 + 2 abc" = .ok
      [⟨TokenType.NUMBER, "1", 1⟩, ⟨TokenType.OPERATOR, "+", 0⟩, ⟨TokenType.NUMBER, "2", 2⟩,
        ⟨TokenType.VARIABLE, "abc", 0⟩, ⟨TokenType.END, "", 0⟩] ∧
    parse ratOps
      [⟨TokenType.NUMBER, "1", 1⟩, ⟨TokenType.OPERATOR, "+", 0⟩, ⟨TokenType.NUMBER, "2", 2⟩,
        ⟨TokenType.VARIABLE, "abc", 0⟩, ⟨TokenType.END, "", 0⟩]
      = .error (Err.runtimeError "Error: extraneous characters at end of expression.") :=
  ⟨tokenize_1_plus_2_abc,
    (C1_no_silent_partial_parse ratOps "1 + 2 abc" _ tokenize_1_plus_2_abc).2 _ 3
      parseTop_1_plus_2_abc (by decide)⟩


/-! ## Stepping the parser over operands and operators -/

theorem drop_cons_inv {α : Type} {l : List α} {i : Nat} {a : α} {tl : List α}
    (h : l.drop i = a :: tl) : l[i]? = some a ∧ l.drop (i + 1) = tl := by
  constructor
  · have := List.getElem?_drop l i 0
    rw [h] at this
    simpa using this.symm
  · have := List.drop_drop 1 i l
    rw [h] at this
    simpa using this.symm

theorem parseFactor_operand {F : Type} (O : FloatOps F) (fuel : Nat) (tokens : List (Token F))
    (pos : Nat) (p : Token F) (h : tokens[pos]? = some p) (hp : p.isOperand = true) :
    parseFactor O (fuel + 1) tokens pos = .ok (Node.mk p [], pos + 1) := by
  have hlt := lt_length_of_getElem? h
  have hp' : tokens[pos] = p := by
    have := List.getElem?_eq_getElem hlt
    rw [this] at h
    exact Option.some.inj h
  have hdrop : tokens.drop pos = p :: tokens.drop (pos + 1) := by
    rw [List.drop_eq_getElem_cons hlt, hp']
  simp only [Token.isOperand, Bool.or_eq_true, beq_iff_eq] at hp
  have hnm : p.isOp "-" = false := by
    rcases hp with hp | hp <;> simp [Token.isOp, hp]
  rw [parseFactor, hdrop]
  simp only [skipMinus, hnm, h]
  rcases hp with hp | hp <;> simp [h, hp, wrapMinus]

theorem parsePowerLoop_stop {F : Type} (O : FloatOps F) (fuel : Nat) (tokens : List (Token F))
    (left : Node F) (pos : Nat) (t : Token F) (h : tokens[pos]? = some t)
    (ht : t.type = TokenType.OPERATOR → t.value ≠ "^") :
    parsePowerLoop O (fuel + 1) tokens left pos = .ok (left, pos) := by
  rw [parsePowerLoop, h]
  simp only
  rw [if_neg]
  simpa using ht

theorem parseTermLoop_stop {F : Type} (O : FloatOps F) (fuel : Nat) (tokens : List (Token F))
    (left : Node F) (pos : Nat) (t : Token F) (h : tokens[pos]? = some t)
    (ht : t.type = TokenType.OPERATOR → t.value ≠ "*" ∧ t.value ≠ "/") :
    parseTermLoop O (fuel + 1) tokens left pos = .ok (left, pos) := by
  rw [parseTermLoop, h]
  simp only
  rw [if_neg]
  simpa using ht

theorem parseExpressionLoop_stop {F : Type} (O : FloatOps F) (fuel : Nat)
    (tokens : List (Token F)) (left : Node F) (pos : Nat) (t : Token F)
    (h : tokens[pos]? = some t)
    (ht : t.type = TokenType.OPERATOR → t.value ≠ "+" ∧ t.value ≠ "-") :
    parseExpressionLoop O (fuel + 1) tokens left pos = .ok (left, pos) := by
  rw [parseExpressionLoop, h]
  simp only
  rw [if_neg]
  simpa using ht

/-- A single operand followed by a token that is not `^` is a whole power. -/
theorem parsePower_operand {F : Type} (O : FloatOps F) (fuel : Nat) (tokens : List (Token F))
    (pos : Nat) (p t : Token F) (h : tokens[pos]? = some p) (hp : p.isOperand = true)
    (h1 : tokens[pos + 1]? = some t) (ht : t.type = TokenType.OPERATOR → t.value ≠ "^") :
    parsePower O (fuel + 2) tokens pos = .ok (Node.mk p [], pos + 1) := by
  rw [parsePower, parseFactor_operand O fuel tokens pos p h hp]
  exact parsePowerLoop_stop O fuel tokens _ _ t h1 ht

/-- A single operand followed by a token that is none of `^ * /` is a whole term. -/
theorem parseTerm_operand {F : Type} (O : FloatOps F) (fuel : Nat) (tokens : List (Token F))
    (pos : Nat) (p t : Token F) (h : tokens[pos]? = some p) (hp : p.isOperand = true)
    (h1 : tokens[pos + 1]? = some t)
    (ht : t.type = TokenType.OPERATOR → t.value ≠ "^" ∧ t.value ≠ "*" ∧ t.value ≠ "/") :
    parseTerm O (fuel + 3) tokens pos = .ok (Node.mk p [], pos + 1) := by
  rw [parseTerm, parsePower_operand O fuel tokens pos p t h hp h1 (fun hh => (ht hh).1)]
  exact parseTermLoop_stop O (fuel + 1) tokens _ _ t h1 (fun hh => (ht hh).2)


/-! ## Left folds -/

/-- The token after an operand of a chain is the next operator of the chain or
the final token. -/
theorem chain_head {F : Type} (rest : List (Token F × Token F)) (e : Token F)
    (tl : List (Token F)) :
    ∃ nxt tl', rest.flatMap (fun x => [x.1, x.2]) ++ e :: tl = nxt :: tl' ∧
      (nxt = e ∨ ∃ x ∈ rest, nxt = x.1) := by
  cases rest with
  | nil => exact ⟨e, tl, by simp, Or.inl rfl⟩
  | cons x rest =>
    exact ⟨x.1, x.2 :: (rest.flatMap (fun x => [x.1, x.2]) ++ e :: tl), by simp,
      Or.inr ⟨x, List.mem_cons_self _ _, rfl⟩⟩

theorem parseExpressionLoop_chain {F : Type} (O : FloatOps F) (tokens : List (Token F)) (e : Token F)
    (he : e.type = TokenType.END) :
    ∀ (rest : List (Token F × Token F)) (tl : List (Token F)) (left : Node F) (pos fuel : Nat),
      tokens.drop pos = rest.flatMap (fun x => [x.1, x.2]) ++ e :: tl →
      (∀ x ∈ rest, x.1.type = TokenType.OPERATOR ∧ (x.1.value = "+" ∨ x.1.value = "-") ∧
        x.2.isOperand = true) →
      rest.length + 3 ≤ fuel →
      parseExpressionLoop O fuel tokens left pos = .ok (leftFold left rest, pos + 2 * rest.length) ∧
        tokens[pos + 2 * rest.length]? = some e := by
  intro rest
  induction rest with
  | nil =>
    intro tl left pos fuel hd _ hf
    obtain ⟨hget, -⟩ := drop_cons_inv (by simpa using hd)
    obtain ⟨f, rfl⟩ : ∃ f, fuel = f + 1 := ⟨fuel - 1, by omega⟩
    refine ⟨?_, by simpa using hget⟩
    rw [parseExpressionLoop_stop O f tokens left pos e hget (by simp [he])]
    simp [leftFold]
  | cons x rest ih =>
    intro tl left pos fuel hd hall hf
    simp only [List.length_cons] at hf
    obtain ⟨f, rfl⟩ : ∃ f, fuel = f + 1 := ⟨fuel - 1, by omega⟩
    obtain ⟨g, rfl⟩ : ∃ g, f = g + 3 := ⟨f - 3, by omega⟩
    have hx := hall x (List.mem_cons_self _ _)
    have hrest : ∀ y ∈ rest, y.1.type = TokenType.OPERATOR ∧ (y.1.value = "+" ∨ y.1.value = "-") ∧
        y.2.isOperand = true := fun y hy => hall y (List.mem_cons_of_mem _ hy)
    simp only [List.flatMap_cons, List.cons_append, List.nil_append] at hd
    obtain ⟨hg0, hd1⟩ := drop_cons_inv hd
    obtain ⟨hg1, hd2⟩ := drop_cons_inv hd1
    obtain ⟨nxt, tl', hnx, hnxt⟩ := chain_head rest e tl
    obtain ⟨hg2, -⟩ := drop_cons_inv (hd2.trans hnx)
    have hnxt' : nxt.type = TokenType.OPERATOR → nxt.value ≠ "^" ∧ nxt.value ≠ "*" ∧ nxt.value ≠ "/" := by
      intro hty
      rcases hnxt with h | ⟨y, hy, h⟩
      · rw [h, he] at hty; cases hty
      · have := (hrest y hy).2.1
        rw [h]
        rcases this with h2 | h2 <;> rw [h2] <;> decide
    have hsub : parseTerm O (g + 3) tokens (pos + 1) = .ok (Node.mk x.2 [], pos + 1 + 1) :=
      parseTerm_operand O g tokens (pos + 1) x.2 nxt hg1 hx.2.2 hg2 hnxt'
    have hih := ih tl (Node.mk x.1 [left, Node.mk x.2 []]) (pos + 1 + 1) (g + 3) hd2 hrest
      (by omega)
    have hcond : (x.1.type == TokenType.OPERATOR && (x.1.value == "+" || x.1.value == "-")) = true := by
      rcases hx with ⟨h1, h2, -⟩
      simp [h1, h2]
    rw [parseExpressionLoop, hg0]
    simp only
    rw [if_pos hcond, hsub]
    simp only
    refine ⟨?_, ?_⟩
    · rw [hih.1]
      simp only [leftFold, List.foldl_cons, List.length_cons]
      congr 2
      omega
    · rw [← hih.2]
      simp only [List.length_cons]
      congr 1
      omega

theorem parseTermLoop_chain {F : Type} (O : FloatOps F) (tokens : List (Token F)) (e : Token F)
    (he : e.type = TokenType.END) :
    ∀ (rest : List (Token F × Token F)) (tl : List (Token F)) (left : Node F) (pos fuel : Nat),
      tokens.drop pos = rest.flatMap (fun x => [x.1, x.2]) ++ e :: tl →
      (∀ x ∈ rest, x.1.type = TokenType.OPERATOR ∧ (x.1.value = "*" ∨ x.1.value = "/") ∧
        x.2.isOperand = true) →
      rest.length + 2 ≤ fuel →
      parseTermLoop O fuel tokens left pos = .ok (leftFold left rest, pos + 2 * rest.length) ∧
        tokens[pos + 2 * rest.length]? = some e := by
  intro rest
  induction rest with
  | nil =>
    intro tl left pos fuel hd _ hf
    obtain ⟨hget, -⟩ := drop_cons_inv (by simpa using hd)
    obtain ⟨f, rfl⟩ : ∃ f, fuel = f + 1 := ⟨fuel - 1, by omega⟩
    refine ⟨?_, by simpa using hget⟩
    rw [parseTermLoop_stop O f tokens left pos e hget (by simp [he])]
    simp [leftFold]
  | cons x rest ih =>
    intro tl left pos fuel hd hall hf
    simp only [List.length_cons] at hf
    obtain ⟨f, rfl⟩ : ∃ f, fuel = f + 1 := ⟨fuel - 1, by omega⟩
    obtain ⟨g, rfl⟩ : ∃ g, f = g + 2 := ⟨f - 2, by omega⟩
    have hx := hall x (List.mem_cons_self _ _)
    have hrest : ∀ y ∈ rest, y.1.type = TokenType.OPERATOR ∧ (y.1.value = "*" ∨ y.1.value = "/") ∧
        y.2.isOperand = true := fun y hy => hall y (List.mem_cons_of_mem _ hy)
    simp only [List.flatMap_cons, List.cons_append, List.nil_append] at hd
    obtain ⟨hg0, hd1⟩ := drop_cons_inv hd
    obtain ⟨hg1, hd2⟩ := drop_cons_inv hd1
    obtain ⟨nxt, tl', hnx, hnxt⟩ := chain_head rest e tl
    obtain ⟨hg2, -⟩ := drop_cons_inv (hd2.trans hnx)
    have hnxt' : nxt.type = TokenType.OPERATOR → nxt.value ≠ "^" := by
      intro hty
      rcases hnxt with h | ⟨y, hy, h⟩
      · rw [h, he] at hty; cases hty
      · have := (hrest y hy).2.1
        rw [h]
        rcases this with h2 | h2 <;> rw [h2] <;> decide
    have hsub : parsePower O (g + 2) tokens (pos + 1) = .ok (Node.mk x.2 [], pos + 1 + 1) :=
      parsePower_operand O g tokens (pos + 1) x.2 nxt hg1 hx.2.2 hg2 hnxt'
    have hih := ih tl (Node.mk x.1 [left, Node.mk x.2 []]) (pos + 1 + 1) (g + 2) hd2 hrest
      (by omega)
    have hcond : (x.1.type == TokenType.OPERATOR && (x.1.value == "*" || x.1.value == "/")) = true := by
      rcases hx with ⟨h1, h2, -⟩
      simp [h1, h2]
    rw [parseTermLoop, hg0]
    simp only
    rw [if_pos hcond, hsub]
    simp only
    refine ⟨?_, ?_⟩
    · rw [hih.1]
      simp only [leftFold, List.foldl_cons, List.length_cons]
      congr 2
      omega
    · rw [← hih.2]
      simp only [List.length_cons]
      congr 1
      omega

theorem parsePowerLoop_chain {F : Type} (O : FloatOps F) (tokens : List (Token F)) (e : Token F)
    (he : e.type = TokenType.END) :
    ∀ (rest : List (Token F × Token F)) (tl : List (Token F)) (left : Node F) (pos fuel : Nat),
      tokens.drop pos = rest.flatMap (fun x => [x.1, x.2]) ++ e :: tl →
      (∀ x ∈ rest, x.1.type = TokenType.OPERATOR ∧ (x.1.value = "^") ∧
        x.2.isOperand = true) →
      rest.length + 1 ≤ fuel →
      parsePowerLoop O fuel tokens left pos = .ok (leftFold left rest, pos + 2 * rest.length) ∧
        tokens[pos + 2 * rest.length]? = some e := by
  intro rest
  induction rest with
  | nil =>
    intro tl left pos fuel hd _ hf
    obtain ⟨hget, -⟩ := drop_cons_inv (by simpa using hd)
    obtain ⟨f, rfl⟩ : ∃ f, fuel = f + 1 := ⟨fuel - 1, by omega⟩
    refine ⟨?_, by simpa using hget⟩
    rw [parsePowerLoop_stop O f tokens left pos e hget (by simp [he])]
    simp [leftFold]
  | cons x rest ih =>
    intro tl left pos fuel hd hall hf
    simp only [List.length_cons] at hf
    obtain ⟨f, rfl⟩ : ∃ f, fuel = f + 1 := ⟨fuel - 1, by omega⟩
    obtain ⟨g, rfl⟩ : ∃ g, f = g + 1 := ⟨f - 1, by omega⟩
    have hx := hall x (List.mem_cons_self _ _)
    have hrest : ∀ y ∈ rest, y.1.type = TokenType.OPERATOR ∧ (y.1.value = "^") ∧
        y.2.isOperand = true := fun y hy => hall y (List.mem_cons_of_mem _ hy)
    simp only [List.flatMap_cons, List.cons_append, List.nil_append] at hd
    obtain ⟨hg0, hd1⟩ := drop_cons_inv hd
    obtain ⟨hg1, hd2⟩ := drop_cons_inv hd1
    obtain ⟨nxt, tl', hnx, hnxt⟩ := chain_head rest e tl
    obtain ⟨hg2, -⟩ := drop_cons_inv (hd2.trans hnx)
    have hnxt' : nxt.type = TokenType.OPERATOR → True := by
      intro hty
      rcases hnxt with h | ⟨y, hy, h⟩
      · rw [h, he] at hty; cases hty
      · have := (hrest y hy).2.1
        trivial
    have hsub : parseFactor O (g + 1) tokens (pos + 1) = .ok (Node.mk x.2 [], pos + 1 + 1) :=
      parseFactor_operand O g tokens (pos + 1) x.2 hg1 hx.2.2
    have hih := ih tl (Node.mk x.1 [left, Node.mk x.2 []]) (pos + 1 + 1) (g + 1) hd2 hrest
      (by omega)
    have hcond : (x.1.type == TokenType.OPERATOR && (x.1.value == "^")) = true := by
      rcases hx with ⟨h1, h2, -⟩
      simp [h1, h2]
    rw [parsePowerLoop, hg0]
    simp only
    rw [if_pos hcond, hsub]
    simp only
    refine ⟨?_, ?_⟩
    · rw [hih.1]
      simp only [leftFold, List.foldl_cons, List.length_cons]
      congr 2
      omega
    · rw [← hih.2]
      simp only [List.length_cons]
      congr 1
      omega


theorem flatMap_pair_length {α : Type} (rest : List (α × α)) :
    (rest.flatMap (fun x => [x.1, x.2])).length = 2 * rest.length := by
  induction rest with
  | nil => rfl
  | cons x rest ih =>
    simp only [List.flatMap_cons, List.length_append, List.length_cons, List.length_nil, ih]
    omega

theorem parse_eq_parseBare_of_operator {F : Type} (O : FloatOps F) (p0 : Token F)
    (rest : List (Token F × Token F)) (e : Token F)
    (hops : ∀ x ∈ rest, x.1.type = TokenType.OPERATOR) :
    parse O (chainTokens p0 rest e) = parse.parseBare O (chainTokens p0 rest e) := by
  cases rest with
  | nil => simp [chainTokens, parse]
  | cons x rest =>
    have hx := hops x (List.mem_cons_self _ _)
    simp [chainTokens, parse, hx]

theorem parseBare_of_cursor {F : Type} (O : FloatOps F) (tokens : List (Token F))
    (root : Node F) (pos : Nat) (e : Token F)
    (h : parseExpression O (4 * tokens.length + 4) tokens 0 = .ok (root, pos))
    (hget : tokens[pos]? = some e) (he : e.type = TokenType.END) :
    parse.parseBare O tokens = .ok root := by
  simp [parse.parseBare, h, hget, he]

theorem parseExpression_chain {F : Type} (O : FloatOps F) (p0 : Token F)
    (rest : List (Token F × Token F)) (e : Token F) (fuel : Nat)
    (hp0 : p0.isOperand = true) (he : e.type = TokenType.END)
    (hops :
      (∀ x ∈ rest, x.1.type = TokenType.OPERATOR ∧ (x.1.value = "+" ∨ x.1.value = "-") ∧
        x.2.isOperand = true) ∨
      (∀ x ∈ rest, x.1.type = TokenType.OPERATOR ∧ (x.1.value = "*" ∨ x.1.value = "/") ∧
        x.2.isOperand = true) ∨
      (∀ x ∈ rest, x.1.type = TokenType.OPERATOR ∧ (x.1.value = "^") ∧
        x.2.isOperand = true))
    (hf : rest.length + 4 ≤ fuel) :
    parseExpression O fuel (chainTokens p0 rest e) 0
        = .ok (leftFold (Node.mk p0 []) rest, 1 + 2 * rest.length) ∧
      (chainTokens p0 rest e)[1 + 2 * rest.length]? = some e := by
  have hg0 : (chainTokens p0 rest e)[0]? = some p0 := by simp [chainTokens]
  have hd : (chainTokens p0 rest e).drop 1 = rest.flatMap (fun x => [x.1, x.2]) ++ e :: [] := by
    simp [chainTokens]
  obtain ⟨nxt, tl', hnx, hnxt⟩ := chain_head rest e []
  obtain ⟨hg1, -⟩ := drop_cons_inv (hd.trans hnx)
  obtain ⟨g, rfl⟩ : ∃ g, fuel = g + 4 := ⟨fuel - 4, by omega⟩
  rcases hops with hops | hops | hops
  · have hnxt' : nxt.type = TokenType.OPERATOR →
        nxt.value ≠ "^" ∧ nxt.value ≠ "*" ∧ nxt.value ≠ "/" := by
      intro hty
      rcases hnxt with h | ⟨y, hy, h⟩
      · rw [h, he] at hty; cases hty
      · have := (hops y hy).2.1
        rw [h]
        rcases this with h2 | h2 <;> rw [h2] <;> decide
    have hch := parseExpressionLoop_chain O _ e he rest [] (Node.mk p0 []) 1 (g + 3) hd hops
      (by omega)
    refine ⟨?_, hch.2⟩
    rw [parseExpression, parseTerm_operand O g _ 0 p0 nxt hg0 hp0 hg1 hnxt']
    exact hch.1
  · have hnxt' : nxt.type = TokenType.OPERATOR → nxt.value ≠ "^" := by
      intro hty
      rcases hnxt with h | ⟨y, hy, h⟩
      · rw [h, he] at hty; cases hty
      · have := (hops y hy).2.1
        rw [h]
        rcases this with h2 | h2 <;> rw [h2] <;> decide
    have hch := parseTermLoop_chain O _ e he rest [] (Node.mk p0 []) 1 (g + 2) hd hops (by omega)
    refine ⟨?_, hch.2⟩
    rw [parseExpression, parseTerm, parsePower_operand O g _ 0 p0 nxt hg0 hp0 hg1 hnxt']
    simp only
    rw [hch.1]
    exact parseExpressionLoop_stop O (g + 2) _ _ _ e hch.2 (by simp [he])
  · have hch := parsePowerLoop_chain O _ e he rest [] (Node.mk p0 []) 1 (g + 1) hd hops
      (by omega)
    refine ⟨?_, hch.2⟩
    rw [parseExpression, parseTerm, parsePower, parseFactor_operand O g _ 0 p0 hg0 hp0]
    simp only
    rw [hch.1]
    simp only
    rw [parseTermLoop_stop O (g + 1) _ _ _ e hch.2 (by simp [he])]
    exact parseExpressionLoop_stop O (g + 2) _ _ _ e hch.2 (by simp [he])

/-- The chain `p0 o1 p1 ... on pn END` with all operators from one precedence
level parses to the left fold. -/
theorem parse_chain {F : Type} (O : FloatOps F) (p0 : Token F)
    (rest : List (Token F × Token F)) (e : Token F)
    (hp0 : p0.isOperand = true) (he : e.type = TokenType.END)
    (hops :
      (∀ x ∈ rest, x.1.type = TokenType.OPERATOR ∧ (x.1.value = "+" ∨ x.1.value = "-") ∧
        x.2.isOperand = true) ∨
      (∀ x ∈ rest, x.1.type = TokenType.OPERATOR ∧ (x.1.value = "*" ∨ x.1.value = "/") ∧
        x.2.isOperand = true) ∨
      (∀ x ∈ rest, x.1.type = TokenType.OPERATOR ∧ (x.1.value = "^") ∧
        x.2.isOperand = true)) :
    parse O (chainTokens p0 rest e) = .ok (leftFold (Node.mk p0 []) rest) := by
  have hty : ∀ x ∈ rest, x.1.type = TokenType.OPERATOR := by
    intro x hx
    rcases hops with h | h | h <;> exact (h x hx).1
  have hlen : (chainTokens p0 rest e).length = 2 * rest.length + 2 := by
    simp only [chainTokens, List.length_cons, List.length_append, List.length_nil,
      flatMap_pair_length]
  obtain ⟨hpe, hget⟩ := parseExpression_chain O p0 rest e
    (4 * (chainTokens p0 rest e).length + 4) hp0 he hops (by omega)
  rw [parse_eq_parseBare_of_operator O p0 rest e hty]
  exact parseBare_of_cursor O _ _ _ e hpe hget he


/-! ## Unfolding `evaluate` by node kind -/

theorem evaluate_eq {F : Type} (O : FloatOps F) (t : Token F) (cs : List (Node F))
    (env : Env F) :
    evaluate O (Node.mk t cs) env
      = evalNode O t (cs.map Node.token) (evaluateChildren O cs) env := by
  rw [evaluate]

theorem evaluate_number {F : Type} (O : FloatOps F) (t : Token F) (cs : List (Node F))
    (env : Env F) (ht : t.type = TokenType.NUMBER) :
    evaluate O (Node.mk t cs) env = (.ok t.numValue, env) := by
  rw [evaluate]
  unfold evalNode
  simp only [ht]

theorem evaluate_variable {F : Type} (O : FloatOps F) (t : Token F) (cs : List (Node F))
    (env : Env F) (ht : t.type = TokenType.VARIABLE) :
    evaluate O (Node.mk t cs) env =
      if t.value = "pi" then (.ok (O.acos O.negOne), env)
      else if t.value = "e" then (.ok (O.exp O.one), env)
      else
        match env t.value with
        | some v => (.ok v, env)
        | none =>
          (.error (Err.runtimeError ("Error: variable '" ++ t.value ++ "' is not defined")), env) := by
  rw [evaluate]
  unfold evalNode
  simp only [ht, beq_iff_eq]

theorem evaluate_add {F : Type} (O : FloatOps F) (t : Token F) (c0 c1 : Node F)
    (cs : List (Node F)) (env : Env F) (ht : t.type = TokenType.OPERATOR) (hv : t.value = "+") :
    evaluate O (Node.mk t (c0 :: c1 :: cs)) env
      = evalBinary (O.leftFirst "+") O.add (evaluate O c0) (evaluate O c1) env := by
  rw [evaluate]
  unfold evalNode
  simp [ht, hv, evaluateChildren]

theorem evaluate_sub {F : Type} (O : FloatOps F) (t : Token F) (c0 c1 : Node F)
    (cs : List (Node F)) (env : Env F) (ht : t.type = TokenType.OPERATOR) (hv : t.value = "-") :
    evaluate O (Node.mk t (c0 :: c1 :: cs)) env
      = evalBinary (O.leftFirst "-") O.sub (evaluate O c0) (evaluate O c1) env := by
  rw [evaluate]
  unfold evalNode
  simp [ht, hv, evaluateChildren]

theorem evaluate_neg {F : Type} (O : FloatOps F) (t : Token F) (c0 : Node F)
    (env : Env F) (ht : t.type = TokenType.OPERATOR) (hv : t.value = "-") :
    evaluate O (Node.mk t [c0]) env = evalUnary O.neg (evaluate O c0 env) := by
  rw [evaluate]
  unfold evalNode
  simp [ht, hv, evaluateChildren]

theorem evaluate_mul {F : Type} (O : FloatOps F) (t : Token F) (c0 c1 : Node F)
    (cs : List (Node F)) (env : Env F) (ht : t.type = TokenType.OPERATOR) (hv : t.value = "*") :
    evaluate O (Node.mk t (c0 :: c1 :: cs)) env
      = evalBinary (O.leftFirst "*") O.mul (evaluate O c0) (evaluate O c1) env := by
  rw [evaluate]
  unfold evalNode
  simp [ht, hv, evaluateChildren]

theorem evaluate_div {F : Type} (O : FloatOps F) (t : Token F) (c0 c1 : Node F)
    (cs : List (Node F)) (env : Env F) (ht : t.type = TokenType.OPERATOR) (hv : t.value = "/") :
    evaluate O (Node.mk t (c0 :: c1 :: cs)) env
      = evalDivide O (evaluate O c0) (evaluate O c1) env := by
  rw [evaluate]
  unfold evalNode
  simp [ht, hv, evaluateChildren]

theorem evaluate_pow {F : Type} (O : FloatOps F) (t : Token F) (c0 c1 : Node F)
    (cs : List (Node F)) (env : Env F) (ht : t.type = TokenType.OPERATOR) (hv : t.value = "^") :
    evaluate O (Node.mk t (c0 :: c1 :: cs)) env
      = evalBinary (O.leftFirst "^") O.pow (evaluate O c0) (evaluate O c1) env := by
  rw [evaluate]
  unfold evalNode
  simp [ht, hv, evaluateChildren]

theorem evaluate_assign {F : Type} (O : FloatOps F) (t t0 : Token F) (cs0 : List (Node F))
    (c1 : Node F) (env : Env F) (ht : t.type = TokenType.EQUAL)
    (ht0 : t0.type = TokenType.VARIABLE) :
    evaluate O (Node.mk t [Node.mk t0 cs0, c1]) env =
      match evaluate O c1 env with
      | (.error e, env1) => (.error e, env1)
      | (.ok v, env1) => (.ok v, env1.set t0.value v) := by
  rw [evaluate]
  unfold evalNode
  simp [ht, ht0, evaluateChildren, Node.token]


theorem tokenize_10_minus_2_minus_3 (lib : FloatOps ℚ) :
    tokenize (exactOps lib) "10 - 2 - 3" = .ok
      [⟨TokenType.NUMBER, "10", 10⟩, ⟨TokenType.OPERATOR, "-", 0⟩, ⟨TokenType.NUMBER, "2", 2⟩,
        ⟨TokenType.OPERATOR, "-", 0⟩, ⟨TokenType.NUMBER, "3", 3⟩, ⟨TokenType.END, "", 0⟩] := by
  simp [tokenize, tokenizeLoop, isspace, isdigit, isalpha, isalnum, scanNumber, scanIdent,
    exactOps, stodExact, digitsValue, backIsNumber, isFunctionName, String.singleton]
  decide

theorem eval_10_minus_2_minus_3 (lib : FloatOps ℚ) (env : Env ℚ) :
    evaluateExpression (exactOps lib) "10 - 2 - 3" env = (.ok 5, env) := by
  have hparse : parse (exactOps lib)
      [⟨TokenType.NUMBER, "10", 10⟩, ⟨TokenType.OPERATOR, "-", 0⟩, ⟨TokenType.NUMBER, "2", 2⟩,
        ⟨TokenType.OPERATOR, "-", 0⟩, ⟨TokenType.NUMBER, "3", 3⟩, ⟨TokenType.END, "", 0⟩]
      = .ok (Node.mk ⟨TokenType.OPERATOR, "-", 0⟩
          [Node.mk ⟨TokenType.OPERATOR, "-", 0⟩
            [Node.mk ⟨TokenType.NUMBER, "10", 10⟩ [], Node.mk ⟨TokenType.NUMBER, "2", 2⟩ []],
           Node.mk ⟨TokenType.NUMBER, "3", 3⟩ []]) := rfl
  simp only [evaluateExpression, tokenize_10_minus_2_minus_3, hparse]
  simp [evaluate_sub, evaluate_pow, evaluate_number, evalBinary]
  simp [exactOps]
  norm_num

theorem tokenize_2_pow_3_pow_2 (lib : FloatOps ℚ) :
    tokenize (exactOps lib) "2^3^2" = .ok
      [⟨TokenType.NUMBER, "2", 2⟩, ⟨TokenType.OPERATOR, "^", 0⟩, ⟨TokenType.NUMBER, "3", 3⟩,
        ⟨TokenType.OPERATOR, "^", 0⟩, ⟨TokenType.NUMBER, "2", 2⟩, ⟨TokenType.END, "", 0⟩] := by
  simp [tokenize, tokenizeLoop, isspace, isdigit, isalpha, isalnum, scanNumber, scanIdent,
    exactOps, stodExact, digitsValue, backIsNumber, isFunctionName, String.singleton]
  decide

theorem eval_2_pow_3_pow_2 (lib : FloatOps ℚ) (env : Env ℚ) :
    evaluateExpression (exactOps lib) "2^3^2" env = (.ok 64, env) := by
  have hparse : parse (exactOps lib)
      [⟨TokenType.NUMBER, "2", 2⟩, ⟨TokenType.OPERATOR, "^", 0⟩, ⟨TokenType.NUMBER, "3", 3⟩,
        ⟨TokenType.OPERATOR, "^", 0⟩, ⟨TokenType.NUMBER, "2", 2⟩, ⟨TokenType.END, "", 0⟩]
      = .ok (Node.mk ⟨TokenType.OPERATOR, "^", 0⟩
          [Node.mk ⟨TokenType.OPERATOR, "^", 0⟩
            [Node.mk ⟨TokenType.NUMBER, "2", 2⟩ [], Node.mk ⟨TokenType.NUMBER, "3", 3⟩ []],
           Node.mk ⟨TokenType.NUMBER, "2", 2⟩ []]) := rfl
  simp only [evaluateExpression, tokenize_2_pow_3_pow_2, hparse]
  simp [evaluate_sub, evaluate_pow, evaluate_number, evalBinary]
  simp [exactOps]
  norm_num

/-- C2 (left folds): for every operand `p0`, every list of (operator, operand)
pairs whose operators all come from `+ -`, or all from `* /`, or are all `^`,
and every final END token, `parse` of `p0 o1 p1 ... on pn END` returns the
left fold `on(...o1(p0, p1)..., pn)`; and in exact arithmetic evaluating
`"10 - 2 - 3"` yields 5 and `"2^3^2"` yields 64. -/
theorem C2_left_fold :
    (∀ (F : Type) (O : FloatOps F) (p0 : Token F) (rest : List (Token F × Token F))
      (e : Token F),
      p0.isOperand = true → e.type = TokenType.END →
      ((∀ x ∈ rest, x.1.type = TokenType.OPERATOR ∧ (x.1.value = "+" ∨ x.1.value = "-") ∧
          x.2.isOperand = true) ∨
        (∀ x ∈ rest, x.1.type = TokenType.OPERATOR ∧ (x.1.value = "*" ∨ x.1.value = "/") ∧
          x.2.isOperand = true) ∨
        (∀ x ∈ rest, x.1.type = TokenType.OPERATOR ∧ (x.1.value = "^") ∧
          x.2.isOperand = true)) →
      parse O (chainTokens p0 rest e) = .ok (leftFold (Node.mk p0 []) rest)) ∧
    (∀ (lib : FloatOps ℚ) (env : Env ℚ),
      evaluateExpression (exactOps lib) "10 - 2 - 3" env = (.ok 5, env)) ∧
    (∀ (lib : FloatOps ℚ) (env : Env ℚ),
      evaluateExpression (exactOps lib) "2^3^2" env = (.ok 64, env)) :=
  ⟨fun _ O p0 rest e hp0 he hops => parse_chain O p0 rest e hp0 he hops,
    eval_10_minus_2_minus_3, eval_2_pow_3_pow_2⟩

/-- C2 witness: the tokens of `10 - 2 - 3` parse to `-(-(10, 2), 3)`. -/
theorem C2_witness :
    parse ratOps
      [⟨TokenType.NUMBER, "10", 10⟩, ⟨TokenType.OPERATOR, "-", 0⟩, ⟨TokenType.NUMBER, "2", 2⟩,
        ⟨TokenType.OPERATOR, "-", 0⟩, ⟨TokenType.NUMBER, "3", 3⟩, ⟨TokenType.END, "", 0⟩]
      = .ok (Node.mk ⟨TokenType.OPERATOR, "-", 0⟩
          [Node.mk ⟨TokenType.OPERATOR, "-", 0⟩
            [Node.mk ⟨TokenType.NUMBER, "10", 10⟩ [], Node.mk ⟨TokenType.NUMBER, "2", 2⟩ []],
           Node.mk ⟨TokenType.NUMBER, "3", 3⟩ []]) :=
  C2_left_fold.1 ℚ ratOps ⟨TokenType.NUMBER, "10", 10⟩
    [(⟨TokenType.OPERATOR, "-", 0⟩, ⟨TokenType.NUMBER, "2", 2⟩),
      (⟨TokenType.OPERATOR, "-", 0⟩, ⟨TokenType.NUMBER, "3", 3⟩)]
    ⟨TokenType.END, "", 0⟩ rfl rfl (Or.inl (by simp [Token.isOperand]))


theorem isOperand_cases {F : Type} {t : Token F} (h : t.isOperand = true) :
    t.type = TokenType.NUMBER ∨ t.type = TokenType.VARIABLE := by
  simpa [Token.isOperand] using h

theorem parseFactor_operand_get {F : Type} (O : FloatOps F) (fuel : Nat)
    (tokens : List (Token F)) (pos : Nat) (hlt : pos < tokens.length)
    (hp : (tokens[pos]).isOperand = true) :
    parseFactor O (fuel + 1) tokens pos = .ok (Node.mk tokens[pos] [], pos + 1) :=
  parseFactor_operand O fuel tokens pos _ (List.getElem?_eq_getElem hlt) hp

/-- The explicit form of `parseBare` for any budget that yields a result. -/
theorem parseBare_of_parseExpression {F : Type} (O : FloatOps F) (tokens : List (Token F))
    (fuel : Nat) (root : Node F) (pos : Nat) (e : Token F)
    (h : parseExpression O fuel tokens 0 = .ok (root, pos))
    (hget : tokens[pos]? = some e) (he : e.type = TokenType.END) :
    parse.parseBare O tokens = .ok root :=
  parseBare_of_cursor O tokens root pos e
    (parseExpression_fuel_indep O tokens 0 fuel _ _ h (by simp) (by omega)) hget he

theorem parse_add_mul {F : Type} (O : FloatOps F) (a b c plus times e : Token F)
    (ha : a.isOperand = true) (hb : b.isOperand = true) (hc : c.isOperand = true)
    (hplus : plus.type = TokenType.OPERATOR ∧ plus.value = "+")
    (htimes : times.type = TokenType.OPERATOR ∧ times.value = "*")
    (he : e.type = TokenType.END) :
    parse O [a, plus, b, times, c, e]
      = .ok (Node.mk plus [Node.mk a [], Node.mk times [Node.mk b [], Node.mk c []]]) := by
  obtain ⟨hp1, hp2⟩ := hplus
  obtain ⟨ht1, ht2⟩ := htimes
  have hbare : parse O [a, plus, b, times, c, e] = parse.parseBare O [a, plus, b, times, c, e] := by
    simp [parse, hp1]
  rw [hbare]
  refine parseBare_of_parseExpression O _ 10 _ 5 e ?_ (by simp) he
  simp [parseExpression, parseExpressionLoop, parseTerm, parseTermLoop,
      parsePower, parsePowerLoop, parseFactor_operand_get, ha, hb, hc,
      hp1, hp2, ht1, ht2, he]

theorem parseFactor_paren_get {F : Type} (O : FloatOps F) (fuel : Nat)
    (tokens : List (Token F)) (pos : Nat) (hlt : pos < tokens.length)
    (hp : (tokens[pos]).type = TokenType.PAREN_OPEN) :
    parseFactor O (fuel + 1) tokens pos =
      match parseExpression O fuel tokens (pos + 1) with
      | .error e => .error e
      | .ok (node, p) =>
        match tokens[p]? with
        | none => .error Err.outOfBounds
        | some t1 =>
          if t1.type != TokenType.PAREN_CLOSE then
            .error (Err.runtimeError "Error: expected closing parenthesis")
          else .ok (node, p + 1) := by
  have hdrop : tokens.drop pos = tokens[pos] :: tokens.drop (pos + 1) :=
    List.drop_eq_getElem_cons hlt
  have hnm : (tokens[pos]).isOp "-" = false := by simp [Token.isOp, hp]
  rw [parseFactor, hdrop]
  simp only [skipMinus, hnm]
  simp [List.getElem?_eq_getElem hlt, hp, wrapMinus]

theorem parse_mul_add {F : Type} (O : FloatOps F) (a b c plus times e : Token F)
    (ha : a.isOperand = true) (hb : b.isOperand = true) (hc : c.isOperand = true)
    (hplus : plus.type = TokenType.OPERATOR ∧ plus.value = "+")
    (htimes : times.type = TokenType.OPERATOR ∧ times.value = "*")
    (he : e.type = TokenType.END) :
    parse O [a, times, b, plus, c, e]
      = .ok (Node.mk plus [Node.mk times [Node.mk a [], Node.mk b []], Node.mk c []]) := by
  obtain ⟨hp1, hp2⟩ := hplus
  obtain ⟨ht1, ht2⟩ := htimes
  have hbare : parse O [a, times, b, plus, c, e] = parse.parseBare O [a, times, b, plus, c, e] := by
    simp [parse, ht1]
  rw [hbare]
  refine parseBare_of_parseExpression O _ 10 _ 5 e ?_ (by simp) he
  simp [parseExpression, parseExpressionLoop, parseTerm, parseTermLoop,
      parsePower, parsePowerLoop, parseFactor_operand_get, ha, hb, hc,
      hp1, hp2, ht1, ht2, he]

theorem parse_mul_pow {F : Type} (O : FloatOps F) (a b c times pw e : Token F)
    (ha : a.isOperand = true) (hb : b.isOperand = true) (hc : c.isOperand = true)
    (htimes : times.type = TokenType.OPERATOR ∧ times.value = "*")
    (hpw : pw.type = TokenType.OPERATOR ∧ pw.value = "^")
    (he : e.type = TokenType.END) :
    parse O [a, times, b, pw, c, e]
      = .ok (Node.mk times [Node.mk a [], Node.mk pw [Node.mk b [], Node.mk c []]]) := by
  obtain ⟨hp1, hp2⟩ := hpw
  obtain ⟨ht1, ht2⟩ := htimes
  have hbare : parse O [a, times, b, pw, c, e] = parse.parseBare O [a, times, b, pw, c, e] := by
    simp [parse, ht1]
  rw [hbare]
  refine parseBare_of_parseExpression O _ 10 _ 5 e ?_ (by simp) he
  simp [parseExpression, parseExpressionLoop, parseTerm, parseTermLoop,
      parsePower, parsePowerLoop, parseFactor_operand_get, ha, hb, hc,
      hp1, hp2, ht1, ht2, he]

theorem parse_paren_add_mul {F : Type} (O : FloatOps F) (a b c plus times lp rp e : Token F)
    (ha : a.isOperand = true) (hb : b.isOperand = true) (hc : c.isOperand = true)
    (hplus : plus.type = TokenType.OPERATOR ∧ plus.value = "+")
    (htimes : times.type = TokenType.OPERATOR ∧ times.value = "*")
    (hlp : lp.type = TokenType.PAREN_OPEN) (hrp : rp.type = TokenType.PAREN_CLOSE)
    (he : e.type = TokenType.END) :
    parse O [lp, a, plus, b, rp, times, c, e]
      = .ok (Node.mk times [Node.mk plus [Node.mk a [], Node.mk b []], Node.mk c []]) := by
  obtain ⟨hp1, hp2⟩ := hplus
  obtain ⟨ht1, ht2⟩ := htimes
  have hbare : parse O [lp, a, plus, b, rp, times, c, e]
      = parse.parseBare O [lp, a, plus, b, rp, times, c, e] := by
    rcases isOperand_cases ha with ha | ha <;> simp [parse, ha]
  rw [hbare]
  refine parseBare_of_parseExpression O _ 10 _ 7 e ?_ (by simp) he
  simp [parseExpression, parseExpressionLoop, parseTerm, parseTermLoop,
      parsePower, parsePowerLoop, parseFactor_operand_get, parseFactor_paren_get, ha, hb, hc,
      hp1, hp2, ht1, ht2, he, hlp, hrp]

theorem parseText_2_mul_paren_minus_1 (lib : FloatOps ℚ) :
    parseText (exactOps lib) "2 * (3 + 4) - 1" = .ok
      (Node.mk ⟨TokenType.OPERATOR, "-", 0⟩
        [Node.mk ⟨TokenType.OPERATOR, "*", 0⟩
          [Node.mk ⟨TokenType.NUMBER, "2", 2⟩ [],
           Node.mk ⟨TokenType.OPERATOR, "+", 0⟩
            [Node.mk ⟨TokenType.NUMBER, "3", 3⟩ [], Node.mk ⟨TokenType.NUMBER, "4", 4⟩ []]],
         Node.mk ⟨TokenType.NUMBER, "1", 1⟩ []]) := by
  have htok : tokenize (exactOps lib) "2 * (3 + 4) - 1" = .ok
      [⟨TokenType.NUMBER, "2", 2⟩, ⟨TokenType.OPERATOR, "*", 0⟩, ⟨TokenType.PAREN_OPEN, "(", 0⟩,
        ⟨TokenType.NUMBER, "3", 3⟩, ⟨TokenType.OPERATOR, "+", 0⟩, ⟨TokenType.NUMBER, "4", 4⟩,
        ⟨TokenType.PAREN_CLOSE, ")", 0⟩, ⟨TokenType.OPERATOR, "-", 0⟩,
        ⟨TokenType.NUMBER, "1", 1⟩, ⟨TokenType.END, "", 0⟩] := by
    simp [tokenize, tokenizeLoop, isspace, isdigit, isalpha, isalnum, scanNumber, scanIdent,
      exactOps, stodExact, digitsValue, backIsNumber, isFunctionName, String.singleton]
    decide
  rw [parseText, htok]
  rfl

theorem eval_paren_2_plus_3_mul_4 (lib : FloatOps ℚ) (env : Env ℚ) :
    evaluateExpression (exactOps lib) "(2 + 3) * 4" env = (.ok 20, env) := by
  have htok : tokenize (exactOps lib) "(2 + 3) * 4" = .ok
      [⟨TokenType.PAREN_OPEN, "(", 0⟩, ⟨TokenType.NUMBER, "2", 2⟩, ⟨TokenType.OPERATOR, "+", 0⟩,
        ⟨TokenType.NUMBER, "3", 3⟩, ⟨TokenType.PAREN_CLOSE, ")", 0⟩,
        ⟨TokenType.OPERATOR, "*", 0⟩, ⟨TokenType.NUMBER, "4", 4⟩, ⟨TokenType.END, "", 0⟩] := by
    simp [tokenize, tokenizeLoop, isspace, isdigit, isalpha, isalnum, scanNumber, scanIdent,
      exactOps, stodExact, digitsValue, backIsNumber, isFunctionName, String.singleton]
    decide
  have hparse : parse (exactOps lib)
      [⟨TokenType.PAREN_OPEN, "(", 0⟩, ⟨TokenType.NUMBER, "2", 2⟩, ⟨TokenType.OPERATOR, "+", 0⟩,
        ⟨TokenType.NUMBER, "3", 3⟩, ⟨TokenType.PAREN_CLOSE, ")", 0⟩,
        ⟨TokenType.OPERATOR, "*", 0⟩, ⟨TokenType.NUMBER, "4", 4⟩, ⟨TokenType.END, "", 0⟩]
      = .ok (Node.mk ⟨TokenType.OPERATOR, "*", 0⟩
          [Node.mk ⟨TokenType.OPERATOR, "+", 0⟩
            [Node.mk ⟨TokenType.NUMBER, "2", 2⟩ [], Node.mk ⟨TokenType.NUMBER, "3", 3⟩ []],
           Node.mk ⟨TokenType.NUMBER, "4", 4⟩ []]) := rfl
  simp only [evaluateExpression, htok, hparse]
  simp [evaluate_add, evaluate_mul, evaluate_number, evalBinary]
  simp [exactOps]
  norm_num

theorem eval_2_mul_paren_3_plus_4 (lib : FloatOps ℚ) (env : Env ℚ) :
    evaluateExpression (exactOps lib) "2 * (3 + 4)" env = (.ok 14, env) := by
  have htok : tokenize (exactOps lib) "2 * (3 + 4)" = .ok
      [⟨TokenType.NUMBER, "2", 2⟩, ⟨TokenType.OPERATOR, "*", 0⟩, ⟨TokenType.PAREN_OPEN, "(", 0⟩,
        ⟨TokenType.NUMBER, "3", 3⟩, ⟨TokenType.OPERATOR, "+", 0⟩, ⟨TokenType.NUMBER, "4", 4⟩,
        ⟨TokenType.PAREN_CLOSE, ")", 0⟩, ⟨TokenType.END, "", 0⟩] := by
    simp [tokenize, tokenizeLoop, isspace, isdigit, isalpha, isalnum, scanNumber, scanIdent,
      exactOps, stodExact, digitsValue, backIsNumber, isFunctionName, String.singleton]
    decide
  have hparse : parse (exactOps lib)
      [⟨TokenType.NUMBER, "2", 2⟩, ⟨TokenType.OPERATOR, "*", 0⟩, ⟨TokenType.PAREN_OPEN, "(", 0⟩,
        ⟨TokenType.NUMBER, "3", 3⟩, ⟨TokenType.OPERATOR, "+", 0⟩, ⟨TokenType.NUMBER, "4", 4⟩,
        ⟨TokenType.PAREN_CLOSE, ")", 0⟩, ⟨TokenType.END, "", 0⟩]
      = .ok (Node.mk ⟨TokenType.OPERATOR, "*", 0⟩
          [Node.mk ⟨TokenType.NUMBER, "2", 2⟩ [],
           Node.mk ⟨TokenType.OPERATOR, "+", 0⟩
            [Node.mk ⟨TokenType.NUMBER, "3", 3⟩ [], Node.mk ⟨TokenType.NUMBER, "4", 4⟩ []]]) := rfl
  simp only [evaluateExpression, htok, hparse]
  simp [evaluate_add, evaluate_mul, evaluate_number, evalBinary]
  simp [exactOps]
  norm_num

/-- C3 (precedence): for all operand tokens `a b c`, `a + b * c` parses to
`+(a, *(b, c))`, `a * b + c` to `+(*(a, b), c)`, `a * b ^ c` to `*(a, ^(b, c))`
and `(a + b) * c` to `*(+(a, b), c)`; the root of `"2 * (3 + 4) - 1"` is the
`-` operator with two children; in exact arithmetic `"(2 + 3) * 4"` evaluates
to 20 and `"2 * (3 + 4)"` to 14. -/
theorem C3_precedence :
    (∀ (F : Type) (O : FloatOps F) (a b c plus times pw lp rp e : Token F),
      a.isOperand = true → b.isOperand = true → c.isOperand = true →
      plus.type = TokenType.OPERATOR ∧ plus.value = "+" →
      times.type = TokenType.OPERATOR ∧ times.value = "*" →
      pw.type = TokenType.OPERATOR ∧ pw.value = "^" →
      lp.type = TokenType.PAREN_OPEN → rp.type = TokenType.PAREN_CLOSE →
      e.type = TokenType.END →
      parse O [a, plus, b, times, c, e]
        = .ok (Node.mk plus [Node.mk a [], Node.mk times [Node.mk b [], Node.mk c []]]) ∧
      parse O [a, times, b, plus, c, e]
        = .ok (Node.mk plus [Node.mk times [Node.mk a [], Node.mk b []], Node.mk c []]) ∧
      parse O [a, times, b, pw, c, e]
        = .ok (Node.mk times [Node.mk a [], Node.mk pw [Node.mk b [], Node.mk c []]]) ∧
      parse O [lp, a, plus, b, rp, times, c, e]
        = .ok (Node.mk times [Node.mk plus [Node.mk a [], Node.mk b []], Node.mk c []])) ∧
    (∀ (lib : FloatOps ℚ), ∃ root,
      parseText (exactOps lib) "2 * (3 + 4) - 1" = .ok root ∧
      root.token.type = TokenType.OPERATOR ∧ root.token.value = "-" ∧
      root.children.length = 2) ∧
    (∀ (lib : FloatOps ℚ) (env : Env ℚ),
      evaluateExpression (exactOps lib) "(2 + 3) * 4" env = (.ok 20, env)) ∧
    (∀ (lib : FloatOps ℚ) (env : Env ℚ),
      evaluateExpression (exactOps lib) "2 * (3 + 4)" env = (.ok 14, env)) :=
  ⟨fun _ O a b c plus times pw lp rp e ha hb hc hplus htimes hpw hlp hrp he =>
      ⟨parse_add_mul O a b c plus times e ha hb hc hplus htimes he,
        parse_mul_add O a b c plus times e ha hb hc hplus htimes he,
        parse_mul_pow O a b c times pw e ha hb hc htimes hpw he,
        parse_paren_add_mul O a b c plus times lp rp e ha hb hc hplus htimes hlp hrp he⟩,
    fun lib => ⟨_, parseText_2_mul_paren_minus_1 lib, rfl, rfl, rfl⟩,
    eval_paren_2_plus_3_mul_4, eval_2_mul_paren_3_plus_4⟩

/-- C3 witness: on concrete tokens, `x + 2 * 3` parses to `+(x, *(2, 3))`. -/
theorem C3_witness :
    parse ratOps
      [⟨TokenType.VARIABLE, "x", 0⟩, ⟨TokenType.OPERATOR, "+", 0⟩, ⟨TokenType.NUMBER, "2", 2⟩,
        ⟨TokenType.OPERATOR, "*", 0⟩, ⟨TokenType.NUMBER, "3", 3⟩, ⟨TokenType.END, "", 0⟩]
      = .ok (Node.mk ⟨TokenType.OPERATOR, "+", 0⟩
          [Node.mk ⟨TokenType.VARIABLE, "x", 0⟩ [],
           Node.mk ⟨TokenType.OPERATOR, "*", 0⟩
            [Node.mk ⟨TokenType.NUMBER, "2", 2⟩ [], Node.mk ⟨TokenType.NUMBER, "3", 3⟩ []]]) :=
  (C3_precedence.1 ℚ ratOps ⟨TokenType.VARIABLE, "x", 0⟩ ⟨TokenType.NUMBER, "2", 2⟩
    ⟨TokenType.NUMBER, "3", 3⟩ ⟨TokenType.OPERATOR, "+", 0⟩ ⟨TokenType.OPERATOR, "*", 0⟩
    ⟨TokenType.OPERATOR, "^", 0⟩ ⟨TokenType.PAREN_OPEN, "(", 0⟩ ⟨TokenType.PAREN_CLOSE, ")", 0⟩
    ⟨TokenType.END, "", 0⟩ rfl rfl rfl ⟨rfl, rfl⟩ ⟨rfl, rfl⟩ ⟨rfl, rfl⟩ rfl rfl rfl).1


/-! ## Unary minus -/

theorem skipMinus_run {F : Type} (ms : List (Token F)) (t : Token F) (rest : List (Token F))
    (hms : ∀ m ∈ ms, m.isOp "-" = true) (ht : t.isOp "-" = false) :
    ∀ (b : Bool) (pos : Nat),
      skipMinus (ms ++ t :: rest) b pos
        = .ok (if ms.length % 2 = 1 then !b else b, pos + ms.length) := by
  induction ms with
  | nil =>
    intro b pos
    simp [skipMinus, ht]
  | cons m ms ih =>
    intro b pos
    have hm := hms m (List.mem_cons_self _ _)
    have ih' := ih (fun x hx => hms x (List.mem_cons_of_mem _ hx)) (!b) (pos + 1)
    rw [List.cons_append, skipMinus, if_pos hm, ih']
    simp only [List.length_cons]
    rcases Nat.mod_two_eq_zero_or_one ms.length with h | h
    · have h2 : (ms.length + 1) % 2 = 1 := by omega
      simp [h, h2]
      omega
    · have h2 : (ms.length + 1) % 2 = 0 := by omega
      simp [h, h2]
      omega

/-- `parseFactor` is the skipping of the leading minus signs followed by
`parseFactor` at the first token that is not a minus sign, with the wrapper
decided by the parity flag. -/
theorem parseFactor_skip {F : Type} (O : FloatOps F) (fuel : Nat) (tokens : List (Token F))
    (pos p : Nat) (um : Bool) (t : Token F)
    (hskip : skipMinus (tokens.drop pos) false pos = .ok (um, p))
    (hget : tokens[p]? = some t) (ht : t.isOp "-" = false) :
    parseFactor O (fuel + 1) tokens pos =
      match parseFactor O (fuel + 1) tokens p with
      | .error e => .error e
      | .ok (node, p') => .ok (wrapMinus O um node, p') := by
  have hlt := lt_length_of_getElem? hget
  have hdrop : tokens.drop p = t :: tokens.drop (p + 1) := by
    rw [List.drop_eq_getElem_cons hlt]
    congr 1
    have := List.getElem?_eq_getElem hlt
    rw [this] at hget
    exact Option.some.inj hget
  have hskip' : skipMinus (tokens.drop p) false p = .ok (false, p) := by
    rw [hdrop]
    simp [skipMinus, ht]
  rw [parseFactor, parseFactor, hskip, hskip']
  simp only [hget]
  repeat' split
  all_goals simp_all [wrapMinus]

theorem parseFactor_minus_run {F : Type} (O : FloatOps F) (fuel : Nat)
    (tokens : List (Token F)) (pos : Nat) (ms : List (Token F)) (t : Token F)
    (rest : List (Token F)) (hdrop : tokens.drop pos = ms ++ t :: rest)
    (hms : ∀ m ∈ ms, m.isOp "-" = true) (ht : t.isOp "-" = false) :
    parseFactor O (fuel + 1) tokens pos =
      match parseFactor O (fuel + 1) tokens (pos + ms.length) with
      | .error e => .error e
      | .ok (node, p') =>
        .ok (if ms.length % 2 = 1 then Node.mk ⟨TokenType.OPERATOR, "-", O.zero⟩ [node]
          else node, p') := by
  have hskip : skipMinus (tokens.drop pos) false pos
      = .ok (if ms.length % 2 = 1 then true else false, pos + ms.length) := by
    rw [hdrop, skipMinus_run ms t rest hms ht false pos]
    simp
  have hget : tokens[pos + ms.length]? = some t := by
    have := List.getElem?_drop tokens pos ms.length
    rw [hdrop] at this
    rw [← this, List.getElem?_append_right (Nat.le_refl _)]
    simp
  rw [parseFactor_skip O fuel tokens pos _ _ t hskip hget ht]
  rcases Nat.mod_two_eq_zero_or_one ms.length with h | h <;> simp [h, wrapMinus]

theorem parse_eq_parseBare_of_first {F : Type} (O : FloatOps F) (tokens : List (Token F))
    (t0 : Token F) (h0 : tokens[0]? = some t0) (hty : t0.type ≠ TokenType.VARIABLE) :
    parse O tokens = parse.parseBare O tokens := by
  unfold parse
  split
  · rename_i a b c d
    simp only [List.getElem?_cons_zero, Option.some.injEq] at h0
    subst h0
    simp [hty]
  · rfl

theorem parse_minus_run_operand {F : Type} (O : FloatOps F) (ms : List (Token F))
    (p e : Token F) (hms : ∀ m ∈ ms, m.isOp "-" = true) (hp : p.isOperand = true)
    (he : e.type = TokenType.END) :
    parse O (ms ++ [p, e])
      = .ok (if ms.length % 2 = 1 then Node.mk ⟨TokenType.OPERATOR, "-", O.zero⟩ [Node.mk p []]
          else Node.mk p []) := by
  have hpm : p.isOp "-" = false := by
    rcases isOperand_cases hp with h | h <;> simp [Token.isOp, h]
  have hbare : parse O (ms ++ [p, e]) = parse.parseBare O (ms ++ [p, e]) := by
    cases ms with
    | nil => simp [parse]
    | cons m ms =>
      have hm : m.type = TokenType.OPERATOR := by
        have := hms m (List.mem_cons_self _ _)
        simp only [Token.isOp, Bool.and_eq_true, beq_iff_eq] at this
        exact this.1
      exact parse_eq_parseBare_of_first O _ m (by simp) (by simp [hm])
  have hgp : (ms ++ [p, e])[ms.length]? = some p := by
    rw [List.getElem?_append_right (Nat.le_refl _)]
    simp
  have hge : (ms ++ [p, e])[ms.length + 1]? = some e := by
    rw [List.getElem?_append_right (by omega)]
    simp
  have hf : parseFactor O (0 + 1) (ms ++ [p, e]) 0
      = .ok (if ms.length % 2 = 1 then Node.mk ⟨TokenType.OPERATOR, "-", O.zero⟩ [Node.mk p []]
          else Node.mk p [], ms.length + 1) := by
    rw [parseFactor_minus_run O 0 (ms ++ [p, e]) 0 ms p [e] (by simp) hms hpm]
    simp only [Nat.zero_add]
    rw [parseFactor_operand O 0 _ _ p hgp hp]
  rw [hbare]
  refine parseBare_of_parseExpression O _ 4 _ (ms.length + 1) e ?_ hge he
  rw [parseExpression, parseTerm, parsePower, hf]
  simp only
  rw [parsePowerLoop_stop O 0 _ _ _ e hge (by simp [he])]
  simp only
  rw [parseTermLoop_stop O 1 _ _ _ e hge (by simp [he])]
  exact parseExpressionLoop_stop O 2 _ _ _ e hge (by simp [he])

theorem tokenize_minus_minus_5 (lib : FloatOps ℚ) :
    tokenize (exactOps lib) "--5" = .ok
      [⟨TokenType.OPERATOR, "-", 0⟩, ⟨TokenType.OPERATOR, "-", 0⟩, ⟨TokenType.NUMBER, "5", 5⟩,
       ⟨TokenType.END, "", 0⟩] := by
  simp [tokenize, tokenizeLoop, isspace, isdigit, isalpha, isalnum, scanNumber, scanIdent,
      exactOps, stodExact, digitsValue, backIsNumber, isFunctionName, String.singleton]
  decide

theorem eval_minus_minus_5 (lib : FloatOps ℚ) (env : Env ℚ) :
    evaluateExpression (exactOps lib) "--5" env = (.ok (5), env) := by
  have hparse : parse (exactOps lib)
      [⟨TokenType.OPERATOR, "-", 0⟩, ⟨TokenType.OPERATOR, "-", 0⟩, ⟨TokenType.NUMBER, "5", 5⟩,
       ⟨TokenType.END, "", 0⟩]
      = .ok (Node.mk ⟨TokenType.NUMBER, "5", 5⟩ []) := rfl
  simp only [evaluateExpression, tokenize_minus_minus_5, hparse]
  simp [evaluate_number]

theorem tokenize_minus3_5 (lib : FloatOps ℚ) :
    tokenize (exactOps lib) "---5" = .ok
      [⟨TokenType.OPERATOR, "-", 0⟩, ⟨TokenType.OPERATOR, "-", 0⟩, ⟨TokenType.OPERATOR, "-", 0⟩,
       ⟨TokenType.NUMBER, "5", 5⟩, ⟨TokenType.END, "", 0⟩] := by
  simp [tokenize, tokenizeLoop, isspace, isdigit, isalpha, isalnum, scanNumber, scanIdent,
      exactOps, stodExact, digitsValue, backIsNumber, isFunctionName, String.singleton]
  decide

theorem eval_minus3_5 (lib : FloatOps ℚ) (env : Env ℚ) :
    evaluateExpression (exactOps lib) "---5" env = (.ok (-5), env) := by
  have hparse : parse (exactOps lib)
      [⟨TokenType.OPERATOR, "-", 0⟩, ⟨TokenType.OPERATOR, "-", 0⟩, ⟨TokenType.OPERATOR, "-", 0⟩,
       ⟨TokenType.NUMBER, "5", 5⟩, ⟨TokenType.END, "", 0⟩]
      = .ok (Node.mk ⟨TokenType.OPERATOR, "-", 0⟩
        [Node.mk ⟨TokenType.NUMBER, "5", 5⟩ []]) := rfl
  simp only [evaluateExpression, tokenize_minus3_5, hparse]
  simp [evaluate_neg, evaluate_number, evalUnary]
  simp [exactOps]

theorem tokenize_minus_5 (lib : FloatOps ℚ) :
    tokenize (exactOps lib) "-5" = .ok
      [⟨TokenType.OPERATOR, "-", 0⟩, ⟨TokenType.NUMBER, "5", 5⟩, ⟨TokenType.END, "", 0⟩] := by
  simp [tokenize, tokenizeLoop, isspace, isdigit, isalpha, isalnum, scanNumber, scanIdent,
      exactOps, stodExact, digitsValue, backIsNumber, isFunctionName, String.singleton]
  decide

theorem eval_minus_5 (lib : FloatOps ℚ) (env : Env ℚ) :
    evaluateExpression (exactOps lib) "-5" env = (.ok (-5), env) := by
  have hparse : parse (exactOps lib)
      [⟨TokenType.OPERATOR, "-", 0⟩, ⟨TokenType.NUMBER, "5", 5⟩, ⟨TokenType.END, "", 0⟩]
      = .ok (Node.mk ⟨TokenType.OPERATOR, "-", 0⟩
        [Node.mk ⟨TokenType.NUMBER, "5", 5⟩ []]) := rfl
  simp only [evaluateExpression, tokenize_minus_5, hparse]
  simp [evaluate_neg, evaluate_number, evalUnary]
  simp [exactOps]

theorem tokenize_5_minus_minus_5 (lib : FloatOps ℚ) :
    tokenize (exactOps lib) "5 - -5" = .ok
      [⟨TokenType.NUMBER, "5", 5⟩, ⟨TokenType.OPERATOR, "-", 0⟩, ⟨TokenType.OPERATOR, "-", 0⟩,
       ⟨TokenType.NUMBER, "5", 5⟩, ⟨TokenType.END, "", 0⟩] := by
  simp [tokenize, tokenizeLoop, isspace, isdigit, isalpha, isalnum, scanNumber, scanIdent,
      exactOps, stodExact, digitsValue, backIsNumber, isFunctionName, String.singleton]
  decide

theorem eval_5_minus_minus_5 (lib : FloatOps ℚ) (env : Env ℚ) :
    evaluateExpression (exactOps lib) "5 - -5" env = (.ok (10), env) := by
  have hparse : parse (exactOps lib)
      [⟨TokenType.NUMBER, "5", 5⟩, ⟨TokenType.OPERATOR, "-", 0⟩, ⟨TokenType.OPERATOR, "-", 0⟩,
       ⟨TokenType.NUMBER, "5", 5⟩, ⟨TokenType.END, "", 0⟩]
      = .ok (Node.mk ⟨TokenType.OPERATOR, "-", 0⟩
        [Node.mk ⟨TokenType.NUMBER, "5", 5⟩ [],
         Node.mk ⟨TokenType.OPERATOR, "-", 0⟩
          [Node.mk ⟨TokenType.NUMBER, "5", 5⟩ []]]) := rfl
  simp only [evaluateExpression, tokenize_5_minus_minus_5, hparse]
  simp [evaluate_sub, evaluate_neg, evaluate_number, evalUnary, evalBinary]
  simp [exactOps]
  norm_num

theorem tokenize_minus_paren_2_plus_3 (lib : FloatOps ℚ) :
    tokenize (exactOps lib) "-(2 + 3)" = .ok
      [⟨TokenType.OPERATOR, "-", 0⟩, ⟨TokenType.PAREN_OPEN, "(", 0⟩, ⟨TokenType.NUMBER, "2", 2⟩,
       ⟨TokenType.OPERATOR, "+", 0⟩, ⟨TokenType.NUMBER, "3", 3⟩, ⟨TokenType.PAREN_CLOSE, ")", 0⟩,
       ⟨TokenType.END, "", 0⟩] := by
  simp [tokenize, tokenizeLoop, isspace, isdigit, isalpha, isalnum, scanNumber, scanIdent,
      exactOps, stodExact, digitsValue, backIsNumber, isFunctionName, String.singleton]
  decide

theorem eval_minus_paren_2_plus_3 (lib : FloatOps ℚ) (env : Env ℚ) :
    evaluateExpression (exactOps lib) "-(2 + 3)" env = (.ok (-5), env) := by
  have hparse : parse (exactOps lib)
      [⟨TokenType.OPERATOR, "-", 0⟩, ⟨TokenType.PAREN_OPEN, "(", 0⟩, ⟨TokenType.NUMBER, "2", 2⟩,
       ⟨TokenType.OPERATOR, "+", 0⟩, ⟨TokenType.NUMBER, "3", 3⟩, ⟨TokenType.PAREN_CLOSE, ")", 0⟩,
       ⟨TokenType.END, "", 0⟩]
      = .ok (Node.mk ⟨TokenType.OPERATOR, "-", 0⟩
        [Node.mk ⟨TokenType.OPERATOR, "+", 0⟩
          [Node.mk ⟨TokenType.NUMBER, "2", 2⟩ [],
           Node.mk ⟨TokenType.NUMBER, "3", 3⟩ []]]) := rfl
  simp only [evaluateExpression, tokenize_minus_paren_2_plus_3, hparse]
  simp [evaluate_add, evaluate_neg, evaluate_number, evalUnary, evalBinary]
  simp [exactOps]
  norm_num

/-- C4 (unary minus parity): wherever `parseFactor` meets a run of `N` minus
tokens followed by a token that is not a minus, it returns what `parseFactor`
returns at that token (the tree of the primary), unchanged when `N` is even
and inside exactly one synthetic one-child `-` node when `N` is odd; in
particular `parse` of `N` minus tokens, an operand `p` and END is the leaf `p`
or one wrapper around it.  In exact arithmetic `"--5"` evaluates to 5,
`"---5"` to -5, `"-5"` to -5, `"5 - -5"` to 10 and `"-(2 + 3)"` to -5. -/
theorem C4_unary_minus_parity :
    (∀ (F : Type) (O : FloatOps F) (fuel : Nat) (tokens : List (Token F)) (pos : Nat)
      (ms : List (Token F)) (t : Token F) (rest : List (Token F)),
      tokens.drop pos = ms ++ t :: rest → (∀ m ∈ ms, m.isOp "-" = true) →
      t.isOp "-" = false →
      parseFactor O (fuel + 1) tokens pos =
        match parseFactor O (fuel + 1) tokens (pos + ms.length) with
        | .error e => .error e
        | .ok (node, p') =>
          .ok (if ms.length % 2 = 1 then Node.mk ⟨TokenType.OPERATOR, "-", O.zero⟩ [node]
            else node, p')) ∧
    (∀ (F : Type) (O : FloatOps F) (ms : List (Token F)) (p e : Token F),
      (∀ m ∈ ms, m.isOp "-" = true) → p.isOperand = true → e.type = TokenType.END →
      parse O (ms ++ [p, e])
        = .ok (if ms.length % 2 = 1 then
            Node.mk ⟨TokenType.OPERATOR, "-", O.zero⟩ [Node.mk p []]
          else Node.mk p [])) ∧
    (∀ (lib : FloatOps ℚ) (env : Env ℚ),
      evaluateExpression (exactOps lib) "--5" env = (.ok 5, env) ∧
      evaluateExpression (exactOps lib) "---5" env = (.ok (-5), env) ∧
      evaluateExpression (exactOps lib) "-5" env = (.ok (-5), env) ∧
      evaluateExpression (exactOps lib) "5 - -5" env = (.ok 10, env) ∧
      evaluateExpression (exactOps lib) "-(2 + 3)" env = (.ok (-5), env)) :=
  ⟨fun _ O fuel tokens pos ms t rest hdrop hms ht =>
      parseFactor_minus_run O fuel tokens pos ms t rest hdrop hms ht,
    fun _ O ms p e hms hp he => parse_minus_run_operand O ms p e hms hp he,
    fun lib env => ⟨eval_minus_minus_5 lib env, eval_minus3_5 lib env, eval_minus_5 lib env,
      eval_5_minus_minus_5 lib env, eval_minus_paren_2_plus_3 lib env⟩⟩

/-- C4 witness: three minus tokens before the operand `5` give one wrapper. -/
theorem C4_witness :
    parse ratOps
      [⟨TokenType.OPERATOR, "-", 0⟩, ⟨TokenType.OPERATOR, "-", 0⟩, ⟨TokenType.OPERATOR, "-", 0⟩,
        ⟨TokenType.NUMBER, "5", 5⟩, ⟨TokenType.END, "", 0⟩]
      = .ok (Node.mk ⟨TokenType.OPERATOR, "-", 0⟩ [Node.mk ⟨TokenType.NUMBER, "5", 5⟩ []]) :=
  C4_unary_minus_parity.2.1 ℚ ratOps
    [⟨TokenType.OPERATOR, "-", 0⟩, ⟨TokenType.OPERATOR, "-", 0⟩, ⟨TokenType.OPERATOR, "-", 0⟩]
    ⟨TokenType.NUMBER, "5", 5⟩ ⟨TokenType.END, "", 0⟩ (by simp [Token.isOp]) rfl rfl


/-! ## Constant protection -/

theorem parse_reassign_constant {F : Type} (O : FloatOps F) (t0 t1 e : Token F)
    (rhs : List (Token F)) (h0 : t0.type = TokenType.VARIABLE)
    (hname : t0.value = "pi" ∨ t0.value = "e") (h1 : t1.type = TokenType.EQUAL) :
    parse O (t0 :: t1 :: (rhs ++ [e]))
      = .error (Err.runtimeError "Error: cannot reassign constant value") := by
  cases rhs with
  | nil => simp [parse, h0, h1, hname]
  | cons r rhs => simp [parse, h0, h1, hname]

theorem evaluateExpression_reassign_constant {F : Type} (O : FloatOps F) (input : String)
    (tokens : List (Token F)) (t0 t1 : Token F) (env : Env F)
    (htok : tokenize O input = .ok tokens)
    (hg0 : tokens[0]? = some t0) (hg1 : tokens[1]? = some t1)
    (h0 : t0.type = TokenType.VARIABLE) (hname : t0.value = "pi" ∨ t0.value = "e")
    (h1 : t1.type = TokenType.EQUAL) :
    evaluateExpression O input env
      = (.error (Err.runtimeError "Error: cannot reassign constant value"), env) := by
  obtain ⟨body, rfl, hne⟩ := tokenize_end O input tokens htok
  have hparse : parse O (body ++ [⟨TokenType.END, "", O.zero⟩])
      = .error (Err.runtimeError "Error: cannot reassign constant value") := by
    cases body with
    | nil =>
      simp only [List.nil_append, List.getElem?_cons_zero, Option.some.injEq] at hg0
      subst hg0
      cases h0
    | cons a body =>
      simp only [List.cons_append, List.getElem?_cons_zero, Option.some.injEq] at hg0
      subst hg0
      cases body with
      | nil =>
        simp only [List.nil_append, List.cons_append, List.getElem?_cons_succ,
          List.getElem?_cons_zero, Option.some.injEq] at hg1
        subst hg1
        cases h1
      | cons b body =>
        simp only [List.cons_append, List.getElem?_cons_succ, List.getElem?_cons_zero,
          Option.some.injEq] at hg1
        subst hg1
        exact parse_reassign_constant O _ _ _ body h0 hname h1
  simp only [evaluateExpression, htok, hparse]

theorem tokenize_pi_eq_5 (lib : FloatOps ℚ) :
    tokenize (exactOps lib) "pi=5" = .ok
      [⟨TokenType.VARIABLE, "pi", 0⟩, ⟨TokenType.EQUAL, "=", 0⟩, ⟨TokenType.NUMBER, "5", 5⟩,
       ⟨TokenType.END, "", 0⟩] := by
  simp [tokenize, tokenizeLoop, isspace, isdigit, isalpha, isalnum, scanNumber, scanIdent,
      exactOps, stodExact, digitsValue, backIsNumber, isFunctionName, String.singleton]

/-- C5 (constant protection): for every token sequence that starts with the
Variable `pi` or `e` followed by an Equal token and ends with the END
sentinel, whatever stands between (nothing, or any tokens at all), `parse`
throws the cannot-reassign-constant error; hence for every input text whose
tokens start that way the pipeline fails with that error and leaves the
environment untouched, as for `"pi=5"`. -/
theorem C5_constant_protection :
    (∀ (F : Type) (O : FloatOps F) (t0 t1 e : Token F) (rhs : List (Token F)),
      t0.type = TokenType.VARIABLE → (t0.value = "pi" ∨ t0.value = "e") →
      t1.type = TokenType.EQUAL → e.type = TokenType.END →
      parse O (t0 :: t1 :: (rhs ++ [e]))
        = .error (Err.runtimeError "Error: cannot reassign constant value")) ∧
    (∀ (F : Type) (O : FloatOps F) (input : String) (tokens : List (Token F))
      (t0 t1 : Token F) (env : Env F),
      tokenize O input = .ok tokens → tokens[0]? = some t0 → tokens[1]? = some t1 →
      t0.type = TokenType.VARIABLE → (t0.value = "pi" ∨ t0.value = "e") →
      t1.type = TokenType.EQUAL →
      evaluateExpression O input env
        = (.error (Err.runtimeError "Error: cannot reassign constant value"), env)) ∧
    (∀ (lib : FloatOps ℚ) (env : Env ℚ),
      evaluateExpression (exactOps lib) "pi=5" env
        = (.error (Err.runtimeError "Error: cannot reassign constant value"), env)) :=
  ⟨fun _ O t0 t1 e rhs h0 hname h1 _ => parse_reassign_constant O t0 t1 e rhs h0 hname h1,
    fun _ O input tokens t0 t1 env htok hg0 hg1 h0 hname h1 =>
      evaluateExpression_reassign_constant O input tokens t0 t1 env htok hg0 hg1 h0 hname h1,
    fun lib env =>
      evaluateExpression_reassign_constant (exactOps lib) "pi=5" _ _ _ env
        (tokenize_pi_eq_5 lib) rfl rfl rfl (Or.inl rfl) rfl⟩

/-- C5 witness: `e = ) +` with the END sentinel, a malformed right-hand side,
is rejected with the cannot-reassign-constant error. -/
theorem C5_witness :
    parse ratOps
      [⟨TokenType.VARIABLE, "e", 0⟩, ⟨TokenType.EQUAL, "=", 0⟩, ⟨TokenType.PAREN_CLOSE, ")", 0⟩,
        ⟨TokenType.OPERATOR, "+", 0⟩, ⟨TokenType.END, "", 0⟩]
      = .error (Err.runtimeError "Error: cannot reassign constant value") :=
  C5_constant_protection.1 ℚ ratOps ⟨TokenType.VARIABLE, "e", 0⟩ ⟨TokenType.EQUAL, "=", 0⟩
    ⟨TokenType.END, "", 0⟩ [⟨TokenType.PAREN_CLOSE, ")", 0⟩, ⟨TokenType.OPERATOR, "+", 0⟩]
    rfl (Or.inr rfl) rfl rfl


/-! ## Frame: evaluation without assignment nodes leaves the environment alone -/

theorem evalBinary_frame {F : Type} (lf : Bool) (f : F → F → F)
    (e0 e1 : Env F → Except Err F × Env F)
    (h0 : ∀ env, (e0 env).2 = env) (h1 : ∀ env, (e1 env).2 = env) (env : Env F) :
    (evalBinary lf f e0 e1 env).2 = env := by
  unfold evalBinary
  have a0 := h0 env
  have a1 := h1 env
  split
  · split
    · rename_i h; rw [h] at a0; exact a0
    · rename_i a env1 h
      rw [h] at a0
      simp only at a0
      subst a0
      split
      · rename_i h'; rw [h'] at a1; exact a1
      · rename_i h'; rw [h'] at a1; exact a1
  · split
    · rename_i h; rw [h] at a1; exact a1
    · rename_i a env1 h
      rw [h] at a1
      simp only at a1
      subst a1
      split
      · rename_i h'; rw [h'] at a0; exact a0
      · rename_i h'; rw [h'] at a0; exact a0

theorem evalUnary_frame {F : Type} (f : F → F) (r : Except Err F × Env F) :
    (evalUnary f r).2 = r.2 := by
  unfold evalUnary
  split <;> rfl

theorem evalDivide_frame {F : Type} (O : FloatOps F) (e0 e1 : Env F → Except Err F × Env F)
    (h0 : ∀ env, (e0 env).2 = env) (h1 : ∀ env, (e1 env).2 = env) (env : Env F) :
    (evalDivide O e0 e1 env).2 = env := by
  unfold evalDivide
  have a1 := h1 env
  split
  · rename_i h; rw [h] at a1; exact a1
  · rename_i d env1 h
    rw [h] at a1
    simp only at a1
    subst a1
    split
    · rfl
    · rw [evalUnary_frame]
      exact h0 _

theorem ite_snd_eq {α β : Type} {c : Prop} [Decidable c] {a b : α × β} {e : β}
    (ha : a.2 = e) (hb : b.2 = e) : (if c then a else b).2 = e := by
  split <;> assumption

theorem evalCall1_frame {F : Type} (what : String) (f : F → F)
    (cs : List (Env F → Except Err F × Env F)) (hcs : ∀ c ∈ cs, ∀ env, (c env).2 = env)
    (env : Env F) : (evalCall1 what f cs env).2 = env := by
  unfold evalCall1
  split
  · rw [evalUnary_frame]
    exact hcs _ (by simp) env
  · rfl

theorem evalCall2_frame {F : Type} (what : String) (lf : Bool) (f : F → F → F)
    (cs : List (Env F → Except Err F × Env F)) (hcs : ∀ c ∈ cs, ∀ env, (c env).2 = env)
    (env : Env F) : (evalCall2 what lf f cs env).2 = env := by
  unfold evalCall2
  split
  · exact evalBinary_frame lf f _ _ (hcs _ (by simp)) (hcs _ (by simp)) env
  · rfl

theorem evalNode_frame {F : Type} (O : FloatOps F) (t : Token F) (ct : List (Token F))
    (cs : List (Env F → Except Err F × Env F)) (hcs : ∀ c ∈ cs, ∀ env, (c env).2 = env)
    (ht : t.type ≠ TokenType.EQUAL) (env : Env F) :
    (evalNode O t ct cs env).2 = env := by
  unfold evalNode
  split
  · rfl
  · split
    · rfl
    · split
      · rfl
      · split <;> rfl
  · repeat' split
    all_goals first
      | rfl
      | (apply evalBinary_frame <;> intro env' <;> apply hcs <;> simp)
      | (apply evalDivide_frame <;> intro env' <;> apply hcs <;> simp)
      | (rw [evalUnary_frame]; apply hcs; simp)
  · repeat' apply ite_snd_eq
    all_goals first
      | rfl
      | exact evalCall1_frame _ _ cs hcs env
      | exact evalCall2_frame _ _ _ cs hcs env
  · exact absurd (by assumption) ht
  · rfl

mutual

/-- A tree without assignment nodes evaluates without touching the
environment, whether it returns a value or throws. -/
theorem evaluate_frame {F : Type} (O : FloatOps F) :
    ∀ (n : Node F), n.noAssign = true → ∀ env, (evaluate O n env).2 = env
  | .mk t cs, h, env => by
    rw [Node.noAssign, Bool.and_eq_true] at h
    rw [evaluate]
    exact evalNode_frame O t _ _ (evaluateChildren_frame O cs h.2) (by simpa using h.1) env

theorem evaluateChildren_frame {F : Type} (O : FloatOps F) :
    ∀ (cs : List (Node F)), noAssignList cs = true →
      ∀ c ∈ evaluateChildren O cs, ∀ env, (c env).2 = env
  | [], _, c, hc, env => by simp [evaluateChildren] at hc
  | n :: cs, h, c, hc, env => by
    rw [noAssignList, Bool.and_eq_true] at h
    rw [evaluateChildren, List.mem_cons] at hc
    rcases hc with hc | hc
    · rw [hc]
      exact evaluate_frame O n h.1 env
    · exact evaluateChildren_frame O cs h.2 c hc env

end


/-! ## Trees built by the expression parsers contain no assignment node -/

theorem noAssign_leaf {F : Type} (t : Token F) (h : t.type ≠ TokenType.EQUAL) :
    (Node.mk t []).noAssign = true := by
  simp [Node.noAssign, noAssignList, h]

theorem noAssign_binary {F : Type} (op : Token F) (l r : Node F)
    (h : op.type = TokenType.OPERATOR) (hl : l.noAssign = true) (hr : r.noAssign = true) :
    (Node.mk op [l, r]).noAssign = true := by
  simp [Node.noAssign, noAssignList, h, hl, hr]

theorem noAssign_wrapMinus {F : Type} (O : FloatOps F) (um : Bool) (n : Node F)
    (h : n.noAssign = true) : (wrapMinus O um n).noAssign = true := by
  unfold wrapMinus
  split
  · simp [Node.noAssign, noAssignList, h]
  · exact h

theorem noAssignList_append {F : Type} (as : List (Node F)) (a : Node F)
    (h : noAssignList as = true) (ha : a.noAssign = true) :
    noAssignList (as ++ [a]) = true := by
  induction as with
  | nil => simp [noAssignList, ha]
  | cons x as ih =>
    rw [noAssignList, Bool.and_eq_true] at h
    simp [noAssignList, h.1, ih h.2]

theorem parse_noAssign {F : Type} (O : FloatOps F) (fuel : Nat) :
    (∀ tokens pos n pos', parseExpression O fuel tokens pos = .ok (n, pos') →
      n.noAssign = true) ∧
    (∀ tokens left pos n pos', left.noAssign = true →
      parseExpressionLoop O fuel tokens left pos = .ok (n, pos') → n.noAssign = true) ∧
    (∀ tokens pos n pos', parseTerm O fuel tokens pos = .ok (n, pos') →
      n.noAssign = true) ∧
    (∀ tokens left pos n pos', left.noAssign = true →
      parseTermLoop O fuel tokens left pos = .ok (n, pos') → n.noAssign = true) ∧
    (∀ tokens pos n pos', parsePower O fuel tokens pos = .ok (n, pos') →
      n.noAssign = true) ∧
    (∀ tokens left pos n pos', left.noAssign = true →
      parsePowerLoop O fuel tokens left pos = .ok (n, pos') → n.noAssign = true) ∧
    (∀ tokens pos n pos', parseFactor O fuel tokens pos = .ok (n, pos') →
      n.noAssign = true) ∧
    (∀ tokens args pos as pos', noAssignList args = true →
      parseArgsLoop O fuel tokens args pos = .ok (as, pos') → noAssignList as = true) := by
  induction fuel with
  | zero =>
    refine ⟨?_, ?_, ?_, ?_, ?_, ?_, ?_, ?_⟩ <;> intros <;>
      simp_all [parseExpression, parseExpressionLoop, parseTerm, parseTermLoop, parsePower,
        parsePowerLoop, parseFactor, parseArgsLoop]
  | succ fuel ih =>
    obtain ⟨ihE, ihEL, ihT, ihTL, ihP, ihPL, ihF, ihA⟩ := ih
    refine ⟨?_, ?_, ?_, ?_, ?_, ?_, ?_, ?_⟩
    · intro tokens pos n pos' h
      simp only [parseExpression] at h
      split at h
      · cases h
      · rename_i left p1 h1
        exact ihEL _ _ _ _ _ (ihT _ _ _ _ h1) h
    · intro tokens left pos n pos' hl h
      simp only [parseExpressionLoop] at h
      split at h
      · cases h
      · rename_i op hop
        split at h
        · rename_i hc
          simp only [Bool.and_eq_true, beq_iff_eq] at hc
          split at h
          · cases h
          · rename_i right p1 h1
            exact ihEL _ _ _ _ _ (noAssign_binary op left right hc.1 hl (ihT _ _ _ _ h1)) h
        · simp only [Except.ok.injEq, Prod.mk.injEq] at h
          rw [← h.1]
          exact hl
    · intro tokens pos n pos' h
      simp only [parseTerm] at h
      split at h
      · cases h
      · rename_i left p1 h1
        exact ihTL _ _ _ _ _ (ihP _ _ _ _ h1) h
    · intro tokens left pos n pos' hl h
      simp only [parseTermLoop] at h
      split at h
      · cases h
      · rename_i op hop
        split at h
        · rename_i hc
          simp only [Bool.and_eq_true, beq_iff_eq] at hc
          split at h
          · cases h
          · rename_i right p1 h1
            exact ihTL _ _ _ _ _ (noAssign_binary op left right hc.1 hl (ihP _ _ _ _ h1)) h
        · simp only [Except.ok.injEq, Prod.mk.injEq] at h
          rw [← h.1]
          exact hl
    · intro tokens pos n pos' h
      simp only [parsePower] at h
      split at h
      · cases h
      · rename_i left p1 h1
        exact ihPL _ _ _ _ _ (ihF _ _ _ _ h1) h
    · intro tokens left pos n pos' hl h
      simp only [parsePowerLoop] at h
      split at h
      · cases h
      · rename_i op hop
        split at h
        · rename_i hc
          simp only [Bool.and_eq_true, beq_iff_eq] at hc
          split at h
          · cases h
          · rename_i right p1 h1
            exact ihPL _ _ _ _ _ (noAssign_binary op left right hc.1 hl (ihF _ _ _ _ h1)) h
        · simp only [Except.ok.injEq, Prod.mk.injEq] at h
          rw [← h.1]
          exact hl
    · intro tokens pos n pos' h
      simp only [parseFactor] at h
      split at h
      · cases h
      · rename_i um p0 hsm
        split at h
        · cases h
        · rename_i t ht
          split at h
          · rename_i hty
            simp only [Except.ok.injEq, Prod.mk.injEq] at h
            rw [← h.1]
            exact noAssign_wrapMinus O um _ (noAssign_leaf t (by simp_all))
          · split at h
            · rename_i hty
              simp only [Except.ok.injEq, Prod.mk.injEq] at h
              rw [← h.1]
              exact noAssign_wrapMinus O um _ (noAssign_leaf t (by simp_all))
            · split at h
              · rename_i hty
                have hne : t.type ≠ TokenType.EQUAL := by simp_all
                split at h
                · cases h
                · split at h
                  · cases h
                  · split at h
                    · cases h
                    · split at h
                      · split at h
                        · cases h
                        · rename_i arg p1 h1
                          split at h
                          · cases h
                          · rename_i fa p2 h2
                            split at h
                            · cases h
                            · split at h
                              · cases h
                              · simp only [Except.ok.injEq, Prod.mk.injEq] at h
                                rw [← h.1]
                                apply noAssign_wrapMinus
                                have hfa := ihA _ _ _ _ _
                                  (by simp [noAssignList, ihE _ _ _ _ h1]) h2
                                simp [Node.noAssign, hne, hfa]
                      · simp only [Except.ok.injEq, Prod.mk.injEq] at h
                        rw [← h.1]
                        exact noAssign_wrapMinus O um _ (noAssign_leaf t hne)
              · split at h
                · split at h
                  · cases h
                  · rename_i node p1 h1
                    split at h
                    · cases h
                    · split at h
                      · cases h
                      · simp only [Except.ok.injEq, Prod.mk.injEq] at h
                        rw [← h.1]
                        exact noAssign_wrapMinus O um _ (ihE _ _ _ _ h1)
                · cases h
    · intro tokens args pos as pos' hargs h
      simp only [parseArgsLoop] at h
      split at h
      · cases h
      · rename_i t ht
        split at h
        · split at h
          · cases h
          · rename_i arg p1 h1
            exact ihA _ _ _ _ _ (noAssignList_append args arg hargs (ihE _ _ _ _ h1)) h
        · simp only [Except.ok.injEq, Prod.mk.injEq] at h
          rw [← h.1]
          exact hargs


/-! ## Assignment -/

/-- The trees `parse` returns: either a tree without any assignment node, or
one assignment node at the root over a childless Variable node other than
`pi` and `e` and a right-hand side without assignment nodes. -/
theorem parse_shape {F : Type} (O : FloatOps F) (tokens : List (Token F)) (tree : Node F)
    (h : parse O tokens = .ok tree) :
    tree.noAssign = true ∨
      ∃ t0 t1 rhs, tree = Node.mk t1 [Node.mk t0 [], rhs] ∧ t1.type = TokenType.EQUAL ∧
        t0.type = TokenType.VARIABLE ∧ t0.value ≠ "pi" ∧ t0.value ≠ "e" ∧
        rhs.noAssign = true := by
  have hE := (parse_noAssign O (4 * tokens.length + 4)).1
  have hbare : parse.parseBare O tokens = .ok tree → tree.noAssign = true := by
    intro hb
    simp only [parse.parseBare] at hb
    split at hb
    · cases hb
    · rename_i root pos h1
      split at hb
      · cases hb
      · split at hb
        · cases hb
        · simp only [Except.ok.injEq] at hb
          rw [← hb]
          exact hE _ _ _ _ h1
  unfold parse at h
  split at h
  · rename_i t0 t1 t2 tl
    split at h
    · rename_i hc
      simp only [Bool.and_eq_true, beq_iff_eq] at hc
      split at h
      · cases h
      · rename_i hname
        simp only [Bool.or_eq_true, beq_iff_eq, not_or] at hname
        split at h
        · cases h
        · rename_i en pos h1
          split at h
          · cases h
          · split at h
            · cases h
            · simp only [Except.ok.injEq] at h
              exact Or.inr ⟨t0, t1, en, h.symm, hc.1, hc.2, hname.1, hname.2, hE _ _ _ _ h1⟩
    · exact Or.inl (hbare h)
  · exact Or.inl (hbare h)

theorem evaluate_assign_ok {F : Type} (O : FloatOps F) (t t0 : Token F) (cs0 : List (Node F))
    (rhs : Node F) (env env1 : Env F) (v : F) (ht : t.type = TokenType.EQUAL)
    (ht0 : t0.type = TokenType.VARIABLE) (hrhs : evaluate O rhs env = (.ok v, env1)) :
    evaluate O (Node.mk t [Node.mk t0 cs0, rhs]) env = (.ok v, env1.set t0.value v) ∧
      (env1.set t0.value v) t0.value = some v ∧
      (∀ name, name ≠ t0.value → (env1.set t0.value v) name = env1 name) ∧
      (rhs.noAssign = true → env1 = env) := by
  refine ⟨?_, by simp [Env.set], fun name hne => by simp [Env.set, hne], fun hna => ?_⟩
  · rw [evaluate_assign O t t0 cs0 rhs env ht ht0, hrhs]
  · have := evaluate_frame O rhs hna env
    rw [hrhs] at this
    exact this

theorem tokenize_x_eq_5 (lib : FloatOps ℚ) :
    tokenize (exactOps lib) "x = 5" = .ok
      [⟨TokenType.VARIABLE, "x", 0⟩, ⟨TokenType.EQUAL, "=", 0⟩, ⟨TokenType.NUMBER, "5", 5⟩,
       ⟨TokenType.END, "", 0⟩] := by
  simp [tokenize, tokenizeLoop, isspace, isdigit, isalpha, isalnum, scanNumber, scanIdent,
      exactOps, stodExact, digitsValue, backIsNumber, isFunctionName, String.singleton]

theorem tokenize_x_plus_2 (lib : FloatOps ℚ) :
    tokenize (exactOps lib) "x + 2" = .ok
      [⟨TokenType.VARIABLE, "x", 0⟩, ⟨TokenType.OPERATOR, "+", 0⟩, ⟨TokenType.NUMBER, "2", 2⟩,
       ⟨TokenType.END, "", 0⟩] := by
  simp [tokenize, tokenizeLoop, isspace, isdigit, isalpha, isalnum, scanNumber, scanIdent,
      exactOps, stodExact, digitsValue, backIsNumber, isFunctionName, String.singleton]
  decide

theorem eval_x_eq_5 (lib : FloatOps ℚ) (env : Env ℚ) :
    evaluateExpression (exactOps lib) "x = 5" env = (.ok 5, env.set "x" 5) := by
  have hparse : parse (exactOps lib)
      [⟨TokenType.VARIABLE, "x", 0⟩, ⟨TokenType.EQUAL, "=", 0⟩, ⟨TokenType.NUMBER, "5", 5⟩,
        ⟨TokenType.END, "", 0⟩]
      = .ok (Node.mk ⟨TokenType.EQUAL, "=", 0⟩
          [Node.mk ⟨TokenType.VARIABLE, "x", 0⟩ [], Node.mk ⟨TokenType.NUMBER, "5", 5⟩ []]) := rfl
  simp only [evaluateExpression, tokenize_x_eq_5, hparse]
  simp [evaluate_assign, evaluate_number]

theorem parse_x_plus_2 (lib : FloatOps ℚ) :
    parse (exactOps lib)
      [⟨TokenType.VARIABLE, "x", 0⟩, ⟨TokenType.OPERATOR, "+", 0⟩, ⟨TokenType.NUMBER, "2", 2⟩,
        ⟨TokenType.END, "", 0⟩]
      = .ok (Node.mk ⟨TokenType.OPERATOR, "+", 0⟩
          [Node.mk ⟨TokenType.VARIABLE, "x", 0⟩ [], Node.mk ⟨TokenType.NUMBER, "2", 2⟩ []]) := rfl

theorem eval_x_plus_2_defined (lib : FloatOps ℚ) (env : Env ℚ) :
    evaluateExpression (exactOps lib) "x + 2" (env.set "x" 5) = (.ok 7, env.set "x" 5) := by
  simp only [evaluateExpression, tokenize_x_plus_2, parse_x_plus_2]
  simp [evaluate_add, evaluate_number, evaluate_variable, evalBinary, Env.set]
  simp [exactOps]
  norm_num

/-- C6 (assignment stores and returns), as amended: for every assignment
node with children `[Variable x, rhs]` and every environment `env` in which
evaluating `rhs` succeeds with value `v` and leaves `env1`, `evaluate` returns
`v` and the resulting environment maps `x` to `v` and agrees with `env1` on
every other name; `env1` is `env` itself whenever `rhs` contains no
assignment node.  In exact arithmetic `"x = 5"` stores 5 under `x` and
returns it, and `"x + 2"` then yields 7 and leaves the environment alone. -/
theorem C6_assignment_stores :
    (∀ (F : Type) (O : FloatOps F) (t t0 : Token F) (cs0 : List (Node F)) (rhs : Node F)
      (env env1 : Env F) (v : F),
      t.type = TokenType.EQUAL → t0.type = TokenType.VARIABLE →
      evaluate O rhs env = (.ok v, env1) →
      evaluate O (Node.mk t [Node.mk t0 cs0, rhs]) env = (.ok v, env1.set t0.value v) ∧
        (env1.set t0.value v) t0.value = some v ∧
        (∀ name, name ≠ t0.value → (env1.set t0.value v) name = env1 name) ∧
        (rhs.noAssign = true → env1 = env)) ∧
    (∀ (lib : FloatOps ℚ) (env : Env ℚ),
      evaluateExpression (exactOps lib) "x = 5" env = (.ok 5, env.set "x" 5) ∧
      evaluateExpression (exactOps lib) "x + 2" (env.set "x" 5) = (.ok 7, env.set "x" 5)) :=
  ⟨fun _ O t t0 cs0 rhs env env1 v ht ht0 hrhs =>
      evaluate_assign_ok O t t0 cs0 rhs env env1 v ht ht0 hrhs,
    fun lib env => ⟨eval_x_eq_5 lib env, eval_x_plus_2_defined lib env⟩⟩

/-- C6 witness: the node of `x = 5` on the empty environment. -/
theorem C6_witness :
    evaluate ratOps
        (Node.mk ⟨TokenType.EQUAL, "=", 0⟩
          [Node.mk ⟨TokenType.VARIABLE, "x", 0⟩ [], Node.mk ⟨TokenType.NUMBER, "5", 5⟩ []])
        Env.empty
      = (.ok 5, Env.empty.set "x" 5) :=
  (C6_assignment_stores.1 ℚ ratOps ⟨TokenType.EQUAL, "=", 0⟩ ⟨TokenType.VARIABLE, "x", 0⟩ []
    (Node.mk ⟨TokenType.NUMBER, "5", 5⟩ []) Env.empty Env.empty 5 rfl rfl
    (evaluate_number ratOps _ _ _ rfl)).1

/-- C6 counterexample: in the node `x = (y = 5)` the right-hand side succeeds
with value 5 on the empty environment, `evaluate` returns 5, yet the
resulting environment holds `y = 5` where the original had no entry for `y`:
it does not agree with the original on every name other than `x`. -/
theorem C6_counterexample :
    (evaluate ratOps
        (Node.mk ⟨TokenType.EQUAL, "=", 0⟩
          [Node.mk ⟨TokenType.VARIABLE, "y", 0⟩ [], Node.mk ⟨TokenType.NUMBER, "5", 5⟩ []])
        Env.empty).1 = .ok 5 ∧
    (evaluate ratOps
        (Node.mk ⟨TokenType.EQUAL, "=", 0⟩
          [Node.mk ⟨TokenType.VARIABLE, "x", 0⟩ [],
           Node.mk ⟨TokenType.EQUAL, "=", 0⟩
            [Node.mk ⟨TokenType.VARIABLE, "y", 0⟩ [], Node.mk ⟨TokenType.NUMBER, "5", 5⟩ []]])
        Env.empty).1 = .ok 5 ∧
    ¬ (∀ name, name ≠ "x" →
        (evaluate ratOps
          (Node.mk ⟨TokenType.EQUAL, "=", 0⟩
            [Node.mk ⟨TokenType.VARIABLE, "x", 0⟩ [],
             Node.mk ⟨TokenType.EQUAL, "=", 0⟩
              [Node.mk ⟨TokenType.VARIABLE, "y", 0⟩ [], Node.mk ⟨TokenType.NUMBER, "5", 5⟩ []]])
          Env.empty).2 name = (Env.empty : Env ℚ) name) := by
  refine ⟨by simp [evaluate_assign, evaluate_number], by simp [evaluate_assign, evaluate_number],
    fun h => ?_⟩
  have := h "y" (by decide)
  simp [evaluate_assign, evaluate_number, Env.set, Env.empty] at this


/-! ## Only assignment mutates the environment -/

theorem evaluate_parsed_frame {F : Type} (O : FloatOps F) (input : String) (env : Env F)
    (tree : Node F) (hparse : parseText O input = .ok tree)
    (hroot : tree.token.type ≠ TokenType.EQUAL) :
    (evaluate O tree env).2 = env := by
  unfold parseText at hparse
  split at hparse
  · cases hparse
  · rename_i tokens htok
    rcases parse_shape O tokens tree hparse with h | ⟨t0, t1, rhs, rfl, h1, -⟩
    · exact evaluate_frame O tree h env
    · exact absurd h1 hroot

theorem eval_x_plus_2_undefined (lib : FloatOps ℚ) :
    evaluateExpression (exactOps lib) "x + 2" Env.empty
      = (.error (Err.runtimeError "Error: variable 'x' is not defined"), Env.empty) := by
  simp only [evaluateExpression, tokenize_x_plus_2, parse_x_plus_2]
  simp [evaluate_add, evaluate_number, evaluate_variable, evalBinary, Env.empty]

/-- C7 (only assignment mutates the environment): for every input text and
every environment, if `parse(tokenize(input))` returns a tree whose root is
not an assignment node, `evaluate` leaves the environment exactly as it was,
whether it returns a number or throws; a Variable node never inserts its
name, and `"x + 2"` on the empty environment throws and leaves it empty. -/
theorem C7_only_assignment_mutates :
    (∀ (F : Type) (O : FloatOps F) (input : String) (env : Env F) (tree : Node F),
      parseText O input = .ok tree → tree.token.type ≠ TokenType.EQUAL →
      (evaluate O tree env).2 = env) ∧
    (∀ (F : Type) (O : FloatOps F) (t : Token F) (cs : List (Node F)) (env : Env F),
      t.type = TokenType.VARIABLE → (evaluate O (Node.mk t cs) env).2 = env) ∧
    (∀ (lib : FloatOps ℚ),
      evaluateExpression (exactOps lib) "x + 2" Env.empty
        = (.error (Err.runtimeError "Error: variable 'x' is not defined"), Env.empty)) :=
  ⟨fun _ O input env tree hparse hroot => evaluate_parsed_frame O input env tree hparse hroot,
    fun _ O t cs env ht => by
      rw [evaluate_variable O t cs env ht]
      repeat' split
      all_goals rfl,
    eval_x_plus_2_undefined⟩

/-- C7 witness: the tree of `"x + 2"`, evaluated where `x` is 5, leaves that
environment as it was. -/
theorem C7_witness :
    (evaluate ratOps
        (Node.mk ⟨TokenType.OPERATOR, "+", 0⟩
          [Node.mk ⟨TokenType.VARIABLE, "x", 0⟩ [], Node.mk ⟨TokenType.NUMBER, "2", 2⟩ []])
        (Env.empty.set "x" 5)).2 = Env.empty.set "x" 5 :=
  C7_only_assignment_mutates.1 ℚ ratOps "x + 2" (Env.empty.set "x" 5) _
    (by
      unfold parseText
      rw [show tokenize ratOps "x + 2" = _ from tokenize_x_plus_2 _]
      exact parse_x_plus_2 _)
    (by simp [Node.token])


/-! ## Variable lookup -/

theorem evaluate_variable_cases {F : Type} (O : FloatOps F) (t : Token F) (cs : List (Node F))
    (env : Env F) (ht : t.type = TokenType.VARIABLE) :
    (t.value = "pi" → evaluate O (Node.mk t cs) env = (.ok (O.acos O.negOne), env)) ∧
    (t.value = "e" → evaluate O (Node.mk t cs) env = (.ok (O.exp O.one), env)) ∧
    (t.value ≠ "pi" → t.value ≠ "e" → ∀ v, env t.value = some v →
      evaluate O (Node.mk t cs) env = (.ok v, env)) ∧
    (t.value ≠ "pi" → t.value ≠ "e" → env t.value = none →
      evaluate O (Node.mk t cs) env =
        (.error (Err.runtimeError ("Error: variable '" ++ t.value ++ "' is not defined")),
          env)) := by
  rw [evaluate_variable O t cs env ht]
  refine ⟨fun h => ?_, fun h => ?_, fun h1 h2 v hv => ?_, fun h1 h2 hv => ?_⟩
  · rw [if_pos h]
  · have hne : t.value ≠ "pi" := by rw [h]; decide
    rw [if_neg hne, if_pos h]
  · rw [if_neg h1, if_neg h2, hv]
  · rw [if_neg h1, if_neg h2, hv]

/-- C8 (variable lookup): for every environment, a Variable node named `pi`
evaluates to `acos(-1.0)` and one named `e` to `exp(1.0)` whatever the
environment holds under those names; a Variable node with any other name
evaluates to the environment's value for the name when there is one and
throws the undefined-variable error naming it when there is none.  In exact
arithmetic `"x + 2"` yields 7 where `x` is 5 and throws on the empty
environment. -/
theorem C8_variable_lookup :
    (∀ (F : Type) (O : FloatOps F) (t : Token F) (cs : List (Node F)) (env : Env F),
      t.type = TokenType.VARIABLE →
      (t.value = "pi" → evaluate O (Node.mk t cs) env = (.ok (O.acos O.negOne), env)) ∧
      (t.value = "e" → evaluate O (Node.mk t cs) env = (.ok (O.exp O.one), env)) ∧
      (t.value ≠ "pi" → t.value ≠ "e" → ∀ v, env t.value = some v →
        evaluate O (Node.mk t cs) env = (.ok v, env)) ∧
      (t.value ≠ "pi" → t.value ≠ "e" → env t.value = none →
        evaluate O (Node.mk t cs) env =
          (.error (Err.runtimeError ("Error: variable '" ++ t.value ++ "' is not defined")),
            env))) ∧
    (∀ (lib : FloatOps ℚ) (env : Env ℚ),
      evaluateExpression (exactOps lib) "x + 2" (env.set "x" 5) = (.ok 7, env.set "x" 5)) ∧
    (∀ (lib : FloatOps ℚ),
      evaluateExpression (exactOps lib) "x + 2" Env.empty
        = (.error (Err.runtimeError "Error: variable 'x' is not defined"), Env.empty)) :=
  ⟨fun _ O t cs env ht => evaluate_variable_cases O t cs env ht,
    eval_x_plus_2_defined, eval_x_plus_2_undefined⟩

/-- C8 witness: with an entry `pi = 3` in the environment, the Variable node
`pi` still evaluates to `acos(-1.0)`. -/
theorem C8_witness :
    evaluate ratOps (Node.mk ⟨TokenType.VARIABLE, "pi", 0⟩ []) (Env.empty.set "pi" 3)
      = (.ok (ratOps.acos ratOps.negOne), Env.empty.set "pi" 3) :=
  (C8_variable_lookup.1 ℚ ratOps ⟨TokenType.VARIABLE, "pi", 0⟩ [] (Env.empty.set "pi" 3)
    rfl).1 rfl

/-! ## Division -/

theorem evaluate_div_cases {F : Type} (O : FloatOps F) (t : Token F) (c0 c1 : Node F)
    (cs : List (Node F)) (env : Env F) (ht : t.type = TokenType.OPERATOR)
    (hv : t.value = "/") :
    (∀ d env1, evaluate O c1 env = (.ok d, env1) → O.isZero d = true →
      evaluate O (Node.mk t (c0 :: c1 :: cs)) env
        = (.error (Err.runtimeError "Error: division by zero"), env1)) ∧
    (∀ d env1 n env2, evaluate O c1 env = (.ok d, env1) → O.isZero d = false →
      evaluate O c0 env1 = (.ok n, env2) →
      evaluate O (Node.mk t (c0 :: c1 :: cs)) env = (.ok (O.div n d), env2)) := by
  rw [evaluate_div O t c0 c1 cs env ht hv]
  refine ⟨fun d env1 h1 hz => ?_, fun d env1 n env2 h1 hz h0 => ?_⟩
  · simp [evalDivide, h1, hz]
  · simp [evalDivide, h1, hz, h0, evalUnary]

theorem tokenize_10_div_0 (lib : FloatOps ℚ) :
    tokenize (exactOps lib) "10 / 0" = .ok
      [⟨TokenType.NUMBER, "10", 10⟩, ⟨TokenType.OPERATOR, "/", 0⟩, ⟨TokenType.NUMBER, "0", 0⟩,
       ⟨TokenType.END, "", 0⟩] := by
  simp [tokenize, tokenizeLoop, isspace, isdigit, isalpha, isalnum, scanNumber, scanIdent,
      exactOps, stodExact, digitsValue, backIsNumber, isFunctionName, String.singleton]
  decide

theorem tokenize_x_div_0 (lib : FloatOps ℚ) :
    tokenize (exactOps lib) "x / 0" = .ok
      [⟨TokenType.VARIABLE, "x", 0⟩, ⟨TokenType.OPERATOR, "/", 0⟩, ⟨TokenType.NUMBER, "0", 0⟩,
       ⟨TokenType.END, "", 0⟩] := by
  simp [tokenize, tokenizeLoop, isspace, isdigit, isalpha, isalnum, scanNumber, scanIdent,
      exactOps, stodExact, digitsValue, backIsNumber, isFunctionName, String.singleton]
  decide

theorem tokenize_10_div_2 (lib : FloatOps ℚ) :
    tokenize (exactOps lib) "10 / 2" = .ok
      [⟨TokenType.NUMBER, "10", 10⟩, ⟨TokenType.OPERATOR, "/", 0⟩, ⟨TokenType.NUMBER, "2", 2⟩,
       ⟨TokenType.END, "", 0⟩] := by
  simp [tokenize, tokenizeLoop, isspace, isdigit, isalpha, isalnum, scanNumber, scanIdent,
      exactOps, stodExact, digitsValue, backIsNumber, isFunctionName, String.singleton]
  decide

theorem eval_10_div_0 (lib : FloatOps ℚ) (env : Env ℚ) :
    evaluateExpression (exactOps lib) "10 / 0" env
      = (.error (Err.runtimeError "Error: division by zero"), env) := by
  have hparse : parse (exactOps lib)
      [⟨TokenType.NUMBER, "10", 10⟩, ⟨TokenType.OPERATOR, "/", 0⟩, ⟨TokenType.NUMBER, "0", 0⟩,
       ⟨TokenType.END, "", 0⟩]
      = .ok (Node.mk ⟨TokenType.OPERATOR, "/", 0⟩
        [Node.mk ⟨TokenType.NUMBER, "10", 10⟩ [],
         Node.mk ⟨TokenType.NUMBER, "0", 0⟩ []]) := rfl
  simp only [evaluateExpression, tokenize_10_div_0, hparse]
  simp [evaluate_div, evaluate_number, evalDivide]
  simp [exactOps]

theorem eval_x_div_0 (lib : FloatOps ℚ) (env : Env ℚ) :
    evaluateExpression (exactOps lib) "x / 0" env
      = (.error (Err.runtimeError "Error: division by zero"), env) := by
  have hparse : parse (exactOps lib)
      [⟨TokenType.VARIABLE, "x", 0⟩, ⟨TokenType.OPERATOR, "/", 0⟩, ⟨TokenType.NUMBER, "0", 0⟩,
       ⟨TokenType.END, "", 0⟩]
      = .ok (Node.mk ⟨TokenType.OPERATOR, "/", 0⟩
        [Node.mk ⟨TokenType.VARIABLE, "x", 0⟩ [],
         Node.mk ⟨TokenType.NUMBER, "0", 0⟩ []]) := rfl
  simp only [evaluateExpression, tokenize_x_div_0, hparse]
  simp [evaluate_div, evaluate_number, evalDivide]
  simp [exactOps]

theorem eval_10_div_2 (lib : FloatOps ℚ) (env : Env ℚ) :
    evaluateExpression (exactOps lib) "10 / 2" env = (.ok (5), env) := by
  have hparse : parse (exactOps lib)
      [⟨TokenType.NUMBER, "10", 10⟩, ⟨TokenType.OPERATOR, "/", 0⟩, ⟨TokenType.NUMBER, "2", 2⟩,
       ⟨TokenType.END, "", 0⟩]
      = .ok (Node.mk ⟨TokenType.OPERATOR, "/", 0⟩
        [Node.mk ⟨TokenType.NUMBER, "10", 10⟩ [],
         Node.mk ⟨TokenType.NUMBER, "2", 2⟩ []]) := rfl
  simp only [evaluateExpression, tokenize_10_div_2, hparse]
  simp [evaluate_div, evaluate_number, evalDivide, evalUnary]
  simp [exactOps]
  norm_num

/-- C9 (division by zero): for every `/` node, if the second child evaluates
to a value that compares equal to zero, `evaluate` throws the
division-by-zero error, whatever the first child is (it is not evaluated); if
the second child evaluates to `d` not equal to zero and the first child then
evaluates to `n`, the result is `n / d`.  In exact arithmetic `"10 / 0"`
fails, `"x / 0"` with `x` undefined fails with the division error rather than
the undefined-variable one, and `"10 / 2"` yields 5. -/
theorem C9_division_by_zero :
    (∀ (F : Type) (O : FloatOps F) (t : Token F) (c0 c1 : Node F) (cs : List (Node F))
      (env : Env F),
      t.type = TokenType.OPERATOR → t.value = "/" →
      (∀ d env1, evaluate O c1 env = (.ok d, env1) → O.isZero d = true →
        evaluate O (Node.mk t (c0 :: c1 :: cs)) env
          = (.error (Err.runtimeError "Error: division by zero"), env1)) ∧
      (∀ d env1 n env2, evaluate O c1 env = (.ok d, env1) → O.isZero d = false →
        evaluate O c0 env1 = (.ok n, env2) →
        evaluate O (Node.mk t (c0 :: c1 :: cs)) env = (.ok (O.div n d), env2))) ∧
    (∀ (lib : FloatOps ℚ) (env : Env ℚ),
      evaluateExpression (exactOps lib) "10 / 0" env
        = (.error (Err.runtimeError "Error: division by zero"), env) ∧
      evaluateExpression (exactOps lib) "x / 0" Env.empty
        = (.error (Err.runtimeError "Error: division by zero"), Env.empty) ∧
      evaluateExpression (exactOps lib) "10 / 2" env = (.ok 5, env)) :=
  ⟨fun _ O t c0 c1 cs env ht hv => evaluate_div_cases O t c0 c1 cs env ht hv,
    fun lib env => ⟨eval_10_div_0 lib env, eval_x_div_0 lib Env.empty, eval_10_div_2 lib env⟩⟩

/-- C9 witness: the node `x / 0` on the empty environment, where the first
child alone would throw the undefined-variable error. -/
theorem C9_witness :
    evaluate ratOps
        (Node.mk ⟨TokenType.OPERATOR, "/", 0⟩
          [Node.mk ⟨TokenType.VARIABLE, "x", 0⟩ [], Node.mk ⟨TokenType.NUMBER, "0", 0⟩ []])
        Env.empty
      = (.error (Err.runtimeError "Error: division by zero"), Env.empty) :=
  (C9_division_by_zero.1 ℚ ratOps ⟨TokenType.OPERATOR, "/", 0⟩
    (Node.mk ⟨TokenType.VARIABLE, "x", 0⟩ []) (Node.mk ⟨TokenType.NUMBER, "0", 0⟩ []) []
    Env.empty rfl rfl).1 0 Env.empty (evaluate_number ratOps _ _ _ rfl) (by simp [ratOps, exactOps])


/-! ## Function arity -/

theorem evaluateChildren_length {F : Type} (O : FloatOps F) (cs : List (Node F)) :
    (evaluateChildren O cs).length = cs.length := by
  induction cs with
  | nil => simp [evaluateChildren]
  | cons c cs ih => simp [evaluateChildren, ih]

theorem evalCall1_arity {F : Type} (what : String) (f : F → F)
    (cs : List (Env F → Except Err F × Env F)) (env : Env F) (h : cs.length ≠ 1) :
    evalCall1 what f cs env = (.error (Err.runtimeError what), env) := by
  unfold evalCall1
  split
  · simp at h
  · rfl

theorem evalCall2_arity {F : Type} (what : String) (lf : Bool) (f : F → F → F)
    (cs : List (Env F → Except Err F × Env F)) (env : Env F) (h : cs.length ≠ 2) :
    evalCall2 what lf f cs env = (.error (Err.runtimeError what), env) := by
  unfold evalCall2
  split
  · simp at h
  · rfl

/-- A Function node named by the one-argument table is the arity test
followed by the call. -/
theorem evaluate_unary_call {F : Type} (O : FloatOps F) (t : Token F) (cs : List (Node F))
    (env : Env F) (p : String × (F → F)) (hp : p ∈ unaryTable O)
    (ht : t.type = TokenType.FUNCTION) (hv : t.value = p.1) :
    evaluate O (Node.mk t cs) env
      = evalCall1 ("Error: function " ++ p.1 ++ " expects 1 argument") p.2
          (evaluateChildren O cs) env := by
  rw [evaluate]
  unfold evalNode
  simp only [unaryTable, List.mem_cons, List.mem_singleton, List.not_mem_nil, or_false] at hp
  rcases hp with rfl | rfl | rfl | rfl | rfl | rfl | rfl | rfl | rfl <;>
    · simp only at hv
      simp only [ht, hv]
      rfl

/-- A Function node named by the two-argument table is the arity test
followed by the call. -/
theorem evaluate_binary_call {F : Type} (O : FloatOps F) (t : Token F) (cs : List (Node F))
    (env : Env F) (p : String × (F → F → F)) (hp : p ∈ binaryTable O)
    (ht : t.type = TokenType.FUNCTION) (hv : t.value = p.1) :
    evaluate O (Node.mk t cs) env
      = evalCall2 ("Error: function " ++ p.1 ++ " expects 2 arguments") (O.leftFirst p.1) p.2
          (evaluateChildren O cs) env := by
  rw [evaluate]
  unfold evalNode
  simp only [binaryTable, List.mem_cons, List.mem_singleton, List.not_mem_nil, or_false] at hp
  rcases hp with rfl | rfl | rfl <;>
    · simp only at hv
      simp only [ht, hv]
      rfl

theorem evaluate_unary_call_cases {F : Type} (O : FloatOps F) (t : Token F)
    (cs : List (Node F)) (env : Env F) (p : String × (F → F)) (hp : p ∈ unaryTable O)
    (ht : t.type = TokenType.FUNCTION) (hv : t.value = p.1) :
    (cs.length ≠ 1 →
      evaluate O (Node.mk t cs) env
        = (.error (Err.runtimeError ("Error: function " ++ p.1 ++ " expects 1 argument")),
            env)) ∧
    (∀ c0, cs = [c0] →
      evaluate O (Node.mk t cs) env = evalUnary p.2 (evaluate O c0 env)) ∧
    (∀ c0 a env1, cs = [c0] → evaluate O c0 env = (.ok a, env1) →
      evaluate O (Node.mk t cs) env = (.ok (p.2 a), env1)) := by
  rw [evaluate_unary_call O t cs env p hp ht hv]
  refine ⟨fun h => ?_, fun c0 h => ?_, fun c0 a env1 h h0 => ?_⟩
  · exact evalCall1_arity _ _ _ _ (by rw [evaluateChildren_length]; exact h)
  · subst h
    simp [evaluateChildren, evalCall1]
  · subst h
    simp [evaluateChildren, evalCall1, evalUnary, h0]

theorem evaluate_binary_call_cases {F : Type} (O : FloatOps F) (t : Token F)
    (cs : List (Node F)) (env : Env F) (p : String × (F → F → F)) (hp : p ∈ binaryTable O)
    (ht : t.type = TokenType.FUNCTION) (hv : t.value = p.1) :
    (cs.length ≠ 2 →
      evaluate O (Node.mk t cs) env
        = (.error (Err.runtimeError ("Error: function " ++ p.1 ++ " expects 2 arguments")),
            env)) ∧
    (∀ c0 c1, cs = [c0, c1] →
      evaluate O (Node.mk t cs) env
        = evalBinary (O.leftFirst p.1) p.2 (evaluate O c0) (evaluate O c1) env) ∧
    (∀ c0 c1 a b, cs = [c0, c1] → evaluate O c0 env = (.ok a, env) →
      evaluate O c1 env = (.ok b, env) →
      evaluate O (Node.mk t cs) env = (.ok (p.2 a b), env)) := by
  rw [evaluate_binary_call O t cs env p hp ht hv]
  refine ⟨fun h => ?_, fun c0 c1 h => ?_, fun c0 c1 a b h h0 h1 => ?_⟩
  · exact evalCall2_arity _ _ _ _ _ (by rw [evaluateChildren_length]; exact h)
  · subst h
    simp [evaluateChildren, evalCall2]
  · subst h
    simp [evaluateChildren, evalCall2, evalBinary, h0, h1]

theorem tokenize_sin_1_2 (lib : FloatOps ℚ) :
    tokenize (exactOps lib) "sin(1,2)" = .ok
      [⟨TokenType.FUNCTION, "sin", 0⟩, ⟨TokenType.PAREN_OPEN, "(", 0⟩,
       ⟨TokenType.NUMBER, "1", 1⟩, ⟨TokenType.COMMA, ",", 0⟩, ⟨TokenType.NUMBER, "2", 2⟩,
       ⟨TokenType.PAREN_CLOSE, ")", 0⟩, ⟨TokenType.END, "", 0⟩] := by
  simp [tokenize, tokenizeLoop, isspace, isdigit, isalpha, isalnum, scanNumber, scanIdent,
      exactOps, stodExact, digitsValue, backIsNumber, isFunctionName, String.singleton]

theorem tokenize_atan2_1 (lib : FloatOps ℚ) :
    tokenize (exactOps lib) "atan2(1)" = .ok
      [⟨TokenType.FUNCTION, "atan2", 0⟩, ⟨TokenType.PAREN_OPEN, "(", 0⟩,
       ⟨TokenType.NUMBER, "1", 1⟩, ⟨TokenType.PAREN_CLOSE, ")", 0⟩, ⟨TokenType.END, "", 0⟩] := by
  simp [tokenize, tokenizeLoop, isspace, isdigit, isalpha, isalnum, scanNumber, scanIdent,
      exactOps, stodExact, digitsValue, backIsNumber, isFunctionName, String.singleton]

theorem tokenize_sin_empty (lib : FloatOps ℚ) :
    tokenize (exactOps lib) "sin()" = .ok
      [⟨TokenType.FUNCTION, "sin", 0⟩, ⟨TokenType.PAREN_OPEN, "(", 0⟩,
       ⟨TokenType.PAREN_CLOSE, ")", 0⟩, ⟨TokenType.END, "", 0⟩] := by
  simp [tokenize, tokenizeLoop, isspace, isdigit, isalpha, isalnum, scanNumber, scanIdent,
      exactOps, stodExact, digitsValue, backIsNumber, isFunctionName, String.singleton]

theorem tokenize_atan2_1_1 (lib : FloatOps ℚ) :
    tokenize (exactOps lib) "atan2(1,1)" = .ok
      [⟨TokenType.FUNCTION, "atan2", 0⟩, ⟨TokenType.PAREN_OPEN, "(", 0⟩,
       ⟨TokenType.NUMBER, "1", 1⟩, ⟨TokenType.COMMA, ",", 0⟩, ⟨TokenType.NUMBER, "1", 1⟩,
       ⟨TokenType.PAREN_CLOSE, ")", 0⟩, ⟨TokenType.END, "", 0⟩] := by
  simp [tokenize, tokenizeLoop, isspace, isdigit, isalpha, isalnum, scanNumber, scanIdent,
      exactOps, stodExact, digitsValue, backIsNumber, isFunctionName, String.singleton]

theorem eval_sin_1_2 (lib : FloatOps ℚ) (env : Env ℚ) :
    evaluateExpression (exactOps lib) "sin(1,2)" env
      = (.error (Err.runtimeError "Error: function sin expects 1 argument"), env) := by
  have hparse : parse (exactOps lib)
      [⟨TokenType.FUNCTION, "sin", 0⟩, ⟨TokenType.PAREN_OPEN, "(", 0⟩,
       ⟨TokenType.NUMBER, "1", 1⟩, ⟨TokenType.COMMA, ",", 0⟩, ⟨TokenType.NUMBER, "2", 2⟩,
       ⟨TokenType.PAREN_CLOSE, ")", 0⟩, ⟨TokenType.END, "", 0⟩]
      = .ok (Node.mk ⟨TokenType.FUNCTION, "sin", 0⟩
        [Node.mk ⟨TokenType.NUMBER, "1", 1⟩ [],
         Node.mk ⟨TokenType.NUMBER, "2", 2⟩ []]) := rfl
  simp only [evaluateExpression, tokenize_sin_1_2, hparse]
  exact (evaluate_unary_call_cases (exactOps lib) _ _ env ("sin", lib.sin)
    (by simp [unaryTable, exactOps]) rfl rfl).1 (by decide)

theorem eval_atan2_1 (lib : FloatOps ℚ) (env : Env ℚ) :
    evaluateExpression (exactOps lib) "atan2(1)" env
      = (.error (Err.runtimeError "Error: function atan2 expects 2 arguments"), env) := by
  have hparse : parse (exactOps lib)
      [⟨TokenType.FUNCTION, "atan2", 0⟩, ⟨TokenType.PAREN_OPEN, "(", 0⟩,
       ⟨TokenType.NUMBER, "1", 1⟩, ⟨TokenType.PAREN_CLOSE, ")", 0⟩, ⟨TokenType.END, "", 0⟩]
      = .ok (Node.mk ⟨TokenType.FUNCTION, "atan2", 0⟩
        [Node.mk ⟨TokenType.NUMBER, "1", 1⟩ []]) := rfl
  simp only [evaluateExpression, tokenize_atan2_1, hparse]
  exact (evaluate_binary_call_cases (exactOps lib) _ _ env ("atan2", lib.atan2)
    (by simp [binaryTable, exactOps]) rfl rfl).1 (by decide)

theorem eval_sin_empty (lib : FloatOps ℚ) (env : Env ℚ) :
    evaluateExpression (exactOps lib) "sin()" env
      = (.error (Err.runtimeError "Error: function sin expects 1 argument"), env) := by
  have hparse : parse (exactOps lib)
      [⟨TokenType.FUNCTION, "sin", 0⟩, ⟨TokenType.PAREN_OPEN, "(", 0⟩,
       ⟨TokenType.PAREN_CLOSE, ")", 0⟩, ⟨TokenType.END, "", 0⟩]
      = .ok (Node.mk ⟨TokenType.FUNCTION, "sin", 0⟩ []) := rfl
  simp only [evaluateExpression, tokenize_sin_empty, hparse]
  exact (evaluate_unary_call_cases (exactOps lib) _ _ env ("sin", lib.sin)
    (by simp [unaryTable, exactOps]) rfl rfl).1 (by decide)

theorem eval_atan2_1_1 (lib : FloatOps ℚ) (env : Env ℚ) :
    evaluateExpression (exactOps lib) "atan2(1,1)" env = (.ok (lib.atan2 1 1), env) := by
  have hparse : parse (exactOps lib)
      [⟨TokenType.FUNCTION, "atan2", 0⟩, ⟨TokenType.PAREN_OPEN, "(", 0⟩,
       ⟨TokenType.NUMBER, "1", 1⟩, ⟨TokenType.COMMA, ",", 0⟩, ⟨TokenType.NUMBER, "1", 1⟩,
       ⟨TokenType.PAREN_CLOSE, ")", 0⟩, ⟨TokenType.END, "", 0⟩]
      = .ok (Node.mk ⟨TokenType.FUNCTION, "atan2", 0⟩
        [Node.mk ⟨TokenType.NUMBER, "1", 1⟩ [],
         Node.mk ⟨TokenType.NUMBER, "1", 1⟩ []]) := rfl
  simp only [evaluateExpression, tokenize_atan2_1_1, hparse]
  exact (evaluate_binary_call_cases (exactOps lib) _ _ env ("atan2", lib.atan2)
    (by simp [binaryTable, exactOps]) rfl rfl).2.2 _ _ 1 1 rfl
    (evaluate_number _ _ _ _ rfl) (evaluate_number _ _ _ _ rfl)

/-- C10 (function arity): a Function node named `sin cos tan asin acos atan
exp log log10` with a number of children other than 1, or named `atan2 max
min` with a number other than 2, makes `evaluate` throw the error naming the
function and its arity, whatever the children are and leaving the environment
alone; with the right number of children the node is the function applied to
the evaluated arguments (or an argument's own failure).  `"sin(1,2)"`,
`"atan2(1)"` and `"sin()"` fail with their arity errors and `"atan2(1,1)"`
returns `atan2(1, 1)`. -/
theorem C10_function_arity :
    (∀ (F : Type) (O : FloatOps F) (t : Token F) (cs : List (Node F)) (env : Env F)
      (p : String × (F → F)),
      p ∈ unaryTable O → t.type = TokenType.FUNCTION → t.value = p.1 →
      (cs.length ≠ 1 →
        evaluate O (Node.mk t cs) env
          = (.error (Err.runtimeError ("Error: function " ++ p.1 ++ " expects 1 argument")),
              env)) ∧
      (∀ c0, cs = [c0] →
        evaluate O (Node.mk t cs) env = evalUnary p.2 (evaluate O c0 env)) ∧
      (∀ c0 a env1, cs = [c0] → evaluate O c0 env = (.ok a, env1) →
        evaluate O (Node.mk t cs) env = (.ok (p.2 a), env1))) ∧
    (∀ (F : Type) (O : FloatOps F) (t : Token F) (cs : List (Node F)) (env : Env F)
      (p : String × (F → F → F)),
      p ∈ binaryTable O → t.type = TokenType.FUNCTION → t.value = p.1 →
      (cs.length ≠ 2 →
        evaluate O (Node.mk t cs) env
          = (.error (Err.runtimeError ("Error: function " ++ p.1 ++ " expects 2 arguments")),
              env)) ∧
      (∀ c0 c1, cs = [c0, c1] →
        evaluate O (Node.mk t cs) env
          = evalBinary (O.leftFirst p.1) p.2 (evaluate O c0) (evaluate O c1) env) ∧
      (∀ c0 c1 a b, cs = [c0, c1] → evaluate O c0 env = (.ok a, env) →
        evaluate O c1 env = (.ok b, env) →
        evaluate O (Node.mk t cs) env = (.ok (p.2 a b), env))) ∧
    (∀ (lib : FloatOps ℚ) (env : Env ℚ),
      evaluateExpression (exactOps lib) "sin(1,2)" env
        = (.error (Err.runtimeError "Error: function sin expects 1 argument"), env) ∧
      evaluateExpression (exactOps lib) "atan2(1)" env
        = (.error (Err.runtimeError "Error: function atan2 expects 2 arguments"), env) ∧
      evaluateExpression (exactOps lib) "sin()" env
        = (.error (Err.runtimeError "Error: function sin expects 1 argument"), env) ∧
      evaluateExpression (exactOps lib) "atan2(1,1)" env = (.ok (lib.atan2 1 1), env)) :=
  ⟨fun _ O t cs env p hp ht hv => evaluate_unary_call_cases O t cs env p hp ht hv,
    fun _ O t cs env p hp ht hv => evaluate_binary_call_cases O t cs env p hp ht hv,
    fun lib env => ⟨eval_sin_1_2 lib env, eval_atan2_1 lib env, eval_sin_empty lib env,
      eval_atan2_1_1 lib env⟩⟩

/-- C10 witness: `log10` over two children that would each throw is rejected
for its arity, before either child is looked at. -/
theorem C10_witness :
    evaluate ratOps
        (Node.mk ⟨TokenType.FUNCTION, "log10", 0⟩
          [Node.mk ⟨TokenType.VARIABLE, "x", 0⟩ [], Node.mk ⟨TokenType.VARIABLE, "y", 0⟩ []])
        Env.empty
      = (.error (Err.runtimeError "Error: function log10 expects 1 argument"), Env.empty) :=
  (C10_function_arity.1 ℚ ratOps ⟨TokenType.FUNCTION, "log10", 0⟩ _ Env.empty
    ("log10", ratOps.log10) (by simp [unaryTable]) rfl rfl).1 (by decide)


/-! ## The budget of `tokenize` is never used up -/

theorem scanNumber_length (rest : List Char) :
    ∀ (hasDot : Bool) (numStr : List Char),
      (scanNumber rest hasDot numStr).2.length ≤ rest.length := by
  induction rest with
  | nil => intro hasDot numStr; simp [scanNumber]
  | cons c rest ih =>
    intro hasDot numStr
    simp only [scanNumber]
    split
    · exact Nat.le_succ_of_le (ih _ _)
    · exact Nat.le_refl _

theorem scanIdent_length (rest : List Char) :
    ∀ (s : List Char), (scanIdent rest s).2.length ≤ rest.length := by
  induction rest with
  | nil => intro s; simp [scanIdent]
  | cons c rest ih =>
    intro s
    simp only [scanIdent]
    split
    · exact Nat.le_succ_of_le (ih _)
    · exact Nat.le_refl _

theorem tokenizeLoop_ne_outOfFuel {F : Type} (O : FloatOps F) (fuel : Nat) :
    ∀ (rest : List Char) (acc : List (Token F)), rest.length ≤ fuel →
      tokenizeLoop O fuel rest acc ≠ .error Err.outOfFuel := by
  induction fuel with
  | zero =>
    intro rest acc hlen h
    cases rest with
    | nil => simp [tokenizeLoop] at h
    | cons c rest => simp at hlen
  | succ fuel ih =>
    intro rest acc hlen h
    cases rest with
    | nil => simp [tokenizeLoop] at h
    | cons c rest =>
      simp only [List.length_cons, Nat.add_le_add_iff_right] at hlen
      have hn := scanNumber_length rest (c == '.') [c]
      have hi := scanIdent_length rest [c]
      simp only [tokenizeLoop] at h
      split at h
      · exact ih _ _ hlen h
      · split at h
        · split at h
          · cases h
          · exact ih _ _ (Nat.le_trans hn hlen) h
        · split at h
          · split at h
            · exact ih _ _ (Nat.le_trans hi hlen) h
            · exact ih _ _ (Nat.le_trans hi hlen) h
          · split at h
            · exact ih _ _ hlen h
            · split at h
              · exact ih _ _ hlen h
              · split at h
                · exact ih _ _ hlen h
                · split at h
                  · exact ih _ _ hlen h
                  · split at h
                    · exact ih _ _ hlen h
                    · cases h

/-- `tokenize` never runs out of its iteration budget. -/
theorem tokenize_ne_outOfFuel {F : Type} (O : FloatOps F) (input : String) :
    tokenize O input ≠ .error Err.outOfFuel :=
  tokenizeLoop_ne_outOfFuel O _ _ [] (Nat.le_refl _)


/-! ## The lexer: sentinel, numerals, identifiers, rejection -/

theorem tokenizeLoop_whitespace {F : Type} (O : FloatOps F) (fuel : Nat) :
    ∀ (rest : List Char) (acc : List (Token F)), rest.length ≤ fuel →
      (∀ c ∈ rest, isspace c = true) →
      tokenizeLoop O fuel rest acc = .ok (acc ++ [⟨TokenType.END, "", O.zero⟩]) := by
  induction fuel with
  | zero =>
    intro rest acc hlen _
    cases rest with
    | nil => simp [tokenizeLoop]
    | cons c rest => simp at hlen
  | succ fuel ih =>
    intro rest acc hlen hsp
    cases rest with
    | nil => simp [tokenizeLoop]
    | cons c rest =>
      simp only [List.length_cons, Nat.add_le_add_iff_right] at hlen
      have hc := hsp c (List.mem_cons_self _ _)
      simp only [tokenizeLoop, hc, if_true]
      exact ih rest acc hlen (fun x hx => hsp x (List.mem_cons_of_mem _ hx))

theorem tokenize_sentinel {F : Type} (O : FloatOps F) (input : String)
    (tokens : List (Token F)) (h : tokenize O input = .ok tokens) :
    tokens ≠ [] ∧
      (∃ e, tokens.getLast? = some e ∧ e.type = TokenType.END) ∧
      (∀ i t, tokens[i]? = some t → i + 1 < tokens.length → t.type ≠ TokenType.END) := by
  obtain ⟨body, rfl, hne⟩ := tokenize_end O input tokens h
  refine ⟨by simp, ⟨⟨TokenType.END, "", O.zero⟩, by simp, rfl⟩, fun i t hget hi => ?_⟩
  have hlt : i < body.length := by
    simp only [List.length_append, List.length_singleton] at hi
    omega
  rw [List.getElem?_append_left hlt] at hget
  exact hne t (List.getElem?_mem hget)

/-- C11 (END sentinel): whenever `tokenize` succeeds the sequence is not
empty, its last token is END and no earlier token is END; on the empty input
and on every input made of whitespace only the result is exactly `[END]`. -/
theorem C11_end_sentinel :
    (∀ (F : Type) (O : FloatOps F) (input : String) (tokens : List (Token F)),
      tokenize O input = .ok tokens →
      tokens ≠ [] ∧
        (∃ e, tokens.getLast? = some e ∧ e.type = TokenType.END) ∧
        (∀ i t, tokens[i]? = some t → i + 1 < tokens.length → t.type ≠ TokenType.END)) ∧
    (∀ (F : Type) (O : FloatOps F) (input : String),
      (∀ c ∈ input.data, isspace c = true) →
      tokenize O input = .ok [⟨TokenType.END, "", O.zero⟩]) ∧
    (∀ (F : Type) (O : FloatOps F), tokenize O "" = .ok [⟨TokenType.END, "", O.zero⟩]) :=
  ⟨fun _ O input tokens h => tokenize_sentinel O input tokens h,
    fun _ O _ hsp => tokenizeLoop_whitespace O _ _ [] (Nat.le_refl _) hsp,
    fun _ _ => rfl⟩

/-- C11 witness: the tokens of `"1 + 2 abc"` end with END; a blank and a tab
give `[END]`. -/
theorem C11_witness :
    (∃ e, ([⟨TokenType.NUMBER, "1", 1⟩, ⟨TokenType.OPERATOR, "+", 0⟩,
        ⟨TokenType.NUMBER, "2", 2⟩, ⟨TokenType.VARIABLE, "abc", 0⟩,
        ⟨TokenType.END, "", 0⟩] : List (Token ℚ)).getLast? = some e ∧
      e.type = TokenType.END) ∧
    tokenize ratOps " \t" = .ok [⟨TokenType.END, "", 0⟩] :=
  ⟨(C11_end_sentinel.1 ℚ ratOps "1 + 2 abc" _ tokenize_1_plus_2_abc).2.1,
    C11_end_sentinel.2.1 ℚ ratOps " \t" (by decide)⟩


theorem isdigit_not_space {c : Char} (h : isdigit c = true) : isspace c = false := by
  simp only [isdigit, Bool.and_eq_true, decide_eq_true_eq] at h
  simp only [isspace, Bool.or_eq_false_iff, beq_eq_false_iff_ne, Bool.and_eq_false_iff,
    decide_eq_false_iff_not]
  omega

theorem isdigit_not_dot {c : Char} (h : isdigit c = true) : (c == '.') = false := by
  rw [beq_eq_false_iff_ne]
  rintro rfl
  simp [isdigit] at h

theorem scanNumber_all (rest : List Char) :
    ∀ (hasDot : Bool) (numStr : List Char),
      (∀ c ∈ rest, isdigit c = true ∨ c = '.') →
      rest.count '.' + (if hasDot then 1 else 0) ≤ 1 →
      scanNumber rest hasDot numStr = (numStr ++ rest, []) := by
  induction rest with
  | nil => intro hasDot numStr _ _; simp [scanNumber]
  | cons c rest ih =>
    intro hasDot numStr hall hcount
    have hc := hall c (List.mem_cons_self _ _)
    have hrest : ∀ x ∈ rest, isdigit x = true ∨ x = '.' :=
      fun x hx => hall x (List.mem_cons_of_mem _ hx)
    rcases hc with hd | rfl
    · have hnd := isdigit_not_dot hd
      have hne : c ≠ '.' := by simpa using hnd
      rw [List.count_cons_of_ne (Ne.symm hne)] at hcount
      simp only [scanNumber, hd, Bool.true_or, if_true, hnd, Bool.or_false]
      rw [ih hasDot (numStr ++ [c]) hrest hcount]
      simp
    · rw [List.count_cons_self] at hcount
      have hfalse : hasDot = false := by
        cases hasDot
        · rfl
        · simp at hcount
      subst hfalse
      have hnd : isdigit '.' = false := by decide
      simp only [scanNumber, hnd, Bool.false_or, beq_self_eq_true, Bool.not_false,
        Bool.and_self, if_true]
      rw [ih true (numStr ++ ['.']) hrest (by simp at hcount ⊢; omega)]
      simp

/-- A numeral that begins with a digit is one Number token carrying its text
and what `std::stod` returns for it; when `std::stod` throws, so does
`tokenize`. -/
theorem tokenize_numeral {F : Type} (O : FloatOps F) (c : Char) (rest : List Char)
    (hc : isdigit c = true) (hlit : isNumericLiteral (c :: rest) = true) :
    tokenize O (String.mk (c :: rest)) =
      match O.stod (String.mk (c :: rest)) with
      | none => .error Err.stodError
      | some v =>
        .ok [⟨TokenType.NUMBER, String.mk (c :: rest), v⟩, ⟨TokenType.END, "", O.zero⟩] := by
  have hnd := isdigit_not_dot hc
  have hne : c ≠ '.' := by simpa using hnd
  simp only [isNumericLiteral, Bool.and_eq_true, List.all_eq_true, Bool.or_eq_true,
    beq_iff_eq, decide_eq_true_eq] at hlit
  obtain ⟨⟨hall, hcount⟩, -⟩ := hlit
  rw [List.count_cons_of_ne (Ne.symm hne)] at hcount
  have hscan := scanNumber_all rest false [c]
    (fun x hx => hall x (List.mem_cons_of_mem _ hx)) (by simpa using hcount)
  simp only [tokenize, List.length_cons, tokenizeLoop, isdigit_not_space hc, hc, hnd,
    Bool.true_or, if_true, hscan, List.singleton_append, Bool.false_eq_true, if_false]
  cases O.stod (String.mk (c :: rest)) with
  | none => rfl
  | some v =>
    simp only
    cases rest.length <;> simp [tokenizeLoop]

theorem digitsValue_some (l : List Char) (hl : ∀ c ∈ l, isdigit c = true) :
    ∀ acc, ∃ n, digitsValue l acc = some n := by
  induction l with
  | nil => intro acc; exact ⟨acc, rfl⟩
  | cons c l ih =>
    intro acc
    simp only [digitsValue, hl c (List.mem_cons_self _ _), if_true]
    exact ih (fun x hx => hl x (List.mem_cons_of_mem _ hx)) _

/-- In exact arithmetic every valid numeric literal has a value: there
`std::stod` never throws. -/
theorem stodExact_some (s : String) (h : isNumericLiteral s.data = true) :
    ∃ v, stodExact s = some v := by
  simp only [isNumericLiteral, Bool.and_eq_true, List.all_eq_true, Bool.or_eq_true,
    beq_iff_eq, decide_eq_true_eq, List.any_eq_true] at h
  obtain ⟨⟨hall, hcount⟩, x, hx, hxd⟩ := h
  have hsplit := List.takeWhile_append_dropWhile (fun c => c != '.') s.data
  have htw : ∀ c ∈ s.data.takeWhile (fun c => c != '.'), isdigit c = true := by
    intro c hc
    have hne : c ≠ '.' := by simpa using List.mem_takeWhile_imp hc
    rcases hall c (List.takeWhile_subset _ hc) with hd | hd
    · exact hd
    · exact absurd hd hne
  have hfrac : ∀ c ∈ (s.data.dropWhile (fun c => c != '.')).drop 1, isdigit c = true := by
    intro c hc
    cases hdw : s.data.dropWhile (fun c => c != '.') with
    | nil => rw [hdw] at hc; simp at hc
    | cons a f =>
      rw [hdw] at hc
      simp only [List.drop_succ_cons, List.drop_zero] at hc
      have ha : a = '.' := by
        have := List.head_dropWhile_not (fun c => c != '.') s.data (by rw [hdw]; simp)
        simpa [hdw] using this
      have hcnt : s.data.count '.' = (s.data.takeWhile (fun c => c != '.')).count '.'
          + (a :: f).count '.' := by
        rw [← hdw, ← List.count_append, hsplit]
      rw [ha, List.count_cons_self] at hcnt
      have hf0 : f.count '.' = 0 := by omega
      have hcmem : c ∈ s.data := by
        rw [← hsplit, hdw]
        exact List.mem_append_right _ (List.mem_cons_of_mem _ hc)
      rcases hall c hcmem with hd | hd
      · exact hd
      · rw [hd] at hc
        exact absurd (List.count_pos_iff.2 hc) (by omega)
  have hdig : ∀ c ∈ s.data.takeWhile (fun c => c != '.')
      ++ (s.data.dropWhile (fun c => c != '.')).drop 1, isdigit c = true := by
    intro c hc
    rcases List.mem_append.1 hc with h1 | h1
    · exact htw c h1
    · exact hfrac c h1
  have hpos : (s.data.takeWhile (fun c => c != '.')).length
      + ((s.data.dropWhile (fun c => c != '.')).drop 1).length ≠ 0 := by
    have hxne : x ≠ '.' := by
      rintro rfl
      simp [isdigit] at hxd
    rw [← hsplit] at hx
    rcases List.mem_append.1 hx with h1 | h1
    · have := List.length_pos_of_mem h1
      omega
    · cases hdw : s.data.dropWhile (fun c => c != '.') with
      | nil => rw [hdw] at h1; simp at h1
      | cons a f =>
        rw [hdw] at h1
        have ha : a = '.' := by
          have := List.head_dropWhile_not (fun c => c != '.') s.data (by rw [hdw]; simp)
          simpa [hdw] using this
        rcases List.mem_cons.1 h1 with h2 | h2
        · exact absurd (h2.trans ha) hxne
        · have := List.length_pos_of_mem h2
          simp only [List.drop_succ_cons, List.drop_zero]
          omega
  obtain ⟨n, hn⟩ := digitsValue_some _ hdig 0
  refine ⟨(n : ℚ) / (10 : ℚ) ^ ((s.data.dropWhile (fun c => c != '.')).drop 1).length, ?_⟩
  simp only [stodExact]
  rw [if_neg hpos, hn]

theorem tokenize_literal {F : Type} (O : FloatOps F) (n : String) (v : F)
    (hlit : isNumericLiteral n.data = true)
    (hfirst : ∃ c rest, n.data = c :: rest ∧ isdigit c = true) (hstod : O.stod n = some v) :
    tokenize O n = .ok [⟨TokenType.NUMBER, n, v⟩, ⟨TokenType.END, "", O.zero⟩] := by
  obtain ⟨c, rest, hdata, hc⟩ := hfirst
  have hn : n = String.mk (c :: rest) := by
    rw [← hdata]
  rw [hdata] at hlit
  rw [hn] at hstod ⊢
  rw [tokenize_numeral O c rest hc hlit, hstod]

theorem stodExact_123 : stodExact "123" = some 123 := by
  simp [stodExact, digitsValue, isdigit]

theorem stodExact_4_56 : stodExact "4.56" = some (456 / 100) := by
  simp [stodExact, digitsValue, isdigit]
  norm_num

/-- C12 (numeric literals), as amended: for every valid numeric literal `n`
that begins with a digit and that `std::stod` converts to `v`, `tokenize(n)`
is exactly the Number token with text `n` and value `v` followed by END; in
exact arithmetic every valid numeric literal is converted, `"123"` to 123 and
`"4.56"` to 456/100. -/
theorem C12_numeric_literals :
    (∀ (F : Type) (O : FloatOps F) (n : String) (v : F),
      isNumericLiteral n.data = true →
      (∃ c rest, n.data = c :: rest ∧ isdigit c = true) → O.stod n = some v →
      tokenize O n = .ok [⟨TokenType.NUMBER, n, v⟩, ⟨TokenType.END, "", O.zero⟩]) ∧
    (∀ (n : String), isNumericLiteral n.data = true → ∃ v, stodExact n = some v) ∧
    (∀ (lib : FloatOps ℚ),
      tokenize (exactOps lib) "123"
        = .ok [⟨TokenType.NUMBER, "123", 123⟩, ⟨TokenType.END, "", 0⟩] ∧
      tokenize (exactOps lib) "4.56"
        = .ok [⟨TokenType.NUMBER, "4.56", 456 / 100⟩, ⟨TokenType.END, "", 0⟩]) :=
  ⟨fun _ O n v hlit hfirst hstod => tokenize_literal O n v hlit hfirst hstod,
    stodExact_some,
    fun lib =>
      ⟨tokenize_literal (exactOps lib) "123" 123 (by decide) ⟨'1', _, rfl, by decide⟩
          stodExact_123,
        tokenize_literal (exactOps lib) "4.56" (456 / 100) (by decide)
          ⟨'4', _, rfl, by decide⟩ stodExact_4_56⟩⟩

/-- C12 witness: `"4.56"` in exact arithmetic. -/
theorem C12_witness :
    tokenize ratOps "4.56"
      = .ok [⟨TokenType.NUMBER, "4.56", 456 / 100⟩, ⟨TokenType.END, "", 0⟩] :=
  C12_numeric_literals.1 ℚ ratOps "4.56" (456 / 100) (by decide) ⟨'4', _, rfl, by decide⟩
    stodExact_4_56

/-- C12 counterexample: `".5"` is made of digits and one decimal point and has
a digit, yet `tokenize` rejects its first character: a decimal point starts a
numeral only right after a Number token. -/
theorem C12_counterexample :
    isNumericLiteral ".5".data = true ∧
      tokenize ratOps ".5" = .error (Err.runtimeError "Invalid character: .") := by
  refine ⟨by decide, ?_⟩
  simp [tokenize, tokenizeLoop, isspace, isdigit, isalpha, backIsNumber, String.singleton]
  decide


theorem start_not_space {c : Char} (h : (isalpha c || c == '_') = true) :
    isspace c = false := by
  simp only [isalpha, Bool.or_eq_true, Bool.and_eq_true, decide_eq_true_eq, beq_iff_eq] at h
  simp only [isspace, Bool.or_eq_false_iff, beq_eq_false_iff_ne, Bool.and_eq_false_iff,
    decide_eq_false_iff_not]
  rcases h with h | rfl
  · omega
  · decide

theorem start_not_digit {c : Char} (h : (isalpha c || c == '_') = true) :
    isdigit c = false := by
  simp only [isalpha, Bool.or_eq_true, Bool.and_eq_true, decide_eq_true_eq, beq_iff_eq] at h
  simp only [isdigit, Bool.and_eq_false_iff, decide_eq_false_iff_not]
  rcases h with h | rfl
  · omega
  · decide

theorem start_not_dot {c : Char} (h : (isalpha c || c == '_') = true) :
    (c == '.') = false := by
  rw [beq_eq_false_iff_ne]
  rintro rfl
  simp [isalpha] at h

theorem scanIdent_all (rest : List Char) :
    ∀ (s : List Char), (∀ c ∈ rest, (isalnum c || c == '_') = true) →
      scanIdent rest s = (s ++ rest, []) := by
  induction rest with
  | nil => intro s _; simp [scanIdent]
  | cons c rest ih =>
    intro s hall
    simp only [scanIdent, hall c (List.mem_cons_self _ _), if_true]
    rw [ih (s ++ [c]) (fun x hx => hall x (List.mem_cons_of_mem _ hx))]
    simp

theorem isFunctionName_iff (s : String) : isFunctionName s = true ↔ s ∈ functionNames := by
  simp only [isFunctionName, functionNames, Bool.or_eq_true, beq_iff_eq, List.mem_cons,
    List.mem_singleton, List.not_mem_nil, or_false]
  tauto

/-- An identifier is one token carrying its text, of kind Function exactly
when the text is a reserved function name. -/
theorem tokenize_identifier {F : Type} (O : FloatOps F) (s : String)
    (hid : isIdentifier s.data = true) :
    tokenize O s =
      .ok [⟨if isFunctionName s then TokenType.FUNCTION else TokenType.VARIABLE, s, O.zero⟩,
        ⟨TokenType.END, "", O.zero⟩] := by
  cases hdata : s.data with
  | nil => rw [hdata] at hid; simp [isIdentifier] at hid
  | cons c rest =>
    rw [hdata] at hid
    simp only [isIdentifier, Bool.and_eq_true, List.all_eq_true] at hid
    obtain ⟨hc, hrest⟩ := hid
    have hs : String.mk (c :: rest) = s := by rw [← hdata]
    have hscan := scanIdent_all rest [c] hrest
    simp only [tokenize, hdata, List.length_cons, tokenizeLoop, start_not_space hc,
      start_not_digit hc, start_not_dot hc, hc, hscan, List.singleton_append, hs,
      Bool.false_eq_true, if_false, if_true, Bool.false_and, Bool.or_self]
    split <;> cases rest.length <;> simp [tokenizeLoop]

/-- C13 (identifier classification): for every identifier `s`, `tokenize(s)`
is exactly one token with text `s` followed by END, of kind Function when `s`
is one of the twelve reserved names and of kind Variable otherwise; `pi`,
`e`, `sinx` and `log2` are Variable tokens and `sin` is a Function token. -/
theorem C13_identifier_classification :
    (∀ (F : Type) (O : FloatOps F) (s : String), isIdentifier s.data = true →
      tokenize O s =
        .ok [⟨if s ∈ functionNames then TokenType.FUNCTION else TokenType.VARIABLE, s,
            O.zero⟩, ⟨TokenType.END, "", O.zero⟩]) ∧
    (∀ (F : Type) (O : FloatOps F),
      tokenize O "pi" = .ok [⟨TokenType.VARIABLE, "pi", O.zero⟩, ⟨TokenType.END, "", O.zero⟩] ∧
      tokenize O "e" = .ok [⟨TokenType.VARIABLE, "e", O.zero⟩, ⟨TokenType.END, "", O.zero⟩] ∧
      tokenize O "sinx"
        = .ok [⟨TokenType.VARIABLE, "sinx", O.zero⟩, ⟨TokenType.END, "", O.zero⟩] ∧
      tokenize O "log2"
        = .ok [⟨TokenType.VARIABLE, "log2", O.zero⟩, ⟨TokenType.END, "", O.zero⟩] ∧
      tokenize O "sin"
        = .ok [⟨TokenType.FUNCTION, "sin", O.zero⟩, ⟨TokenType.END, "", O.zero⟩]) := by
  have hgen : ∀ (F : Type) (O : FloatOps F) (s : String), isIdentifier s.data = true →
      tokenize O s =
        .ok [⟨if s ∈ functionNames then TokenType.FUNCTION else TokenType.VARIABLE, s,
            O.zero⟩, ⟨TokenType.END, "", O.zero⟩] := by
    intro F O s hid
    rw [tokenize_identifier O s hid]
    by_cases h : s ∈ functionNames
    · rw [if_pos h, if_pos ((isFunctionName_iff s).2 h)]
    · rw [if_neg h, if_neg (fun hf => h ((isFunctionName_iff s).1 hf))]
  refine ⟨hgen, fun F O => ⟨?_, ?_, ?_, ?_, ?_⟩⟩
  · exact hgen F O "pi" (by decide)
  · exact hgen F O "e" (by decide)
  · exact hgen F O "sinx" (by decide)
  · exact hgen F O "log2" (by decide)
  · exact hgen F O "sin" (by decide)

/-- C13 witness: `atan2` is a reserved name, `_tmp1` is not. -/
theorem C13_witness :
    tokenize ratOps "atan2"
        = .ok [⟨TokenType.FUNCTION, "atan2", 0⟩, ⟨TokenType.END, "", 0⟩] ∧
    tokenize ratOps "_tmp1"
        = .ok [⟨TokenType.VARIABLE, "_tmp1", 0⟩, ⟨TokenType.END, "", 0⟩] :=
  ⟨C13_identifier_classification.1 ℚ ratOps "atan2" (by decide),
    C13_identifier_classification.1 ℚ ratOps "_tmp1" (by decide)⟩


theorem scanNumber_keeps (c : Char) (hdg : isdigit c = false) (hdot : c ≠ '.')
    (rest : List Char) :
    ∀ (hasDot : Bool) (s : List Char), c ∈ rest → c ∈ (scanNumber rest hasDot s).2 := by
  induction rest with
  | nil => intro _ _ h; simp at h
  | cons x rest ih =>
    intro hasDot s h
    simp only [scanNumber]
    split
    · rename_i hx
      rcases List.mem_cons.1 h with rfl | h'
      · simp [hdg, hdot] at hx
      · exact ih _ _ h'
    · exact h

theorem scanIdent_keeps (c : Char) (hal : isalnum c = false) (hus : c ≠ '_')
    (rest : List Char) :
    ∀ (s : List Char), c ∈ rest → c ∈ (scanIdent rest s).2 := by
  induction rest with
  | nil => intro _ h; simp at h
  | cons x rest ih =>
    intro s h
    simp only [scanIdent]
    split
    · rename_i hx
      rcases List.mem_cons.1 h with rfl | h'
      · simp [hal, hus] at hx
      · exact ih _ h'
    · exact h

theorem tokenizeLoop_rejects {F : Type} (O : FloatOps F) (c : Char)
    (hbad : isAllowedChar c = false) (hdot : c ≠ '.') (fuel : Nat) :
    ∀ (rest : List Char) (acc tokens : List (Token F)), c ∈ rest →
      tokenizeLoop O fuel rest acc ≠ .ok tokens := by
  simp only [isAllowedChar, isSymbol, Bool.or_eq_false_iff, beq_eq_false_iff_ne] at hbad
  obtain ⟨⟨⟨⟨hsp, hdg⟩, hal⟩, hus⟩, ⟨⟨⟨⟨⟨⟨⟨⟨h1, h2⟩, h3⟩, h4⟩, h5⟩, h6⟩, h7⟩, h8⟩, h9⟩⟩ := hbad
  have halnum : isalnum c = false := by simp [isalnum, hal, hdg]
  induction fuel with
  | zero =>
    intro rest acc tokens hc h
    cases rest with
    | nil => simp at hc
    | cons x rest => simp [tokenizeLoop] at h
  | succ fuel ih =>
    intro rest acc tokens hc h
    cases rest with
    | nil => simp at hc
    | cons x rest =>
      have htail : x ≠ c → c ∈ rest := by
        intro hne
        rcases List.mem_cons.1 hc with h' | h'
        · exact absurd h'.symm hne
        · exact h'
      simp only [tokenizeLoop] at h
      split at h
      · rename_i hx
        exact ih _ _ _ (htail (by rintro rfl; simp [hsp] at hx)) h
      · split at h
        · rename_i hx
          have hin := htail (by rintro rfl; simp [hdg, hdot] at hx)
          split at h
          · cases h
          · exact ih _ _ _ (scanNumber_keeps c hdg hdot rest _ _ hin) h
        · split at h
          · rename_i hx
            have hin := htail (by rintro rfl; simp [hal, hus] at hx)
            split at h
            · exact ih _ _ _ (scanIdent_keeps c halnum hus rest _ hin) h
            · exact ih _ _ _ (scanIdent_keeps c halnum hus rest _ hin) h
          · split at h
            · rename_i hx
              exact ih _ _ _ (htail (by rintro rfl; simp [h1, h2, h3, h4, h5] at hx)) h
            · split at h
              · rename_i hx
                exact ih _ _ _ (htail (by rintro rfl; simp [h6] at hx)) h
              · split at h
                · rename_i hx
                  exact ih _ _ _ (htail (by rintro rfl; simp [h7] at hx)) h
                · split at h
                  · rename_i hx
                    exact ih _ _ _ (htail (by rintro rfl; simp [h8] at hx)) h
                  · split at h
                    · rename_i hx
                      exact ih _ _ _ (htail (by rintro rfl; simp [h9] at hx)) h
                    · cases h

theorem scanNumber_digits (rest : List Char) (hrest : ∀ c ∈ rest, c ≠ '.') :
    ∀ (hasDot : Bool) (s : List Char), s ≠ [] → (∀ c ∈ s, isdigit c = true) →
      (scanNumber rest hasDot s).1 ≠ [] ∧
      (∀ c ∈ (scanNumber rest hasDot s).1, isdigit c = true) ∧
      (∀ c ∈ (scanNumber rest hasDot s).2, c ∈ rest) := by
  induction rest with
  | nil => intro _ s hs hd; simpa [scanNumber, hs] using hd
  | cons x rest ih =>
    intro hasDot s hs hd
    have hx := hrest x (List.mem_cons_self _ _)
    have hxd : (x == '.') = false := by simpa using hx
    simp only [scanNumber, hxd, Bool.false_and, Bool.or_false]
    split
    · rename_i hdx
      obtain ⟨a, b, c⟩ := ih (fun y hy => hrest y (List.mem_cons_of_mem _ hy)) hasDot
        (s ++ [x]) (by simp) (by
          intro y hy
          rcases List.mem_append.1 hy with h | h
          · exact hd y h
          · rw [List.mem_singleton.1 h]; exact hdx)
      exact ⟨a, b, fun y hy => List.mem_cons_of_mem _ (c y hy)⟩
    · exact ⟨hs, hd, fun y hy => hy⟩

theorem scanIdent_rest (rest : List Char) :
    ∀ (s : List Char), ∀ c ∈ (scanIdent rest s).2, c ∈ rest := by
  induction rest with
  | nil => intro s c hc; simp [scanIdent] at hc
  | cons x rest ih =>
    intro s c hc
    simp only [scanIdent] at hc
    split at hc
    · exact List.mem_cons_of_mem _ (ih _ c hc)
    · exact hc

/-- On an input of allowed characters `tokenize` succeeds, provided `std::stod`
converts every run of digits. -/
theorem tokenizeLoop_accepts {F : Type} (O : FloatOps F)
    (hstod : ∀ s : List Char, s ≠ [] → (∀ c ∈ s, isdigit c = true) →
      O.stod (String.mk s) ≠ none) (fuel : Nat) :
    ∀ (rest : List Char) (acc : List (Token F)), rest.length ≤ fuel →
      (∀ c ∈ rest, isAllowedChar c = true) →
      ∃ tokens, tokenizeLoop O fuel rest acc = .ok tokens := by
  have hnodot : ∀ c, isAllowedChar c = true → c ≠ '.' := by
    rintro c hc rfl
    revert hc
    decide
  induction fuel with
  | zero =>
    intro rest acc hlen _
    cases rest with
    | nil => exact ⟨_, rfl⟩
    | cons x rest => simp at hlen
  | succ fuel ih =>
    intro rest acc hlen hall
    cases rest with
    | nil => exact ⟨acc ++ [⟨TokenType.END, "", O.zero⟩], by simp [tokenizeLoop]⟩
    | cons x rest =>
      simp only [List.length_cons, Nat.add_le_add_iff_right] at hlen
      have hx := hall x (List.mem_cons_self _ _)
      have hrest : ∀ c ∈ rest, isAllowedChar c = true :=
        fun c hc => hall c (List.mem_cons_of_mem _ hc)
      have hxdot : (x == '.') = false := by simpa using hnodot x hx
      have hn := scanNumber_length rest false [x]
      have hi := scanIdent_length rest [x]
      simp only [tokenizeLoop, hxdot, Bool.false_and, Bool.or_false]
      split
      · exact ih _ _ hlen hrest
      · split
        · rename_i hdx
          obtain ⟨a, b, c⟩ := scanNumber_digits rest (fun y hy => hnodot y (hrest y hy)) false
            [x] (by simp) (by simpa using hdx)
          cases hs : O.stod (String.mk (scanNumber rest false [x]).1) with
          | none => exact absurd hs (hstod _ a b)
          | some v =>
            exact ih _ _ (Nat.le_trans hn hlen) (fun y hy => hrest y (c y hy))
        · split
          · split
            · exact ih _ _ (Nat.le_trans hi hlen)
                (fun y hy => hrest y (scanIdent_rest rest _ y hy))
            · exact ih _ _ (Nat.le_trans hi hlen)
                (fun y hy => hrest y (scanIdent_rest rest _ y hy))
          · split
            · exact ih _ _ hlen hrest
            · split
              · exact ih _ _ hlen hrest
              · split
                · exact ih _ _ hlen hrest
                · split
                  · exact ih _ _ hlen hrest
                  · split
                    · exact ih _ _ hlen hrest
                    · rename_i h1 h2 h3 h4 h5 h6 h7 h8
                      simp only [isAllowedChar, isSymbol] at hx
                      simp_all

theorem isNumericLiteral_of_digits (s : List Char) (hs : s ≠ [])
    (hd : ∀ c ∈ s, isdigit c = true) : isNumericLiteral s = true := by
  have hcount : s.count '.' = 0 := by
    rw [List.count_eq_zero]
    intro hmem
    have := hd _ hmem
    simp [isdigit] at this
  simp only [isNumericLiteral, Bool.and_eq_true, List.all_eq_true, Bool.or_eq_true,
    beq_iff_eq, decide_eq_true_eq, List.any_eq_true]
  refine ⟨⟨fun c hc => Or.inl (hd c hc), by omega⟩, ?_⟩
  cases s with
  | nil => exact absurd rfl hs
  | cons x s => exact ⟨x, List.mem_cons_self _ _, hd x (List.mem_cons_self _ _)⟩

theorem exactOps_stod_digits (lib : FloatOps ℚ) (s : List Char) (hs : s ≠ [])
    (hd : ∀ c ∈ s, isdigit c = true) : (exactOps lib).stod (String.mk s) ≠ none := by
  obtain ⟨v, hv⟩ := stodExact_some (String.mk s) (isNumericLiteral_of_digits s hs hd)
  show stodExact (String.mk s) ≠ none
  rw [hv]
  simp

theorem digitsValue_zeros (k : Nat) :
    ∀ acc, digitsValue (List.replicate k '0') acc = some (acc * 10 ^ k) := by
  induction k with
  | zero => intro acc; simp [digitsValue]
  | succ k ih =>
    intro acc
    have h0 : isdigit '0' = true := by decide
    simp only [List.replicate_succ, digitsValue, h0, if_true, ih]
    congr 1
    have : ('0' : Char).toNat - 48 = 0 := by decide
    rw [this, pow_succ]
    ring

theorem stodExact_one_zeros (k : Nat) :
    stodExact (String.mk ('1' :: List.replicate k '0')) = some ((10 : ℚ) ^ k) := by
  have hall : ∀ c ∈ '1' :: List.replicate k '0', (c != '.') = true := by
    intro c hc
    rcases List.mem_cons.1 hc with rfl | h
    · decide
    · rw [(List.mem_replicate.1 h).2]
      decide
  have htw : List.takeWhile (fun c => c != '.') ('1' :: List.replicate k '0')
      = '1' :: List.replicate k '0' := List.takeWhile_eq_self_iff.2 hall
  have hdw : List.dropWhile (fun c => c != '.') ('1' :: List.replicate k '0') = [] :=
    List.dropWhile_eq_nil_iff.2 hall
  have h1 : isdigit '1' = true := by decide
  have hv : digitsValue ('1' :: List.replicate k '0') 0 = some (10 ^ k) := by
    simp only [digitsValue, h1, if_true, digitsValue_zeros]
    congr 1
    have : ('1' : Char).toNat - 48 = 1 := by decide
    rw [this]
    ring
  simp only [stodExact, htw, hdw, List.drop_nil, List.length_nil, List.append_nil,
    List.length_cons, hv]
  simp

/-- A numeral made of `1` and at least 309 zeros is beyond the range of
`double`: the range-checked `std::stod` throws on it, and `tokenize` with it. -/
theorem tokenize_out_of_range (lib : FloatOps ℚ) (k : Nat) (hk : 309 ≤ k) :
    tokenize (rangeOps lib) (String.mk ('1' :: List.replicate k '0'))
      = .error Err.stodError := by
  have hd : ∀ c ∈ '1' :: List.replicate k '0', isdigit c = true := by
    intro c hc
    rcases List.mem_cons.1 hc with rfl | h
    · decide
    · rw [(List.mem_replicate.1 h).2]
      decide
  rw [tokenize_numeral (rangeOps lib) '1' (List.replicate k '0') (by decide)
    (isNumericLiteral_of_digits _ (List.cons_ne_nil _ _) hd)]
  have hs : (rangeOps lib).stod (String.mk ('1' :: List.replicate k '0')) = none := by
    show stodRange _ = none
    rw [stodRange, stodExact_one_zeros]
    simp only
    rw [if_neg]
    have h1 : (10 : ℚ) ^ 309 ≤ 10 ^ k := pow_le_pow_right₀ (by norm_num) hk
    have h2 : (2 : ℚ) ^ 1024 - 2 ^ 970 ≤ 10 ^ 309 := by norm_num
    exact not_lt.2 (le_trans h2 h1)
  rw [hs]

theorem tokenize_123_dollar (lib : FloatOps ℚ) :
    tokenize (exactOps lib) "123$" = .error (Err.runtimeError "Invalid character: $") := by
  simp [tokenize, tokenizeLoop, isspace, isdigit, isalpha, isalnum, scanNumber, scanIdent,
    exactOps, stodExact, digitsValue, backIsNumber, isFunctionName, String.singleton]
  decide

/-- On an input of allowed characters `tokenize` succeeds, provided `std::stod`
converts every numeral the loop scans. -/
theorem tokenizeLoop_accepts_scanned {F : Type} (O : FloatOps F) (fuel : Nat) :
    ∀ (rest : List Char) (acc : List (Token F)) (backNumber : Bool), rest.length ≤ fuel →
      (∀ c ∈ rest, isAllowedChar c = true) →
      (∀ s ∈ scannedNumerals fuel rest backNumber, O.stod (String.mk s) ≠ none) →
      ∃ tokens, tokenizeLoop O fuel rest acc = .ok tokens := by
  have hnodot : ∀ c, isAllowedChar c = true → c ≠ '.' := by
    rintro c hc rfl
    revert hc
    decide
  induction fuel with
  | zero =>
    intro rest acc _ hlen _ _
    cases rest with
    | nil => exact ⟨_, rfl⟩
    | cons x rest => simp at hlen
  | succ fuel ih =>
    intro rest acc backNumber hlen hall hstod
    cases rest with
    | nil => exact ⟨acc ++ [⟨TokenType.END, "", O.zero⟩], by simp [tokenizeLoop]⟩
    | cons x rest =>
      simp only [List.length_cons, Nat.add_le_add_iff_right] at hlen
      have hx := hall x (List.mem_cons_self _ _)
      have hrest : ∀ c ∈ rest, isAllowedChar c = true :=
        fun c hc => hall c (List.mem_cons_of_mem _ hc)
      have hxdot : (x == '.') = false := by simpa using hnodot x hx
      have hn := scanNumber_length rest false [x]
      have hi := scanIdent_length rest [x]
      simp only [scannedNumerals, hxdot, Bool.false_and, Bool.or_false] at hstod
      simp only [tokenizeLoop, hxdot, Bool.false_and, Bool.or_false]
      split
      · rename_i hsp
        rw [if_pos hsp] at hstod
        exact ih _ _ _ hlen hrest hstod
      · rename_i hsp
        rw [if_neg hsp] at hstod
        split
        · rename_i hdx
          rw [if_pos hdx] at hstod
          obtain ⟨a, b, c⟩ := scanNumber_digits rest (fun y hy => hnodot y (hrest y hy)) false
            [x] (by simp) (by simpa using hdx)
          cases hs : O.stod (String.mk (scanNumber rest false [x]).1) with
          | none => exact absurd hs (hstod _ (List.mem_cons_self _ _))
          | some v =>
            exact ih _ _ true (Nat.le_trans hn hlen) (fun y hy => hrest y (c y hy))
              (fun s hs' => hstod s (List.mem_cons_of_mem _ hs'))
        · rename_i hdx
          rw [if_neg hdx] at hstod
          split
          · rename_i hal
            rw [if_pos hal] at hstod
            split
            · exact ih _ _ false (Nat.le_trans hi hlen)
                (fun y hy => hrest y (scanIdent_rest rest _ y hy)) hstod
            · exact ih _ _ false (Nat.le_trans hi hlen)
                (fun y hy => hrest y (scanIdent_rest rest _ y hy)) hstod
          · rename_i hal
            rw [if_neg hal] at hstod
            split
            · rename_i h1
              rw [if_pos h1] at hstod
              exact ih _ _ false hlen hrest hstod
            · rename_i h1
              rw [if_neg h1] at hstod
              split
              · rename_i h2
                rw [if_pos h2] at hstod
                exact ih _ _ false hlen hrest hstod
              · rename_i h2
                rw [if_neg h2] at hstod
                split
                · rename_i h3
                  rw [if_pos h3] at hstod
                  exact ih _ _ false hlen hrest hstod
                · rename_i h3
                  rw [if_neg h3] at hstod
                  split
                  · rename_i h4
                    rw [if_pos h4] at hstod
                    exact ih _ _ false hlen hrest hstod
                  · rename_i h4
                    rw [if_neg h4] at hstod
                    split
                    · rename_i h5
                      rw [if_pos h5] at hstod
                      exact ih _ _ false hlen hrest hstod
                    · clear ih hstod hall hrest
                      simp only [isAllowedChar, isSymbol] at hx
                      simp_all

theorem scanNumber_append (rest : List Char) :
    ∀ (hasDot : Bool) (s : List Char),
      (scanNumber rest hasDot s).1 ++ (scanNumber rest hasDot s).2 = s ++ rest := by
  induction rest with
  | nil => intro _ s; simp [scanNumber]
  | cons x rest ih =>
    intro hasDot s
    simp only [scanNumber]
    split
    · rw [ih]
      simp
    · rfl

theorem scanIdent_append (rest : List Char) :
    ∀ (s : List Char), (scanIdent rest s).1 ++ (scanIdent rest s).2 = s ++ rest := by
  induction rest with
  | nil => intro s; simp [scanIdent]
  | cons x rest ih =>
    intro s
    simp only [scanIdent]
    split
    · rw [ih]
      simp
    · rfl

/-- On an input without decimal point every numeral the loop scans is a run
of digits of the input. -/
theorem scannedNumerals_runs (fuel : Nat) :
    ∀ (rest : List Char) (backNumber : Bool), (∀ c ∈ rest, c ≠ '.') →
      ∀ s ∈ scannedNumerals fuel rest backNumber,
        s ≠ [] ∧ (∀ c ∈ s, isdigit c = true) ∧ s <:+: rest := by
  induction fuel with
  | zero =>
    intro rest backNumber _ s hs
    cases rest <;> simp [scannedNumerals] at hs
  | succ fuel ih =>
    intro rest backNumber hdot s hs
    cases rest with
    | nil => simp [scannedNumerals] at hs
    | cons x rest =>
      have hrest : ∀ c ∈ rest, c ≠ '.' := fun c hc => hdot c (List.mem_cons_of_mem _ hc)
      have hxdot : (x == '.') = false := by simpa using hdot x (List.mem_cons_self _ _)
      have htail : ∀ (flag : Bool), s ∈ scannedNumerals fuel rest flag →
          s ≠ [] ∧ (∀ c ∈ s, isdigit c = true) ∧ s <:+: x :: rest := by
        intro flag h
        obtain ⟨a, b, c⟩ := ih rest flag hrest s h
        exact ⟨a, b, c.trans (List.suffix_cons x rest).isInfix⟩
      simp only [scannedNumerals, hxdot, Bool.false_and, Bool.or_false] at hs
      split at hs
      · exact htail _ hs
      · split at hs
        · rename_i hdx
          obtain ⟨a, b, c⟩ := scanNumber_digits rest hrest false [x] (by simp)
            (by simpa using hdx)
          have happ := scanNumber_append rest false [x]
          have hsuf : (scanNumber rest false [x]).2 <:+ x :: rest :=
            ⟨(scanNumber rest false [x]).1, by simpa using happ⟩
          rcases List.mem_cons.1 hs with rfl | hs'
          · exact ⟨a, b, (List.IsPrefix.isInfix
              ⟨(scanNumber rest false [x]).2, by simpa using happ⟩)⟩
          · obtain ⟨a', b', c'⟩ := ih _ true (fun y hy => hrest y (c y hy)) s hs'
            exact ⟨a', b', c'.trans hsuf.isInfix⟩
        · split at hs
          · have happ := scanIdent_append rest [x]
            have hsuf : (scanIdent rest [x]).2 <:+ x :: rest :=
              ⟨(scanIdent rest [x]).1, by simpa using happ⟩
            obtain ⟨a', b', c'⟩ := ih _ false
              (fun y hy => hrest y (scanIdent_rest rest _ y hy)) s hs
            exact ⟨a', b', c'.trans hsuf.isInfix⟩
          · repeat' split at hs
            all_goals first
              | exact htail _ hs
              | simp at hs

/-- C14 (lexer rejection), as amended: `tokenize` fails on every input that
contains a character other than whitespace, a digit, a letter, an underscore,
one of `+ - * / ^ ( ) , =` or a decimal point; and it succeeds on every input
made only of whitespace, digits, letters, underscores and those nine symbols
on which `std::stod` converts every numeral the lexer scans, in particular
whenever it converts every run of digits that occurs in the input, as it
always does in exact arithmetic.  `"123$"` fails with the invalid-character
error. -/
theorem C14_lexer_rejection :
    (∀ (F : Type) (O : FloatOps F) (input : String),
      (∃ c ∈ input.data, isAllowedChar c = false ∧ c ≠ '.') →
      ∀ tokens, tokenize O input ≠ .ok tokens) ∧
    (∀ (F : Type) (O : FloatOps F) (input : String),
      (∀ c ∈ input.data, isAllowedChar c = true) →
      (∀ s ∈ scannedNumerals input.data.length input.data false,
        O.stod (String.mk s) ≠ none) →
      ∃ tokens, tokenize O input = .ok tokens) ∧
    (∀ (F : Type) (O : FloatOps F) (input : String),
      (∀ c ∈ input.data, isAllowedChar c = true) →
      (∀ s : List Char, s ≠ [] → (∀ c ∈ s, isdigit c = true) → s <:+: input.data →
        O.stod (String.mk s) ≠ none) →
      ∃ tokens, tokenize O input = .ok tokens) ∧
    (∀ (lib : FloatOps ℚ) (input : String),
      (∀ c ∈ input.data, isAllowedChar c = true) →
      ∃ tokens, tokenize (exactOps lib) input = .ok tokens) ∧
    (∀ (lib : FloatOps ℚ),
      tokenize (exactOps lib) "123$" = .error (Err.runtimeError "Invalid character: $")) := by
  have hnodot : ∀ c, isAllowedChar c = true → c ≠ '.' := by
    rintro c hc rfl
    revert hc
    decide
  refine ⟨fun _ O _ ⟨c, hc, hbad, hdot⟩ tokens =>
      tokenizeLoop_rejects O c hbad hdot _ _ [] tokens hc,
    fun _ O _ hall hstod =>
      tokenizeLoop_accepts_scanned O _ _ [] false (Nat.le_refl _) hall hstod,
    fun _ O input hall hstod =>
      tokenizeLoop_accepts_scanned O _ _ [] false (Nat.le_refl _) hall (fun s hs => ?_),
    fun lib _ hall =>
      tokenizeLoop_accepts (exactOps lib) (exactOps_stod_digits lib) _ _ [] (Nat.le_refl _)
        hall,
    tokenize_123_dollar⟩
  obtain ⟨a, b, c⟩ := scannedNumerals_runs _ _ false (fun y hy => hnodot y (hall y hy)) s hs
  exact hstod s a b c

/-- C14 witness: `"123$"` holds the character `$` and is not tokenized, and
`"12 + x"` is tokenized with the range-checked `std::stod`, which converts the
one numeral scanned, `12`. -/
theorem C14_witness :
    (∀ tokens, tokenize ratOps "123$" ≠ .ok tokens) ∧
    (∀ s ∈ scannedNumerals 6 ['1', '2', ' ', '+', ' ', 'x'] false,
      (rangeOps ratOps).stod (String.mk s) ≠ none) ∧
    ∃ tokens, tokenize (rangeOps ratOps) "12 + x" = .ok tokens := by
  have hnum : ∀ s ∈ scannedNumerals 6 ['1', '2', ' ', '+', ' ', 'x'] false,
      (rangeOps ratOps).stod (String.mk s) ≠ none := by
    intro s hs
    have hs' : s = ['1', '2'] := by
      simpa [scannedNumerals, scanNumber, scanIdent, isspace, isdigit, isalpha, isalnum]
        using hs
    subst hs'
    show stodRange "12" ≠ none
    have h12 : stodExact "12" = some 12 := by simp [stodExact, digitsValue, isdigit]
    rw [stodRange, h12]
    simp only
    rw [if_pos (by norm_num), if_neg (by norm_num)]
    simp
  exact ⟨C14_lexer_rejection.1 ℚ ratOps "123$" ⟨'$', by decide, by decide, by decide⟩, hnum,
    C14_lexer_rejection.2.1 ℚ (rangeOps ratOps) "12 + x" (by decide) hnum⟩

/-- C14 counterexample: the input made of the digit `1` and 309 digits `0`
holds digits only, yet `tokenize` fails on it when `std::stod` checks the
range of `double`: the value is beyond the largest `double` and `std::stod`
throws `std::out_of_range`. -/
theorem C14_counterexample :
    (∀ c ∈ '1' :: List.replicate 309 '0', isAllowedChar c = true) ∧
      tokenize (rangeOps ratOps) (String.mk ('1' :: List.replicate 309 '0'))
        = .error Err.stodError := by
  refine ⟨fun c hc => ?_, tokenize_out_of_range ratOps 309 (Nat.le_refl _)⟩
  rcases List.mem_cons.1 hc with rfl | h
  · decide
  · rw [(List.mem_replicate.1 h).2]
    decide


/-! ## Reserved names are never stored -/

theorem evaluateExpression_reserved {F : Type} (O : FloatOps F) (input : String)
    (env : Env F) (name : String) (hname : name = "pi" ∨ name = "e")
    (henv : env name = none) :
    (evaluateExpression O input env).2 name = none := by
  unfold evaluateExpression
  split
  · exact henv
  · rename_i tokens htok
    split
    · exact henv
    · rename_i tree hparse
      rcases parse_shape O tokens tree hparse with h | ⟨t0, t1, rhs, rfl, h1, h0, hpi, he, hrhs⟩
      · rw [evaluate_frame O tree h env]
        exact henv
      · rw [evaluate_assign O t1 t0 [] rhs env h1 h0]
        have hframe := evaluate_frame O rhs hrhs env
        split
        · rename_i e env1 heq
          rw [heq] at hframe
          simp only at hframe
          rw [hframe]
          exact henv
        · rename_i v env1 heq
          rw [heq] at hframe
          simp only at hframe
          rw [hframe]
          have hne : name ≠ t0.value := by
            rcases hname with rfl | rfl
            · exact fun h => hpi h.symm
            · exact fun h => he h.symm
          simp only [Env.set, if_neg hne]
          exact henv

/-- C18 (reserved names are never stored): for every input text and every
environment without an entry for `pi` and without one for `e`, the run of
`tokenize`, `parse` and `evaluate` leaves an environment that still has
neither entry, whether the run succeeds or fails at any stage. -/
theorem C18_reserved_names_never_stored {F : Type} (O : FloatOps F) (input : String)
    (env : Env F) (hpi : env "pi" = none) (he : env "e" = none) :
    (evaluateExpression O input env).2 "pi" = none ∧
      (evaluateExpression O input env).2 "e" = none :=
  ⟨evaluateExpression_reserved O input env "pi" (Or.inl rfl) hpi,
    evaluateExpression_reserved O input env "e" (Or.inr rfl) he⟩

/-- C18 witness: after `"x = 5"` on the empty environment neither `pi` nor
`e` has an entry. -/
theorem C18_witness :
    (evaluateExpression ratOps "x = 5" Env.empty).2 "pi" = none ∧
      (evaluateExpression ratOps "x = 5" Env.empty).2 "e" = none :=
  C18_reserved_names_never_stored ratOps "x = 5" Env.empty rfl rfl


/-! ## What the parser steps over -/

theorem consumedRange_empty {F : Type} (tokens : List (Token F)) (a b : Nat) (h : b ≤ a) :
    consumedRange tokens a b := fun i h1 h2 => absurd (Nat.lt_of_le_of_lt h1 h2) (by omega)

theorem consumedRange_trans {F : Type} {tokens : List (Token F)} {a b c : Nat}
    (h1 : consumedRange tokens a b) (h2 : consumedRange tokens b c) :
    consumedRange tokens a c := by
  intro i hi1 hi2
  by_cases h : i < b
  · exact h1 i hi1 h
  · exact h2 i (by omega) hi2

theorem consumedRange_single {F : Type} {tokens : List (Token F)} {a : Nat}
    (h : consumable tokens a = true) : consumedRange tokens a (a + 1) := by
  intro i hi1 hi2
  have : i = a := by omega
  rw [this]
  exact h

theorem consumable_of_type {F : Type} (tokens : List (Token F)) (i : Nat) (t : Token F)
    (hget : tokens[i]? = some t) (h1 : t.type ≠ TokenType.EQUAL)
    (h2 : t.type ≠ TokenType.END) (h3 : t.type ≠ TokenType.FUNCTION) :
    consumable tokens i = true := by
  simp [consumable, hget, h1, h2, h3]

theorem consumable_function {F : Type} (tokens : List (Token F)) (i : Nat) (t t1 : Token F)
    (hget : tokens[i]? = some t) (hget1 : tokens[i + 1]? = some t1)
    (h : t.type = TokenType.FUNCTION) (h1 : t1.type = TokenType.PAREN_OPEN) :
    consumable tokens i = true := by
  simp [consumable, hget, hget1, h, h1]

theorem skipMinus_consumes {F : Type} (tokens : List (Token F)) (rest : List (Token F)) :
    ∀ (b : Bool) (pos : Nat) (b' : Bool) (p0 : Nat), tokens.drop pos = rest →
      skipMinus rest b pos = .ok (b', p0) → consumedRange tokens pos p0 := by
  induction rest with
  | nil => intro b pos b' p0 _ h; simp [skipMinus] at h
  | cons t rest ih =>
    intro b pos b' p0 hdrop h
    obtain ⟨hget, hdrop'⟩ := drop_cons_inv hdrop
    simp only [skipMinus] at h
    split at h
    · rename_i hm
      simp only [Token.isOp, Bool.and_eq_true, beq_iff_eq] at hm
      have hc : consumable tokens pos = true :=
        consumable_of_type tokens pos t hget (by simp [hm.1]) (by simp [hm.1]) (by simp [hm.1])
      exact consumedRange_trans (consumedRange_single hc) (ih _ _ _ _ hdrop' h)
    · simp only [Except.ok.injEq, Prod.mk.injEq] at h
      exact consumedRange_empty tokens _ _ (by omega)

/-- Every token a successful parse function steps over is consumable. -/
theorem parse_consumes {F : Type} (O : FloatOps F) (fuel : Nat) :
    (∀ tokens pos n pos', parseExpression O fuel tokens pos = .ok (n, pos') →
      consumedRange tokens pos pos') ∧
    (∀ tokens left pos n pos', parseExpressionLoop O fuel tokens left pos = .ok (n, pos') →
      consumedRange tokens pos pos') ∧
    (∀ tokens pos n pos', parseTerm O fuel tokens pos = .ok (n, pos') →
      consumedRange tokens pos pos') ∧
    (∀ tokens left pos n pos', parseTermLoop O fuel tokens left pos = .ok (n, pos') →
      consumedRange tokens pos pos') ∧
    (∀ tokens pos n pos', parsePower O fuel tokens pos = .ok (n, pos') →
      consumedRange tokens pos pos') ∧
    (∀ tokens left pos n pos', parsePowerLoop O fuel tokens left pos = .ok (n, pos') →
      consumedRange tokens pos pos') ∧
    (∀ tokens pos n pos', parseFactor O fuel tokens pos = .ok (n, pos') →
      consumedRange tokens pos pos') ∧
    (∀ tokens args pos as pos', parseArgsLoop O fuel tokens args pos = .ok (as, pos') →
      consumedRange tokens pos pos') := by
  induction fuel with
  | zero =>
    refine ⟨?_, ?_, ?_, ?_, ?_, ?_, ?_, ?_⟩ <;> intros <;>
      simp_all [parseExpression, parseExpressionLoop, parseTerm, parseTermLoop, parsePower,
        parsePowerLoop, parseFactor, parseArgsLoop]
  | succ fuel ih =>
    obtain ⟨ihE, ihEL, ihT, ihTL, ihP, ihPL, ihF, ihA⟩ := ih
    refine ⟨?_, ?_, ?_, ?_, ?_, ?_, ?_, ?_⟩
    · intro tokens pos n pos' h
      simp only [parseExpression] at h
      split at h
      · cases h
      · rename_i left p1 h1
        exact consumedRange_trans (ihT _ _ _ _ h1) (ihEL _ _ _ _ _ h)
    · intro tokens left pos n pos' h
      simp only [parseExpressionLoop] at h
      split at h
      · cases h
      · rename_i op hop
        split at h
        · rename_i hc
          simp only [Bool.and_eq_true, beq_iff_eq] at hc
          have hcon : consumable tokens pos = true :=
            consumable_of_type tokens pos op hop (by simp [hc.1]) (by simp [hc.1])
              (by simp [hc.1])
          split at h
          · cases h
          · rename_i right p1 h1
            exact consumedRange_trans (consumedRange_single hcon)
              (consumedRange_trans (ihT _ _ _ _ h1) (ihEL _ _ _ _ _ h))
        · simp only [Except.ok.injEq, Prod.mk.injEq] at h
          exact consumedRange_empty tokens _ _ (by omega)
    · intro tokens pos n pos' h
      simp only [parseTerm] at h
      split at h
      · cases h
      · rename_i left p1 h1
        exact consumedRange_trans (ihP _ _ _ _ h1) (ihTL _ _ _ _ _ h)
    · intro tokens left pos n pos' h
      simp only [parseTermLoop] at h
      split at h
      · cases h
      · rename_i op hop
        split at h
        · rename_i hc
          simp only [Bool.and_eq_true, beq_iff_eq] at hc
          have hcon : consumable tokens pos = true :=
            consumable_of_type tokens pos op hop (by simp [hc.1]) (by simp [hc.1])
              (by simp [hc.1])
          split at h
          · cases h
          · rename_i right p1 h1
            exact consumedRange_trans (consumedRange_single hcon)
              (consumedRange_trans (ihP _ _ _ _ h1) (ihTL _ _ _ _ _ h))
        · simp only [Except.ok.injEq, Prod.mk.injEq] at h
          exact consumedRange_empty tokens _ _ (by omega)
    · intro tokens pos n pos' h
      simp only [parsePower] at h
      split at h
      · cases h
      · rename_i left p1 h1
        exact consumedRange_trans (ihF _ _ _ _ h1) (ihPL _ _ _ _ _ h)
    · intro tokens left pos n pos' h
      simp only [parsePowerLoop] at h
      split at h
      · cases h
      · rename_i op hop
        split at h
        · rename_i hc
          simp only [Bool.and_eq_true, beq_iff_eq] at hc
          have hcon : consumable tokens pos = true :=
            consumable_of_type tokens pos op hop (by simp [hc.1]) (by simp [hc.1])
              (by simp [hc.1])
          split at h
          · cases h
          · rename_i right p1 h1
            exact consumedRange_trans (consumedRange_single hcon)
              (consumedRange_trans (ihF _ _ _ _ h1) (ihPL _ _ _ _ _ h))
        · simp only [Except.ok.injEq, Prod.mk.injEq] at h
          exact consumedRange_empty tokens _ _ (by omega)
    · intro tokens pos n pos' h
      simp only [parseFactor] at h
      split at h
      · cases h
      · rename_i um p0 hsm
        have hskip := skipMinus_consumes tokens _ _ _ _ _ rfl hsm
        refine consumedRange_trans hskip ?_
        split at h
        · cases h
        · rename_i t ht
          split at h
          · rename_i hty
            simp only [beq_iff_eq] at hty
            simp only [Except.ok.injEq, Prod.mk.injEq] at h
            rw [← h.2]
            exact consumedRange_single
              (consumable_of_type tokens p0 t ht (by simp [hty]) (by simp [hty])
                (by simp [hty]))
          · split at h
            · rename_i hty
              simp only [beq_iff_eq] at hty
              simp only [Except.ok.injEq, Prod.mk.injEq] at h
              rw [← h.2]
              exact consumedRange_single
                (consumable_of_type tokens p0 t ht (by simp [hty]) (by simp [hty])
                  (by simp [hty]))
            · split at h
              · rename_i hty
                simp only [beq_iff_eq] at hty
                split at h
                · cases h
                · rename_i t1 ht1
                  split at h
                  · cases h
                  · rename_i hlp
                    have hlp' : t1.type = TokenType.PAREN_OPEN := by simpa using hlp
                    have c0 : consumable tokens p0 = true :=
                      consumable_function tokens p0 t t1 ht ht1 hty hlp'
                    have c1 : consumable tokens (p0 + 1) = true :=
                      consumable_of_type tokens (p0 + 1) t1 ht1 (by simp [hlp'])
                        (by simp [hlp']) (by simp [hlp'])
                    have r01 : consumedRange tokens p0 (p0 + 1 + 1) :=
                      consumedRange_trans (consumedRange_single c0) (consumedRange_single c1)
                    split at h
                    · cases h
                    · rename_i t2 ht2
                      split at h
                      · split at h
                        · cases h
                        · rename_i arg p1 h1
                          split at h
                          · cases h
                          · rename_i fa p2 h2
                            split at h
                            · cases h
                            · rename_i t3 ht3
                              split at h
                              · cases h
                              · rename_i hrp
                                have hrp' : t3.type = TokenType.PAREN_CLOSE := by
                                  simpa using hrp
                                simp only [Except.ok.injEq, Prod.mk.injEq] at h
                                rw [← h.2]
                                exact consumedRange_trans r01
                                  (consumedRange_trans (ihE _ _ _ _ h1)
                                    (consumedRange_trans (ihA _ _ _ _ _ h2)
                                      (consumedRange_single
                                        (consumable_of_type tokens p2 t3 ht3 (by simp [hrp'])
                                          (by simp [hrp']) (by simp [hrp'])))))
                      · rename_i hrp
                        have hrp' : t2.type = TokenType.PAREN_CLOSE := by simpa using hrp
                        simp only [Except.ok.injEq, Prod.mk.injEq] at h
                        rw [← h.2]
                        exact consumedRange_trans r01
                          (consumedRange_single
                            (consumable_of_type tokens (p0 + 2) t2 ht2 (by simp [hrp'])
                              (by simp [hrp']) (by simp [hrp'])))
              · split at h
                · rename_i hty
                  simp only [beq_iff_eq] at hty
                  have c0 : consumable tokens p0 = true :=
                    consumable_of_type tokens p0 t ht (by simp [hty]) (by simp [hty])
                      (by simp [hty])
                  split at h
                  · cases h
                  · rename_i node p1 h1
                    split at h
                    · cases h
                    · rename_i t1 ht1
                      split at h
                      · cases h
                      · rename_i hrp
                        have hrp' : t1.type = TokenType.PAREN_CLOSE := by simpa using hrp
                        simp only [Except.ok.injEq, Prod.mk.injEq] at h
                        rw [← h.2]
                        exact consumedRange_trans (consumedRange_single c0)
                          (consumedRange_trans (ihE _ _ _ _ h1)
                            (consumedRange_single
                              (consumable_of_type tokens p1 t1 ht1 (by simp [hrp'])
                                (by simp [hrp']) (by simp [hrp']))))
                · cases h
    · intro tokens args pos n pos' h
      simp only [parseArgsLoop] at h
      split at h
      · cases h
      · rename_i op hop
        split at h
        · rename_i hc
          simp only [beq_iff_eq] at hc
          have hcon : consumable tokens pos = true :=
            consumable_of_type tokens pos op hop (by simp [hc]) (by simp [hc]) (by simp [hc])
          split at h
          · cases h
          · rename_i right p1 h1
            exact consumedRange_trans (consumedRange_single hcon)
              (consumedRange_trans (ihE _ _ _ _ h1) (ihA _ _ _ _ _ h))
        · simp only [Except.ok.injEq, Prod.mk.injEq] at h
          exact consumedRange_empty tokens _ _ (by omega)

/-- On a token vector ending in its only END token, a successful `parse`
stepped over every token before END: all of them in the bare case, all but
the leading `VARIABLE =` in the assignment case. -/
theorem parse_ok_consumed {F : Type} (O : FloatOps F) (body : List (Token F)) (e : Token F)
    (tree : Node F) (hbody : ∀ t ∈ body, t.type ≠ TokenType.END)
    (h : parse O (body ++ [e]) = .ok tree) :
    consumedRange (body ++ [e]) 2 body.length ∧
      (consumedRange (body ++ [e]) 0 body.length ∨
        ∃ t0 t1, (body ++ [e])[0]? = some t0 ∧ (body ++ [e])[1]? = some t1 ∧
          t0.type = TokenType.VARIABLE ∧ t1.type = TokenType.EQUAL) := by
  have hE := (parse_consumes O (4 * (body ++ [e]).length + 4)).1
  rw [parse_eq_parseTop] at h
  split at h
  · cases h
  · rename_i tree' pos htop
    split at h
    · cases h
    · rename_i t ht
      split at h
      · cases h
      · rename_i hend
        have hty : t.type = TokenType.END := by simpa using hend
        have hpos := end_position body e t pos hbody ht hty
        simp only [List.length_append, List.length_singleton, Nat.add_right_cancel_iff]
          at hpos
        subst hpos
        unfold parseTop at htop
        split at htop
        · rename_i t0 t1 t2 tl heq
          split at htop
          · rename_i hc
            simp only [Bool.and_eq_true, beq_iff_eq] at hc
            split at htop
            · cases htop
            · split at htop
              · cases htop
              · rename_i en p h1
                simp only [Except.ok.injEq, Prod.mk.injEq] at htop
                have := hE _ _ _ _ h1
                rw [htop.2] at this
                rw [heq] at this ⊢
                exact ⟨this, Or.inr ⟨t0, t1, rfl, rfl, hc.2, hc.1⟩⟩
          · have := hE _ _ _ _ htop
            rw [heq] at this ⊢
            exact ⟨fun i h1 h2 => this i (by omega) h2, Or.inl this⟩
        · have := hE _ _ _ _ htop
          exact ⟨fun i h1 h2 => this i (by omega) h2, Or.inl this⟩

/-- On a token vector ending in its only END token, `parse` fails as soon as
some index other than 0 and 1 holds a token that is not consumable, and also
when index 0 or 1 holds a Function token without ParenOpen after it or index
0 holds an Equal token. -/
theorem parse_fails_of_not_consumable {F : Type} (O : FloatOps F) (body : List (Token F))
    (e : Token F) (hbody : ∀ t ∈ body, t.type ≠ TokenType.END) (i : Nat) (t : Token F)
    (hi : i < body.length) (hget : body[i]? = some t)
    (hbad : consumable (body ++ [e]) i = false)
    (h01 : i ≤ 1 → t.type ≠ TokenType.VARIABLE ∧ (i = 1 → t.type ≠ TokenType.EQUAL)) :
    ∀ tree, parse O (body ++ [e]) ≠ .ok tree := by
  intro tree h
  have hget' : (body ++ [e])[i]? = some t := by
    rw [List.getElem?_append_left hi]
    exact hget
  obtain ⟨h2, h0⟩ := parse_ok_consumed O body e tree hbody h
  rcases h0 with h0 | ⟨t0, t1, hg0, hg1, hv, heq⟩
  · rw [h0 i (Nat.zero_le _) hi] at hbad
    cases hbad
  · by_cases hi2 : 2 ≤ i
    · rw [h2 i hi2 hi] at hbad
      cases hbad
    · have hle : i ≤ 1 := by omega
      obtain ⟨ha, hb⟩ := h01 hle
      rcases Nat.eq_zero_or_pos i with hz | hp
      · subst hz
        rw [hg0] at hget'
        simp only [Option.some.injEq] at hget'
        subst hget'
        exact ha hv
      · have h1 : i = 1 := by omega
        subst h1
        rw [hg1] at hget'
        simp only [Option.some.injEq] at hget'
        subst hget'
        exact hb rfl heq


/-! ## Assignment is top-level only -/

theorem parse_fails_of_equal {F : Type} (O : FloatOps F) (body : List (Token F)) (e : Token F)
    (i : Nat) (t : Token F) (hbody : ∀ u ∈ body, u.type ≠ TokenType.END)
    (hget : body[i]? = some t) (ht : t.type = TokenType.EQUAL) (hi : i ≠ 1) :
    ∀ tree, parse O (body ++ [e]) ≠ .ok tree := by
  have hlt := lt_length_of_getElem? hget
  refine parse_fails_of_not_consumable O body e hbody i t hlt hget ?_ ?_
  · have hget2 : (body ++ [e])[i]? = some t := by
      rw [List.getElem?_append_left hlt]
      exact hget
    simp [consumable, hget2, ht]
  · intro _
    exact ⟨by rw [ht]; decide, fun h => absurd h hi⟩

theorem tokenize_parse_fails_of_equal {F : Type} (O : FloatOps F) (input : String)
    (tokens : List (Token F)) (i : Nat) (t : Token F) (htok : tokenize O input = .ok tokens)
    (hget : tokens[i]? = some t) (ht : t.type = TokenType.EQUAL) (hi : i ≠ 1) :
    ∀ tree, parse O tokens ≠ .ok tree := by
  obtain ⟨body, rfl, hbody⟩ := tokenize_end O input tokens htok
  have hlt : i < body.length := by
    have h1 := lt_length_of_getElem? hget
    simp only [List.length_append, List.length_singleton] at h1
    rcases Nat.lt_or_ge i body.length with h | h
    · exact h
    · have hi2 : i = body.length := by omega
      subst hi2
      rw [List.getElem?_append_right (Nat.le_refl _)] at hget
      simp only [Nat.sub_self, List.getElem?_cons_zero, Option.some.injEq] at hget
      subst hget
      cases ht
  rw [List.getElem?_append_left hlt] at hget
  exact parse_fails_of_equal O body _ i t hbody hget ht hi

theorem tokenize_paren_x_eq_5 (lib : FloatOps ℚ) :
    tokenize (exactOps lib) "(x = 5)" = .ok
      [⟨TokenType.PAREN_OPEN, "(", 0⟩, ⟨TokenType.VARIABLE, "x", 0⟩, ⟨TokenType.EQUAL, "=", 0⟩,
       ⟨TokenType.NUMBER, "5", 5⟩, ⟨TokenType.PAREN_CLOSE, ")", 0⟩, ⟨TokenType.END, "", 0⟩] := by
  simp [tokenize, tokenizeLoop, isspace, isdigit, isalpha, isalnum, scanNumber, scanIdent,
      exactOps, stodExact, digitsValue, backIsNumber, isFunctionName, String.singleton]

theorem tokenize_1_plus_x_eq_5 (lib : FloatOps ℚ) :
    tokenize (exactOps lib) "1 + x = 5" = .ok
      [⟨TokenType.NUMBER, "1", 1⟩, ⟨TokenType.OPERATOR, "+", 0⟩, ⟨TokenType.VARIABLE, "x", 0⟩,
       ⟨TokenType.EQUAL, "=", 0⟩, ⟨TokenType.NUMBER, "5", 5⟩, ⟨TokenType.END, "", 0⟩] := by
  simp [tokenize, tokenizeLoop, isspace, isdigit, isalpha, isalnum, scanNumber, scanIdent,
      exactOps, stodExact, digitsValue, backIsNumber, isFunctionName, String.singleton]
  decide

theorem tokenize_x_eq_y_eq_5 (lib : FloatOps ℚ) :
    tokenize (exactOps lib) "x = y = 5" = .ok
      [⟨TokenType.VARIABLE, "x", 0⟩, ⟨TokenType.EQUAL, "=", 0⟩, ⟨TokenType.VARIABLE, "y", 0⟩,
       ⟨TokenType.EQUAL, "=", 0⟩, ⟨TokenType.NUMBER, "5", 5⟩, ⟨TokenType.END, "", 0⟩] := by
  simp [tokenize, tokenizeLoop, isspace, isdigit, isalpha, isalnum, scanNumber, scanIdent,
      exactOps, stodExact, digitsValue, backIsNumber, isFunctionName, String.singleton]

/-- C17 (assignment is top-level only): every tree returned by `parse`
contains no Equal node at all, or has an Equal node at its root only, and
that root then has exactly two children, the first a childless Variable node;
and on a token vector ending in its only END token, as `tokenize` returns
them, an Equal token at any index other than 1 makes `parse` fail. -/
theorem C17_assignment_top_level :
    (∀ (F : Type) (O : FloatOps F) (tokens : List (Token F)) (tree : Node F),
      parse O tokens = .ok tree →
      tree.noAssign = true ∨
        ∃ t0 t1 rhs, tree = Node.mk t1 [Node.mk t0 [], rhs] ∧ t1.type = TokenType.EQUAL ∧
          t0.type = TokenType.VARIABLE ∧ rhs.noAssign = true) ∧
    (∀ (F : Type) (O : FloatOps F) (body : List (Token F)) (e : Token F) (i : Nat)
      (t : Token F),
      (∀ u ∈ body, u.type ≠ TokenType.END) → body[i]? = some t →
      t.type = TokenType.EQUAL → i ≠ 1 →
      ∀ tree, parse O (body ++ [e]) ≠ .ok tree) ∧
    (∀ (F : Type) (O : FloatOps F) (input : String) (tokens : List (Token F)) (i : Nat)
      (t : Token F),
      tokenize O input = .ok tokens → tokens[i]? = some t →
      t.type = TokenType.EQUAL → i ≠ 1 →
      ∀ tree, parse O tokens ≠ .ok tree) :=
  ⟨fun _ O tokens tree h => by
      rcases parse_shape O tokens tree h with h1 | ⟨t0, t1, rhs, h1, h2, h3, _, _, h4⟩
      · exact Or.inl h1
      · exact Or.inr ⟨t0, t1, rhs, h1, h2, h3, h4⟩,
    fun _ O body e i t hbody hget ht hi => parse_fails_of_equal O body e i t hbody hget ht hi,
    fun _ O input tokens i t htok hget ht hi =>
      tokenize_parse_fails_of_equal O input tokens i t htok hget ht hi⟩

/-- C17 witness: the tokens of `"(x = 5)"`, of `"1 + x = 5"` and of
`"x = y = 5"` hold an Equal token at index 2, 3 and 3, and `parse` fails on
each of the three vectors. -/
theorem C17_witness :
    (∀ tree, parse ratOps
      [⟨TokenType.PAREN_OPEN, "(", 0⟩, ⟨TokenType.VARIABLE, "x", 0⟩, ⟨TokenType.EQUAL, "=", 0⟩,
       ⟨TokenType.NUMBER, "5", 5⟩, ⟨TokenType.PAREN_CLOSE, ")", 0⟩, ⟨TokenType.END, "", 0⟩] ≠ .ok tree) ∧
    (∀ tree, parse ratOps
      [⟨TokenType.NUMBER, "1", 1⟩, ⟨TokenType.OPERATOR, "+", 0⟩, ⟨TokenType.VARIABLE, "x", 0⟩,
       ⟨TokenType.EQUAL, "=", 0⟩, ⟨TokenType.NUMBER, "5", 5⟩, ⟨TokenType.END, "", 0⟩] ≠ .ok tree) ∧
    (∀ tree, parse ratOps
      [⟨TokenType.VARIABLE, "x", 0⟩, ⟨TokenType.EQUAL, "=", 0⟩, ⟨TokenType.VARIABLE, "y", 0⟩,
       ⟨TokenType.EQUAL, "=", 0⟩, ⟨TokenType.NUMBER, "5", 5⟩, ⟨TokenType.END, "", 0⟩] ≠ .ok tree) :=
  ⟨C17_assignment_top_level.2.2 ℚ ratOps "(x = 5)" _ 2 ⟨TokenType.EQUAL, "=", 0⟩
      (tokenize_paren_x_eq_5 _) rfl rfl (by decide),
    C17_assignment_top_level.2.2 ℚ ratOps "1 + x = 5" _ 3 ⟨TokenType.EQUAL, "=", 0⟩
      (tokenize_1_plus_x_eq_5 _) rfl rfl (by decide),
    C17_assignment_top_level.2.2 ℚ ratOps "x = y = 5" _ 3 ⟨TokenType.EQUAL, "=", 0⟩
      (tokenize_x_eq_y_eq_5 _) rfl rfl (by decide)⟩


/-! ## Function calls -/

/-- A factor followed by a token that is not an operator is a whole
expression. -/
theorem parseExpression_of_factor {F : Type} (O : FloatOps F) (fuel : Nat)
    (tokens : List (Token F)) (pos p : Nat) (n : Node F) (t : Token F)
    (h : parseFactor O fuel tokens pos = .ok (n, p)) (hget : tokens[p]? = some t)
    (ht : t.type ≠ TokenType.OPERATOR) :
    parseExpression O (fuel + 3) tokens pos = .ok (n, p) := by
  obtain ⟨g, rfl⟩ : ∃ g, fuel = g + 1 := by
    cases fuel with
    | zero => simp [parseFactor] at h
    | succ g => exact ⟨g, rfl⟩
  rw [parseExpression, parseTerm, parsePower, h]
  simp only
  rw [parsePowerLoop_stop O g tokens n p t hget (fun hh => absurd hh ht)]
  simp only
  rw [parseTermLoop_stop O (g + 1) tokens n p t hget (fun hh => absurd hh ht)]
  simp only
  exact parseExpressionLoop_stop O (g + 2) tokens n p t hget (fun hh => absurd hh ht)

/-- A single operand followed by a token that is not an operator is a whole
expression. -/
theorem parseExpression_operand {F : Type} (O : FloatOps F) (fuel : Nat)
    (tokens : List (Token F)) (pos : Nat) (p t : Token F) (h : tokens[pos]? = some p)
    (hp : p.isOperand = true) (h1 : tokens[pos + 1]? = some t)
    (ht : t.type ≠ TokenType.OPERATOR) :
    parseExpression O (fuel + 4) tokens pos = .ok (Node.mk p [], pos + 1) :=
  parseExpression_of_factor O (fuel + 1) tokens pos (pos + 1) _ t
    (parseFactor_operand O fuel tokens pos p h hp) h1 ht

/-- The argument loop on `, a , a ... )` with operand arguments collects one
leaf per argument and stops on the closing parenthesis. -/
theorem parseArgsLoop_chain {F : Type} (O : FloatOps F) (tokens : List (Token F))
    (rp : Token F) (hrp : rp.type = TokenType.PAREN_CLOSE) :
    ∀ (rest : List (Token F × Token F)) (tl : List (Token F)) (args : List (Node F))
      (pos fuel : Nat),
      tokens.drop pos = rest.flatMap (fun x => [x.1, x.2]) ++ rp :: tl →
      (∀ x ∈ rest, x.1.type = TokenType.COMMA ∧ x.2.isOperand = true) →
      rest.length + 4 ≤ fuel →
      parseArgsLoop O fuel tokens args pos
          = .ok (args ++ rest.map (fun x => Node.mk x.2 []), pos + 2 * rest.length) ∧
        tokens.drop (pos + 2 * rest.length) = rp :: tl := by
  intro rest
  induction rest with
  | nil =>
    intro tl args pos fuel hd _ hf
    have hd' : tokens.drop pos = rp :: tl := by simpa using hd
    obtain ⟨hget, -⟩ := drop_cons_inv hd'
    obtain ⟨f, rfl⟩ : ∃ f, fuel = f + 1 := ⟨fuel - 1, by omega⟩
    refine ⟨?_, by simpa using hd'⟩
    rw [parseArgsLoop, hget]
    simp [hrp]
  | cons x rest ih =>
    intro tl args pos fuel hd hall hf
    simp only [List.length_cons] at hf
    obtain ⟨f, rfl⟩ : ∃ f, fuel = f + 1 := ⟨fuel - 1, by omega⟩
    obtain ⟨g, rfl⟩ : ∃ g, f = g + 4 := ⟨f - 4, by omega⟩
    have hx := hall x (List.mem_cons_self _ _)
    have hrest : ∀ y ∈ rest, y.1.type = TokenType.COMMA ∧ y.2.isOperand = true :=
      fun y hy => hall y (List.mem_cons_of_mem _ hy)
    simp only [List.flatMap_cons, List.cons_append, List.nil_append] at hd
    obtain ⟨hg0, hd1⟩ := drop_cons_inv hd
    obtain ⟨hg1, hd2⟩ := drop_cons_inv hd1
    obtain ⟨nxt, tl', hnx, hnxt⟩ := chain_head rest rp tl
    obtain ⟨hg2, -⟩ := drop_cons_inv (hd2.trans hnx)
    have hnxt' : nxt.type ≠ TokenType.OPERATOR := by
      rcases hnxt with h | ⟨y, hy, h⟩
      · rw [h, hrp]; decide
      · rw [h, (hrest y hy).1]; decide
    have hsub : parseExpression O (g + 4) tokens (pos + 1) = .ok (Node.mk x.2 [], pos + 1 + 1) :=
      parseExpression_operand O g tokens (pos + 1) x.2 nxt hg1 hx.2 hg2 hnxt'
    have hih := ih tl (args ++ [Node.mk x.2 []]) (pos + 1 + 1) (g + 4) hd2 hrest (by omega)
    rw [parseArgsLoop, hg0]
    simp only
    rw [if_pos (by simp [hx.1]), hsub]
    simp only
    refine ⟨?_, ?_⟩
    · rw [hih.1]
      simp only [List.map_cons, List.length_cons, List.append_assoc, List.singleton_append]
      congr 2
      omega
    · rw [← hih.2]
      simp only [List.length_cons]
      congr 1
      omega

theorem intersperse_flatMap {α : Type} (c : α) :
    ∀ (a : α) (rest : List α),
      (a :: rest).intersperse c = a :: (rest.map (fun x => (c, x))).flatMap (fun x => [x.1, x.2])
  | a, [] => rfl
  | a, b :: rest => by
    rw [List.intersperse_cons₂, intersperse_flatMap c b rest]
    rfl

/-- The call `f ( a1 , ... , ak )` with operand arguments, followed by END,
parses to the node of `f` over the `k` argument leaves in order. -/
theorem parse_call {F : Type} (O : FloatOps F) (f lp comma rp e : Token F)
    (args : List (Token F)) (hf : f.type = TokenType.FUNCTION)
    (hlp : lp.type = TokenType.PAREN_OPEN) (hcomma : comma.type = TokenType.COMMA)
    (hrp : rp.type = TokenType.PAREN_CLOSE) (he : e.type = TokenType.END)
    (hargs : ∀ a ∈ args, a.isOperand = true) :
    parse O (f :: lp :: (args.intersperse comma ++ [rp, e]))
      = .ok (Node.mk f (args.map (fun a => Node.mk a []))) := by
  rw [parse_eq_parseBare_of_first O _ f rfl (by rw [hf]; decide)]
  have hfm : f.isOp "-" = false := by simp [Token.isOp, hf]
  cases args with
  | nil =>
    refine parseBare_of_parseExpression O _ 4 _ 3 e ?_ rfl he
    refine parseExpression_of_factor O 1 _ 0 3 _ e ?_ rfl (by rw [he]; decide)
    simp [parseFactor, skipMinus, hfm, hf, hlp, hrp, wrapMinus]
  | cons a rest =>
    rw [intersperse_flatMap]
    have ha := hargs a (List.mem_cons_self _ _)
    have hall : ∀ x ∈ rest.map (fun x => (comma, x)),
        x.1.type = TokenType.COMMA ∧ x.2.isOperand = true := by
      intro x hx
      obtain ⟨y, hy, rfl⟩ := List.mem_map.1 hx
      exact ⟨hcomma, hargs y (List.mem_cons_of_mem _ hy)⟩
    generalize hts : f :: lp :: ((a :: (rest.map (fun x => (comma, x))).flatMap
      (fun x => [x.1, x.2])) ++ [rp, e]) = tokens
    have hd0 : tokens.drop 0 = f :: lp :: a :: ((rest.map (fun x => (comma, x))).flatMap
        (fun x => [x.1, x.2]) ++ rp :: [e]) := by
      rw [← hts]; rfl
    obtain ⟨hg0, hd1⟩ := drop_cons_inv hd0
    obtain ⟨hg1, hd2⟩ := drop_cons_inv hd1
    obtain ⟨hg2, hd3⟩ := drop_cons_inv hd2
    obtain ⟨nxt, tl', hnx, hnxt⟩ := chain_head (rest.map (fun x => (comma, x))) rp [e]
    obtain ⟨hg3, -⟩ := drop_cons_inv (hd3.trans hnx)
    have hnxt' : nxt.type ≠ TokenType.OPERATOR := by
      rcases hnxt with h | ⟨y, hy, h⟩
      · rw [h, hrp]; decide
      · rw [h, (hall y hy).1]; decide
    have hfirst := parseExpression_operand O rest.length tokens 2 a nxt hg2 ha hg3 hnxt'
    have hloop := parseArgsLoop_chain O tokens rp hrp (rest.map (fun x => (comma, x))) [e]
      [Node.mk a []] 3 (rest.length + 4) hd3 hall (by simp)
    obtain ⟨hg4, hd5⟩ := drop_cons_inv hloop.2
    obtain ⟨hg5, -⟩ := drop_cons_inv hd5
    have hane : (a.type != TokenType.PAREN_CLOSE) = true := by
      simp only [Token.isOperand, Bool.or_eq_true, beq_iff_eq] at ha
      rcases ha with h | h <;> simp [h]
    have hfac : parseFactor O (rest.length + 4 + 1) tokens 0
        = .ok (Node.mk f (Node.mk a [] :: rest.map (fun a => Node.mk a [])),
            3 + 2 * (rest.map (fun x => (comma, x))).length + 1) := by
      rw [parseFactor, hd0, skipMinus, hfm]
      simp only [Bool.false_eq_true, if_false]
      rw [hg0]
      simp only [hf, Nat.zero_add]
      rw [hg1]
      simp only [hlp]
      rw [hg2]
      simp only [hane]
      rw [hfirst]
      simp only
      rw [hloop.1]
      simp only
      rw [hg4]
      simp [hrp, wrapMinus, List.map_map, Function.comp_def]
    refine parseBare_of_parseExpression O _ _ _ _ e
      (parseExpression_of_factor O _ tokens 0 _ _ e hfac hg5 (by rw [he]; decide)) hg5 he

/-- At the position of a primary, a Function token that is not followed by
ParenOpen is rejected by `parseFactor`. -/
theorem parseFactor_function_no_paren {F : Type} (O : FloatOps F) (fuel : Nat)
    (tokens : List (Token F)) (pos : Nat) (f t1 : Token F) (hget : tokens[pos]? = some f)
    (hf : f.type = TokenType.FUNCTION) (hget1 : tokens[pos + 1]? = some t1)
    (ht1 : t1.type ≠ TokenType.PAREN_OPEN) :
    parseFactor O (fuel + 1) tokens pos = .error (Err.runtimeError
      ("Error: expected opening parenthesis after function " ++ f.value)) := by
  have hlt := lt_length_of_getElem? hget
  have hf' : tokens[pos] = f := by
    have := List.getElem?_eq_getElem hlt
    rw [this] at hget
    exact Option.some.inj hget
  have hdrop : tokens.drop pos = f :: tokens.drop (pos + 1) := by
    rw [List.drop_eq_getElem_cons hlt, hf']
  have hfm : f.isOp "-" = false := by simp [Token.isOp, hf]
  rw [parseFactor, hdrop, skipMinus, hfm]
  simp only [Bool.false_eq_true, if_false]
  rw [hget]
  simp only [hf]
  rw [hget1]
  simp [ht1]

theorem parse_fails_of_function_no_paren {F : Type} (O : FloatOps F) (body : List (Token F))
    (e : Token F) (i : Nat) (f t1 : Token F) (hbody : ∀ u ∈ body, u.type ≠ TokenType.END)
    (hget : body[i]? = some f) (hf : f.type = TokenType.FUNCTION)
    (hget1 : (body ++ [e])[i + 1]? = some t1) (ht1 : t1.type ≠ TokenType.PAREN_OPEN) :
    ∀ tree, parse O (body ++ [e]) ≠ .ok tree := by
  have hlt := lt_length_of_getElem? hget
  refine parse_fails_of_not_consumable O body e hbody i f hlt hget ?_ ?_
  · have hget2 : (body ++ [e])[i]? = some f := by
      rw [List.getElem?_append_left hlt]
      exact hget
    simp [consumable, hget2, hf, hget1, ht1]
  · intro _
    exact ⟨by rw [hf]; decide, fun _ => by rw [hf]; decide⟩

theorem tokenize_sin_x_call (lib : FloatOps ℚ) :
    tokenize (exactOps lib) "sin(x)" = .ok
      [⟨TokenType.FUNCTION, "sin", 0⟩, ⟨TokenType.PAREN_OPEN, "(", 0⟩,
       ⟨TokenType.VARIABLE, "x", 0⟩, ⟨TokenType.PAREN_CLOSE, ")", 0⟩, ⟨TokenType.END, "", 0⟩] := by
  simp [tokenize, tokenizeLoop, isspace, isdigit, isalpha, isalnum, scanNumber, scanIdent,
      exactOps, stodExact, digitsValue, backIsNumber, isFunctionName, String.singleton]

theorem tokenize_atan2_y_x (lib : FloatOps ℚ) :
    tokenize (exactOps lib) "atan2(y,x)" = .ok
      [⟨TokenType.FUNCTION, "atan2", 0⟩, ⟨TokenType.PAREN_OPEN, "(", 0⟩,
       ⟨TokenType.VARIABLE, "y", 0⟩, ⟨TokenType.COMMA, ",", 0⟩, ⟨TokenType.VARIABLE, "x", 0⟩,
       ⟨TokenType.PAREN_CLOSE, ")", 0⟩, ⟨TokenType.END, "", 0⟩] := by
  simp [tokenize, tokenizeLoop, isspace, isdigit, isalpha, isalnum, scanNumber, scanIdent,
      exactOps, stodExact, digitsValue, backIsNumber, isFunctionName, String.singleton]

theorem tokenize_sin_x_bare (lib : FloatOps ℚ) :
    tokenize (exactOps lib) "sin x" = .ok
      [⟨TokenType.FUNCTION, "sin", 0⟩, ⟨TokenType.VARIABLE, "x", 0⟩, ⟨TokenType.END, "", 0⟩] := by
  simp [tokenize, tokenizeLoop, isspace, isdigit, isalpha, isalnum, scanNumber, scanIdent,
      exactOps, stodExact, digitsValue, backIsNumber, isFunctionName, String.singleton]

/-- C15 (function-call parsing): for every Function token `f` and every list
of `k ≥ 0` Number or Variable tokens, `parse` of `f ( a1 , ... , ak )`
followed by END returns the node of `f` whose children are exactly the `k`
argument leaves in order, none for `f ( )`; `parseFactor` throws the
expected-opening-parenthesis error at a Function token that is not followed
by ParenOpen; and `parse` fails on every token vector ending in its only END
token in which some Function token is not immediately followed by ParenOpen. -/
theorem C15_function_call_parsing :
    (∀ (F : Type) (O : FloatOps F) (f lp comma rp e : Token F) (args : List (Token F)),
      f.type = TokenType.FUNCTION → lp.type = TokenType.PAREN_OPEN →
      comma.type = TokenType.COMMA → rp.type = TokenType.PAREN_CLOSE →
      e.type = TokenType.END → (∀ a ∈ args, a.isOperand = true) →
      parse O (f :: lp :: (args.intersperse comma ++ [rp, e]))
        = .ok (Node.mk f (args.map (fun a => Node.mk a [])))) ∧
    (∀ (F : Type) (O : FloatOps F) (fuel : Nat) (tokens : List (Token F)) (pos : Nat)
      (f t1 : Token F),
      tokens[pos]? = some f → f.type = TokenType.FUNCTION →
      tokens[pos + 1]? = some t1 → t1.type ≠ TokenType.PAREN_OPEN →
      parseFactor O (fuel + 1) tokens pos = .error (Err.runtimeError
        ("Error: expected opening parenthesis after function " ++ f.value))) ∧
    (∀ (F : Type) (O : FloatOps F) (body : List (Token F)) (e : Token F) (i : Nat)
      (f t1 : Token F),
      (∀ u ∈ body, u.type ≠ TokenType.END) → body[i]? = some f →
      f.type = TokenType.FUNCTION → (body ++ [e])[i + 1]? = some t1 →
      t1.type ≠ TokenType.PAREN_OPEN →
      ∀ tree, parse O (body ++ [e]) ≠ .ok tree) :=
  ⟨fun _ O f lp comma rp e args hf hlp hcomma hrp he hargs =>
      parse_call O f lp comma rp e args hf hlp hcomma hrp he hargs,
    fun _ O fuel tokens pos f t1 hget hf hget1 ht1 =>
      parseFactor_function_no_paren O fuel tokens pos f t1 hget hf hget1 ht1,
    fun _ O body e i f t1 hbody hget hf hget1 ht1 =>
      parse_fails_of_function_no_paren O body e i f t1 hbody hget hf hget1 ht1⟩

/-- C15 witness: `"sin(x)"` parses to a `sin` node with one Variable child,
`"atan2(y,x)"` to an `atan2` node with two Variable children, and `parse`
fails on the tokens of `"sin x"`. -/
theorem C15_witness :
    parseText ratOps "sin(x)" = .ok
      (Node.mk ⟨TokenType.FUNCTION, "sin", 0⟩
        [Node.mk ⟨TokenType.VARIABLE, "x", 0⟩ []]) ∧
    parseText ratOps "atan2(y,x)" = .ok
      (Node.mk ⟨TokenType.FUNCTION, "atan2", 0⟩
        [Node.mk ⟨TokenType.VARIABLE, "y", 0⟩ [],
         Node.mk ⟨TokenType.VARIABLE, "x", 0⟩ []]) ∧
    (∀ tree, parseText ratOps "sin x" ≠ .ok tree) := by
  refine ⟨?_, ?_, ?_⟩
  · rw [parseText, show tokenize ratOps "sin(x)" = _ from tokenize_sin_x_call _]
    exact C15_function_call_parsing.1 ℚ ratOps ⟨TokenType.FUNCTION, "sin", 0⟩
      ⟨TokenType.PAREN_OPEN, "(", 0⟩ ⟨TokenType.COMMA, ",", 0⟩ ⟨TokenType.PAREN_CLOSE, ")", 0⟩
      ⟨TokenType.END, "", 0⟩ [⟨TokenType.VARIABLE, "x", 0⟩] rfl rfl rfl rfl rfl (by decide)
  · rw [parseText, show tokenize ratOps "atan2(y,x)" = _ from tokenize_atan2_y_x _]
    exact C15_function_call_parsing.1 ℚ ratOps ⟨TokenType.FUNCTION, "atan2", 0⟩
      ⟨TokenType.PAREN_OPEN, "(", 0⟩ ⟨TokenType.COMMA, ",", 0⟩ ⟨TokenType.PAREN_CLOSE, ")", 0⟩
      ⟨TokenType.END, "", 0⟩ [⟨TokenType.VARIABLE, "y", 0⟩, ⟨TokenType.VARIABLE, "x", 0⟩]
      rfl rfl rfl rfl rfl (by decide)
  · rw [parseText, show tokenize ratOps "sin x" = _ from tokenize_sin_x_bare _]
    exact C15_function_call_parsing.2.2 ℚ ratOps
      [⟨TokenType.FUNCTION, "sin", 0⟩, ⟨TokenType.VARIABLE, "x", 0⟩] ⟨TokenType.END, "", 0⟩ 0
      ⟨TokenType.FUNCTION, "sin", 0⟩ ⟨TokenType.VARIABLE, "x", 0⟩ (by decide) rfl rfl rfl
      (by decide)


/-! ## Output formatting -/

/-- C19 (output formatting), at the value 4.99999999999: it lies within
`1e-10` of its nearest integer 5, yet `static_cast<int>` truncates it to 4,
the test of `formatOutput` fails and the text returned is the fixed ten-digit
`"5.0000000000"`, not `"5"`.  The same happens at `5 - 2^-40`, a value that
binary floating point holds exactly.  The three values of the tests are
formatted as expected: 5 gives `"5"`, 5.00000000001 gives `"5"` and 5.12345
gives `"5.1234500000"`. -/
theorem C19_format_output_below_integer :
    |(499999999999 / 100000000000 : ℚ) - 5| < 1 / 10 ^ 10 ∧
    castInt (499999999999 / 100000000000) = 4 ∧
    formatOutput (499999999999 / 100000000000) = "5.0000000000" ∧
    |(5 - 1 / 2 ^ 40 : ℚ) - 5| < 1 / 10 ^ 10 ∧
    formatOutput (5 - 1 / 2 ^ 40) = "5.0000000000" ∧
    formatOutput 5 = "5" ∧
    formatOutput (500000000001 / 100000000000) = "5" ∧
    formatOutput (512345 / 100000) = "5.1234500000" := by
  refine ⟨?_, ?_, ?_, ?_, ?_, ?_, ?_, ?_⟩
  · rw [abs_lt]
    constructor <;> norm_num
  · with_unfolding_all decide
  · with_unfolding_all decide
  · rw [abs_lt]
    constructor <;> norm_num
  all_goals with_unfolding_all decide


/-! ## The defensive branches of the evaluator -/

theorem variable_error_data (name : String) :
    ("Error: variable '" ++ name ++ "' is not defined").data
      = "Error: variable '".data ++ name.data ++ "' is not defined".data := by
  simp [String.data_append]

theorem isEvalFailure_ne_unknown (e : Err) (h : e.isEvalFailure) :
    e ≠ Err.runtimeError "Error: unknown AST node" := by
  rcases h with ⟨name, rfl⟩ | rfl | ⟨what, hw, rfl⟩
  · intro h
    have := congrArg String.data (Err.runtimeError.inj h)
    rw [variable_error_data] at this
    simp at this
  · decide
  · intro h
    have h1 := Err.runtimeError.inj h
    subst h1
    revert hw
    decide

theorem isEvalFailure_ne_invalid (e : Err) (h : e.isEvalFailure) :
    e ≠ Err.runtimeError "Error: invalid assignment" := by
  rcases h with ⟨name, rfl⟩ | rfl | ⟨what, hw, rfl⟩
  · intro h
    have := congrArg String.data (Err.runtimeError.inj h)
    rw [variable_error_data] at this
    simp at this
  · decide
  · intro h
    have h1 := Err.runtimeError.inj h
    subst h1
    revert hw
    decide

theorem isEvalFailure_ne_bounds (e : Err) (h : e.isEvalFailure) :
    e ≠ Err.outOfBounds ∧ e ≠ Err.outOfFuel ∧ e ≠ Err.stodError := by
  rcases h with ⟨name, rfl⟩ | rfl | ⟨what, hw, rfl⟩ <;>
    refine ⟨?_, ?_, ?_⟩ <;> intro h <;> cases h

theorem failsAsUser_ok {F : Type} (v : F) (env : Env F) : failsAsUser (Except.ok v, env) := by
  intro e h
  cases h

theorem failsAsUser_ite {F : Type} {c : Prop} [Decidable c] {a b : Except Err F × Env F}
    (ha : c → failsAsUser a) (hb : ¬c → failsAsUser b) : failsAsUser (if c then a else b) := by
  split
  · exact ha (by assumption)
  · exact hb (by assumption)

theorem evalUnary_fails {F : Type} (f : F → F) (r : Except Err F × Env F)
    (h : failsAsUser r) : failsAsUser (evalUnary f r) := by
  unfold evalUnary
  split
  · intro e he
    exact h e he
  · exact failsAsUser_ok _ _

theorem evalBinary_fails {F : Type} (lf : Bool) (f : F → F → F)
    (e0 e1 : Env F → Except Err F × Env F)
    (h0 : ∀ env, failsAsUser (e0 env)) (h1 : ∀ env, failsAsUser (e1 env)) (env : Env F) :
    failsAsUser (evalBinary lf f e0 e1 env) := by
  unfold evalBinary
  split
  · split
    · rename_i e env1 h
      intro e' he'
      exact h0 env e' (by rw [h]; exact he')
    · rename_i a env1 h
      split
      · rename_i e env2 h'
        intro e' he'
        exact h1 env1 e' (by rw [h']; exact he')
      · exact failsAsUser_ok _ _
  · split
    · rename_i e env1 h
      intro e' he'
      exact h1 env e' (by rw [h]; exact he')
    · rename_i a env1 h
      split
      · rename_i e env2 h'
        intro e' he'
        exact h0 env1 e' (by rw [h']; exact he')
      · exact failsAsUser_ok _ _

theorem evalDivide_fails {F : Type} (O : FloatOps F) (e0 e1 : Env F → Except Err F × Env F)
    (h0 : ∀ env, failsAsUser (e0 env)) (h1 : ∀ env, failsAsUser (e1 env)) (env : Env F) :
    failsAsUser (evalDivide O e0 e1 env) := by
  unfold evalDivide
  split
  · rename_i e env1 h
    intro e' he'
    exact h1 env e' (by rw [h]; exact he')
  · split
    · intro e' he'
      simp only [Except.error.injEq] at he'
      subst he'
      exact Or.inr (Or.inl rfl)
    · exact evalUnary_fails _ _ (h0 _)

theorem evalCall1_fails {F : Type} (what : String) (f : F → F)
    (cs : List (Env F → Except Err F × Env F)) (hw : what ∈ arityErrors)
    (hcs : ∀ c ∈ cs, ∀ env, failsAsUser (c env)) (env : Env F) :
    failsAsUser (evalCall1 what f cs env) := by
  unfold evalCall1
  split
  · exact evalUnary_fails _ _ (hcs _ (by simp) env)
  · intro e' he'
    simp only [Except.error.injEq] at he'
    subst he'
    exact Or.inr (Or.inr ⟨what, hw, rfl⟩)

theorem evalCall2_fails {F : Type} (what : String) (lf : Bool) (f : F → F → F)
    (cs : List (Env F → Except Err F × Env F)) (hw : what ∈ arityErrors)
    (hcs : ∀ c ∈ cs, ∀ env, failsAsUser (c env)) (env : Env F) :
    failsAsUser (evalCall2 what lf f cs env) := by
  unfold evalCall2
  split
  · exact evalBinary_fails lf f _ _ (hcs _ (by simp)) (hcs _ (by simp)) env
  · intro e' he'
    simp only [Except.error.injEq] at he'
    subst he'
    exact Or.inr (Or.inr ⟨what, hw, rfl⟩)

theorem evalNode_fails {F : Type} (O : FloatOps F) (t : Token F) (ct : List (Token F))
    (cs : List (Env F → Except Err F × Env F))
    (hcs : ∀ c ∈ cs, ∀ env, failsAsUser (c env))
    (ht : t.fits isFunctionName cs.length = true) (env : Env F) :
    failsAsUser (evalNode O t ct cs env) := by
  unfold evalNode
  unfold Token.fits at ht
  split
  · exact failsAsUser_ok _ _
  · split
    · exact failsAsUser_ok _ _
    · split
      · exact failsAsUser_ok _ _
      · split
        · exact failsAsUser_ok _ _
        · intro e' he'
          simp only [Except.error.injEq] at he'
          subst he'
          exact Or.inl ⟨t.value, rfl⟩
  · rename_i hty
    rw [hty] at ht
    simp only [Bool.or_eq_true, Bool.and_eq_true, beq_iff_eq] at ht
    rcases ht with ⟨hv, hk⟩ | ⟨hv, hk⟩
    · obtain ⟨c0, rfl⟩ := List.length_eq_one.1 hk
      simp only [hv]
      rw [if_neg (by decide), if_pos (by decide)]
      exact evalUnary_fails _ _ (hcs _ (by simp) env)
    · obtain ⟨c0, c1, rfl⟩ := List.length_eq_two.1 hk
      have h0 := hcs c0 (by simp)
      have h1 := hcs c1 (by simp)
      rcases hv with (((hv | hv) | hv) | hv) | hv <;> simp only [hv]
      · rw [if_pos (by decide)]
        exact evalBinary_fails _ _ _ _ h0 h1 env
      · rw [if_neg (by decide), if_pos (by decide)]
        exact evalBinary_fails _ _ _ _ h0 h1 env
      · rw [if_neg (by decide), if_neg (by decide), if_pos (by decide)]
        exact evalBinary_fails _ _ _ _ h0 h1 env
      · rw [if_neg (by decide), if_neg (by decide), if_neg (by decide), if_pos (by decide)]
        exact evalDivide_fails O _ _ h0 h1 env
      · rw [if_neg (by decide), if_neg (by decide), if_neg (by decide), if_neg (by decide),
          if_pos (by decide)]
        exact evalBinary_fails _ _ _ _ h0 h1 env
  · rename_i hty
    rw [hty] at ht
    simp only at ht
    repeat' apply failsAsUser_ite <;> intro
    all_goals first
      | exact evalCall1_fails _ _ cs (by decide) hcs env
      | exact evalCall2_fails _ _ _ cs (by decide) hcs env
      | (exfalso
         simp only [isFunctionName, Bool.or_eq_true] at ht
         simp_all)
  · rename_i hty
    rw [hty] at ht
    cases ht
  · rename_i h1 h2 h3 h4 h5
    split at ht
    · exact absurd (by assumption) h1
    · exact absurd (by assumption) h2
    · exact absurd (by assumption) h3
    · exact absurd (by assumption) h4
    · cases ht

mutual

/-- A well-formed tree whose Function nodes carry reserved names fails, when
it fails, with an undefined-variable, division-by-zero or arity error. -/
theorem evaluate_fails {F : Type} (O : FloatOps F) :
    ∀ (n : Node F), n.wellFormed isFunctionName = true →
      ∀ env, failsAsUser (evaluate O n env)
  | .mk t cs, h, env => by
    rw [Node.wellFormed, Bool.and_eq_true] at h
    rw [evaluate]
    refine evalNode_fails O t _ _ (evaluateChildren_fails O cs h.2) ?_ env
    rw [evaluateChildren_length]
    exact h.1

theorem evaluateChildren_fails {F : Type} (O : FloatOps F) :
    ∀ (cs : List (Node F)), wellFormedList isFunctionName cs = true →
      ∀ c ∈ evaluateChildren O cs, ∀ env, failsAsUser (c env)
  | [], _, c, hc, env => by simp [evaluateChildren] at hc
  | n :: cs, h, c, hc, env => by
    rw [wellFormedList, Bool.and_eq_true] at h
    rw [evaluateChildren, List.mem_cons] at hc
    rcases hc with hc | hc
    · rw [hc]
      exact evaluate_fails O n h.1 env
    · exact evaluateChildren_fails O cs h.2 c hc env

end

theorem wellFormed_leaf {F : Type} (fn : String → Bool) (t : Token F)
    (h : t.type = TokenType.NUMBER ∨ t.type = TokenType.VARIABLE) :
    (Node.mk t []).wellFormed fn = true := by
  rcases h with h | h <;> simp [Node.wellFormed, wellFormedList, Token.fits, h]

theorem wellFormed_binary {F : Type} (fn : String → Bool) (op : Token F) (l r : Node F)
    (h : op.type = TokenType.OPERATOR)
    (hv : op.value = "+" ∨ op.value = "-" ∨ op.value = "*" ∨ op.value = "/" ∨ op.value = "^")
    (hl : l.wellFormed fn = true) (hr : r.wellFormed fn = true) :
    (Node.mk op [l, r]).wellFormed fn = true := by
  simp only [Node.wellFormed, wellFormedList, Token.fits, h, hl, hr, List.length_cons,
    List.length_nil, Bool.and_true, Bool.or_eq_true, Bool.and_eq_true, beq_iff_eq]
  right
  refine ⟨?_, by decide⟩
  rcases hv with hv | hv | hv | hv | hv <;> simp [hv]

theorem wellFormed_wrapMinus {F : Type} (fn : String → Bool) (O : FloatOps F) (um : Bool)
    (n : Node F) (h : n.wellFormed fn = true) : (wrapMinus O um n).wellFormed fn = true := by
  unfold wrapMinus
  split
  · simp [Node.wellFormed, wellFormedList, Token.fits, h]
  · exact h

theorem wellFormedList_append {F : Type} (fn : String → Bool) (as : List (Node F))
    (a : Node F) (h : wellFormedList fn as = true) (ha : a.wellFormed fn = true) :
    wellFormedList fn (as ++ [a]) = true := by
  induction as with
  | nil => simp [wellFormedList, ha]
  | cons x as ih =>
    rw [wellFormedList, Bool.and_eq_true] at h
    simp [wellFormedList, h.1, ih h.2]

theorem wellFormed_call {F : Type} (fn : String → Bool) (t : Token F) (cs : List (Node F))
    (h : t.type = TokenType.FUNCTION) (hfn : fn t.value = true)
    (hcs : wellFormedList fn cs = true) : (Node.mk t cs).wellFormed fn = true := by
  simp [Node.wellFormed, Token.fits, h, hfn, hcs]

/-- Trees built by the expression parsers from a token vector whose Function
tokens all pass `fn` are well-formed. -/
theorem parse_wellFormed {F : Type} (O : FloatOps F) (fn : String → Bool)
    (tokens : List (Token F))
    (hfun : ∀ t ∈ tokens, t.type = TokenType.FUNCTION → fn t.value = true) (fuel : Nat) :
    (∀ pos n pos', parseExpression O fuel tokens pos = .ok (n, pos') →
      n.wellFormed fn = true) ∧
    (∀ left pos n pos', left.wellFormed fn = true →
      parseExpressionLoop O fuel tokens left pos = .ok (n, pos') → n.wellFormed fn = true) ∧
    (∀ pos n pos', parseTerm O fuel tokens pos = .ok (n, pos') →
      n.wellFormed fn = true) ∧
    (∀ left pos n pos', left.wellFormed fn = true →
      parseTermLoop O fuel tokens left pos = .ok (n, pos') → n.wellFormed fn = true) ∧
    (∀ pos n pos', parsePower O fuel tokens pos = .ok (n, pos') →
      n.wellFormed fn = true) ∧
    (∀ left pos n pos', left.wellFormed fn = true →
      parsePowerLoop O fuel tokens left pos = .ok (n, pos') → n.wellFormed fn = true) ∧
    (∀ pos n pos', parseFactor O fuel tokens pos = .ok (n, pos') →
      n.wellFormed fn = true) ∧
    (∀ args pos as pos', wellFormedList fn args = true →
      parseArgsLoop O fuel tokens args pos = .ok (as, pos') →
      wellFormedList fn as = true) := by
  induction fuel with
  | zero =>
    refine ⟨?_, ?_, ?_, ?_, ?_, ?_, ?_, ?_⟩ <;> intros <;>
      simp_all [parseExpression, parseExpressionLoop, parseTerm, parseTermLoop, parsePower,
        parsePowerLoop, parseFactor, parseArgsLoop]
  | succ fuel ih =>
    obtain ⟨ihE, ihEL, ihT, ihTL, ihP, ihPL, ihF, ihA⟩ := ih
    refine ⟨?_, ?_, ?_, ?_, ?_, ?_, ?_, ?_⟩
    · intro pos n pos' h
      simp only [parseExpression] at h
      split at h
      · cases h
      · rename_i left p1 h1
        exact ihEL _ _ _ _ (ihT _ _ _ h1) h
    · intro left pos n pos' hl h
      simp only [parseExpressionLoop] at h
      split at h
      · cases h
      · rename_i op hop
        split at h
        · rename_i hc
          simp only [Bool.and_eq_true, beq_iff_eq] at hc
          split at h
          · cases h
          · rename_i right p1 h1
            exact ihEL _ _ _ _ (wellFormed_binary fn op left right hc.1
              (by
                have h2 := hc.2
                simp only [Bool.or_eq_true, beq_iff_eq] at h2
                rcases h2 with hv | hv <;> simp [hv]) hl (ihT _ _ _ h1)) h
        · simp only [Except.ok.injEq, Prod.mk.injEq] at h
          rw [← h.1]
          exact hl
    · intro pos n pos' h
      simp only [parseTerm] at h
      split at h
      · cases h
      · rename_i left p1 h1
        exact ihTL _ _ _ _ (ihP _ _ _ h1) h
    · intro left pos n pos' hl h
      simp only [parseTermLoop] at h
      split at h
      · cases h
      · rename_i op hop
        split at h
        · rename_i hc
          simp only [Bool.and_eq_true, beq_iff_eq] at hc
          split at h
          · cases h
          · rename_i right p1 h1
            exact ihTL _ _ _ _ (wellFormed_binary fn op left right hc.1
              (by
                have h2 := hc.2
                simp only [Bool.or_eq_true, beq_iff_eq] at h2
                rcases h2 with hv | hv <;> simp [hv]) hl (ihP _ _ _ h1)) h
        · simp only [Except.ok.injEq, Prod.mk.injEq] at h
          rw [← h.1]
          exact hl
    · intro pos n pos' h
      simp only [parsePower] at h
      split at h
      · cases h
      · rename_i left p1 h1
        exact ihPL _ _ _ _ (ihF _ _ _ h1) h
    · intro left pos n pos' hl h
      simp only [parsePowerLoop] at h
      split at h
      · cases h
      · rename_i op hop
        split at h
        · rename_i hc
          simp only [Bool.and_eq_true, beq_iff_eq] at hc
          split at h
          · cases h
          · rename_i right p1 h1
            exact ihPL _ _ _ _
              (wellFormed_binary fn op left right hc.1 (by simp [hc.2]) hl (ihF _ _ _ h1)) h
        · simp only [Except.ok.injEq, Prod.mk.injEq] at h
          rw [← h.1]
          exact hl
    · intro pos n pos' h
      simp only [parseFactor] at h
      split at h
      · cases h
      · rename_i um p0 hsm
        split at h
        · cases h
        · rename_i t ht
          split at h
          · rename_i hty
            simp only [Except.ok.injEq, Prod.mk.injEq] at h
            rw [← h.1]
            exact wellFormed_wrapMinus fn O um _
              (wellFormed_leaf fn t (Or.inl (by simpa using hty)))
          · split at h
            · rename_i hty
              simp only [Except.ok.injEq, Prod.mk.injEq] at h
              rw [← h.1]
              exact wellFormed_wrapMinus fn O um _
                (wellFormed_leaf fn t (Or.inr (by simpa using hty)))
            · split at h
              · rename_i hty
                have hfn : t.type = TokenType.FUNCTION := by simpa using hty
                have hname := hfun t (List.getElem?_mem ht) hfn
                split at h
                · cases h
                · split at h
                  · cases h
                  · split at h
                    · cases h
                    · split at h
                      · split at h
                        · cases h
                        · rename_i arg p1 h1
                          split at h
                          · cases h
                          · rename_i fa p2 h2
                            split at h
                            · cases h
                            · split at h
                              · cases h
                              · simp only [Except.ok.injEq, Prod.mk.injEq] at h
                                rw [← h.1]
                                apply wellFormed_wrapMinus
                                exact wellFormed_call fn t _ hfn hname (ihA _ _ _ _
                                  (by simp [wellFormedList, ihE _ _ _ h1]) h2)
                      · simp only [Except.ok.injEq, Prod.mk.injEq] at h
                        rw [← h.1]
                        exact wellFormed_wrapMinus fn O um _ (wellFormed_call fn t [] hfn hname rfl)
              · split at h
                · split at h
                  · cases h
                  · rename_i node p1 h1
                    split at h
                    · cases h
                    · split at h
                      · cases h
                      · simp only [Except.ok.injEq, Prod.mk.injEq] at h
                        rw [← h.1]
                        exact wellFormed_wrapMinus fn O um _ (ihE _ _ _ h1)
                · cases h
    · intro args pos as pos' hargs h
      simp only [parseArgsLoop] at h
      split at h
      · cases h
      · rename_i t ht
        split at h
        · split at h
          · cases h
          · rename_i arg p1 h1
            exact ihA _ _ _ _ (wellFormedList_append fn args arg hargs (ihE _ _ _ h1)) h
        · simp only [Except.ok.injEq, Prod.mk.injEq] at h
          rw [← h.1]
          exact hargs

theorem tokenizeLoop_function_names {F : Type} (O : FloatOps F) (fuel : Nat) :
    ∀ (rest : List Char) (acc tokens : List (Token F)),
      (∀ t ∈ acc, t.type = TokenType.FUNCTION → isFunctionName t.value = true) →
      tokenizeLoop O fuel rest acc = .ok tokens →
      ∀ t ∈ tokens, t.type = TokenType.FUNCTION → isFunctionName t.value = true := by
  have hpush : ∀ (acc : List (Token F)) (t : Token F),
      (∀ u ∈ acc, u.type = TokenType.FUNCTION → isFunctionName u.value = true) →
      (t.type = TokenType.FUNCTION → isFunctionName t.value = true) →
      ∀ u ∈ acc ++ [t], u.type = TokenType.FUNCTION → isFunctionName u.value = true := by
    intro acc t hacc ht u hu
    rcases List.mem_append.1 hu with hu | hu
    · exact hacc u hu
    · rw [List.mem_singleton.1 hu]; exact ht
  induction fuel with
  | zero =>
    intro rest acc tokens hacc h
    cases rest with
    | nil =>
      simp only [tokenizeLoop, Except.ok.injEq] at h
      rw [← h]
      exact hpush acc _ hacc (by simp)
    | cons c rest => simp [tokenizeLoop] at h
  | succ fuel ih =>
    intro rest acc tokens hacc h
    cases rest with
    | nil =>
      simp only [tokenizeLoop, Except.ok.injEq] at h
      rw [← h]
      exact hpush acc _ hacc (by simp)
    | cons c rest =>
      simp only [tokenizeLoop] at h
      split at h
      · exact ih _ _ _ hacc h
      · split at h
        · split at h
          · cases h
          · exact ih _ _ _ (hpush acc _ hacc (by simp)) h
        · split at h
          · split at h
            · rename_i hfn
              exact ih _ _ _ (hpush acc _ hacc (by intro _; exact hfn)) h
            · exact ih _ _ _ (hpush acc _ hacc (by simp)) h
          · split at h
            · exact ih _ _ _ (hpush acc _ hacc (by simp)) h
            · split at h
              · exact ih _ _ _ (hpush acc _ hacc (by simp)) h
              · split at h
                · exact ih _ _ _ (hpush acc _ hacc (by simp)) h
                · split at h
                  · exact ih _ _ _ (hpush acc _ hacc (by simp)) h
                  · split at h
                    · exact ih _ _ _ (hpush acc _ hacc (by simp)) h
                    · cases h

/-- Every Function token returned by `tokenize` carries one of the twelve
reserved names. -/
theorem tokenize_function_names {F : Type} (O : FloatOps F) (input : String)
    (tokens : List (Token F)) (h : tokenize O input = .ok tokens) :
    ∀ t ∈ tokens, t.type = TokenType.FUNCTION → isFunctionName t.value = true :=
  tokenizeLoop_function_names O _ _ [] tokens (by simp) h

/-- The trees `parse` returns are well-formed, or an assignment node at the
root over a childless Variable node and a well-formed right-hand side. -/
theorem parse_wellFormed_tree {F : Type} (O : FloatOps F) (fn : String → Bool)
    (tokens : List (Token F)) (tree : Node F)
    (hfun : ∀ t ∈ tokens, t.type = TokenType.FUNCTION → fn t.value = true)
    (h : parse O tokens = .ok tree) :
    tree.wellFormed fn = true ∨
      ∃ t0 t1 rhs, tree = Node.mk t1 [Node.mk t0 [], rhs] ∧ t1.type = TokenType.EQUAL ∧
        t0.type = TokenType.VARIABLE ∧ rhs.wellFormed fn = true := by
  have hE := (parse_wellFormed O fn tokens hfun (4 * tokens.length + 4)).1
  have hbare : parse.parseBare O tokens = .ok tree → tree.wellFormed fn = true := by
    intro hb
    simp only [parse.parseBare] at hb
    split at hb
    · cases hb
    · rename_i root pos h1
      split at hb
      · cases hb
      · split at hb
        · cases hb
        · simp only [Except.ok.injEq] at hb
          rw [← hb]
          exact hE _ _ _ h1
  unfold parse at h
  split at h
  · rename_i t0 t1 t2 tl
    split at h
    · rename_i hc
      simp only [Bool.and_eq_true, beq_iff_eq] at hc
      split at h
      · cases h
      · split at h
        · cases h
        · rename_i en pos h1
          split at h
          · cases h
          · split at h
            · cases h
            · simp only [Except.ok.injEq] at h
              exact Or.inr ⟨t0, t1, en, h.symm, hc.1, hc.2, hE _ _ _ h1⟩
    · exact Or.inl (hbare h)
  · exact Or.inl (hbare h)

/-- A tree returned by `parse` on the tokens of an input text fails, when its
evaluation fails, with an undefined-variable, division-by-zero or arity
error. -/
theorem evaluate_parsed_fails {F : Type} (O : FloatOps F) (input : String)
    (tokens : List (Token F)) (tree : Node F) (env : Env F)
    (htok : tokenize O input = .ok tokens) (hparse : parse O tokens = .ok tree) :
    failsAsUser (evaluate O tree env) := by
  rcases parse_wellFormed_tree O isFunctionName tokens tree
      (tokenize_function_names O input tokens htok) hparse with
    h | ⟨t0, t1, rhs, rfl, h1, h0, hrhs⟩
  · exact evaluate_fails O tree h env
  · rw [evaluate_assign O t1 t0 [] rhs env h1 h0]
    have := evaluate_fails O rhs hrhs env
    split
    · rename_i e env1 heq
      intro e' he'
      exact this e' (by rw [heq]; exact he')
    · exact failsAsUser_ok _ _

/-- C20 (the defensive branches of the evaluator are unreachable through the
pipeline): for every input text and every environment, when `tokenize` and
then `parse` return a tree and `evaluate` fails on it, the failure is an
undefined-variable, division-by-zero or arity error; it is neither the
unknown-AST-node error nor the invalid-assignment error, nor a read of a
missing child. -/
theorem C20_defensive_branches_unreachable {F : Type} (O : FloatOps F) (input : String)
    (tokens : List (Token F)) (tree : Node F) (env env1 : Env F) (e : Err)
    (htok : tokenize O input = .ok tokens) (hparse : parse O tokens = .ok tree)
    (heval : evaluate O tree env = (.error e, env1)) :
    e.isEvalFailure ∧ e ≠ Err.runtimeError "Error: unknown AST node" ∧
      e ≠ Err.runtimeError "Error: invalid assignment" ∧ e ≠ Err.outOfBounds := by
  have h := evaluate_parsed_fails O input tokens tree env htok hparse e (by rw [heval])
  exact ⟨h, isEvalFailure_ne_unknown e h, isEvalFailure_ne_invalid e h,
    (isEvalFailure_ne_bounds e h).1⟩

theorem evaluate_x_plus_2_undefined :
    evaluate ratOps
      (Node.mk ⟨TokenType.OPERATOR, "+", 0⟩
        [Node.mk ⟨TokenType.VARIABLE, "x", 0⟩ [], Node.mk ⟨TokenType.NUMBER, "2", 2⟩ []])
      Env.empty
      = (.error (Err.runtimeError "Error: variable 'x' is not defined"), Env.empty) := by
  simp [evaluate_add, evaluate_variable, evaluate_number, evalBinary, Env.empty, ratOps,
    exactOps]

/-- C20 witness: `"x + 2"` is tokenized and parsed, its evaluation in the
empty environment fails, and the failure is the undefined-variable error, not
one of the defensive ones. -/
theorem C20_witness :
    evaluate ratOps
      (Node.mk ⟨TokenType.OPERATOR, "+", 0⟩
        [Node.mk ⟨TokenType.VARIABLE, "x", 0⟩ [], Node.mk ⟨TokenType.NUMBER, "2", 2⟩ []])
      Env.empty
      = (.error (Err.runtimeError "Error: variable 'x' is not defined"), Env.empty) ∧
    (Err.runtimeError "Error: variable 'x' is not defined").isEvalFailure ∧
    Err.runtimeError "Error: variable 'x' is not defined"
      ≠ Err.runtimeError "Error: unknown AST node" ∧
    Err.runtimeError "Error: variable 'x' is not defined"
      ≠ Err.runtimeError "Error: invalid assignment" ∧
    Err.runtimeError "Error: variable 'x' is not defined" ≠ Err.outOfBounds :=
  ⟨evaluate_x_plus_2_undefined,
    C20_defensive_branches_unreachable ratOps "x + 2"
      [⟨TokenType.VARIABLE, "x", 0⟩, ⟨TokenType.OPERATOR, "+", 0⟩, ⟨TokenType.NUMBER, "2", 2⟩,
        ⟨TokenType.END, "", 0⟩]
      (Node.mk ⟨TokenType.OPERATOR, "+", 0⟩
        [Node.mk ⟨TokenType.VARIABLE, "x", 0⟩ [], Node.mk ⟨TokenType.NUMBER, "2", 2⟩ []])
      Env.empty Env.empty (Err.runtimeError "Error: variable 'x' is not defined")
      (tokenize_x_plus_2 _) (parse_x_plus_2 _) evaluate_x_plus_2_undefined⟩


/-! ## Unmatched opening parenthesis -/

theorem agreeOn_mono {F : Type} {tokens1 tokens2 : List (Token F)} {k a b a' b' : Nat}
    (h : agreeOn tokens1 tokens2 k a b) (ha : a ≤ a') (hab : a ≤ b') (hb : b' ≤ b) :
    agreeOn tokens1 tokens2 k a' b' := by
  refine ⟨fun i h1 h2 => h.1 i (by omega) (by omega), ?_⟩
  rcases Nat.lt_or_ge b' b with hlt | hge
  · exact Or.inl (h.1 b' hab hlt)
  · have : b' = b := by omega
    rw [this]
    exact h.2

theorem agreeOn_get {F : Type} {tokens1 tokens2 : List (Token F)} {k a b : Nat}
    (h : agreeOn tokens1 tokens2 k a b) (i : Nat) (h1 : a ≤ i) (h2 : i < b) {t : Token F}
    (hget : tokens1[i]? = some t) : tokens2[i + k]? = some t :=
  (h.1 i h1 h2).trans hget

theorem agreeOn_stop {F : Type} {tokens1 tokens2 : List (Token F)} {k a b : Nat}
    (h : agreeOn tokens1 tokens2 k a b) (t : Token F) (hget : tokens1[b]? = some t) :
    ∃ t2, tokens2[b + k]? = some t2 ∧
      (t2 = t ∨ (t2.type ≠ TokenType.OPERATOR ∧ t2.type ≠ TokenType.COMMA)) := by
  rcases h.2 with h2 | ⟨t2, h2, h3⟩
  · exact ⟨t, h2.trans hget, Or.inl rfl⟩
  · exact ⟨t2, h2, Or.inr h3⟩

theorem skipMinus_embed {F : Type} (tokens1 tokens2 : List (Token F)) (k : Nat) :
    ∀ (rest1 : List (Token F)) (b : Bool) (pos : Nat) (b' : Bool) (p0 : Nat),
      tokens1.drop pos = rest1 → skipMinus rest1 b pos = .ok (b', p0) →
      (∀ i, pos ≤ i → i ≤ p0 → tokens2[i + k]? = tokens1[i]?) →
      skipMinus (tokens2.drop (pos + k)) b (pos + k) = .ok (b', p0 + k) := by
  intro rest1
  induction rest1 with
  | nil => intro b pos b' p0 _ h; simp [skipMinus] at h
  | cons t rest ih =>
    intro b pos b' p0 hdrop h hagree
    obtain ⟨hget, hdrop'⟩ := drop_cons_inv hdrop
    have hb := skipMinus_bounds _ _ _ _ _ h
    have hget2 : tokens2[pos + k]? = some t := (hagree pos (Nat.le_refl _) hb.1).trans hget
    have hlt2 := lt_length_of_getElem? hget2
    have ht2 : tokens2[pos + k] = t := by
      have := List.getElem?_eq_getElem hlt2
      rw [this] at hget2
      exact Option.some.inj hget2
    have hdrop2 : tokens2.drop (pos + k) = t :: tokens2.drop (pos + k + 1) := by
      rw [List.drop_eq_getElem_cons hlt2, ht2]
    simp only [skipMinus] at h
    rw [hdrop2, skipMinus]
    split at h
    · rename_i hm
      rw [if_pos hm]
      have := ih (!b) (pos + 1) b' p0 hdrop' h (fun i h1 h2 => hagree i (by omega) h2)
      rw [Nat.add_right_comm] at this
      exact this
    · rename_i hm
      rw [if_neg hm]
      simp only [Except.ok.injEq, Prod.mk.injEq] at h
      rw [h.1, h.2]

/-- A successful run of a parse function over `tokens1` is repeated, `k`
places further on, over every vector that agrees with `tokens1` on the tokens
the run reads. -/
theorem parse_embed {F : Type} (O : FloatOps F) (tokens1 tokens2 : List (Token F)) (k : Nat)
    (fuel : Nat) :
    (∀ pos n p1, parseExpression O fuel tokens1 pos = .ok (n, p1) →
      agreeOn tokens1 tokens2 k pos p1 →
      parseExpression O fuel tokens2 (pos + k) = .ok (n, p1 + k)) ∧
    (∀ left pos n p1, parseExpressionLoop O fuel tokens1 left pos = .ok (n, p1) →
      agreeOn tokens1 tokens2 k pos p1 →
      parseExpressionLoop O fuel tokens2 left (pos + k) = .ok (n, p1 + k)) ∧
    (∀ pos n p1, parseTerm O fuel tokens1 pos = .ok (n, p1) →
      agreeOn tokens1 tokens2 k pos p1 →
      parseTerm O fuel tokens2 (pos + k) = .ok (n, p1 + k)) ∧
    (∀ left pos n p1, parseTermLoop O fuel tokens1 left pos = .ok (n, p1) →
      agreeOn tokens1 tokens2 k pos p1 →
      parseTermLoop O fuel tokens2 left (pos + k) = .ok (n, p1 + k)) ∧
    (∀ pos n p1, parsePower O fuel tokens1 pos = .ok (n, p1) →
      agreeOn tokens1 tokens2 k pos p1 →
      parsePower O fuel tokens2 (pos + k) = .ok (n, p1 + k)) ∧
    (∀ left pos n p1, parsePowerLoop O fuel tokens1 left pos = .ok (n, p1) →
      agreeOn tokens1 tokens2 k pos p1 →
      parsePowerLoop O fuel tokens2 left (pos + k) = .ok (n, p1 + k)) ∧
    (∀ pos n p1, parseFactor O fuel tokens1 pos = .ok (n, p1) →
      agreeOn tokens1 tokens2 k pos p1 →
      parseFactor O fuel tokens2 (pos + k) = .ok (n, p1 + k)) ∧
    (∀ args pos as p1, parseArgsLoop O fuel tokens1 args pos = .ok (as, p1) →
      agreeOn tokens1 tokens2 k pos p1 →
      parseArgsLoop O fuel tokens2 args (pos + k) = .ok (as, p1 + k)) := by
  induction fuel with
  | zero =>
    refine ⟨?_, ?_, ?_, ?_, ?_, ?_, ?_, ?_⟩ <;> intros <;>
      simp_all [parseExpression, parseExpressionLoop, parseTerm, parseTermLoop, parsePower,
        parsePowerLoop, parseFactor, parseArgsLoop]
  | succ fuel ih =>
    obtain ⟨ihE, ihEL, ihT, ihTL, ihP, ihPL, ihF, ihA⟩ := ih
    obtain ⟨pE, pEL, pT, pTL, pP, pPL, pF, pA⟩ := parse_progress O fuel
    refine ⟨?_, ?_, ?_, ?_, ?_, ?_, ?_, ?_⟩
    · intro pos n p1 h hag
      simp only [parseExpression] at h
      split at h
      · cases h
      · rename_i left q h1
        have hq := pT _ _ _ _ h1
        have hq2 := pEL _ _ _ _ _ h
        have hS := ihT _ _ _ h1 (agreeOn_mono hag (Nat.le_refl _) (by omega) (by omega))
        have hL := ihEL _ _ _ _ h (agreeOn_mono hag (by omega) (by omega) (Nat.le_refl _))
        rw [parseExpression, hS]
        exact hL
    · intro left pos n p1 h hag
      simp only [parseExpressionLoop] at h
      split at h
      · cases h
      · rename_i op hop
        split at h
        · rename_i hc
          split at h
          · cases h
          · rename_i right q h1
            have hq := pT _ _ _ _ h1
            have hq2 := pEL _ _ _ _ _ h
            have hget2 := agreeOn_get hag pos (Nat.le_refl _) (by omega) hop
            have hS := ihT _ _ _ h1 (agreeOn_mono hag (by omega) (by omega) (by omega))
            have hL := ihEL _ _ _ _ h (agreeOn_mono hag (by omega) (by omega) (Nat.le_refl _))
            rw [Nat.add_right_comm] at hS
            rw [parseExpressionLoop, hget2]
            simp only
            rw [if_pos hc, hS]
            exact hL
        · rename_i hc
          simp only [Except.ok.injEq, Prod.mk.injEq] at h
          obtain ⟨rfl, rfl⟩ := h
          obtain ⟨t2, hget2, ht2⟩ := agreeOn_stop hag op hop
          have hc2 : ¬(t2.type == TokenType.OPERATOR && (t2.value == "+" || t2.value == "-")) = true := by
            rcases ht2 with rfl | ⟨h2, -⟩
            · exact hc
            · simp [h2]
          rw [parseExpressionLoop, hget2]
          simp only
          rw [if_neg hc2]
    · intro pos n p1 h hag
      simp only [parseTerm] at h
      split at h
      · cases h
      · rename_i left q h1
        have hq := pP _ _ _ _ h1
        have hq2 := pTL _ _ _ _ _ h
        have hS := ihP _ _ _ h1 (agreeOn_mono hag (Nat.le_refl _) (by omega) (by omega))
        have hL := ihTL _ _ _ _ h (agreeOn_mono hag (by omega) (by omega) (Nat.le_refl _))
        rw [parseTerm, hS]
        exact hL
    · intro left pos n p1 h hag
      simp only [parseTermLoop] at h
      split at h
      · cases h
      · rename_i op hop
        split at h
        · rename_i hc
          split at h
          · cases h
          · rename_i right q h1
            have hq := pP _ _ _ _ h1
            have hq2 := pTL _ _ _ _ _ h
            have hget2 := agreeOn_get hag pos (Nat.le_refl _) (by omega) hop
            have hS := ihP _ _ _ h1 (agreeOn_mono hag (by omega) (by omega) (by omega))
            have hL := ihTL _ _ _ _ h (agreeOn_mono hag (by omega) (by omega) (Nat.le_refl _))
            rw [Nat.add_right_comm] at hS
            rw [parseTermLoop, hget2]
            simp only
            rw [if_pos hc, hS]
            exact hL
        · rename_i hc
          simp only [Except.ok.injEq, Prod.mk.injEq] at h
          obtain ⟨rfl, rfl⟩ := h
          obtain ⟨t2, hget2, ht2⟩ := agreeOn_stop hag op hop
          have hc2 : ¬(t2.type == TokenType.OPERATOR && (t2.value == "*" || t2.value == "/")) = true := by
            rcases ht2 with rfl | ⟨h2, -⟩
            · exact hc
            · simp [h2]
          rw [parseTermLoop, hget2]
          simp only
          rw [if_neg hc2]
    · intro pos n p1 h hag
      simp only [parsePower] at h
      split at h
      · cases h
      · rename_i left q h1
        have hq := pF _ _ _ _ h1
        have hq2 := pPL _ _ _ _ _ h
        have hS := ihF _ _ _ h1 (agreeOn_mono hag (Nat.le_refl _) (by omega) (by omega))
        have hL := ihPL _ _ _ _ h (agreeOn_mono hag (by omega) (by omega) (Nat.le_refl _))
        rw [parsePower, hS]
        exact hL
    · intro left pos n p1 h hag
      simp only [parsePowerLoop] at h
      split at h
      · cases h
      · rename_i op hop
        split at h
        · rename_i hc
          split at h
          · cases h
          · rename_i right q h1
            have hq := pF _ _ _ _ h1
            have hq2 := pPL _ _ _ _ _ h
            have hget2 := agreeOn_get hag pos (Nat.le_refl _) (by omega) hop
            have hS := ihF _ _ _ h1 (agreeOn_mono hag (by omega) (by omega) (by omega))
            have hL := ihPL _ _ _ _ h (agreeOn_mono hag (by omega) (by omega) (Nat.le_refl _))
            rw [Nat.add_right_comm] at hS
            rw [parsePowerLoop, hget2]
            simp only
            rw [if_pos hc, hS]
            exact hL
        · rename_i hc
          simp only [Except.ok.injEq, Prod.mk.injEq] at h
          obtain ⟨rfl, rfl⟩ := h
          obtain ⟨t2, hget2, ht2⟩ := agreeOn_stop hag op hop
          have hc2 : ¬(t2.type == TokenType.OPERATOR && t2.value == "^") = true := by
            rcases ht2 with rfl | ⟨h2, -⟩
            · exact hc
            · simp [h2]
          rw [parsePowerLoop, hget2]
          simp only
          rw [if_neg hc2]
    · intro pos n p1 h hag
      simp only [parseFactor] at h
      split at h
      · cases h
      · rename_i um p0 hsm
        have hb := skipMinus_drop_bounds _ _ _ _ _ hsm
        have e1 : p0 + 1 + k = p0 + k + 1 := by omega
        have e2 : p0 + 2 + k = p0 + k + 2 := by omega
        have e3 : p0 + 3 + k = p0 + k + 3 := by omega
        split at h
        · cases h
        · rename_i t ht
          split at h
          · rename_i hty
            simp only [Except.ok.injEq, Prod.mk.injEq] at h
            obtain ⟨rfl, rfl⟩ := h
            have hsm2 := skipMinus_embed tokens1 tokens2 k _ _ _ _ _ rfl hsm
              (fun i h1 h2 => hag.1 i h1 (by omega))
            have hget2 := agreeOn_get hag p0 hb.1 (by omega) ht
            rw [parseFactor, hsm2]
            simp only
            rw [hget2]
            simp only
            rw [if_pos hty, e1]
          · rename_i hn1
            split at h
            · rename_i hty
              simp only [Except.ok.injEq, Prod.mk.injEq] at h
              obtain ⟨rfl, rfl⟩ := h
              have hsm2 := skipMinus_embed tokens1 tokens2 k _ _ _ _ _ rfl hsm
                (fun i h1 h2 => hag.1 i h1 (by omega))
              have hget2 := agreeOn_get hag p0 hb.1 (by omega) ht
              rw [parseFactor, hsm2]
              simp only
              rw [hget2]
              simp only
              rw [if_neg hn1, if_pos hty, e1]
            · rename_i hn2
              split at h
              · rename_i hty
                split at h
                · cases h
                · rename_i t1 ht1
                  split at h
                  · cases h
                  · rename_i hpo
                    split at h
                    · cases h
                    · rename_i t2 ht2
                      split at h
                      · rename_i hpc
                        split at h
                        · cases h
                        · rename_i arg q h1
                          split at h
                          · cases h
                          · rename_i fa q2 h2
                            split at h
                            · cases h
                            · rename_i t3 ht3
                              split at h
                              · cases h
                              · rename_i hpc3
                                simp only [Except.ok.injEq, Prod.mk.injEq] at h
                                obtain ⟨rfl, rfl⟩ := h
                                have hq := pE _ _ _ _ h1
                                have hq2 := pA _ _ _ _ _ h2
                                have hsm2 := skipMinus_embed tokens1 tokens2 k _ _ _ _ _ rfl hsm
                                  (fun i h1 h2 => hag.1 i h1 (by omega))
                                have hget2 := agreeOn_get hag p0 hb.1 (by omega) ht
                                have hget21 := agreeOn_get hag (p0 + 1) (by omega) (by omega)
                                  ht1
                                have hget22 := agreeOn_get hag (p0 + 2) (by omega) (by omega)
                                  ht2
                                have hget23 := agreeOn_get hag q2 (by omega) (by omega) ht3
                                have hS := ihE _ _ _ h1
                                  (agreeOn_mono hag (by omega) (by omega) (by omega))
                                have hL := ihA _ _ _ _ h2
                                  (agreeOn_mono hag (by omega) (by omega) (by omega))
                                rw [e1] at hget21
                                rw [e2] at hget22 hS
                                rw [parseFactor, hsm2]
                                simp only
                                rw [hget2]
                                simp only
                                rw [if_neg hn1, if_neg hn2, if_pos hty, hget21]
                                simp only
                                rw [if_neg hpo, hget22]
                                simp only
                                rw [if_pos hpc, hS]
                                simp only
                                rw [hL]
                                simp only
                                rw [hget23]
                                simp only
                                rw [if_neg hpc3, Nat.add_right_comm]
                      · rename_i hpc
                        simp only [Except.ok.injEq, Prod.mk.injEq] at h
                        obtain ⟨rfl, rfl⟩ := h
                        have hsm2 := skipMinus_embed tokens1 tokens2 k _ _ _ _ _ rfl hsm
                          (fun i h1 h2 => hag.1 i h1 (by omega))
                        have hget2 := agreeOn_get hag p0 hb.1 (by omega) ht
                        have hget21 := agreeOn_get hag (p0 + 1) (by omega) (by omega) ht1
                        have hget22 := agreeOn_get hag (p0 + 2) (by omega) (by omega) ht2
                        rw [e1] at hget21
                        rw [e2] at hget22
                        rw [parseFactor, hsm2]
                        simp only
                        rw [hget2]
                        simp only
                        rw [if_neg hn1, if_neg hn2, if_pos hty, hget21]
                        simp only
                        rw [if_neg hpo, hget22]
                        simp only
                        rw [if_neg hpc, e3]
              · rename_i hn3
                split at h
                · rename_i hty
                  split at h
                  · cases h
                  · rename_i node q h1
                    split at h
                    · cases h
                    · rename_i t1 ht1
                      split at h
                      · cases h
                      · rename_i hpc
                        simp only [Except.ok.injEq, Prod.mk.injEq] at h
                        obtain ⟨rfl, rfl⟩ := h
                        have hq := pE _ _ _ _ h1
                        have hsm2 := skipMinus_embed tokens1 tokens2 k _ _ _ _ _ rfl hsm
                          (fun i h1 h2 => hag.1 i h1 (by omega))
                        have hget2 := agreeOn_get hag p0 hb.1 (by omega) ht
                        have hget21 := agreeOn_get hag q (by omega) (by omega) ht1
                        have hS := ihE _ _ _ h1
                          (agreeOn_mono hag (by omega) (by omega) (by omega))
                        rw [e1] at hS
                        rw [parseFactor, hsm2]
                        simp only
                        rw [hget2]
                        simp only
                        rw [if_neg hn1, if_neg hn2, if_neg hn3, if_pos hty, hS]
                        simp only
                        rw [hget21]
                        simp only
                        rw [if_neg hpc, Nat.add_right_comm]
                · cases h
    · intro args pos as p1 h hag
      simp only [parseArgsLoop] at h
      split at h
      · cases h
      · rename_i t ht
        split at h
        · rename_i hc
          split at h
          · cases h
          · rename_i arg q h1
            have hq := pE _ _ _ _ h1
            have hq2 := pA _ _ _ _ _ h
            have hget2 := agreeOn_get hag pos (Nat.le_refl _) (by omega) ht
            have hS := ihE _ _ _ h1 (agreeOn_mono hag (by omega) (by omega) (by omega))
            have hL := ihA _ _ _ _ h (agreeOn_mono hag (by omega) (by omega) (Nat.le_refl _))
            rw [Nat.add_right_comm] at hS
            rw [parseArgsLoop, hget2]
            simp only
            rw [if_pos hc, hS]
            exact hL
        · rename_i hc
          simp only [Except.ok.injEq, Prod.mk.injEq] at h
          obtain ⟨rfl, rfl⟩ := h
          obtain ⟨t2, hget2, ht2⟩ := agreeOn_stop hag t ht
          have hc2 : ¬(t2.type == TokenType.COMMA) = true := by
            rcases ht2 with rfl | ⟨-, h2⟩
            · exact hc
            · simp [h2]
          rw [parseArgsLoop, hget2]
          simp only
          rw [if_neg hc2]

/-- A bare expression accepted by `parse` on `body` followed by END is parsed
by `parseExpression` from index 0 up to that END. -/
theorem parse_bare_cursor {F : Type} (O : FloatOps F) (body : List (Token F)) (e : Token F)
    (tree : Node F) (hbody : ∀ t ∈ body, t.type ≠ TokenType.END)
    (h : parse O (body ++ [e]) = .ok tree) (hbare : tree.noAssign = true) :
    parseExpression O (4 * (body ++ [e]).length + 4) (body ++ [e]) 0
        = .ok (tree, body.length) ∧ e.type = TokenType.END := by
  rw [parse_eq_parseTop] at h
  split at h
  · cases h
  · rename_i tree' pos htop
    split at h
    · cases h
    · rename_i t ht
      split at h
      · cases h
      · rename_i hend
        have hty : t.type = TokenType.END := by simpa using hend
        simp only [Except.ok.injEq] at h
        subst h
        have hpos := end_position body e t pos hbody ht hty
        simp only [List.length_append, List.length_singleton, Nat.add_right_cancel_iff]
          at hpos
        subst hpos
        have hte : t = e := by
          rw [List.getElem?_append_right (Nat.le_refl _)] at ht
          simpa using ht.symm
        subst hte
        refine ⟨?_, hty⟩
        unfold parseTop at htop
        split at htop
        · rename_i t0 t1 t2 tl heq
          split at htop
          · rename_i hc
            simp only [Bool.and_eq_true, beq_iff_eq] at hc
            split at htop
            · cases htop
            · split at htop
              · cases htop
              · simp only [Except.ok.injEq, Prod.mk.injEq] at htop
                rw [← htop.1] at hbare
                simp [Node.noAssign, hc.1] at hbare
          · exact htop
        · exact htop

theorem getElem?_cons_append_length {α : Type} (a : α) (l r : List α) (i : Nat) :
    (a :: (l ++ r))[l.length + 1 + i]? = r[i]? := by
  rw [Nat.add_right_comm, List.getElem?_cons_succ, List.getElem?_append_right (by omega)]
  congr 1
  omega

/-- An opening parenthesis before a bare expression, with nothing to close
it, makes `parse` throw the expected-closing-parenthesis error. -/
theorem parse_paren_unclosed {F : Type} (O : FloatOps F) (body : List (Token F))
    (e lp : Token F) (tree : Node F) (hbody : ∀ t ∈ body, t.type ≠ TokenType.END)
    (hlp : lp.type = TokenType.PAREN_OPEN) (h : parse O (body ++ [e]) = .ok tree)
    (hbare : tree.noAssign = true) :
    parse O (lp :: (body ++ [e]))
      = .error (Err.runtimeError "Error: expected closing parenthesis") := by
  obtain ⟨hE, he⟩ := parse_bare_cursor O body e tree hbody h hbare
  have hag : agreeOn (body ++ [e]) (lp :: (body ++ [e])) 1 0 body.length :=
    ⟨fun i _ _ => List.getElem?_cons_succ, Or.inl List.getElem?_cons_succ⟩
  have hE2 := (parse_embed O (body ++ [e]) (lp :: (body ++ [e])) 1 _).1 _ _ _ hE hag
  have hget : (lp :: (body ++ [e]))[body.length + 1]? = some e := by simp
  have hlpm : lp.isOp "-" = false := by simp [Token.isOp, hlp]
  have hfac : parseFactor O (4 * (body ++ [e]).length + 4 + 1) (lp :: (body ++ [e])) 0
      = .error (Err.runtimeError "Error: expected closing parenthesis") := by
    rw [parseFactor]
    simp only [List.drop_zero, skipMinus, hlpm, Bool.false_eq_true, if_false,
      List.getElem?_cons_zero, hlp]
    rw [hE2]
    simp only
    rw [hget]
    simp [he]
  have hexp : parseExpression O (4 * (body ++ [e]).length + 4 + 4) (lp :: (body ++ [e])) 0
      = .error (Err.runtimeError "Error: expected closing parenthesis") := by
    rw [parseExpression, parseTerm, parsePower, hfac]
  rw [parse_eq_parseBare_of_first O _ lp (by simp) (by rw [hlp]; decide)]
  unfold parse.parseBare
  rw [parseExpression_fuel_indep O _ 0 _ _ _ hexp (by simp) (by simp)]

/-- An opening parenthesis before a bare expression and a closing one after it
leave the tree unchanged. -/
theorem parse_paren_closed {F : Type} (O : FloatOps F) (body : List (Token F))
    (e lp rp : Token F) (tree : Node F) (hbody : ∀ t ∈ body, t.type ≠ TokenType.END)
    (hlp : lp.type = TokenType.PAREN_OPEN) (hrp : rp.type = TokenType.PAREN_CLOSE)
    (h : parse O (body ++ [e]) = .ok tree) (hbare : tree.noAssign = true) :
    parse O (lp :: (body ++ [rp, e])) = .ok tree := by
  obtain ⟨hE, he⟩ := parse_bare_cursor O body e tree hbody h hbare
  have hget1 : (lp :: (body ++ [rp, e]))[body.length + 1]? = some rp := by
    have := getElem?_cons_append_length lp body [rp, e] 0
    simpa using this
  have hget2 : (lp :: (body ++ [rp, e]))[body.length + 1 + 1]? = some e := by
    have := getElem?_cons_append_length lp body [rp, e] 1
    simpa using this
  have hag : agreeOn (body ++ [e]) (lp :: (body ++ [rp, e])) 1 0 body.length := by
    refine ⟨fun i _ hi => ?_, Or.inr ⟨rp, hget1, by rw [hrp]; decide, by rw [hrp]; decide⟩⟩
    rw [List.getElem?_cons_succ, List.getElem?_append_left hi, List.getElem?_append_left hi]
  have hE2 := (parse_embed O (body ++ [e]) (lp :: (body ++ [rp, e])) 1 _).1 _ _ _ hE hag
  have hlpm : lp.isOp "-" = false := by simp [Token.isOp, hlp]
  have hfac : parseFactor O (4 * (body ++ [e]).length + 4 + 1) (lp :: (body ++ [rp, e])) 0
      = .ok (tree, body.length + 1 + 1) := by
    rw [parseFactor]
    simp only [List.drop_zero, skipMinus, hlpm, Bool.false_eq_true, if_false,
      List.getElem?_cons_zero, hlp]
    rw [hE2]
    simp only
    rw [hget1]
    simp [hrp, wrapMinus]
  rw [parse_eq_parseBare_of_first O _ lp (by simp) (by rw [hlp]; decide)]
  exact parseBare_of_parseExpression O _ _ _ _ e
    (parseExpression_of_factor O _ _ 0 _ _ e hfac hget2 (by rw [he]; decide)) hget2 he

theorem tokenize_paren_1_plus_2 (lib : FloatOps ℚ) :
    tokenize (exactOps lib) "(1 + 2" = .ok
      [⟨TokenType.PAREN_OPEN, "(", 0⟩, ⟨TokenType.NUMBER, "1", 1⟩, ⟨TokenType.OPERATOR, "+", 0⟩,
       ⟨TokenType.NUMBER, "2", 2⟩, ⟨TokenType.END, "", 0⟩] := by
  simp [tokenize, tokenizeLoop, isspace, isdigit, isalpha, isalnum, scanNumber, scanIdent,
      exactOps, stodExact, digitsValue, backIsNumber, isFunctionName, String.singleton]
  decide

theorem parse_1_plus_2 :
    parse ratOps
      [⟨TokenType.NUMBER, "1", 1⟩, ⟨TokenType.OPERATOR, "+", 0⟩, ⟨TokenType.NUMBER, "2", 2⟩,
       ⟨TokenType.END, "", 0⟩]
      = .ok (Node.mk ⟨TokenType.OPERATOR, "+", 0⟩
        [Node.mk ⟨TokenType.NUMBER, "1", 1⟩ [],
         Node.mk ⟨TokenType.NUMBER, "2", 2⟩ []]) := rfl

/-- C16 (unmatched opening parenthesis): for every token sequence without END
token that `parse`, once END is appended, accepts as a bare expression, that
is with a tree holding no assignment node, `parse` rejects the sequence with
a ParenOpen put before it and nothing to close it, with the
expected-closing-parenthesis error, and accepts it between a ParenOpen and a
ParenClose, returning the same tree. -/
theorem C16_unmatched_parenthesis :
    ∀ (F : Type) (O : FloatOps F) (body : List (Token F)) (e lp rp : Token F) (tree : Node F),
      (∀ t ∈ body, t.type ≠ TokenType.END) → lp.type = TokenType.PAREN_OPEN →
      rp.type = TokenType.PAREN_CLOSE → parse O (body ++ [e]) = .ok tree →
      tree.noAssign = true →
      parse O (lp :: (body ++ [e]))
          = .error (Err.runtimeError "Error: expected closing parenthesis") ∧
        parse O (lp :: (body ++ [rp, e])) = .ok tree :=
  fun _ O body e lp rp tree hbody hlp hrp h hbare =>
    ⟨parse_paren_unclosed O body e lp tree hbody hlp h hbare,
      parse_paren_closed O body e lp rp tree hbody hlp hrp h hbare⟩

/-- C16 witness: `"(1 + 2"` is tokenized to `( 1 + 2` and END, on which
`parse` throws the expected-closing-parenthesis error, while `( 1 + 2 )`
parses to the tree of `1 + 2`. -/
theorem C16_witness :
    tokenize ratOps "(1 + 2" = .ok
      [⟨TokenType.PAREN_OPEN, "(", 0⟩, ⟨TokenType.NUMBER, "1", 1⟩, ⟨TokenType.OPERATOR, "+", 0⟩,
       ⟨TokenType.NUMBER, "2", 2⟩, ⟨TokenType.END, "", 0⟩] ∧
    parse ratOps
      [⟨TokenType.PAREN_OPEN, "(", 0⟩, ⟨TokenType.NUMBER, "1", 1⟩, ⟨TokenType.OPERATOR, "+", 0⟩,
       ⟨TokenType.NUMBER, "2", 2⟩, ⟨TokenType.END, "", 0⟩]
      = .error (Err.runtimeError "Error: expected closing parenthesis") ∧
    parse ratOps
      [⟨TokenType.PAREN_OPEN, "(", 0⟩, ⟨TokenType.NUMBER, "1", 1⟩, ⟨TokenType.OPERATOR, "+", 0⟩,
       ⟨TokenType.NUMBER, "2", 2⟩, ⟨TokenType.PAREN_CLOSE, ")", 0⟩, ⟨TokenType.END, "", 0⟩]
      = .ok (Node.mk ⟨TokenType.OPERATOR, "+", 0⟩
        [Node.mk ⟨TokenType.NUMBER, "1", 1⟩ [],
         Node.mk ⟨TokenType.NUMBER, "2", 2⟩ []]) :=
  ⟨tokenize_paren_1_plus_2 _,
    C16_unmatched_parenthesis ℚ ratOps
      [⟨TokenType.NUMBER, "1", 1⟩, ⟨TokenType.OPERATOR, "+", 0⟩, ⟨TokenType.NUMBER, "2", 2⟩]
      ⟨TokenType.END, "", 0⟩ ⟨TokenType.PAREN_OPEN, "(", 0⟩ ⟨TokenType.PAREN_CLOSE, ")", 0⟩
      (Node.mk ⟨TokenType.OPERATOR, "+", 0⟩
        [Node.mk ⟨TokenType.NUMBER, "1", 1⟩ [],
         Node.mk ⟨TokenType.NUMBER, "2", 2⟩ []])
      (by decide) rfl rfl parse_1_plus_2 rfl⟩


/-! ## Unary minus and the power operator -/

theorem parse_neg_pow {F : Type} (O : FloatOps F) (m a c b e : Token F)
    (hm : m.type = TokenType.OPERATOR ∧ m.value = "-") (ha : a.isOperand = true)
    (hc : c.type = TokenType.OPERATOR ∧ c.value = "^") (hb : b.isOperand = true)
    (he : e.type = TokenType.END) :
    parse O [m, a, c, b, e]
      = .ok (Node.mk c [Node.mk ⟨TokenType.OPERATOR, "-", O.zero⟩ [Node.mk a []],
          Node.mk b []]) := by
  obtain ⟨hm1, hm2⟩ := hm
  obtain ⟨hc1, hc2⟩ := hc
  rw [parse_eq_parseBare_of_first O _ m (by simp) (by rw [hm1]; decide)]
  refine parseBare_of_parseExpression O _ 10 _ 4 e ?_ (by simp) he
  rcases isOperand_cases ha with ha1 | ha1 <;> rcases isOperand_cases hb with hb1 | hb1 <;>
    simp [parseExpression, parseExpressionLoop, parseTerm, parseTermLoop, parsePower,
      parsePowerLoop, parseFactor, skipMinus, Token.isOp, wrapMinus, hm1, hm2, hc1, hc2,
      ha1, hb1, he]

theorem parse_pow_neg {F : Type} (O : FloatOps F) (a c m b e : Token F)
    (ha : a.isOperand = true) (hc : c.type = TokenType.OPERATOR ∧ c.value = "^")
    (hm : m.type = TokenType.OPERATOR ∧ m.value = "-") (hb : b.isOperand = true)
    (he : e.type = TokenType.END) :
    parse O [a, c, m, b, e]
      = .ok (Node.mk c [Node.mk a [],
          Node.mk ⟨TokenType.OPERATOR, "-", O.zero⟩ [Node.mk b []]]) := by
  obtain ⟨hm1, hm2⟩ := hm
  obtain ⟨hc1, hc2⟩ := hc
  have hbare : parse O [a, c, m, b, e] = parse.parseBare O [a, c, m, b, e] := by
    simp [parse, hc1]
  rw [hbare]
  refine parseBare_of_parseExpression O _ 10 _ 4 e ?_ (by simp) he
  rcases isOperand_cases ha with ha1 | ha1 <;> rcases isOperand_cases hb with hb1 | hb1 <;>
    simp [parseExpression, parseExpressionLoop, parseTerm, parseTermLoop, parsePower,
      parsePowerLoop, parseFactor, skipMinus, Token.isOp, wrapMinus, hm1, hm2, hc1, hc2,
      ha1, hb1, he]

theorem tokenize_minus_2_pow_2 (lib : FloatOps ℚ) :
    tokenize (exactOps lib) "-2^2" = .ok
      [⟨TokenType.OPERATOR, "-", 0⟩, ⟨TokenType.NUMBER, "2", 2⟩, ⟨TokenType.OPERATOR, "^", 0⟩,
       ⟨TokenType.NUMBER, "2", 2⟩, ⟨TokenType.END, "", 0⟩] := by
  simp [tokenize, tokenizeLoop, isspace, isdigit, isalpha, isalnum, scanNumber, scanIdent,
      exactOps, stodExact, digitsValue, backIsNumber, isFunctionName, String.singleton]
  decide

theorem eval_minus_2_pow_2 (lib : FloatOps ℚ) (env : Env ℚ) :
    evaluateExpression (exactOps lib) "-2^2" env = (.ok (4), env) := by
  have hparse : parse (exactOps lib)
      [⟨TokenType.OPERATOR, "-", 0⟩, ⟨TokenType.NUMBER, "2", 2⟩, ⟨TokenType.OPERATOR, "^", 0⟩,
       ⟨TokenType.NUMBER, "2", 2⟩, ⟨TokenType.END, "", 0⟩]
      = .ok (Node.mk ⟨TokenType.OPERATOR, "^", 0⟩
        [Node.mk ⟨TokenType.OPERATOR, "-", 0⟩
          [Node.mk ⟨TokenType.NUMBER, "2", 2⟩ []],
         Node.mk ⟨TokenType.NUMBER, "2", 2⟩ []]) := rfl
  simp only [evaluateExpression, tokenize_minus_2_pow_2, hparse]
  simp [evaluate_pow, evaluate_neg, evaluate_number, evalBinary, evalUnary]
  simp [exactOps]
  norm_num

theorem tokenize_2_pow_3 (lib : FloatOps ℚ) :
    tokenize (exactOps lib) "2^3" = .ok
      [⟨TokenType.NUMBER, "2", 2⟩, ⟨TokenType.OPERATOR, "^", 0⟩, ⟨TokenType.NUMBER, "3", 3⟩,
       ⟨TokenType.END, "", 0⟩] := by
  simp [tokenize, tokenizeLoop, isspace, isdigit, isalpha, isalnum, scanNumber, scanIdent,
      exactOps, stodExact, digitsValue, backIsNumber, isFunctionName, String.singleton]
  decide

theorem eval_2_pow_3 (lib : FloatOps ℚ) (env : Env ℚ) :
    evaluateExpression (exactOps lib) "2^3" env = (.ok (8), env) := by
  have hparse : parse (exactOps lib)
      [⟨TokenType.NUMBER, "2", 2⟩, ⟨TokenType.OPERATOR, "^", 0⟩, ⟨TokenType.NUMBER, "3", 3⟩,
       ⟨TokenType.END, "", 0⟩]
      = .ok (Node.mk ⟨TokenType.OPERATOR, "^", 0⟩
        [Node.mk ⟨TokenType.NUMBER, "2", 2⟩ [],
         Node.mk ⟨TokenType.NUMBER, "3", 3⟩ []]) := rfl
  simp only [evaluateExpression, tokenize_2_pow_3, hparse]
  simp [evaluate_pow, evaluate_number, evalBinary]
  simp [exactOps]
  norm_num

/-- C23 (unary minus binds tighter than `^` and is allowed on the exponent):
for all Number or Variable tokens `a` and `b`, `parse` of `- a ^ b` followed
by END returns the `^` node over the negation of `a` and `b`, not the
negation of the `^` node, and `parse` of `a ^ - b` returns the `^` node over
`a` and the negation of `b`; in exact arithmetic `"-2^2"` evaluates to 4 and
`"2^3"` to 8. -/
theorem C23_unary_minus_and_power :
    (∀ (F : Type) (O : FloatOps F) (m a c b e : Token F),
      (m.type = TokenType.OPERATOR ∧ m.value = "-") → a.isOperand = true →
      (c.type = TokenType.OPERATOR ∧ c.value = "^") → b.isOperand = true →
      e.type = TokenType.END →
      parse O [m, a, c, b, e]
          = .ok (Node.mk c [Node.mk ⟨TokenType.OPERATOR, "-", O.zero⟩ [Node.mk a []],
              Node.mk b []]) ∧
        parse O [m, a, c, b, e]
          ≠ .ok (Node.mk ⟨TokenType.OPERATOR, "-", O.zero⟩
              [Node.mk c [Node.mk a [], Node.mk b []]]) ∧
        parse O [a, c, m, b, e]
          = .ok (Node.mk c [Node.mk a [],
              Node.mk ⟨TokenType.OPERATOR, "-", O.zero⟩ [Node.mk b []]])) ∧
    (∀ (lib : FloatOps ℚ) (env : Env ℚ),
      evaluateExpression (exactOps lib) "-2^2" env = (.ok 4, env) ∧
      evaluateExpression (exactOps lib) "2^3" env = (.ok 8, env)) :=
  ⟨fun _ O m a c b e hm ha hc hb he =>
      ⟨parse_neg_pow O m a c b e hm ha hc hb he,
        by rw [parse_neg_pow O m a c b e hm ha hc hb he]; simp,
        parse_pow_neg O a c m b e ha hc hm hb he⟩,
    fun lib env => ⟨eval_minus_2_pow_2 lib env, eval_2_pow_3 lib env⟩⟩

/-- C23 witness: `- 2 ^ 2` parses to the `^` node over the negation of 2 and
2, and `2 ^ - 3` to the `^` node over 2 and the negation of 3. -/
theorem C23_witness :
    parse ratOps
      [⟨TokenType.OPERATOR, "-", 0⟩, ⟨TokenType.NUMBER, "2", 2⟩, ⟨TokenType.OPERATOR, "^", 0⟩,
       ⟨TokenType.NUMBER, "2", 2⟩, ⟨TokenType.END, "", 0⟩]
      = .ok (Node.mk ⟨TokenType.OPERATOR, "^", 0⟩
        [Node.mk ⟨TokenType.OPERATOR, "-", 0⟩
          [Node.mk ⟨TokenType.NUMBER, "2", 2⟩ []],
         Node.mk ⟨TokenType.NUMBER, "2", 2⟩ []]) ∧
    parse ratOps
      [⟨TokenType.NUMBER, "2", 2⟩, ⟨TokenType.OPERATOR, "^", 0⟩, ⟨TokenType.OPERATOR, "-", 0⟩,
       ⟨TokenType.NUMBER, "3", 3⟩, ⟨TokenType.END, "", 0⟩]
      = .ok (Node.mk ⟨TokenType.OPERATOR, "^", 0⟩
        [Node.mk ⟨TokenType.NUMBER, "2", 2⟩ [],
         Node.mk ⟨TokenType.OPERATOR, "-", 0⟩
          [Node.mk ⟨TokenType.NUMBER, "3", 3⟩ []]]) :=
  ⟨(C23_unary_minus_and_power.1 ℚ ratOps ⟨TokenType.OPERATOR, "-", 0⟩
      ⟨TokenType.NUMBER, "2", 2⟩ ⟨TokenType.OPERATOR, "^", 0⟩ ⟨TokenType.NUMBER, "2", 2⟩
      ⟨TokenType.END, "", 0⟩ ⟨rfl, rfl⟩ rfl ⟨rfl, rfl⟩ rfl rfl).1,
    (C23_unary_minus_and_power.1 ℚ ratOps ⟨TokenType.OPERATOR, "-", 0⟩
      ⟨TokenType.NUMBER, "2", 2⟩ ⟨TokenType.OPERATOR, "^", 0⟩ ⟨TokenType.NUMBER, "3", 3⟩
      ⟨TokenType.END, "", 0⟩ ⟨rfl, rfl⟩ rfl ⟨rfl, rfl⟩ rfl rfl).2.2⟩


/-! ## A failed assignment -/

/-- The assignment branch of `evaluate` is `evalAssign` with the right-hand
side evaluated first. -/
theorem evaluate_assign_rhsFirst {F : Type} (O : FloatOps F) (t t0 : Token F)
    (cs0 : List (Node F)) (rhs : Node F) (env : Env F)
    (ht : t.type = TokenType.EQUAL) (ht0 : t0.type = TokenType.VARIABLE) :
    evaluate O (Node.mk t [Node.mk t0 cs0, rhs]) env
      = evalAssign O true t0.value (evaluate O rhs) env := by
  rw [evaluate_assign O t t0 cs0 rhs env ht ht0]
  rfl

/-- With the right-hand side evaluated first, an assignment whose right-hand
side fails fails with the same error and leaves the environment as the
right-hand side left it. -/
theorem evalAssign_error {F : Type} (O : FloatOps F) (rhsFirst : Bool) (name : String)
    (rhs : Node F) (env env1 : Env F) (e : Err) (hord : rhsFirst = true)
    (hrhs : evaluate O rhs env = (.error e, env1)) :
    evalAssign O rhsFirst name (evaluate O rhs) env = (.error e, env1) ∧
      (rhs.noAssign = true → env1 = env) := by
  subst hord
  refine ⟨?_, fun hna => ?_⟩
  · simp only [evalAssign, if_true, hrhs]
  · have := evaluate_frame O rhs hna env
    rw [hrhs] at this
    exact this

theorem evaluateOrdered_rhsFirst {F : Type} (O : FloatOps F) (n : Node F) (env : Env F) :
    evaluateOrdered O true n env = evaluate O n env := by
  unfold evaluateOrdered
  split
  · split
    · rename_i hc
      simp only [Bool.and_eq_true, beq_iff_eq] at hc
      exact (evaluate_assign_rhsFirst O _ _ _ _ _ hc.1 hc.2).symm
    · rfl
  · rfl

theorem evaluateExpressionOrdered_rhsFirst {F : Type} (O : FloatOps F) (input : String)
    (env : Env F) :
    evaluateExpressionOrdered O true input env = evaluateExpression O input env := by
  unfold evaluateExpressionOrdered evaluateExpression
  split
  · rfl
  · split
    · rfl
    · exact evaluateOrdered_rhsFirst O _ _

/-- A failed run of the pipeline leaves the environment as it was. -/
theorem evaluateExpression_error_frame {F : Type} (O : FloatOps F) (input : String)
    (env env1 : Env F) (e : Err) (h : evaluateExpression O input env = (.error e, env1)) :
    env1 = env := by
  unfold evaluateExpression at h
  split at h
  · simp only [Prod.mk.injEq] at h
    exact h.2.symm
  · rename_i tokens htok
    split at h
    · simp only [Prod.mk.injEq] at h
      exact h.2.symm
    · rename_i tree hparse
      rcases parse_shape O tokens tree hparse with hna | ⟨t0, t1, rhs, rfl, h1, h0, -, -, hrhs⟩
      · have := evaluate_frame O tree hna env
        rw [h] at this
        exact this
      · rw [evaluate_assign O t1 t0 [] rhs env h1 h0] at h
        have hframe := evaluate_frame O rhs hrhs env
        split at h
        · rename_i e2 env2 heq
          rw [heq] at hframe
          simp only [Prod.mk.injEq] at h
          rw [← h.2]
          exact hframe
        · simp only [Prod.mk.injEq] at h
          cases h.1

theorem tokenize_x_eq_y (lib : FloatOps ℚ) :
    tokenize (exactOps lib) "x = y" = .ok
      [⟨TokenType.VARIABLE, "x", 0⟩, ⟨TokenType.EQUAL, "=", 0⟩, ⟨TokenType.VARIABLE, "y", 0⟩,
       ⟨TokenType.END, "", 0⟩] := by
  simp [tokenize, tokenizeLoop, isspace, isdigit, isalpha, isalnum, scanNumber, scanIdent,
      exactOps, stodExact, digitsValue, backIsNumber, isFunctionName, String.singleton]

theorem tokenize_x_eq_1_div_0 (lib : FloatOps ℚ) :
    tokenize (exactOps lib) "x = 1 / 0" = .ok
      [⟨TokenType.VARIABLE, "x", 0⟩, ⟨TokenType.EQUAL, "=", 0⟩, ⟨TokenType.NUMBER, "1", 1⟩,
       ⟨TokenType.OPERATOR, "/", 0⟩, ⟨TokenType.NUMBER, "0", 0⟩, ⟨TokenType.END, "", 0⟩] := by
  simp [tokenize, tokenizeLoop, isspace, isdigit, isalpha, isalnum, scanNumber, scanIdent,
      exactOps, stodExact, digitsValue, backIsNumber, isFunctionName, String.singleton]
  decide

theorem tokenize_x_eq_x_plus_1 (lib : FloatOps ℚ) :
    tokenize (exactOps lib) "x = x + 1" = .ok
      [⟨TokenType.VARIABLE, "x", 0⟩, ⟨TokenType.EQUAL, "=", 0⟩, ⟨TokenType.VARIABLE, "x", 0⟩,
       ⟨TokenType.OPERATOR, "+", 0⟩, ⟨TokenType.NUMBER, "1", 1⟩, ⟨TokenType.END, "", 0⟩] := by
  simp [tokenize, tokenizeLoop, isspace, isdigit, isalpha, isalnum, scanNumber, scanIdent,
      exactOps, stodExact, digitsValue, backIsNumber, isFunctionName, String.singleton]
  decide

theorem eval_x_eq_y_undefined (lib : FloatOps ℚ) (env : Env ℚ) (hy : env "y" = none) :
    evaluateExpression (exactOps lib) "x = y" env
      = (.error (Err.runtimeError "Error: variable 'y' is not defined"), env) := by
  have hparse : parse (exactOps lib)
      [⟨TokenType.VARIABLE, "x", 0⟩, ⟨TokenType.EQUAL, "=", 0⟩, ⟨TokenType.VARIABLE, "y", 0⟩,
       ⟨TokenType.END, "", 0⟩]
      = .ok (Node.mk ⟨TokenType.EQUAL, "=", 0⟩
        [Node.mk ⟨TokenType.VARIABLE, "x", 0⟩ [],
         Node.mk ⟨TokenType.VARIABLE, "y", 0⟩ []]) := rfl
  simp only [evaluateExpression, tokenize_x_eq_y, hparse]
  simp [evaluate_assign, evaluate_variable, hy]

theorem eval_x_eq_1_div_0 (lib : FloatOps ℚ) (env : Env ℚ) :
    evaluateExpression (exactOps lib) "x = 1 / 0" env
      = (.error (Err.runtimeError "Error: division by zero"), env) := by
  have hparse : parse (exactOps lib)
      [⟨TokenType.VARIABLE, "x", 0⟩, ⟨TokenType.EQUAL, "=", 0⟩, ⟨TokenType.NUMBER, "1", 1⟩,
       ⟨TokenType.OPERATOR, "/", 0⟩, ⟨TokenType.NUMBER, "0", 0⟩, ⟨TokenType.END, "", 0⟩]
      = .ok (Node.mk ⟨TokenType.EQUAL, "=", 0⟩
        [Node.mk ⟨TokenType.VARIABLE, "x", 0⟩ [],
         Node.mk ⟨TokenType.OPERATOR, "/", 0⟩
          [Node.mk ⟨TokenType.NUMBER, "1", 1⟩ [],
           Node.mk ⟨TokenType.NUMBER, "0", 0⟩ []]]) := rfl
  simp only [evaluateExpression, tokenize_x_eq_1_div_0, hparse]
  simp [evaluate_assign, evaluate_div, evaluate_number, evalDivide, exactOps]

theorem eval_x_eq_x_plus_1_undefined (lib : FloatOps ℚ) (env : Env ℚ) (hx : env "x" = none) :
    evaluateExpression (exactOps lib) "x = x + 1" env
      = (.error (Err.runtimeError "Error: variable 'x' is not defined"), env) := by
  have hparse : parse (exactOps lib)
      [⟨TokenType.VARIABLE, "x", 0⟩, ⟨TokenType.EQUAL, "=", 0⟩, ⟨TokenType.VARIABLE, "x", 0⟩,
       ⟨TokenType.OPERATOR, "+", 0⟩, ⟨TokenType.NUMBER, "1", 1⟩, ⟨TokenType.END, "", 0⟩]
      = .ok (Node.mk ⟨TokenType.EQUAL, "=", 0⟩
        [Node.mk ⟨TokenType.VARIABLE, "x", 0⟩ [],
         Node.mk ⟨TokenType.OPERATOR, "+", 0⟩
          [Node.mk ⟨TokenType.VARIABLE, "x", 0⟩ [],
           Node.mk ⟨TokenType.NUMBER, "1", 1⟩ []]]) := rfl
  simp only [evaluateExpression, tokenize_x_eq_x_plus_1, hparse]
  simp [evaluate_assign, evaluate_add, evaluate_variable, evaluate_number, evalBinary, hx]

/-- With the slot created first, the failing `"x = y"` leaves an entry for
`x`. -/
theorem eval_x_eq_y_slot_first (lib : FloatOps ℚ) (env : Env ℚ) (hx : env "x" = none)
    (hy : env "y" = none) :
    evaluateExpressionOrdered (exactOps lib) false "x = y" env
      = (.error (Err.runtimeError "Error: variable 'y' is not defined"), env.set "x" 0) := by
  have hparse : parse (exactOps lib)
      [⟨TokenType.VARIABLE, "x", 0⟩, ⟨TokenType.EQUAL, "=", 0⟩, ⟨TokenType.VARIABLE, "y", 0⟩,
       ⟨TokenType.END, "", 0⟩]
      = .ok (Node.mk ⟨TokenType.EQUAL, "=", 0⟩
        [Node.mk ⟨TokenType.VARIABLE, "x", 0⟩ [],
         Node.mk ⟨TokenType.VARIABLE, "y", 0⟩ []]) := rfl
  simp only [evaluateExpressionOrdered, tokenize_x_eq_y, hparse]
  simp [evaluateOrdered, evalAssign, evaluate_variable, hx, hy, Env.set, exactOps]

/-- C24 (a failed assignment), as amended: when the right-hand side of the
assignment is evaluated before the map is touched, the order C++17 fixes and
`evaluate` embeds, then for every assignment node with children
`[Variable x, rhs]` and every environment `env`, if evaluating `rhs` against
`env` fails and leaves `env1`, the assignment fails with that same error and
leaves `env1`, without creating or changing an entry for `x`; `env1` is `env`
itself whenever `rhs` contains no assignment node, as in every tree `parse`
returns, so a failed run of `tokenize`, `parse` and `evaluate` leaves the
environment exactly as it was.  Under that order `"x = y"` with `y`
undefined, `"x = 1 / 0"` and `"x = x + 1"` with `x` undefined fail and leave
the environment as it was. -/
theorem C24_failed_assignment :
    (∀ (F : Type) (O : FloatOps F) (t t0 : Token F) (cs0 : List (Node F)) (rhs : Node F)
      (env : Env F),
      t.type = TokenType.EQUAL → t0.type = TokenType.VARIABLE →
      evaluate O (Node.mk t [Node.mk t0 cs0, rhs]) env
        = evalAssign O true t0.value (evaluate O rhs) env) ∧
    (∀ (F : Type) (O : FloatOps F) (rhsFirst : Bool) (x : String) (rhs : Node F)
      (env env1 : Env F) (e : Err),
      rhsFirst = true → evaluate O rhs env = (.error e, env1) →
      evalAssign O rhsFirst x (evaluate O rhs) env = (.error e, env1) ∧
        (rhs.noAssign = true → env1 = env)) ∧
    (∀ (F : Type) (O : FloatOps F) (rhsFirst : Bool) (input : String) (env env1 : Env F)
      (e : Err),
      rhsFirst = true →
      evaluateExpressionOrdered O rhsFirst input env = (.error e, env1) → env1 = env) ∧
    (∀ (lib : FloatOps ℚ) (rhsFirst : Bool) (env : Env ℚ),
      rhsFirst = true →
      (env "y" = none →
        evaluateExpressionOrdered (exactOps lib) rhsFirst "x = y" env
          = (.error (Err.runtimeError "Error: variable 'y' is not defined"), env)) ∧
      evaluateExpressionOrdered (exactOps lib) rhsFirst "x = 1 / 0" env
        = (.error (Err.runtimeError "Error: division by zero"), env) ∧
      (env "x" = none →
        evaluateExpressionOrdered (exactOps lib) rhsFirst "x = x + 1" env
          = (.error (Err.runtimeError "Error: variable 'x' is not defined"), env))) := by
  refine ⟨fun _ O t t0 cs0 rhs env ht ht0 => evaluate_assign_rhsFirst O t t0 cs0 rhs env ht ht0,
    fun _ O rhsFirst x rhs env env1 e hord hrhs =>
      evalAssign_error O rhsFirst x rhs env env1 e hord hrhs,
    fun _ O rhsFirst input env env1 e hord h => ?_, fun lib rhsFirst env hord => ?_⟩
  · subst hord
    rw [evaluateExpressionOrdered_rhsFirst] at h
    exact evaluateExpression_error_frame O input env env1 e h
  · subst hord
    simp only [evaluateExpressionOrdered_rhsFirst]
    exact ⟨eval_x_eq_y_undefined lib env, eval_x_eq_1_div_0 lib env,
      eval_x_eq_x_plus_1_undefined lib env⟩

/-- C24 witness: with the right-hand side evaluated first, the assignment
`x = y` on the empty environment fails with the undefined-variable error of
`y` and leaves the environment empty. -/
theorem C24_witness :
    evalAssign ratOps true "x" (evaluate ratOps (Node.mk ⟨TokenType.VARIABLE, "y", 0⟩ []))
        Env.empty
      = (.error (Err.runtimeError "Error: variable 'y' is not defined"), Env.empty) :=
  (C24_failed_assignment.2.1 ℚ ratOps true "x" (Node.mk ⟨TokenType.VARIABLE, "y", 0⟩ [])
    Env.empty Env.empty (Err.runtimeError "Error: variable 'y' is not defined") rfl
    (by simp [evaluate_variable, Env.empty])).1

/-- C24 counterexample: the claim fails in two ways.  In the node
`x = z / (x = 5)` on the empty environment, with the right-hand side
evaluated first, the right-hand side fails, because `z` is undefined, after
its divisor `x = 5` has been evaluated and stored; `evaluate` fails with that
error and the environment it leaves holds `x = 5`: an entry for `x` has been
created and the environment is not the one it was given.  And under the other
order of evaluation, with the slot created first, the failing `"x = y"`
leaves the entry `x = 0` in an environment that was empty. -/
theorem C24_counterexample :
    (evaluate ratOps
        (Node.mk ⟨TokenType.OPERATOR, "/", 0⟩
          [Node.mk ⟨TokenType.VARIABLE, "z", 0⟩ [],
           Node.mk ⟨TokenType.EQUAL, "=", 0⟩
            [Node.mk ⟨TokenType.VARIABLE, "x", 0⟩ [],
             Node.mk ⟨TokenType.NUMBER, "5", 5⟩ []]])
        Env.empty).1 = .error (Err.runtimeError "Error: variable 'z' is not defined") ∧
    (evaluate ratOps
        (Node.mk ⟨TokenType.EQUAL, "=", 0⟩
          [Node.mk ⟨TokenType.VARIABLE, "x", 0⟩ [],
           Node.mk ⟨TokenType.OPERATOR, "/", 0⟩
            [Node.mk ⟨TokenType.VARIABLE, "z", 0⟩ [],
             Node.mk ⟨TokenType.EQUAL, "=", 0⟩
              [Node.mk ⟨TokenType.VARIABLE, "x", 0⟩ [],
               Node.mk ⟨TokenType.NUMBER, "5", 5⟩ []]]])
        Env.empty).1 = .error (Err.runtimeError "Error: variable 'z' is not defined") ∧
    (evaluate ratOps
        (Node.mk ⟨TokenType.EQUAL, "=", 0⟩
          [Node.mk ⟨TokenType.VARIABLE, "x", 0⟩ [],
           Node.mk ⟨TokenType.OPERATOR, "/", 0⟩
            [Node.mk ⟨TokenType.VARIABLE, "z", 0⟩ [],
             Node.mk ⟨TokenType.EQUAL, "=", 0⟩
              [Node.mk ⟨TokenType.VARIABLE, "x", 0⟩ [],
               Node.mk ⟨TokenType.NUMBER, "5", 5⟩ []]]])
        Env.empty).2 "x" = some 5 ∧
    (Env.empty : Env ℚ) "x" = none ∧
    (evaluate ratOps
        (Node.mk ⟨TokenType.EQUAL, "=", 0⟩
          [Node.mk ⟨TokenType.VARIABLE, "x", 0⟩ [],
           Node.mk ⟨TokenType.OPERATOR, "/", 0⟩
            [Node.mk ⟨TokenType.VARIABLE, "z", 0⟩ [],
             Node.mk ⟨TokenType.EQUAL, "=", 0⟩
              [Node.mk ⟨TokenType.VARIABLE, "x", 0⟩ [],
               Node.mk ⟨TokenType.NUMBER, "5", 5⟩ []]]])
        Env.empty).2 ≠ Env.empty ∧
    evaluateExpressionOrdered ratOps false "x = y" Env.empty
      = (.error (Err.runtimeError "Error: variable 'y' is not defined"),
          (Env.empty : Env ℚ).set "x" 0) ∧
    ((Env.empty : Env ℚ).set "x" 0) "x" = some 0 := by
  have hrhs : evaluate ratOps
        (Node.mk ⟨TokenType.OPERATOR, "/", 0⟩
          [Node.mk ⟨TokenType.VARIABLE, "z", 0⟩ [],
           Node.mk ⟨TokenType.EQUAL, "=", 0⟩
            [Node.mk ⟨TokenType.VARIABLE, "x", 0⟩ [],
             Node.mk ⟨TokenType.NUMBER, "5", 5⟩ []]])
        Env.empty
      = (.error (Err.runtimeError "Error: variable 'z' is not defined"),
          (Env.empty : Env ℚ).set "x" 5) := by
    simp [evaluate_div, evaluate_assign, evaluate_variable, evaluate_number, evalDivide,
      evalUnary, Env.set, Env.empty, ratOps, exactOps]
  have hall := evaluate_assign ratOps ⟨TokenType.EQUAL, "=", 0⟩ ⟨TokenType.VARIABLE, "x", 0⟩ []
    (Node.mk ⟨TokenType.OPERATOR, "/", 0⟩
      [Node.mk ⟨TokenType.VARIABLE, "z", 0⟩ [],
       Node.mk ⟨TokenType.EQUAL, "=", 0⟩
        [Node.mk ⟨TokenType.VARIABLE, "x", 0⟩ [],
         Node.mk ⟨TokenType.NUMBER, "5", 5⟩ []]])
    Env.empty rfl rfl
  rw [hrhs] at hall
  simp only at hall
  rw [hall, hrhs]
  refine ⟨rfl, rfl, by simp [Env.set], rfl, fun h => ?_,
    eval_x_eq_y_slot_first _ Env.empty rfl rfl, by simp [Env.set]⟩
  have := congrFun h "x"
  simp [Env.set, Env.empty] at this

/-! ## Operator nodes built by the parser -/

theorem fits_operatorOk {F : Type} (fn : String → Bool) (t : Token F) (cs : List (Node F))
    (h : t.fits fn cs.length = true) : (Node.mk t cs).operatorOk := by
  intro hty
  simp only [Node.token] at hty
  simp only [Token.fits, hty, Bool.or_eq_true, Bool.and_eq_true, beq_iff_eq] at h
  simp only [Node.token, Node.children]
  rcases h with ⟨hv, hk⟩ | ⟨hv, hk⟩
  · exact Or.inr ⟨hv, Or.inl hk⟩
  · rcases hv with (((hv | hv) | hv) | hv) | hv
    · exact Or.inl ⟨Or.inl hv, hk⟩
    · exact Or.inr ⟨hv, Or.inr hk⟩
    · exact Or.inl ⟨Or.inr (Or.inl hv), hk⟩
    · exact Or.inl ⟨Or.inr (Or.inr (Or.inl hv)), hk⟩
    · exact Or.inl ⟨Or.inr (Or.inr (Or.inr hv)), hk⟩

mutual

theorem wellFormed_nodes {F : Type} (fn : String → Bool) :
    ∀ (n : Node F), n.wellFormed fn = true → ∀ m ∈ n.nodes, m.operatorOk
  | .mk t cs, h, m, hm => by
    rw [Node.wellFormed, Bool.and_eq_true] at h
    rw [Node.nodes, List.mem_cons] at hm
    rcases hm with rfl | hm
    · exact fits_operatorOk fn t cs h.1
    · exact wellFormedList_nodes fn cs h.2 m hm

theorem wellFormedList_nodes {F : Type} (fn : String → Bool) :
    ∀ (cs : List (Node F)), wellFormedList fn cs = true → ∀ m ∈ nodesList cs, m.operatorOk
  | [], _, m, hm => by simp [nodesList] at hm
  | c :: cs, h, m, hm => by
    rw [wellFormedList, Bool.and_eq_true] at h
    rw [nodesList, List.mem_append] at hm
    rcases hm with hm | hm
    · exact wellFormed_nodes fn c h.1 m hm
    · exact wellFormedList_nodes fn cs h.2 m hm

end

/-- Every Operator node of a tree returned by `parse` has the number of
children its symbol needs. -/
theorem parse_operatorOk {F : Type} (O : FloatOps F) (tokens : List (Token F)) (tree : Node F)
    (h : parse O tokens = .ok tree) : ∀ m ∈ tree.nodes, m.operatorOk := by
  rcases parse_wellFormed_tree O (fun _ => true) tokens tree (fun _ _ _ => rfl) h with
    hw | ⟨t0, t1, rhs, rfl, h1, h0, hrhs⟩
  · exact wellFormed_nodes _ tree hw
  · intro m hm
    simp only [Node.nodes, nodesList, List.mem_cons, List.mem_append, List.append_nil,
      List.not_mem_nil, or_false, false_or] at hm
    rcases hm with rfl | rfl | hm
    · intro hty
      simp only [Node.token] at hty
      rw [h1] at hty
      cases hty
    · intro hty
      simp only [Node.token] at hty
      rw [h0] at hty
      cases hty
    · exact wellFormed_nodes _ rhs hrhs m hm

theorem readsInRange_ok {F : Type} (v : F) (env : Env F) : readsInRange (Except.ok v, env) := by
  intro h
  cases h

theorem readsInRange_runtime {F : Type} (what : String) (env : Env F) :
    readsInRange ((Except.error (Err.runtimeError what) : Except Err F), env) := by
  intro h
  cases h

theorem readsInRange_ite {F : Type} {c : Prop} [Decidable c] {a b : Except Err F × Env F}
    (ha : readsInRange a) (hb : readsInRange b) : readsInRange (if c then a else b) := by
  split <;> assumption

theorem evalUnary_inRange {F : Type} (f : F → F) (r : Except Err F × Env F)
    (h : readsInRange r) : readsInRange (evalUnary f r) := by
  unfold evalUnary
  split
  · exact h
  · exact readsInRange_ok _ _

theorem evalBinary_inRange {F : Type} (lf : Bool) (f : F → F → F)
    (e0 e1 : Env F → Except Err F × Env F)
    (h0 : ∀ env, readsInRange (e0 env)) (h1 : ∀ env, readsInRange (e1 env)) (env : Env F) :
    readsInRange (evalBinary lf f e0 e1 env) := by
  unfold evalBinary
  split
  · split
    · rename_i e env1 h
      have := h0 env
      rw [h] at this
      exact this
    · rename_i a env1 h
      split
      · rename_i e env2 h'
        have := h1 env1
        rw [h'] at this
        exact this
      · exact readsInRange_ok _ _
  · split
    · rename_i e env1 h
      have := h1 env
      rw [h] at this
      exact this
    · rename_i a env1 h
      split
      · rename_i e env2 h'
        have := h0 env1
        rw [h'] at this
        exact this
      · exact readsInRange_ok _ _

theorem evalDivide_inRange {F : Type} (O : FloatOps F) (e0 e1 : Env F → Except Err F × Env F)
    (h0 : ∀ env, readsInRange (e0 env)) (h1 : ∀ env, readsInRange (e1 env)) (env : Env F) :
    readsInRange (evalDivide O e0 e1 env) := by
  unfold evalDivide
  split
  · rename_i e env1 h
    have := h1 env
    rw [h] at this
    exact this
  · split
    · exact readsInRange_runtime _ _
    · exact evalUnary_inRange _ _ (h0 _)

theorem evalCall1_inRange {F : Type} (what : String) (f : F → F)
    (cs : List (Env F → Except Err F × Env F))
    (hcs : ∀ c ∈ cs, ∀ env, readsInRange (c env)) (env : Env F) :
    readsInRange (evalCall1 what f cs env) := by
  unfold evalCall1
  split
  · exact evalUnary_inRange _ _ (hcs _ (by simp) env)
  · exact readsInRange_runtime _ _

theorem evalCall2_inRange {F : Type} (what : String) (lf : Bool) (f : F → F → F)
    (cs : List (Env F → Except Err F × Env F))
    (hcs : ∀ c ∈ cs, ∀ env, readsInRange (c env)) (env : Env F) :
    readsInRange (evalCall2 what lf f cs env) := by
  unfold evalCall2
  split
  · exact evalBinary_inRange lf f _ _ (hcs _ (by simp)) (hcs _ (by simp)) env
  · exact readsInRange_runtime _ _

theorem evalNode_inRange {F : Type} (O : FloatOps F) (t : Token F) (ct : List (Token F))
    (cs : List (Env F → Except Err F × Env F))
    (hcs : ∀ c ∈ cs, ∀ env, readsInRange (c env))
    (ht : t.type = TokenType.OPERATOR →
      ((t.value = "+" ∨ t.value = "*" ∨ t.value = "/" ∨ t.value = "^") ∧ cs.length = 2) ∨
        (t.value = "-" ∧ (cs.length = 1 ∨ cs.length = 2)))
    (env : Env F) : readsInRange (evalNode O t ct cs env) := by
  unfold evalNode
  split
  · exact readsInRange_ok _ _
  · split
    · exact readsInRange_ok _ _
    · split
      · exact readsInRange_ok _ _
      · split
        · exact readsInRange_ok _ _
        · exact readsInRange_runtime _ _
  · rename_i hty
    have hlen : cs.length = 2 ∨ (t.value = "-" ∧ cs.length = 1) := by
      rcases ht hty with ⟨-, hk⟩ | ⟨hv, hk | hk⟩
      · exact Or.inl hk
      · exact Or.inr ⟨hv, hk⟩
      · exact Or.inl hk
    rcases hlen with hk | ⟨hv, hk⟩
    · obtain ⟨c0, c1, rfl⟩ := List.length_eq_two.1 hk
      have h0 := hcs c0 (by simp)
      have h1 := hcs c1 (by simp)
      repeat' with_reducible apply readsInRange_ite
      all_goals first
        | exact evalBinary_inRange _ _ _ _ h0 h1 env
        | exact evalDivide_inRange O _ _ h0 h1 env
        | exact readsInRange_runtime _ _
    · obtain ⟨c0, rfl⟩ := List.length_eq_one.1 hk
      simp only [hv]
      rw [if_neg (by decide), if_pos (by decide)]
      exact evalUnary_inRange _ _ (hcs _ (by simp) env)
  · repeat' with_reducible apply readsInRange_ite
    all_goals first
      | exact evalCall1_inRange _ _ cs hcs env
      | exact evalCall2_inRange _ _ _ cs hcs env
      | exact readsInRange_runtime _ _
  · split
    · rename_i t0 tx cx c1
      have h1 := hcs c1 (by simp)
      split
      · split
        · rename_i e env1 h
          have := h1 env
          rw [h] at this
          exact this
        · exact readsInRange_ok _ _
      · exact readsInRange_runtime _ _
    · exact readsInRange_runtime _ _
  · exact readsInRange_runtime _ _

mutual

/-- A tree whose Operator nodes have the children their symbols need is
evaluated without reading a missing child. -/
theorem evaluate_inRange {F : Type} (O : FloatOps F) :
    ∀ (n : Node F), (∀ m ∈ n.nodes, m.operatorOk) → ∀ env, readsInRange (evaluate O n env)
  | .mk t cs, h, env => by
    rw [evaluate]
    refine evalNode_inRange O t _ _
      (evaluateChildren_inRange O cs (fun m hm => h m ?_)) ?_ env
    · rw [Node.nodes]
      exact List.mem_cons_of_mem _ hm
    · have := h (Node.mk t cs) (by rw [Node.nodes]; exact List.mem_cons_self _ _)
      rw [evaluateChildren_length]
      exact this

theorem evaluateChildren_inRange {F : Type} (O : FloatOps F) :
    ∀ (cs : List (Node F)), (∀ m ∈ nodesList cs, m.operatorOk) →
      ∀ c ∈ evaluateChildren O cs, ∀ env, readsInRange (c env)
  | [], _, c, hc, env => by simp [evaluateChildren] at hc
  | n :: cs, h, c, hc, env => by
    rw [evaluateChildren, List.mem_cons] at hc
    rcases hc with hc | hc
    · rw [hc]
      exact evaluate_inRange O n
        (fun m hm => h m (by rw [nodesList]; exact List.mem_append_left _ hm)) env
    · exact evaluateChildren_inRange O cs
        (fun m hm => h m (by rw [nodesList]; exact List.mem_append_right _ hm)) c hc env

end

theorem parse_neg_x_minus_2 :
    parse ratOps
      [⟨TokenType.OPERATOR, "-", 0⟩, ⟨TokenType.VARIABLE, "x", 0⟩, ⟨TokenType.OPERATOR, "-", 0⟩,
       ⟨TokenType.NUMBER, "2", 2⟩, ⟨TokenType.END, "", 0⟩]
      = .ok (Node.mk ⟨TokenType.OPERATOR, "-", 0⟩
        [Node.mk ⟨TokenType.OPERATOR, "-", 0⟩
          [Node.mk ⟨TokenType.VARIABLE, "x", 0⟩ []],
         Node.mk ⟨TokenType.NUMBER, "2", 2⟩ []]) := rfl

/-- C21 (operator nodes are well-formed by construction): in every tree
returned by `parse`, every Operator node carrying `+`, `*`, `/` or `^` has
exactly two children, every Operator node carrying `-` has exactly one or
exactly two, and no Operator node carries another symbol; hence `evaluate`
never reads a missing child on such a tree, whatever the environment. -/
theorem C21_operator_nodes_well_formed :
    (∀ (F : Type) (O : FloatOps F) (tokens : List (Token F)) (tree : Node F),
      parse O tokens = .ok tree →
      ∀ m ∈ tree.nodes, m.token.type = TokenType.OPERATOR →
        ((m.token.value = "+" ∨ m.token.value = "*" ∨ m.token.value = "/" ∨
            m.token.value = "^") ∧ m.children.length = 2) ∨
          (m.token.value = "-" ∧ (m.children.length = 1 ∨ m.children.length = 2))) ∧
    (∀ (F : Type) (O : FloatOps F) (tokens : List (Token F)) (tree : Node F) (env : Env F),
      parse O tokens = .ok tree →
      (evaluate O tree env).1 ≠ .error Err.outOfBounds) :=
  ⟨fun _ O tokens tree h m hm => parse_operatorOk O tokens tree h m hm,
    fun _ O tokens tree env h =>
      evaluate_inRange O tree (parse_operatorOk O tokens tree h) env⟩

/-- C21 witness: the tree of `- x - 2`, a subtraction over a negation: its
root carries `-` over two children, the negation carries `-` over one, and
its evaluation on the empty environment reads no missing child. -/
theorem C21_witness :
    (∀ m ∈ ((Node.mk ⟨TokenType.OPERATOR, "-", 0⟩
        [Node.mk ⟨TokenType.OPERATOR, "-", 0⟩
          [Node.mk ⟨TokenType.VARIABLE, "x", 0⟩ []],
         Node.mk ⟨TokenType.NUMBER, "2", 2⟩ []] : Node ℚ)).nodes,
        m.token.type = TokenType.OPERATOR →
        ((m.token.value = "+" ∨ m.token.value = "*" ∨ m.token.value = "/" ∨
            m.token.value = "^") ∧ m.children.length = 2) ∨
          (m.token.value = "-" ∧ (m.children.length = 1 ∨ m.children.length = 2))) ∧
    (evaluate ratOps
        (Node.mk ⟨TokenType.OPERATOR, "-", 0⟩
          [Node.mk ⟨TokenType.OPERATOR, "-", 0⟩
            [Node.mk ⟨TokenType.VARIABLE, "x", 0⟩ []],
           Node.mk ⟨TokenType.NUMBER, "2", 2⟩ []])
        Env.empty).1 ≠ .error Err.outOfBounds :=
  ⟨C21_operator_nodes_well_formed.1 ℚ ratOps
      [⟨TokenType.OPERATOR, "-", 0⟩, ⟨TokenType.VARIABLE, "x", 0⟩, ⟨TokenType.OPERATOR, "-", 0⟩,
       ⟨TokenType.NUMBER, "2", 2⟩, ⟨TokenType.END, "", 0⟩]
      (Node.mk ⟨TokenType.OPERATOR, "-", 0⟩
        [Node.mk ⟨TokenType.OPERATOR, "-", 0⟩
          [Node.mk ⟨TokenType.VARIABLE, "x", 0⟩ []],
         Node.mk ⟨TokenType.NUMBER, "2", 2⟩ []])
      parse_neg_x_minus_2,
    C21_operator_nodes_well_formed.2 ℚ ratOps
      [⟨TokenType.OPERATOR, "-", 0⟩, ⟨TokenType.VARIABLE, "x", 0⟩, ⟨TokenType.OPERATOR, "-", 0⟩,
       ⟨TokenType.NUMBER, "2", 2⟩, ⟨TokenType.END, "", 0⟩]
      (Node.mk ⟨TokenType.OPERATOR, "-", 0⟩
        [Node.mk ⟨TokenType.OPERATOR, "-", 0⟩
          [Node.mk ⟨TokenType.VARIABLE, "x", 0⟩ []],
         Node.mk ⟨TokenType.NUMBER, "2", 2⟩ []])
      Env.empty parse_neg_x_minus_2⟩


/-! ## The cursor stays in bounds -/

theorem consumable_not_end {F : Type} (tokens : List (Token F)) (i : Nat)
    (h : consumable tokens i = true) : ∃ t, tokens[i]? = some t ∧ t.type ≠ TokenType.END := by
  unfold consumable at h
  split at h
  · cases h
  · rename_i t ht
    simp only [Bool.and_eq_true, bne_iff_ne, ne_eq] at h
    exact ⟨t, ht, h.1.2⟩

/-- In a vector that ends with END, a token that is not END has a successor. -/
theorem end_terminated_next {F : Type} (body : List (Token F)) (e : Token F)
    (he : e.type = TokenType.END) :
    ∀ i t, (body ++ [e])[i]? = some t → t.type ≠ TokenType.END →
      i + 1 < (body ++ [e]).length := by
  intro i t hget ht
  have hlt := lt_length_of_getElem? hget
  simp only [List.length_append, List.length_singleton] at hlt ⊢
  rcases Nat.lt_or_ge i body.length with h | h
  · omega
  · have hi : i = body.length := by omega
    subst hi
    rw [List.getElem?_append_right (Nat.le_refl _)] at hget
    simp only [Nat.sub_self, List.getElem?_cons_zero, Option.some.injEq] at hget
    subst hget
    exact absurd he ht

theorem skipMinus_inBounds {F : Type} (tokens : List (Token F))
    (hend : ∀ i t, tokens[i]? = some t → t.type ≠ TokenType.END → i + 1 < tokens.length) :
    ∀ (rest : List (Token F)) (b : Bool) (pos : Nat), tokens.drop pos = rest →
      pos < tokens.length → skipMinus rest b pos ≠ .error Err.outOfBounds := by
  intro rest
  induction rest with
  | nil =>
    intro b pos hdrop hlt
    have := List.drop_eq_nil_iff.1 hdrop
    omega
  | cons t rest ih =>
    intro b pos hdrop hlt h
    obtain ⟨hget, hdrop'⟩ := drop_cons_inv hdrop
    simp only [skipMinus] at h
    split at h
    · rename_i hm
      simp only [Token.isOp, Bool.and_eq_true, beq_iff_eq] at hm
      exact ih _ _ hdrop' (hend pos t hget (by rw [hm.1]; decide)) h
    · cases h

/-- In a vector that ends with END, a successful `parseFactor` leaves the
cursor inside the vector. -/
theorem parseFactor_cursor_lt {F : Type} (O : FloatOps F) (tokens : List (Token F))
    (hend : ∀ i t, tokens[i]? = some t → t.type ≠ TokenType.END → i + 1 < tokens.length)
    (fuel pos : Nat) (n : Node F) (p1 : Nat)
    (h : parseFactor O fuel tokens pos = .ok (n, p1)) : p1 < tokens.length := by
  have hp := (parse_progress O fuel).2.2.2.2.2.2.1 _ _ _ _ h
  have hc := (parse_consumes O fuel).2.2.2.2.2.2.1 _ _ _ _ h (p1 - 1) (by omega) (by omega)
  obtain ⟨t, ht, hne⟩ := consumable_not_end tokens _ hc
  have := hend _ t ht hne
  omega

/-- In a vector that ends with END, no parse function started inside the
vector reads past its end. -/
theorem parse_inBounds {F : Type} (O : FloatOps F) (tokens : List (Token F))
    (hend : ∀ i t, tokens[i]? = some t → t.type ≠ TokenType.END → i + 1 < tokens.length)
    (fuel : Nat) :
    (∀ pos, pos < tokens.length →
      parseExpression O fuel tokens pos ≠ .error Err.outOfBounds) ∧
    (∀ left pos, pos < tokens.length →
      parseExpressionLoop O fuel tokens left pos ≠ .error Err.outOfBounds) ∧
    (∀ pos, pos < tokens.length →
      parseTerm O fuel tokens pos ≠ .error Err.outOfBounds) ∧
    (∀ left pos, pos < tokens.length →
      parseTermLoop O fuel tokens left pos ≠ .error Err.outOfBounds) ∧
    (∀ pos, pos < tokens.length →
      parsePower O fuel tokens pos ≠ .error Err.outOfBounds) ∧
    (∀ left pos, pos < tokens.length →
      parsePowerLoop O fuel tokens left pos ≠ .error Err.outOfBounds) ∧
    (∀ pos, pos < tokens.length →
      parseFactor O fuel tokens pos ≠ .error Err.outOfBounds) ∧
    (∀ args pos, pos < tokens.length →
      parseArgsLoop O fuel tokens args pos ≠ .error Err.outOfBounds) := by
  induction fuel with
  | zero =>
    refine ⟨?_, ?_, ?_, ?_, ?_, ?_, ?_, ?_⟩ <;> intros <;>
      simp [parseExpression, parseExpressionLoop, parseTerm, parseTermLoop, parsePower,
        parsePowerLoop, parseFactor, parseArgsLoop]
  | succ fuel ih =>
    obtain ⟨ihE, ihEL, ihT, ihTL, ihP, ihPL, ihF, ihA⟩ := ih
    obtain ⟨prE, prEL, prT, prTL, prP, prPL, prF, prA⟩ := parse_progress O fuel
    have prF2 := parseFactor_cursor_lt O tokens hend fuel
    refine ⟨?_, ?_, ?_, ?_, ?_, ?_, ?_, ?_⟩
    · intro pos hb h
      rw [parseExpression] at h
      cases hT : parseTerm O fuel tokens pos with
      | error e =>
        rw [hT] at h
        simp only [Except.error.injEq] at h
        subst h
        exact ihT pos hb hT
      | ok r =>
        obtain ⟨left, p1⟩ := r
        rw [hT] at h
        have := prT _ _ _ _ hT
        exact ihEL _ _ (by omega) h
    · intro left pos hb h
      rw [parseExpressionLoop] at h
      cases hg : tokens[pos]? with
      | none =>
        have := List.getElem?_eq_none_iff.1 hg
        omega
      | some op =>
        rw [hg] at h
        simp only at h
        split at h
        · rename_i hc
          have hnext : pos + 1 < tokens.length :=
            hend pos op hg (by
              simp only [Bool.and_eq_true, beq_iff_eq] at hc
              rw [hc.1]
              decide)
          cases hT : parseTerm O fuel tokens (pos + 1) with
          | error e =>
            rw [hT] at h
            simp only [Except.error.injEq] at h
            subst h
            exact ihT (pos + 1) hnext hT
          | ok r =>
            obtain ⟨right, p1⟩ := r
            rw [hT] at h
            have := prT _ _ _ _ hT
            exact ihEL _ _ (by omega) h
        · cases h
    · intro pos hb h
      rw [parseTerm] at h
      cases hT : parsePower O fuel tokens pos with
      | error e =>
        rw [hT] at h
        simp only [Except.error.injEq] at h
        subst h
        exact ihP pos hb hT
      | ok r =>
        obtain ⟨left, p1⟩ := r
        rw [hT] at h
        have := prP _ _ _ _ hT
        exact ihTL _ _ (by omega) h
    · intro left pos hb h
      rw [parseTermLoop] at h
      cases hg : tokens[pos]? with
      | none =>
        have := List.getElem?_eq_none_iff.1 hg
        omega
      | some op =>
        rw [hg] at h
        simp only at h
        split at h
        · rename_i hc
          have hnext : pos + 1 < tokens.length :=
            hend pos op hg (by
              simp only [Bool.and_eq_true, beq_iff_eq] at hc
              rw [hc.1]
              decide)
          cases hT : parsePower O fuel tokens (pos + 1) with
          | error e =>
            rw [hT] at h
            simp only [Except.error.injEq] at h
            subst h
            exact ihP (pos + 1) hnext hT
          | ok r =>
            obtain ⟨right, p1⟩ := r
            rw [hT] at h
            have := prP _ _ _ _ hT
            exact ihTL _ _ (by omega) h
        · cases h
    · intro pos hb h
      rw [parsePower] at h
      cases hT : parseFactor O fuel tokens pos with
      | error e =>
        rw [hT] at h
        simp only [Except.error.injEq] at h
        subst h
        exact ihF pos hb hT
      | ok r =>
        obtain ⟨left, p1⟩ := r
        rw [hT] at h
        have := prF2 _ _ _ hT
        exact ihPL _ _ (by omega) h
    · intro left pos hb h
      rw [parsePowerLoop] at h
      cases hg : tokens[pos]? with
      | none =>
        have := List.getElem?_eq_none_iff.1 hg
        omega
      | some op =>
        rw [hg] at h
        simp only at h
        split at h
        · rename_i hc
          have hnext : pos + 1 < tokens.length :=
            hend pos op hg (by
              simp only [Bool.and_eq_true, beq_iff_eq] at hc
              rw [hc.1]
              decide)
          cases hT : parseFactor O fuel tokens (pos + 1) with
          | error e =>
            rw [hT] at h
            simp only [Except.error.injEq] at h
            subst h
            exact ihF (pos + 1) hnext hT
          | ok r =>
            obtain ⟨right, p1⟩ := r
            rw [hT] at h
            have := prF2 _ _ _ hT
            exact ihPL _ _ (by omega) h
        · cases h
    · intro pos hb h
      rw [parseFactor] at h
      cases hs : skipMinus (List.drop pos tokens) false pos with
      | error e =>
        rw [hs] at h
        simp only [Except.error.injEq] at h
        subst h
        exact skipMinus_inBounds tokens hend _ _ _ rfl hb hs
      | ok r =>
        obtain ⟨um, p0⟩ := r
        have hp0 := skipMinus_drop_bounds _ _ _ _ _ hs
        rw [hs] at h
        simp only at h
        split at h
        · rename_i hnone
          have := List.getElem?_eq_none_iff.1 hnone
          omega
        · rename_i t ht
          split at h
          · cases h
          · split at h
            · cases h
            · split at h
              · rename_i hty
                have hn1 : p0 + 1 < tokens.length :=
                  hend p0 t ht (by rw [beq_iff_eq.1 hty]; decide)
                split at h
                · rename_i hnone
                  have := List.getElem?_eq_none_iff.1 hnone
                  omega
                · rename_i t1 ht1
                  split at h
                  · cases h
                  · rename_i hpo
                    have hn2 : p0 + 2 < tokens.length :=
                      hend (p0 + 1) t1 ht1 (by
                        have : t1.type = TokenType.PAREN_OPEN := by simpa using hpo
                        rw [this]
                        decide)
                    split at h
                    · rename_i hnone
                      have := List.getElem?_eq_none_iff.1 hnone
                      omega
                    · split at h
                      · split at h
                        · rename_i e hE
                          simp only [Except.error.injEq] at h
                          subst h
                          exact ihE _ hn2 hE
                        · rename_i arg p1 hE
                          have := prE _ _ _ _ hE
                          split at h
                          · rename_i e hA
                            simp only [Except.error.injEq] at h
                            subst h
                            exact ihA _ _ (by omega) hA
                          · rename_i fa p2 hA
                            have := prA _ _ _ _ _ hA
                            split at h
                            · rename_i hnone
                              have := List.getElem?_eq_none_iff.1 hnone
                              omega
                            · split at h <;> cases h
                      · cases h
              · split at h
                · rename_i hty
                  have hn1 : p0 + 1 < tokens.length :=
                    hend p0 t ht (by rw [beq_iff_eq.1 hty]; decide)
                  split at h
                  · rename_i e hE
                    simp only [Except.error.injEq] at h
                    subst h
                    exact ihE _ hn1 hE
                  · rename_i node p1 hE
                    have := prE _ _ _ _ hE
                    split at h
                    · rename_i hnone
                      have := List.getElem?_eq_none_iff.1 hnone
                      omega
                    · split at h <;> cases h
                · cases h
    · intro args pos hb h
      rw [parseArgsLoop] at h
      cases hg : tokens[pos]? with
      | none =>
        have := List.getElem?_eq_none_iff.1 hg
        omega
      | some op =>
        rw [hg] at h
        simp only at h
        split at h
        · rename_i hc
          have hnext : pos + 1 < tokens.length :=
            hend pos op hg (by
              simp only [Bool.and_eq_true, beq_iff_eq] at hc
              rw [hc]
              decide)
          cases hT : parseExpression O fuel tokens (pos + 1) with
          | error e =>
            rw [hT] at h
            simp only [Except.error.injEq] at h
            subst h
            exact ihE (pos + 1) hnext hT
          | ok r =>
            obtain ⟨right, p1⟩ := r
            rw [hT] at h
            have := prE _ _ _ _ hT
            exact ihA _ _ (by omega) h
        · cases h

/-- On a non-empty vector that ends with END, `parse` reads no token past the
end. -/
theorem parse_ne_outOfBounds {F : Type} (O : FloatOps F) (tokens : List (Token F))
    (hne : tokens ≠ [])
    (hend : ∀ i t, tokens[i]? = some t → t.type ≠ TokenType.END → i + 1 < tokens.length) :
    parse O tokens ≠ .error Err.outOfBounds := by
  have hlen : 0 < tokens.length := List.length_pos.2 hne
  have hE := (parse_inBounds O tokens hend (4 * tokens.length + 4)).1
  have prE := (parse_progress O (4 * tokens.length + 4)).1 tokens
  have hbare : parse.parseBare O tokens ≠ .error Err.outOfBounds := by
    intro h
    simp only [parse.parseBare] at h
    split at h
    · rename_i e he
      simp only [Except.error.injEq] at h
      subst h
      exact hE 0 hlen he
    · rename_i root pos he
      have := prE _ _ _ he
      split at h
      · rename_i hnone
        have := List.getElem?_eq_none_iff.1 hnone
        omega
      · split at h <;> cases h
  intro h
  unfold parse at h
  split at h
  · rename_i t0 t1 t2 tl
    split at h
    · split at h
      · cases h
      · split at h
        · rename_i e he
          simp only [Except.error.injEq] at h
          subst h
          exact hE 2 (by simp) he
        · rename_i en pos he
          have := prE _ _ _ he
          split at h
          · rename_i hnone
            have := List.getElem?_eq_none_iff.1 hnone
            omega
          · split at h <;> cases h
    · exact hbare h
  · exact hbare h

/-- The tokens a successful parse function steps over are not END tokens. -/
theorem parse_steps_not_end {F : Type} (tokens : List (Token F)) (pos p1 : Nat)
    (h : consumedRange tokens pos p1) :
    ∀ i, pos ≤ i → i < p1 → ∃ t, tokens[i]? = some t ∧ t.type ≠ TokenType.END :=
  fun i h1 h2 => consumable_not_end tokens i (h i h1 h2)

theorem tokenize_sin_open (lib : FloatOps ℚ) :
    tokenize (exactOps lib) "sin(" = .ok
      [⟨TokenType.FUNCTION, "sin", 0⟩, ⟨TokenType.PAREN_OPEN, "(", 0⟩, ⟨TokenType.END, "", 0⟩] := by
  simp [tokenize, tokenizeLoop, isspace, isdigit, isalpha, isalnum, scanNumber, scanIdent,
      exactOps, stodExact, digitsValue, backIsNumber, isFunctionName, String.singleton]

/-- C22 (the parser cursor stays in bounds): on every token sequence whose
last element is END and which holds no other END token, `parse` and the
functions `parseExpression`, `parseTerm`, `parsePower` and `parseFactor`,
started at an index inside the sequence, never read a token at an index
beyond the last one; and when one of them succeeds, every token the cursor
has stepped over is not END and the cursor it leaves is still inside the
sequence.  In particular `parse` reads no token out of bounds on any output
of `tokenize`. -/
theorem C22_cursor_in_bounds :
    (∀ (F : Type) (O : FloatOps F) (body : List (Token F)) (e : Token F),
      e.type = TokenType.END → (∀ t ∈ body, t.type ≠ TokenType.END) →
      parse O (body ++ [e]) ≠ .error Err.outOfBounds ∧
      (∀ fuel pos, pos < (body ++ [e]).length →
        parseExpression O fuel (body ++ [e]) pos ≠ .error Err.outOfBounds ∧
        parseTerm O fuel (body ++ [e]) pos ≠ .error Err.outOfBounds ∧
        parsePower O fuel (body ++ [e]) pos ≠ .error Err.outOfBounds ∧
        parseFactor O fuel (body ++ [e]) pos ≠ .error Err.outOfBounds) ∧
      (∀ fuel pos n p1,
        (parseExpression O fuel (body ++ [e]) pos = .ok (n, p1) ∨
          parseTerm O fuel (body ++ [e]) pos = .ok (n, p1) ∨
          parsePower O fuel (body ++ [e]) pos = .ok (n, p1) ∨
          parseFactor O fuel (body ++ [e]) pos = .ok (n, p1)) →
        p1 < (body ++ [e]).length ∧
          ∀ i, pos ≤ i → i < p1 →
            ∃ t, (body ++ [e])[i]? = some t ∧ t.type ≠ TokenType.END)) ∧
    (∀ (F : Type) (O : FloatOps F) (input : String) (tokens : List (Token F)),
      tokenize O input = .ok tokens → parse O tokens ≠ .error Err.outOfBounds) := by
  refine ⟨fun F O body e he _ => ?_, fun F O input tokens htok => ?_⟩
  · have hend := end_terminated_next body e he
    refine ⟨parse_ne_outOfBounds O _ (by simp) hend, fun fuel pos hpos => ?_,
      fun fuel pos n p1 h => ?_⟩
    · obtain ⟨hE, -, hT, -, hP, -, hF, -⟩ := parse_inBounds O (body ++ [e]) hend fuel
      exact ⟨hE pos hpos, hT pos hpos, hP pos hpos, hF pos hpos⟩
    · obtain ⟨prE, -, prT, -, prP, -, -, -⟩ := parse_progress O fuel
      obtain ⟨cE, -, cT, -, cP, -, cF, -⟩ := parse_consumes O fuel
      rcases h with h | h | h | h
      · exact ⟨(prE _ _ _ _ h).2, parse_steps_not_end _ _ _ (cE _ _ _ _ h)⟩
      · exact ⟨(prT _ _ _ _ h).2, parse_steps_not_end _ _ _ (cT _ _ _ _ h)⟩
      · exact ⟨(prP _ _ _ _ h).2, parse_steps_not_end _ _ _ (cP _ _ _ _ h)⟩
      · exact ⟨parseFactor_cursor_lt O _ hend fuel pos n p1 h,
          parse_steps_not_end _ _ _ (cF _ _ _ _ h)⟩
  · obtain ⟨body, rfl, hbody⟩ := tokenize_end O input tokens htok
    exact parse_ne_outOfBounds O _ (by simp) (end_terminated_next body _ rfl)

/-- C22 witness: on the tokens of `"sin("`, where `parseFactor` looks two
tokens ahead of the Function token and finds END there, `parse` fails with
the expected-factor error and not with a read out of bounds. -/
theorem C22_witness :
    tokenize ratOps "sin(" = .ok
      [⟨TokenType.FUNCTION, "sin", 0⟩, ⟨TokenType.PAREN_OPEN, "(", 0⟩, ⟨TokenType.END, "", 0⟩] ∧
    parse ratOps
      [⟨TokenType.FUNCTION, "sin", 0⟩, ⟨TokenType.PAREN_OPEN, "(", 0⟩, ⟨TokenType.END, "", 0⟩]
      = .error (Err.runtimeError "Error: expected factor") ∧
    parse ratOps
      [⟨TokenType.FUNCTION, "sin", 0⟩, ⟨TokenType.PAREN_OPEN, "(", 0⟩, ⟨TokenType.END, "", 0⟩]
      ≠ .error Err.outOfBounds :=
  ⟨tokenize_sin_open _, rfl,
    (C22_cursor_in_bounds.1 ℚ ratOps
      [⟨TokenType.FUNCTION, "sin", 0⟩, ⟨TokenType.PAREN_OPEN, "(", 0⟩] ⟨TokenType.END, "", 0⟩
      rfl (by decide)).1⟩

end Translator
